import Mathlib

/-!
EMV QR decoding (`emv_co.go`, `emv_co_qr.go`): a shallow embedding.

Go strings are byte sequences, so a string is modelled as the list of its bytes
(`Str`), a byte being a natural number below 256.  Go's `int` positions are
integers; a slice expression `s[lo:hi]` is only defined when
`0 ≤ lo ≤ hi ≤ len(s)` and otherwise ends the call in a run-time fault.  Every
function returning `(result, error)` is modelled with an outcome type `Res`
that keeps the three ways a call can end apart: a result, a returned error
(the error's message), or a run-time fault; a fourth constructor marks an
exhausted iteration budget of the model's loops, which the totality theorems
show is never reached by `ParseEMVTLV`, `parseSubFields` and `DecodeEMVQR`.
A `for` loop is a function that takes one unit of fuel per iteration; the entry
points give it more fuel than the input has bytes.

The masking functions of `mask.go` are modelled in the same way, on bytes and
with faulting slices.  `RemoveDuplicateSpaces` of `space.go` ranges over the
runes of its input, and is modelled on sequences of runes, as are the strings
that the functions of `pointer.go` trim.
-/

namespace Xstr

/-- A Go string: its bytes, in order. -/
abbrev Str := List Nat

/-- UTF-8 encoding of one code point, as Go stores string literals. -/
def utf8 (c : Char) : Str :=
  let n := c.toNat
  if n < 0x80 then [n]
  else if n < 0x800 then [0xC0 + n / 64, 0x80 + n % 64]
  else if n < 0x10000 then [0xE0 + n / 4096, 0x80 + (n / 64) % 64, 0x80 + n % 64]
  else [0xF0 + n / 262144, 0x80 + (n / 4096) % 64, 0x80 + (n / 64) % 64, 0x80 + n % 64]

/-- The bytes of a string literal. -/
def str (s : String) : Str := (s.toList.map utf8).flatten

/-- The way a call ends. -/
inductive Res (α : Type) where
  /-- a result is returned with a nil error -/
  | ok (val : α)
  /-- a nil result is returned with an error carrying this message -/
  | error (msg : Str)
  /-- the call ends in a run-time fault (slice bounds out of range) -/
  | fault
  /-- the iteration budget of the model ran out -/
  | outOfFuel
  deriving DecidableEq, Repr

/-- Go slice expression `s[lo:hi]`: defined only for `0 ≤ lo ≤ hi ≤ len(s)`. -/
def slice (s : Str) (lo hi : Int) : Option Str :=
  if 0 ≤ lo ∧ lo ≤ hi ∧ hi ≤ (s.length : Int) then
    some ((s.drop lo.toNat).take (hi.toNat - lo.toNat))
  else none

/-- Digit loop of `strconv.Atoi`: `ch -= '0'; if ch > 9 { error }; n = n*10 + ch`. -/
def atoiDigits : Str → Nat → Option Nat
  | [], n => some n
  | ch :: rest, n => if 48 ≤ ch ∧ ch ≤ 57 then atoiDigits rest (n * 10 + (ch - 48)) else none

/-- Go's `strconv.Atoi` on a 64-bit platform: an optional sign `+` or `-`, then
one or more ASCII digits, the value fitting in `int`; `none` is a returned error. -/
def Atoi (s : Str) : Option Int :=
  match s with
  | [] => none
  | c :: cs =>
    let body := if c = 45 ∨ c = 43 then cs else s
    if body = [] then none
    else
      match atoiDigits body 0 with
      | none => none
      | some n =>
        let v : Int := if c = 45 then -(n : Int) else (n : Int)
        if -(2 : Int) ^ 63 ≤ v ∧ v ≤ (2 : Int) ^ 63 - 1 then some v else none

/-- Rendering of `%d` for an `int`. -/
def fmtInt (i : Int) : Str :=
  if i < 0 then 45 :: (Nat.toDigits 10 i.natAbs).map Char.toNat
  else (Nat.toDigits 10 i.toNat).map Char.toNat

/-- The struct `EMVDataValue`: one tag-length-value triplet. -/
structure EMVDataValue where
  Tag : Str
  Length : Int
  Value : Str
  deriving DecidableEq, Repr

/-- Loop of `ParseEMVTLV`, one iteration per unit of fuel. -/
def ParseEMVTLV.loop (qrString : Str) :
    Nat → Int → List EMVDataValue → Res (List EMVDataValue)
  | 0, _, _ => .outOfFuel
  | fuel + 1, position, tlvData =>
    if ¬ (position < (qrString.length : Int)) then .ok tlvData
    else if position + 4 > (qrString.length : Int) then .ok tlvData
    else
      match slice qrString position (position + 2) with
      | none => .fault
      | some tag =>
        match slice qrString (position + 2) (position + 2 + 2) with
        | none => .fault
        | some lengthStr =>
          match Atoi lengthStr with
          | none =>
            .error (str "invalid length at position " ++ fmtInt (position + 2 + 2 - 2)
              ++ str ": " ++ lengthStr)
          | some length =>
            if position + 2 + 2 + length > (qrString.length : Int) then
              .error (str "invalid data length at tag " ++ tag)
            else
              match slice qrString (position + 2 + 2) (position + 2 + 2 + length) with
              | none => .fault
              | some value =>
                ParseEMVTLV.loop qrString fuel (position + 2 + 2 + length)
                  (tlvData ++ [{ Tag := tag, Length := length, Value := value }])

/-- `ParseEMVTLV`: the flat list of triplets of a QR string. -/
def ParseEMVTLV (qrString : Str) : Res (List EMVDataValue) :=
  if qrString.length < 4 then .error (str "invalid EMV QR code: too short")
  else ParseEMVTLV.loop qrString (qrString.length + 1) 0 []

/-- Go's string comparison `a <= b`: lexicographic on bytes. -/
def strLe : Str → Str → Bool
  | [], _ => true
  | _ :: _, [] => false
  | x :: xs, y :: ys => x < y || (x == y && strLe xs ys)

/-- A Go `map[string]β`: a finite partial function, kept as the list of its
entries in ascending key order, one entry per key. -/
abbrev GoMap (β : Type) := List (Str × β)

/-- Map assignment `m[k] = v`. -/
def GoMap.set {β : Type} : GoMap β → Str → β → GoMap β
  | [], k, v => [(k, v)]
  | (k0, v0) :: rest, k, v =>
    if k = k0 then (k, v) :: rest
    else if strLe k k0 then (k, v) :: (k0, v0) :: rest
    else (k0, v0) :: GoMap.set rest k v

/-- Map lookup `v, exists := m[k]`. -/
def GoMap.get? {β : Type} : GoMap β → Str → Option β
  | [], _ => none
  | (k0, v0) :: rest, k => if k = k0 then some v0 else GoMap.get? rest k

/-- `type QRPaymentType string`. -/
abbrev QRPaymentType := Str
/-- `type POIMethodType string`. -/
abbrev POIMethodType := Str
/-- `type QRPaymentScheme string`. -/
abbrev QRPaymentScheme := Str

def QRTypeC2C : QRPaymentType := str "C2C"
def QRTypeC2B : QRPaymentType := str "C2B"
def QRTypeBillPayment : QRPaymentType := str "BillPayment"
def QRTypeCrossBorder : QRPaymentType := str "CrossBorder"
def QRTypeUnknown : QRPaymentType := str "Unknown"

def POITypeStatic : POIMethodType := str "static"
def POITypeDynamic : POIMethodType := str "dynamic"
def POITypeUnknown : POIMethodType := str "unknown"

def QRSchemePromptPay : QRPaymentScheme := str "PromptPay"
def QRSchemeQRIS : QRPaymentScheme := str "QRIS"
def QRSchemeDuitNow : QRPaymentScheme := str "DuitNow"
def QRSchemeUPI : QRPaymentScheme := str "UPI"
def QRSchemeNETS : QRPaymentScheme := str "NETS"
def QRSchemeAlipay : QRPaymentScheme := str "Alipay"
def QRSchemeWeChatPay : QRPaymentScheme := str "WeChatPay"
def QRSchemeUnknown : QRPaymentScheme := str "Unknown"

/-- The struct `MerchantAccount`; a fresh one has the zero value in every field. -/
structure MerchantAccount where
  AID : Str := []
  AIDType : QRPaymentType := []
  PaymentScheme : QRPaymentScheme := []
  MerchantID : Str := []
  Reference1 : Str := []
  Reference2 : Str := []
  Reference3 : Str := []
  RawValue : Str := []
  UnresolvedData : GoMap Str := []
  deriving DecidableEq, Repr

/-- The struct `EMVData`; a fresh one has the zero value in every scalar field
and four empty maps.  The values of `MerchantAccountInfo` are pointers
(`*MerchantAccount`): `none` is the nil pointer and `some a` a pointer to the
struct `a`. -/
structure EMVData where
  PayloadFormatIndicator : Str := []
  PointOfInitiationMethod : Str := []
  POIMethodType : POIMethodType := []
  MerchantAccountInfo : GoMap (Option MerchantAccount) := []
  MerchantCategoryCode : Str := []
  TransactionCurrency : Str := []
  TransactionAmount : Str := []
  TipOrConvenienceIndicator : Str := []
  ValueOfConvenienceFee : Str := []
  CountryCode : Str := []
  MerchantName : Str := []
  MerchantCity : Str := []
  PostalCode : Str := []
  AdditionalData : GoMap Str := []
  MerchantInformation : GoMap Str := []
  CRC : Str := []
  UnresolvedData : GoMap Str := []
  deriving DecidableEq, Repr

/-- `mapScheme`: payment network of an AID. -/
def mapScheme (gui : Str) : QRPaymentScheme :=
  if gui = str "A000000677010111" ∨ gui = str "A000000677010112"
      ∨ gui = str "A000000677010113" ∨ gui = str "A000000677010114" then QRSchemePromptPay
  else if gui = str "ID.CO.QRIS.WWW" ∨ gui = str "COM.INACASH.WWW" then QRSchemeQRIS
  else if gui = str "COM.MY.DUITNOW" then QRSchemeDuitNow
  else if gui = str "COM.UPI.PAY" then QRSchemeUPI
  else if gui = str "COM.SG.NETS" then QRSchemeNETS
  else if gui = str "COM.ALIPAY.WWW" then QRSchemeAlipay
  else if gui = str "COM.WECHAT.WWW" then QRSchemeWeChatPay
  else QRSchemeUnknown

/-- `mapAIDType`: payment type of a PromptPay AID. -/
def mapAIDType (aid : Str) : QRPaymentType :=
  if aid = str "A000000677010111" then QRTypeC2C
  else if aid = str "A000000677010112" then QRTypeC2B
  else if aid = str "A000000677010113" then QRTypeBillPayment
  else if aid = str "A000000677010114" then QRTypeCrossBorder
  else QRTypeUnknown

/-- `mapPOIMethodType`: readable form of the POI method code. -/
def mapPOIMethodType (poiMethod : Str) : POIMethodType :=
  if poiMethod = str "11" then POITypeStatic
  else if poiMethod = str "12" then POITypeDynamic
  else POITypeUnknown

/-- Loop of `parseSubFields`, one iteration per unit of fuel. -/
def parseSubFields.loop (data : Str) : Nat → Int → GoMap Str → Res (GoMap Str)
  | 0, _, _ => .outOfFuel
  | fuel + 1, position, subFields =>
    if ¬ (position < (data.length : Int)) then .ok subFields
    else if position + 4 > (data.length : Int) then .ok subFields
    else
      match slice data position (position + 2) with
      | none => .fault
      | some tag =>
        match slice data (position + 2) (position + 2 + 2) with
        | none => .fault
        | some lengthStr =>
          match Atoi lengthStr with
          | none => .error (str "invalid sub-field length: " ++ lengthStr)
          | some length =>
            if position + 2 + 2 + length > (data.length : Int) then
              .error (str "invalid sub-field data length at tag " ++ tag)
            else
              match slice data (position + 2 + 2) (position + 2 + 2 + length) with
              | none => .fault
              | some value =>
                parseSubFields.loop data fuel (position + 2 + 2 + length)
                  (subFields.set tag value)

/-- `parseSubFields`: the sub-fields of a nested TLV value, as a map. -/
def parseSubFields (data : Str) : Res (GoMap Str) :=
  parseSubFields.loop data (data.length + 1) 0 []

/-- Body of the `range subFields` loop of `parseMerchantAccountInfo`. -/
def parseMerchantAccountInfo.assign (account : MerchantAccount) (entry : Str × Str) :
    MerchantAccount :=
  let tag := entry.1
  let value := entry.2
  if tag = str "00" then
    { account with AID := value, AIDType := mapAIDType value, PaymentScheme := mapScheme value }
  else if tag = str "01" then { account with MerchantID := value }
  else if tag = str "02" then { account with Reference1 := value }
  else if tag = str "03" then { account with Reference2 := value }
  else if tag = str "04" then { account with Reference3 := value }
  else { account with UnresolvedData := account.UnresolvedData.set tag value }

/-- `parseMerchantAccountInfo`: the entries of the sub-field map are visited in
the order of the list that represents the map. -/
def parseMerchantAccountInfo (data : Str) : Res MerchantAccount :=
  match parseSubFields data with
  | .ok subFields => .ok (subFields.foldl parseMerchantAccountInfo.assign {})
  | .error err => .error (str "failed to parse merchant account sub-fields: " ++ err)
  | .fault => .fault
  | .outOfFuel => .outOfFuel

/-- `mapEMVField`: stores one top-level field in the payload. -/
def mapEMVField (emvData : EMVData) (tag value : Str) : Res EMVData :=
  if tag = str "00" then .ok { emvData with PayloadFormatIndicator := value }
  else if tag = str "01" then
    .ok { emvData with PointOfInitiationMethod := value, POIMethodType := mapPOIMethodType value }
  else if tag = str "52" then .ok { emvData with MerchantCategoryCode := value }
  else if tag = str "53" then .ok { emvData with TransactionCurrency := value }
  else if tag = str "54" then .ok { emvData with TransactionAmount := value }
  else if tag = str "55" then .ok { emvData with TipOrConvenienceIndicator := value }
  else if tag = str "56" then .ok { emvData with ValueOfConvenienceFee := value }
  else if tag = str "58" then .ok { emvData with CountryCode := value }
  else if tag = str "59" then .ok { emvData with MerchantName := value }
  else if tag = str "60" then .ok { emvData with MerchantCity := value }
  else if tag = str "61" then .ok { emvData with PostalCode := value }
  else if tag = str "62" then
    match parseSubFields value with
    | .ok subFields => .ok { emvData with AdditionalData := subFields }
    | .error err => .error (str "error parsing additional data: " ++ err)
    | .fault => .fault
    | .outOfFuel => .outOfFuel
  else if tag = str "63" then .ok { emvData with CRC := value }
  else if strLe (str "02") tag && strLe tag (str "51") then
    match parseMerchantAccountInfo value with
    | .ok merchantAccount =>
      .ok { emvData with
        MerchantAccountInfo :=
          emvData.MerchantAccountInfo.set tag (some { merchantAccount with RawValue := value }) }
    | .error err => .error (str "error parsing merchant account info: " ++ err)
    | .fault => .fault
    | .outOfFuel => .outOfFuel
  else if strLe (str "64") tag && strLe tag (str "99") then
    if tag = str "99" then
      .ok { emvData with UnresolvedData := emvData.UnresolvedData.set tag value }
    else .ok { emvData with MerchantInformation := emvData.MerchantInformation.set tag value }
  else .ok { emvData with UnresolvedData := emvData.UnresolvedData.set tag value }

/-- One round of the bit loop of `calculateCRC16` on a `uint16`. -/
def crcBit (crc : Nat) : Nat :=
  if crc &&& 0x8000 ≠ 0 then ((crc <<< 1) % 65536) ^^^ 0x1021 else (crc <<< 1) % 65536

/-- Body of the byte loop of `calculateCRC16`: `crc ^= uint16(b) << 8`, then
eight rounds of the bit loop. -/
def crcByte (crc b : Nat) : Nat :=
  crcBit (crcBit (crcBit (crcBit (crcBit (crcBit (crcBit (crcBit
    (crc ^^^ (((b % 256) <<< 8) % 65536)))))))))

/-- An uppercase hexadecimal digit. -/
def hexDigit (d : Nat) : Nat := if d < 10 then 48 + d else 55 + d

/-- The uppercase hexadecimal digits of a number, most significant first. -/
def hexDigits : Nat → Nat → Str
  | 0, _ => []
  | fuel + 1, n => if n < 16 then [hexDigit n] else hexDigits fuel (n / 16) ++ [hexDigit (n % 16)]

/-- Rendering of `%04X`: uppercase hexadecimal, zero-padded to width 4. -/
def fmtHex04 (n : Nat) : Str :=
  let ds := hexDigits (n + 1) n
  List.replicate (4 - ds.length) 48 ++ ds

/-- `calculateCRC16`: CRC-16 with polynomial 0x1021 and initial value 0xFFFF. -/
def calculateCRC16 (data : Str) : Str :=
  fmtHex04 ((data.foldl crcByte 0xFFFF) &&& 0xFFFF)

/-- Loop of `DecodeEMVQR`, one iteration per unit of fuel. -/
def DecodeEMVQR.loop (qrString : Str) : Nat → Int → EMVData → Res EMVData
  | 0, _, _ => .outOfFuel
  | fuel + 1, position, emvData =>
    if ¬ (position < (qrString.length : Int)) then .ok emvData
    else if position + 4 > (qrString.length : Int) then .ok emvData
    else
      match slice qrString position (position + 2) with
      | none => .fault
      | some tag =>
        match slice qrString (position + 2) (position + 2 + 2) with
        | none => .fault
        | some lengthStr =>
          match Atoi lengthStr with
          | none =>
            .error (str "invalid length at position " ++ fmtInt (position + 2 + 2 - 2)
              ++ str ": " ++ lengthStr)
          | some length =>
            if position + 2 + 2 + length > (qrString.length : Int) then
              .error (str "invalid data length at tag " ++ tag)
            else
              match slice qrString (position + 2 + 2) (position + 2 + 2 + length) with
              | none => .fault
              | some value =>
                match mapEMVField emvData tag value with
                | .ok emvData1 =>
                  DecodeEMVQR.loop qrString fuel (position + 2 + 2 + length) emvData1
                | .error err =>
                  .error (str "error mapping field " ++ tag ++ str ": " ++ err)
                | .fault => .fault
                | .outOfFuel => .outOfFuel

/-- The CRC validation that ends `DecodeEMVQR`. -/
def DecodeEMVQR.checkCRC (qrString : Str) (emvData : EMVData) : Res EMVData :=
  if emvData.CRC ≠ [] then
    let crcTagPosition : Int := (qrString.length : Int) - 8
    if crcTagPosition ≥ 0 then
      match slice qrString crcTagPosition (crcTagPosition + 4) with
      | none => .fault
      | some header =>
        if header = str "6304" then
          match slice qrString 0 crcTagPosition with
          | none => .fault
          | some covered =>
            let dataForCRC := covered ++ str "6304"
            let calculatedCRC := calculateCRC16 dataForCRC
            if emvData.CRC ≠ calculatedCRC then
              .error (str "invalid CRC: expected " ++ calculatedCRC ++ str ", got " ++ emvData.CRC)
            else .ok emvData
        else .error (str "invalid EMV QR format: CRC tag not found at expected position")
    else .error (str "invalid EMV QR format: CRC tag not found at expected position")
  else .ok emvData

/-- `DecodeEMVQR`: the structured payload of a QR string. -/
def DecodeEMVQR (qrString : Str) : Res EMVData :=
  if qrString.length < 4 then .error (str "invalid EMV QR code: too short")
  else
    match DecodeEMVQR.loop qrString (qrString.length + 1) 0 {} with
    | .ok emvData => DecodeEMVQR.checkCRC qrString emvData
    | .error err => .error err
    | .fault => .fault
    | .outOfFuel => .outOfFuel

/-! ## The second parser (`emv_co_qr.go`) -/

/-- The struct `EMVCoQRInfo`; a fresh one has the empty string in every field. -/
structure EMVCoQRInfo where
  Format : Str := []
  MerchantAccount : Str := []
  Amount : Str := []
  PhoneNumber : Str := []
  CountryCode : Str := []
  Crc : Str := []
  CurrencyISO4217 : Str := []
  BillerID : Str := []
  Ref1 : Str := []
  Ref2 : Str := []
  Ref3 : Str := []
  deriving DecidableEq, Repr

/-- One round of the bit loop of `crc16.MakeTable` (package
`github.com/sigurn/crc16`): `bit := crc&0x8000 != 0; crc <<= 1; if bit { crc ^= poly }`. -/
def crc16TableBit (poly crc : Nat) : Nat :=
  if crc &&& 0x8000 ≠ 0 then ((crc <<< 1) % 65536) ^^^ poly else (crc <<< 1) % 65536

/-- Entry `n` of the table of `crc16.MakeTable`: `uint16(n) << 8`, then eight
rounds of the bit loop. -/
def crc16TableEntry (poly n : Nat) : Nat :=
  crc16TableBit poly (crc16TableBit poly (crc16TableBit poly (crc16TableBit poly
    (crc16TableBit poly (crc16TableBit poly (crc16TableBit poly (crc16TableBit poly
      ((n <<< 8) % 65536))))))))

/-- The package variable `crc16Table`, set by `init` to
`crc16.MakeTable(crc16.CRC16_CCITT_FALSE)`: polynomial 0x1021, 256 entries. -/
def crc16Table : List Nat := (List.range 256).map (crc16TableEntry 0x1021)

/-- Body of the loop of `crc16.Update` without input reflection:
`crc = crc<<8 ^ table.data[byte(crc>>8)^d]`. -/
def crc16UpdateByte (crc d : Nat) : Nat :=
  ((crc <<< 8) % 65536) ^^^ crc16Table.getD (((crc >>> 8) % 256) ^^^ (d % 256)) 0

/-- `crc16.Checksum(data, crc16Table)` for `CRC16_CCITT_FALSE`: initial value
0xFFFF, no reflection, final XOR 0x0000. -/
def crc16Checksum (data : Str) : Nat := (data.foldl crc16UpdateByte 0xFFFF) ^^^ 0x0000

/-- `validateEMVCoQRString`: `.ok ()` is a nil error. -/
def validateEMVCoQRString (qrString : Str) : Res Unit :=
  if qrString.length < 14 then .error (str "qr string too short")
  else
    match slice qrString 0 ((qrString.length : Int) - 4) with
    | none => .fault
    | some data =>
      let calculatedCRC := fmtHex04 (crc16Checksum data)
      match slice qrString ((qrString.length : Int) - 4) (qrString.length : Int) with
      | none => .fault
      | some expectedCRC =>
        if calculatedCRC ≠ expectedCRC then
          .error (str "invalid crc: expected " ++ expectedCRC ++ str ", got " ++ calculatedCRC)
        else .ok ()

/-- Search of `strings.Index` from offset `i` on: the offset of the first
occurrence of `sub`, or -1. -/
def stringsIndexFrom (sub : Str) : Str → Int → Int
  | [], i => if sub = [] then i else -1
  | c :: cs, i => if sub.isPrefixOf (c :: cs) then i else stringsIndexFrom sub cs (i + 1)

/-- Go's `strings.Index(s, sub)`. -/
def stringsIndex (s sub : Str) : Int := stringsIndexFrom sub s 0

/-- Inner loop of `ParseEMVCoQRString` (tag `30`), one iteration per unit of fuel. -/
def ParseEMVCoQRString.loop2 (value : Str) : Nat → Int → EMVCoQRInfo → Res EMVCoQRInfo
  | 0, _, _ => .outOfFuel
  | fuel + 1, index2, result =>
    if ¬ (index2 < (value.length : Int)) then .ok result
    else if index2 + 4 > (value.length : Int) then .error (str "invalid qr structure")
    else
      match slice value index2 (index2 + 2) with
      | none => .fault
      | some id2 =>
        match slice value (index2 + 2) (index2 + 4) with
        | none => .fault
        | some lengthStr =>
          match Atoi lengthStr with
          | none => .error (str "invalid qr structure")
          | some length2 =>
            if index2 + 4 + length2 > (value.length : Int) then
              .error (str "invalid specified qr string length")
            else
              match slice value (index2 + 4) (index2 + 4 + length2) with
              | none => .fault
              | some value2 =>
                let result1 :=
                  if id2 = str "01" then { result with BillerID := value2 }
                  else if id2 = str "02" then { result with Ref1 := value2 }
                  else if id2 = str "03" then { result with Ref2 := value2 }
                  else result
                ParseEMVCoQRString.loop2 value fuel (index2 + (4 + length2)) result1

/-- The `switch id` of `ParseEMVCoQRString`. -/
def ParseEMVCoQRString.assign (result : EMVCoQRInfo) (id value : Str) : Res EMVCoQRInfo :=
  if id = str "01" then .ok { result with Format := value }
  else if id = str "29" then
    let prefixPhoneIndex := stringsIndex value (str "011300")
    let result1 := { result with MerchantAccount := value }
    if prefixPhoneIndex ≠ -1 then
      match slice value (prefixPhoneIndex + 6) (value.length : Int) with
      | none => .fault
      | some phone => .ok { result1 with PhoneNumber := phone }
    else
      let prefixIDIndex := stringsIndex value (str "110213")
      if prefixIDIndex ≠ -1 then
        match slice value (prefixIDIndex + 6) (value.length : Int) with
        | none => .fault
        | some phone => .ok { result1 with PhoneNumber := phone }
      else .ok result1
  else if id = str "30" then
    ParseEMVCoQRString.loop2 value (value.length + 1) 0 { result with MerchantAccount := value }
  else if id = str "54" then .ok { result with Amount := value }
  else if id = str "58" then .ok { result with CountryCode := value }
  else if id = str "62" then
    if value.length > 4 then
      match slice value 4 (value.length : Int) with
      | none => .fault
      | some ref3 => .ok { result with Ref3 := ref3 }
    else .ok result
  else if id = str "63" then .ok { result with Crc := value }
  else if id = str "53" then .ok { result with CurrencyISO4217 := value }
  else .ok result

/-- Outer loop of `ParseEMVCoQRString`, one iteration per unit of fuel. -/
def ParseEMVCoQRString.loop (qrString : Str) : Nat → Int → EMVCoQRInfo → Res EMVCoQRInfo
  | 0, _, _ => .outOfFuel
  | fuel + 1, index, result =>
    if ¬ (index < (qrString.length : Int)) then .ok result
    else if index + 4 > (qrString.length : Int) then .error (str "invalid qr structure")
    else
      match slice qrString index (index + 2) with
      | none => .fault
      | some id =>
        match slice qrString (index + 2) (index + 4) with
        | none => .fault
        | some lengthStr =>
          match Atoi lengthStr with
          | none => .error (str "invalid qr structure")
          | some length =>
            if index + 4 + length > (qrString.length : Int) then
              .error (str "invalid specified qr string length")
            else
              match slice qrString (index + 4) (index + 4 + length) with
              | none => .fault
              | some value =>
                match ParseEMVCoQRString.assign result id value with
                | .ok result1 =>
                  ParseEMVCoQRString.loop qrString fuel (index + (4 + length)) result1
                | .error err => .error err
                | .fault => .fault
                | .outOfFuel => .outOfFuel

/-- `ParseEMVCoQRString`: the information of a QR string, after its CRC check. -/
def ParseEMVCoQRString (qrString : Str) : Res EMVCoQRInfo :=
  match validateEMVCoQRString qrString with
  | .ok _ => ParseEMVCoQRString.loop qrString (qrString.length + 1) 0 {}
  | .error err => .error err
  | .fault => .fault
  | .outOfFuel => .outOfFuel

/-! ## The tokenizer shared by the three loops

The loops of `ParseEMVTLV`, `DecodeEMVQR` and `parseSubFields` read the same
grammar.  `scan` reads it on the part of the input that is still ahead and
records every field read together with the reason the reading stopped; each
loop is then shown to be `scan` followed by its own use of the fields. -/

/-- A field as read from the input: its tag, the two bytes of its length field,
the length parsed from them and its value. -/
structure RawField where
  tag : Str
  lengthStr : Str
  length : Int
  value : Str
  deriving DecidableEq, Repr

/-- Why reading stopped. -/
inductive Stop where
  /-- fewer than 4 bytes remain (the fragment is dropped) -/
  | eof (frag : Str)
  /-- `Atoi` rejected the length field read at this position -/
  | badLength (pos : Int) (lengthStr : Str)
  /-- the declared length exceeds what remains after the header of this tag -/
  | truncated (tag : Str)
  /-- the declared length is negative: the value slice has `high < low` -/
  | negative
  /-- iteration budget exhausted -/
  | outOfFuel
  deriving DecidableEq, Repr

/-- Reads fields from `rest`, the input from byte `pos` on. -/
def scan : Nat → Int → Str → List RawField × Stop
  | 0, _, _ => ([], .outOfFuel)
  | fuel + 1, pos, t0 :: t1 :: l0 :: l1 :: rest =>
    match Atoi [l0, l1] with
    | none => ([], .badLength (pos + 2 + 2 - 2) [l0, l1])
    | some n =>
      if n > (rest.length : Int) then ([], .truncated [t0, t1])
      else if n < 0 then ([], .negative)
      else
        let r := scan fuel (pos + 2 + 2 + n) (rest.drop n.toNat)
        ({ tag := [t0, t1], lengthStr := [l0, l1], length := n, value := rest.take n.toNat } :: r.1,
          r.2)
  | _ + 1, _, frag => ([], .eof frag)

/-- The triplet `ParseEMVTLV` appends for a field. -/
def RawField.toTriplet (r : RawField) : EMVDataValue :=
  { Tag := r.tag, Length := r.length, Value := r.value }

/-- The bytes a field occupies in the input. -/
def RawField.bytes (r : RawField) : Str := r.tag ++ r.lengthStr ++ r.value

/-- The bytes a sequence of fields occupies in the input. -/
def rawBytes (rs : List RawField) : Str := (rs.map RawField.bytes).flatten

/-- A field as the loops read it: two bytes of tag, two bytes of length that
`Atoi` parses to the number of bytes of the value. -/
def RawField.Wf (r : RawField) : Prop :=
  r.tag.length = 2 ∧ r.lengthStr.length = 2 ∧ Atoi r.lengthStr = some r.length
    ∧ r.length = (r.value.length : Int)

/-- Outcome of the loops of `ParseEMVTLV` and `DecodeEMVQR` for a given reason
of stopping, `a` being what the loop has built. -/
def Stop.toRes {α : Type} (st : Stop) (a : α) : Res α :=
  match st with
  | .eof _ => .ok a
  | .badLength pos lengthStr =>
    .error (str "invalid length at position " ++ fmtInt pos ++ str ": " ++ lengthStr)
  | .truncated tag => .error (str "invalid data length at tag " ++ tag)
  | .negative => .fault
  | .outOfFuel => .outOfFuel

/-- Outcome of the loop of `parseSubFields` for a given reason of stopping. -/
def Stop.toSub {α : Type} (st : Stop) (a : α) : Res α :=
  match st with
  | .eof _ => .ok a
  | .badLength _ lengthStr => .error (str "invalid sub-field length: " ++ lengthStr)
  | .truncated tag => .error (str "invalid sub-field data length at tag " ++ tag)
  | .negative => .fault
  | .outOfFuel => .outOfFuel

/-- The calls of `mapEMVField` that `DecodeEMVQR` makes for a sequence of
fields, with its wrapping of a returned error. -/
def mapFields : EMVData → List RawField → Res EMVData
  | emvData, [] => .ok emvData
  | emvData, r :: rs =>
    match mapEMVField emvData r.tag r.value with
    | .ok emvData1 => mapFields emvData1 rs
    | .error err => .error (str "error mapping field " ++ r.tag ++ str ": " ++ err)
    | .fault => .fault
    | .outOfFuel => .outOfFuel

/-- What `DecodeEMVQR`'s loop returns for the fields read and the reason of stopping. -/
def decodeOutcome (emvData : EMVData) (r : List RawField × Stop) : Res EMVData :=
  match mapFields emvData r.1 with
  | .ok emvData1 => r.2.toRes emvData1
  | .error err => .error err
  | .fault => .fault
  | .outOfFuel => .outOfFuel

/-! ## The encoding the round-trip properties speak of -/

/-- An ASCII digit `0`..`9`. -/
def IsDigit (b : Nat) : Prop := 48 ≤ b ∧ b ≤ 57

instance : DecidablePred IsDigit := fun b => by unfold IsDigit; infer_instance

/-- A length field written as exactly two ASCII digits. -/
def TwoDigits (ll : Str) : Prop := ll.length = 2 ∧ ∀ b ∈ ll, IsDigit b

instance : DecidablePred TwoDigits := fun ll => by unfold TwoDigits; infer_instance

/-- A length field written as a sign `+` or `-` followed by one ASCII digit. -/
def SignDigit (ll : Str) : Prop :=
  ll.length = 2 ∧ (ll.head? = some 43 ∨ ll.head? = some 45) ∧ ∀ b ∈ ll.tail, IsDigit b

instance : DecidablePred SignDigit := fun ll => by unfold SignDigit; infer_instance

/-- A length rendered as decimal digits, zero-padded to width 2 (`%02d`). -/
def pad2 (n : Int) : Str :=
  let ds := fmtInt n
  List.replicate (2 - ds.length) 48 ++ ds

/-- The encoding of a triplet: tag, two-digit length, value. -/
def encodeTriplet (t : EMVDataValue) : Str := t.Tag ++ pad2 t.Length ++ t.Value

/-- The encoding of a sequence of triplets. -/
def encodeTLV (ts : List EMVDataValue) : Str := (ts.map encodeTriplet).flatten

/-- The values the variable `lengthStr` takes during a run of the loop of
`ParseEMVTLV`, in order. -/
def ParseEMVTLV.lengthFields (qrString : Str) : Nat → Int → List Str
  | 0, _ => []
  | fuel + 1, position =>
    if ¬ (position < (qrString.length : Int)) then []
    else if position + 4 > (qrString.length : Int) then []
    else
      match slice qrString position (position + 2) with
      | none => []
      | some _ =>
        match slice qrString (position + 2) (position + 2 + 2) with
        | none => []
        | some lengthStr =>
          lengthStr ::
            (match Atoi lengthStr with
            | none => []
            | some length =>
              if position + 2 + 2 + length > (qrString.length : Int) then []
              else
                match slice qrString (position + 2 + 2) (position + 2 + 2 + length) with
                | none => []
                | some _ => ParseEMVTLV.lengthFields qrString fuel (position + 2 + 2 + length))

/-- The field a triplet is read from when its length is written as two digits. -/
def rawOfTriplet (t : EMVDataValue) : RawField :=
  { tag := t.Tag, lengthStr := pad2 t.Length, length := t.Length, value := t.Value }

/-- The length fields read by a call of `ParseEMVTLV`. -/
def lengthFieldsRead (qrString : Str) : List Str :=
  if qrString.length < 4 then [] else ParseEMVTLV.lengthFields qrString (qrString.length + 1) 0

/-- The tags whose value `mapEMVField` tokenizes as a nested stream: `62`, and
those in the range `"02"` to `"51"` of Go's string order. -/
def nestedTag (tag : Str) : Bool :=
  tag == str "62" || (strLe (str "02") tag && strLe tag (str "51"))

/-- The CRC field `6304` with value `w`, as read from the input. -/
def crcField (w : Str) : RawField :=
  { tag := str "63", lengthStr := str "04", length := 4, value := w }

/-- The valid QR string of the test suite (`valid EMV QR minimal fields`). -/
def validQR : Str :=
  str "00020101021229370016A000000677010111021302455640030965802TH530376454071000.886304713E"

/-- The payload `DecodeEMVQR` returns for `validQR`. -/
def validQRPayload : EMVData :=
  { PayloadFormatIndicator := str "01"
    PointOfInitiationMethod := str "12"
    POIMethodType := POITypeDynamic
    MerchantAccountInfo :=
      [(str "29",
        some { AID := str "A000000677010111"
               AIDType := QRTypeC2C
               PaymentScheme := QRSchemePromptPay
               Reference1 := str "0245564003096"
               RawValue := str "0016A00000067701011102130245564003096" })]
    TransactionCurrency := str "764"
    TransactionAmount := str "1000.88"
    CountryCode := str "TH"
    CRC := str "713E" }

/-- The triplets `ParseEMVTLV` returns for `validQR`. -/
def validQRTriplets : List EMVDataValue :=
  [{ Tag := str "00", Length := 2, Value := str "01" },
   { Tag := str "01", Length := 2, Value := str "12" },
   { Tag := str "29", Length := 37, Value := str "0016A00000067701011102130245564003096" },
   { Tag := str "58", Length := 2, Value := str "TH" },
   { Tag := str "53", Length := 3, Value := str "764" },
   { Tag := str "54", Length := 7, Value := str "1000.88" },
   { Tag := str "63", Length := 4, Value := str "713E" }]

/-- The tags `mapEMVField` names in a `case`. -/
def caseTags : List Str :=
  [str "00", str "01", str "52", str "53", str "54", str "55", str "56", str "58", str "59",
    str "60", str "61", str "62", str "63"]

/-- The value of the last triplet carrying `tag`, if any, starting from `init`. -/
def lastValueFrom (init : Option Str) (ts : List EMVDataValue) (tag : Str) : Option Str :=
  ts.foldl (fun acc t => if t.Tag = tag then some t.Value else acc) init

/-- The value of the last triplet carrying `tag`; `none` when no triplet
carries it. -/
def lastValue? (ts : List EMVDataValue) (tag : Str) : Option Str := lastValueFrom none ts tag

/-- The value of the last triplet carrying `tag`; the empty string when no
triplet carries it. -/
def lastValue (ts : List EMVDataValue) (tag : Str) : Str := (lastValue? ts tag).getD []

/-- The tags of the scalar fields of `EMVData`, in the order of `scalarFields`. -/
def scalarTags : List Str :=
  [str "00", str "01", str "52", str "53", str "54", str "55", str "56", str "58", str "59",
    str "60", str "61", str "63"]

/-- The scalar fields of a payload, in the order of `scalarTags`. -/
def scalarFields (e : EMVData) : List Str :=
  [e.PayloadFormatIndicator, e.PointOfInitiationMethod, e.MerchantCategoryCode,
    e.TransactionCurrency, e.TransactionAmount, e.TipOrConvenienceIndicator,
    e.ValueOfConvenienceFee, e.CountryCode, e.MerchantName, e.MerchantCity, e.PostalCode, e.CRC]

/-- The keys of the list are in strictly ascending order: the form in which a
map is kept. -/
def GoMap.Sorted {β : Type} (m : GoMap β) : Prop :=
  List.Pairwise (fun a b => strLe a.1 b.1 = true ∧ a.1 ≠ b.1) m

/-- The value of the last entry with key `k` in an enumeration of entries. -/
def lastOf {β : Type} (l : List (Str × β)) (k : Str) : Option β :=
  l.foldl (fun acc kv => if kv.1 = k then some kv.2 else acc) none

/-- The sub-tags `parseMerchantAccountInfo` stores in a field of their own. -/
def accountSubTags : List Str := [str "00", str "01", str "02", str "03", str "04"]

/-- An input with one merchant-account field, tag `29`, whose value carries the
sub-tags `00`, `02` and `05`. -/
def accountQR : Str := str "29430016A000000677010111021302455640030960502XY"

/-- The payload `DecodeEMVQR` returns on `accountQR`. -/
def accountQRData : EMVData :=
  { MerchantAccountInfo :=
      [(str "29",
        some { AID := str "A000000677010111", AIDType := QRTypeC2C
               PaymentScheme := QRSchemePromptPay
               Reference1 := str "0245564003096",
               RawValue := str "0016A000000677010111021302455640030960502XY",
               UnresolvedData := [(str "05", str "XY")] })] }

/-! ## The consolidated view (`QRInfo`)

Go does not fix the order in which `range` visits the entries of a map. The
two loops over a map in `QRInfo` and `fillMissingReferences` therefore take the
order of the visit as an argument: a list of the entries. The values stored
in `MerchantAccountInfo` are pointers, and a pointer variable such as
`primaryAccount` is an optional struct, `none` being nil. -/

/-- The struct `QRInfo`; a fresh one has the zero value in every field. -/
structure QRInfo where
  AID : Str := []
  AIDType : QRPaymentType := []
  POIMethodType : POIMethodType := []
  PaymentScheme : QRPaymentScheme := []
  TransactionAmount : Str := []
  CountryCode : Str := []
  MerchantID : Str := []
  Reference1 : Str := []
  Reference2 : Str := []
  Reference3 : Str := []
  deriving DecidableEq, Repr

/-- The string `*references[i]` of `fillMissingReferences`, where `references`
holds the addresses of `Reference1`, `Reference2`, `Reference3`. -/
def QRInfo.reference (info : QRInfo) (i : Nat) : Str :=
  if i = 0 then info.Reference1 else if i = 1 then info.Reference2 else info.Reference3

/-- The assignment `*references[i] = value`. -/
def QRInfo.setReference (info : QRInfo) (i : Nat) (value : Str) : QRInfo :=
  if i = 0 then { info with Reference1 := value }
  else if i = 1 then { info with Reference2 := value }
  else { info with Reference3 := value }

/-- First loop of `fillMissingReferences`: the slots whose string is empty, in
the order of `references`. -/
def fillMissingReferences.emptySlots (info : QRInfo) : List Nat :=
  [0, 1, 2].foldl (fun emptySlots i => if info.reference i = [] then emptySlots ++ [i] else emptySlots) []

/-- Second loop of `fillMissingReferences`, over the entries of the additional
data in the order given. -/
def fillMissingReferences.loop (emptySlots : List Nat) :
    QRInfo → Nat → List (Str × Str) → QRInfo
  | info, _, [] => info
  | info, slotIndex, (_, value) :: rest =>
    if emptySlots.length ≤ slotIndex then info
    else
      fillMissingReferences.loop emptySlots
        (info.setReference (emptySlots.getD slotIndex 0) value) (slotIndex + 1) rest

/-- `fillMissingReferences`; `dataOrder` lists the entries of `additionalData`
in the order in which `range` visits them. -/
def fillMissingReferences (info : QRInfo) (dataOrder : List (Str × Str)) : QRInfo :=
  fillMissingReferences.loop (fillMissingReferences.emptySlots info) info 0 dataOrder

/-- The slice `preferredTags` of `QRInfo`. -/
def preferredTags : List Str :=
  [str "26", str "27", str "28", str "29", str "30", str "31", str "32", str "33", str "34",
   str "35"]

/-- First pass of `QRInfo`: the pointer `primaryAccount` after the loop over
`preferredTags`, which stops at the first tag that is a key of the map and
takes the pointer stored there, nil or not; it is nil when no tag is a key. -/
def EMVData.QRInfo.firstPass (accounts : GoMap (Option MerchantAccount)) :
    List Str → Option MerchantAccount
  | [] => none
  | tag :: rest =>
    match GoMap.get? accounts tag with
    | some account => account
    | none => EMVData.QRInfo.firstPass accounts rest

/-- Second pass of `QRInfo`: the pointer of the first entry visited whose tag is
in the range `"02"` to `"51"`, nil or not. -/
def EMVData.QRInfo.secondPass :
    List (Str × Option MerchantAccount) → Option MerchantAccount
  | [] => none
  | (tag, account) :: rest =>
    if strLe (str "02") tag && strLe tag (str "51") then account
    else EMVData.QRInfo.secondPass rest

/-- The pointer `primaryAccount` of `QRInfo` after the two passes: the second
pass runs when `primaryAccount == nil` after the first. -/
def EMVData.QRInfo.primaryAccount (e : EMVData)
    (accountOrder : List (Str × Option MerchantAccount)) : Option MerchantAccount :=
  match EMVData.QRInfo.firstPass e.MerchantAccountInfo preferredTags with
  | some account => some account
  | none => EMVData.QRInfo.secondPass accountOrder

/-- The method `QRInfo` of `EMVData`; `accountOrder` and `dataOrder` list the
entries of `MerchantAccountInfo` and of `AdditionalData` in the order in which
`range` visits them. -/
def EMVData.QRInfo (e : EMVData) (accountOrder : List (Str × Option MerchantAccount))
    (dataOrder : List (Str × Str)) : Xstr.QRInfo :=
  let info : Xstr.QRInfo :=
    { POIMethodType := e.POIMethodType
      TransactionAmount := e.TransactionAmount
      CountryCode := e.CountryCode }
  match EMVData.QRInfo.primaryAccount e accountOrder with
  | some primaryAccount =>
    fillMissingReferences
      { info with
        AID := primaryAccount.AID
        AIDType := primaryAccount.AIDType
        PaymentScheme := primaryAccount.PaymentScheme
        MerchantID := primaryAccount.MerchantID
        Reference1 := primaryAccount.Reference1
        Reference2 := primaryAccount.Reference2
        Reference3 := primaryAccount.Reference3 }
      dataOrder
  | none => info

/-- A payload with accounts under the tags `03`, `29` and `30`. -/
def threeAccounts : EMVData :=
  { POIMethodType := POITypeDynamic
    TransactionAmount := str "1000.88"
    CountryCode := str "TH"
    MerchantAccountInfo :=
      [(str "03", some { AID := str "COM.UPI.PAY", MerchantID := str "M03" }),
       (str "29", some { AID := str "A000000677010111", AIDType := QRTypeC2C
                         PaymentScheme := QRSchemePromptPay, MerchantID := str "M29" }),
       (str "30", some { AID := str "A000000677010112", AIDType := QRTypeC2B
                         PaymentScheme := QRSchemePromptPay, MerchantID := str "M30" })]
    AdditionalData := [(str "05", str "REF")] }

/-- The `info` of `QRInfo` after the fields of the primary account are copied
and before `fillMissingReferences` is called. -/
def EMVData.QRInfo.copied (e : EMVData) (primaryAccount : MerchantAccount) : Xstr.QRInfo :=
  { POIMethodType := e.POIMethodType
    TransactionAmount := e.TransactionAmount
    CountryCode := e.CountryCode
    AID := primaryAccount.AID
    AIDType := primaryAccount.AIDType
    PaymentScheme := primaryAccount.PaymentScheme
    MerchantID := primaryAccount.MerchantID
    Reference1 := primaryAccount.Reference1
    Reference2 := primaryAccount.Reference2
    Reference3 := primaryAccount.Reference3 }

/-- A payload whose only account, under tag `29`, has `Reference2` set, and
whose additional data has two entries. -/
def twoReferences : EMVData :=
  { MerchantAccountInfo :=
      [(str "29", some { AID := str "A000000677010111", Reference2 := str "R2" })]
    AdditionalData := [(str "05", str "A"), (str "07", str "B")] }

/-- A payload with a nil pointer under tag `26` and an account under tag `27`. -/
def nilAccount : EMVData :=
  { MerchantAccountInfo := [(str "26", none), (str "27", some { AID := str "COM.UPI.PAY" })] }

/-! ## The loop of `ParseEMVCoQRString` in terms of the tokenizer -/

/-- The `switch id` of `ParseEMVCoQRString` applied to a sequence of fields. -/
def assignFields : EMVCoQRInfo → List RawField → Res EMVCoQRInfo
  | result, [] => .ok result
  | result, r :: rs =>
    match ParseEMVCoQRString.assign result r.tag r.value with
    | .ok result1 => assignFields result1 rs
    | .error err => .error err
    | .fault => .fault
    | .outOfFuel => .outOfFuel

/-- Outcome of the loop of `ParseEMVCoQRString` for a given reason of stopping:
a fragment of 1 to 3 bytes at the end is an error there. -/
def Stop.toQR {α : Type} (st : Stop) (a : α) : Res α :=
  match st with
  | .eof frag => if frag = [] then .ok a else .error (str "invalid qr structure")
  | .badLength _ _ => .error (str "invalid qr structure")
  | .truncated _ => .error (str "invalid specified qr string length")
  | .negative => .fault
  | .outOfFuel => .outOfFuel

/-- What the loop of `ParseEMVCoQRString` returns for the fields read and the
reason of stopping. -/
def qrOutcome (result : EMVCoQRInfo) (r : List RawField × Stop) : Res EMVCoQRInfo :=
  match assignFields result r.1 with
  | .ok result1 => r.2.toQR result1
  | .error err => .error err
  | .fault => .fault
  | .outOfFuel => .outOfFuel

/-- An input whose tag-29 field has the value `1102130113000891234567`, in which
`110213` occurs before `011300`. -/
def phoneQR : Str := str "010201292211021301130008912345676304246F"

/-- The information `ParseEMVCoQRString` returns on `phoneQR`. -/
def phoneQRInfo : EMVCoQRInfo :=
  { Format := str "01"
    MerchantAccount := str "1102130113000891234567"
    PhoneNumber := str "0891234567"
    Crc := str "246F" }

/-! ## Masking (`mask.go`) -/

/-- `MaskSensitive`: a slice out of bounds would be a run-time fault. -/
def MaskSensitive (data : Str) : Res Str :=
  if data.length = 0 then .ok (str "")
  else if data.length ≤ 4 then .ok (str "****")
  else if data.length ≤ 8 then
    match slice data ((data.length : Int) - 2) (data.length : Int) with
    | none => .fault
    | some last2 => .ok (str "****" ++ last2)
  else
    match slice data 0 4 with
    | none => .fault
    | some first4 =>
      match slice data ((data.length : Int) - 4) (data.length : Int) with
      | none => .fault
      | some last4 => .ok (first4 ++ str "****" ++ last4)

/-- `MaskPhone`: the index expression `phone[0]` and the slices would be
run-time faults when out of bounds; `43` is the byte `'+'`. -/
def MaskPhone (phone : Str) : Res Str :=
  if phone.length = 0 then .ok (str "")
  else
    match phone[0]? with
    | none => .fault
    | some c =>
      if c = 43 then
        if phone.length ≤ 7 then
          match slice phone 0 3 with
          | none => .fault
          | some first3 => .ok (first3 ++ str "****")
        else
          match slice phone 0 3 with
          | none => .fault
          | some first3 =>
            match slice phone ((phone.length : Int) - 4) (phone.length : Int) with
            | none => .fault
            | some last4 => .ok (first3 ++ str "****" ++ last4)
      else if phone.length ≤ 6 then .ok (str "****")
      else
        match slice phone ((phone.length : Int) - 4) (phone.length : Int) with
        | none => .fault
        | some last4 => .ok (str "****" ++ last4)

/-! ## Whitespace normalization (`space.go`)

`RemoveDuplicateSpaces` reads its input rune by rune (`for _, r := range s`)
and writes runes to a builder, so a string is modelled here as the sequence of
its runes, a rune being a code point. -/

/-- A Unicode code point, Go's `rune`. -/
abbrev Rune := Nat

/-- Lookup in the map `zeroWidthChars`: true on its seven keys, false (the zero
value) elsewhere. -/
def zeroWidthChars (r : Rune) : Bool :=
  decide (r = 0x200B ∨ r = 0xFEFF ∨ r = 0x2060 ∨ r = 0x200D ∨ r = 0x200E ∨ r = 0x200F
    ∨ r = 0x00A0)

/-- `isWhitespace`: space, tab, newline, carriage return, vertical tab, form feed. -/
def isWhitespace (r : Rune) : Bool :=
  decide (r = 32 ∨ r = 9 ∨ r = 10 ∨ r = 13 ∨ r = 11 ∨ r = 12)

/-- Go's `unicode.IsSpace`: in Latin-1 the runes `\t`, `\n`, `\v`, `\f`, `\r`,
space, U+0085 and U+00A0; above it, the runes with the property White_Space. -/
def unicodeIsSpace (r : Rune) : Bool :=
  if r ≤ 0xFF then
    decide (r = 9 ∨ r = 10 ∨ r = 11 ∨ r = 12 ∨ r = 13 ∨ r = 32 ∨ r = 0x85 ∨ r = 0xA0)
  else
    decide (r = 0x1680 ∨ (0x2000 ≤ r ∧ r ≤ 0x200A) ∨ r = 0x2028 ∨ r = 0x2029 ∨ r = 0x202F
      ∨ r = 0x205F ∨ r = 0x3000)

/-- Go's `strings.TrimSpace`: the string without its leading and trailing runes
that satisfy `unicode.IsSpace`. -/
def stringsTrimSpace (s : List Rune) : List Rune :=
  ((s.dropWhile unicodeIsSpace).reverse.dropWhile unicodeIsSpace).reverse

/-- The loop of `RemoveDuplicateSpaces`: `b` is the content of the builder. -/
def RemoveDuplicateSpaces.loop : List Rune → List Rune → Bool → List Rune
  | [], b, _ => b
  | r :: rest, b, inSpace =>
    if zeroWidthChars r then RemoveDuplicateSpaces.loop rest b inSpace
    else if isWhitespace r then
      if !inSpace then RemoveDuplicateSpaces.loop rest (b ++ [32]) true
      else RemoveDuplicateSpaces.loop rest b inSpace
    else RemoveDuplicateSpaces.loop rest (b ++ [r]) false

/-- `RemoveDuplicateSpaces`. -/
def RemoveDuplicateSpaces (s : List Rune) : List Rune :=
  stringsTrimSpace (RemoveDuplicateSpaces.loop s [] false)

/-- What the loop of `RemoveDuplicateSpaces` appends to the builder for the
runes still to be read. -/
def RemoveDuplicateSpaces.emit : List Rune → Bool → List Rune
  | [], _ => []
  | r :: rest, inSpace =>
    if zeroWidthChars r then RemoveDuplicateSpaces.emit rest inSpace
    else if isWhitespace r then
      if !inSpace then 32 :: RemoveDuplicateSpaces.emit rest true
      else RemoveDuplicateSpaces.emit rest inSpace
    else r :: RemoveDuplicateSpaces.emit rest false

/-- The runes of a string literal. -/
def runes (s : String) : List Rune := s.toList.map Char.toNat

/-! ## Optional strings (`pointer.go`)

A `*string` is modelled as an optional string, `none` being the nil pointer;
the string pointed to is modelled as the sequence of its runes, on which
`strings.TrimSpace` works. -/

/-- `NormalizeOptionalString`. -/
def NormalizeOptionalString (value : Option (List Rune)) : Option (List Rune) :=
  match value with
  | none => none
  | some v =>
    let trimmed := stringsTrimSpace v
    if trimmed = [] then none else some trimmed

/-- `NormalizeUpdateString`. -/
def NormalizeUpdateString (value : Option (List Rune)) : Option (List Rune) :=
  match value with
  | none => none
  | some v =>
    let trimmed := stringsTrimSpace v
    if trimmed = [] then some [] else some trimmed

/-- Eight rounds of the bit loop of `calculateCRC16`. -/
def crcStep8 (x : Nat) : Nat :=
  crcBit (crcBit (crcBit (crcBit (crcBit (crcBit (crcBit (crcBit x)))))))

/-- A payload whose only account, under tag `26`, has `Reference3` empty alone,
and whose additional data has two entries. -/
def oneEmptySlot : EMVData :=
  { MerchantAccountInfo :=
      [(str "26", some { AID := str "A000000677010111", Reference1 := str "R1",
                         Reference2 := str "R2" })]
    AdditionalData := [(str "05", str "A"), (str "07", str "B")] }

end Xstr

namespace Xstr

/-! ## Slices -/

theorem slice_mid (s pre mid post : Str) (lo hi : Int) (hs : s = pre ++ mid ++ post)
    (hlo : lo = (pre.length : Int)) (hhi : hi = (pre.length : Int) + (mid.length : Int)) :
    slice s lo hi = some mid := by
  subst hs hlo hhi
  have h1 : ((pre.length : Int) + (mid.length : Int)).toNat = pre.length + mid.length := by omega
  unfold slice
  rw [if_pos (by simp only [List.length_append]; omega)]
  simp [h1]

theorem slice_none_of_lt (s : Str) (lo hi : Int) (h : hi < lo) : slice s lo hi = none := by
  unfold slice
  rw [if_neg (by omega)]

theorem parseLoop_eq_scan (fuel : Nat) :
    ∀ (pre rest : Str) (tlvData : List EMVDataValue),
      ParseEMVTLV.loop (pre ++ rest) fuel (pre.length : Int) tlvData
        = (scan fuel (pre.length : Int) rest).2.toRes
            (tlvData ++ (scan fuel (pre.length : Int) rest).1.map RawField.toTriplet) := by
  induction fuel with
  | zero => intro pre rest tlvData; rfl
  | succ fuel ih =>
    intro pre rest tlvData
    match rest with
    | [] => simp [ParseEMVTLV.loop, scan, Stop.toRes]
    | [a] =>
      simp only [ParseEMVTLV.loop, scan, Stop.toRes, List.length_append, List.length_cons,
        List.length_nil, List.map_nil, List.append_nil]
      split
      · rfl
      · rw [if_pos (by push_cast; omega)]
    | [a, b] =>
      simp only [ParseEMVTLV.loop, scan, Stop.toRes, List.length_append, List.length_cons,
        List.length_nil, List.map_nil, List.append_nil]
      split
      · rfl
      · rw [if_pos (by push_cast; omega)]
    | [a, b, c] =>
      simp only [ParseEMVTLV.loop, scan, Stop.toRes, List.length_append, List.length_cons,
        List.length_nil, List.map_nil, List.append_nil]
      split
      · rfl
      · rw [if_pos (by push_cast; omega)]
    | t0 :: t1 :: l0 :: l1 :: rest =>
      have htag : slice (pre ++ t0 :: t1 :: l0 :: l1 :: rest) (pre.length : Int)
          ((pre.length : Int) + 2) = some [t0, t1] :=
        slice_mid _ pre [t0, t1] (l0 :: l1 :: rest) _ _ (by simp) rfl (by simp)
      have hlen : slice (pre ++ t0 :: t1 :: l0 :: l1 :: rest) ((pre.length : Int) + 2)
          ((pre.length : Int) + 2 + 2) = some [l0, l1] :=
        slice_mid _ (pre ++ [t0, t1]) [l0, l1] rest _ _ (by simp) (by simp) (by simp)
      unfold ParseEMVTLV.loop scan
      rw [if_neg (by simp only [List.length_append, List.length_cons]; push_cast; omega),
        if_neg (by simp only [List.length_append, List.length_cons]; push_cast; omega)]
      simp only [htag, hlen]
      cases hA : Atoi [l0, l1] with
      | none => simp [Stop.toRes]
      | some n =>
        simp only
        by_cases h1 : n > (rest.length : Int)
        · rw [if_pos (by simp only [List.length_append, List.length_cons]; push_cast; omega),
            if_pos h1]
          simp [Stop.toRes]
        · rw [if_neg (by simp only [List.length_append, List.length_cons]; push_cast; omega),
            if_neg h1]
          by_cases h2 : n < 0
          · rw [if_pos h2, slice_none_of_lt _ _ _ (by omega)]
            simp [Stop.toRes]
          · rw [if_neg h2]
            have hn : ((n.toNat : Nat) : Int) = n := by omega
            have hval : slice (pre ++ t0 :: t1 :: l0 :: l1 :: rest) ((pre.length : Int) + 2 + 2)
                ((pre.length : Int) + 2 + 2 + n) = some (rest.take n.toNat) :=
              slice_mid _ (pre ++ [t0, t1, l0, l1]) (rest.take n.toNat) (rest.drop n.toNat) _ _
                (by simp) (by simp; omega)
                (by simp only [List.length_append, List.length_cons, List.length_nil,
                      List.length_take]; push_cast; omega)
            simp only [hval]
            have hsplit : pre ++ t0 :: t1 :: l0 :: l1 :: rest
                = (pre ++ [t0, t1, l0, l1] ++ rest.take n.toNat) ++ rest.drop n.toNat := by simp
            have hpos : (pre.length : Int) + 2 + 2 + n
                = ((pre ++ [t0, t1, l0, l1] ++ rest.take n.toNat).length : Int) := by
              simp only [List.length_append, List.length_cons, List.length_nil, List.length_take]
              push_cast; omega
            rw [hsplit, hpos, ih]
            simp [RawField.toTriplet]

theorem subLoop_eq_scan (fuel : Nat) :
    ∀ (pre rest : Str) (subFields : GoMap Str),
      parseSubFields.loop (pre ++ rest) fuel (pre.length : Int) subFields
        = (scan fuel (pre.length : Int) rest).2.toSub
            ((scan fuel (pre.length : Int) rest).1.foldl
              (fun m r => GoMap.set m r.tag r.value) subFields) := by
  induction fuel with
  | zero => intro pre rest subFields; rfl
  | succ fuel ih =>
    intro pre rest subFields
    match rest with
    | [] => simp [parseSubFields.loop, scan, Stop.toSub]
    | [a] =>
      simp only [parseSubFields.loop, scan, Stop.toSub, List.length_append, List.length_cons,
        List.length_nil, List.foldl_nil]
      split
      · rfl
      · rw [if_pos (by push_cast; omega)]
    | [a, b] =>
      simp only [parseSubFields.loop, scan, Stop.toSub, List.length_append, List.length_cons,
        List.length_nil, List.foldl_nil]
      split
      · rfl
      · rw [if_pos (by push_cast; omega)]
    | [a, b, c] =>
      simp only [parseSubFields.loop, scan, Stop.toSub, List.length_append, List.length_cons,
        List.length_nil, List.foldl_nil]
      split
      · rfl
      · rw [if_pos (by push_cast; omega)]
    | t0 :: t1 :: l0 :: l1 :: rest =>
      have htag : slice (pre ++ t0 :: t1 :: l0 :: l1 :: rest) (pre.length : Int)
          ((pre.length : Int) + 2) = some [t0, t1] :=
        slice_mid _ pre [t0, t1] (l0 :: l1 :: rest) _ _ (by simp) rfl (by simp)
      have hlen : slice (pre ++ t0 :: t1 :: l0 :: l1 :: rest) ((pre.length : Int) + 2)
          ((pre.length : Int) + 2 + 2) = some [l0, l1] :=
        slice_mid _ (pre ++ [t0, t1]) [l0, l1] rest _ _ (by simp) (by simp) (by simp)
      unfold parseSubFields.loop scan
      rw [if_neg (by simp only [List.length_append, List.length_cons]; push_cast; omega),
        if_neg (by simp only [List.length_append, List.length_cons]; push_cast; omega)]
      simp only [htag, hlen]
      cases hA : Atoi [l0, l1] with
      | none => simp [Stop.toSub]
      | some n =>
        simp only
        by_cases h1 : n > (rest.length : Int)
        · rw [if_pos (by simp only [List.length_append, List.length_cons]; push_cast; omega),
            if_pos h1]
          simp [Stop.toSub]
        · rw [if_neg (by simp only [List.length_append, List.length_cons]; push_cast; omega),
            if_neg h1]
          by_cases h2 : n < 0
          · rw [if_pos h2, slice_none_of_lt _ _ _ (by omega)]
            simp [Stop.toSub]
          · rw [if_neg h2]
            have hval : slice (pre ++ t0 :: t1 :: l0 :: l1 :: rest) ((pre.length : Int) + 2 + 2)
                ((pre.length : Int) + 2 + 2 + n) = some (rest.take n.toNat) :=
              slice_mid _ (pre ++ [t0, t1, l0, l1]) (rest.take n.toNat) (rest.drop n.toNat) _ _
                (by simp) (by simp; omega)
                (by simp only [List.length_append, List.length_cons, List.length_nil,
                      List.length_take]; push_cast; omega)
            simp only [hval]
            have hsplit : pre ++ t0 :: t1 :: l0 :: l1 :: rest
                = (pre ++ [t0, t1, l0, l1] ++ rest.take n.toNat) ++ rest.drop n.toNat := by simp
            have hpos : (pre.length : Int) + 2 + 2 + n
                = ((pre ++ [t0, t1, l0, l1] ++ rest.take n.toNat).length : Int) := by
              simp only [List.length_append, List.length_cons, List.length_nil, List.length_take]
              push_cast; omega
            rw [hsplit, hpos, ih]
            simp

theorem decodeLoop_eq_scan (fuel : Nat) :
    ∀ (pre rest : Str) (emvData : EMVData),
      DecodeEMVQR.loop (pre ++ rest) fuel (pre.length : Int) emvData
        = decodeOutcome emvData (scan fuel (pre.length : Int) rest) := by
  induction fuel with
  | zero => intro pre rest emvData; rfl
  | succ fuel ih =>
    intro pre rest emvData
    match rest with
    | [] => simp [DecodeEMVQR.loop, scan, Stop.toRes, decodeOutcome, mapFields]
    | [a] =>
      simp only [DecodeEMVQR.loop, scan, Stop.toRes, decodeOutcome, mapFields,
        List.length_append, List.length_cons, List.length_nil]
      split
      · rfl
      · rw [if_pos (by push_cast; omega)]
    | [a, b] =>
      simp only [DecodeEMVQR.loop, scan, Stop.toRes, decodeOutcome, mapFields,
        List.length_append, List.length_cons, List.length_nil]
      split
      · rfl
      · rw [if_pos (by push_cast; omega)]
    | [a, b, c] =>
      simp only [DecodeEMVQR.loop, scan, Stop.toRes, decodeOutcome, mapFields,
        List.length_append, List.length_cons, List.length_nil]
      split
      · rfl
      · rw [if_pos (by push_cast; omega)]
    | t0 :: t1 :: l0 :: l1 :: rest =>
      have htag : slice (pre ++ t0 :: t1 :: l0 :: l1 :: rest) (pre.length : Int)
          ((pre.length : Int) + 2) = some [t0, t1] :=
        slice_mid _ pre [t0, t1] (l0 :: l1 :: rest) _ _ (by simp) rfl (by simp)
      have hlen : slice (pre ++ t0 :: t1 :: l0 :: l1 :: rest) ((pre.length : Int) + 2)
          ((pre.length : Int) + 2 + 2) = some [l0, l1] :=
        slice_mid _ (pre ++ [t0, t1]) [l0, l1] rest _ _ (by simp) (by simp) (by simp)
      unfold DecodeEMVQR.loop scan
      rw [if_neg (by simp only [List.length_append, List.length_cons]; push_cast; omega),
        if_neg (by simp only [List.length_append, List.length_cons]; push_cast; omega)]
      simp only [htag, hlen]
      cases hA : Atoi [l0, l1] with
      | none => simp [Stop.toRes, decodeOutcome, mapFields]
      | some n =>
        simp only
        by_cases h1 : n > (rest.length : Int)
        · rw [if_pos (by simp only [List.length_append, List.length_cons]; push_cast; omega),
            if_pos h1]
          simp [Stop.toRes, decodeOutcome, mapFields]
        · rw [if_neg (by simp only [List.length_append, List.length_cons]; push_cast; omega),
            if_neg h1]
          by_cases h2 : n < 0
          · rw [if_pos h2, slice_none_of_lt _ _ _ (by omega)]
            simp [Stop.toRes, decodeOutcome, mapFields]
          · rw [if_neg h2]
            have hval : slice (pre ++ t0 :: t1 :: l0 :: l1 :: rest) ((pre.length : Int) + 2 + 2)
                ((pre.length : Int) + 2 + 2 + n) = some (rest.take n.toNat) :=
              slice_mid _ (pre ++ [t0, t1, l0, l1]) (rest.take n.toNat) (rest.drop n.toNat) _ _
                (by simp) (by simp; omega)
                (by simp only [List.length_append, List.length_cons, List.length_nil,
                      List.length_take]; push_cast; omega)
            simp only [hval]
            have hsplit : pre ++ t0 :: t1 :: l0 :: l1 :: rest
                = (pre ++ [t0, t1, l0, l1] ++ rest.take n.toNat) ++ rest.drop n.toNat := by simp
            have hpos : (pre.length : Int) + 2 + 2 + n
                = ((pre ++ [t0, t1, l0, l1] ++ rest.take n.toNat).length : Int) := by
              simp only [List.length_append, List.length_cons, List.length_nil, List.length_take]
              push_cast; omega
            simp only [decodeOutcome, mapFields]
            cases hM : mapEMVField emvData [t0, t1] (rest.take n.toNat) with
            | ok e1 =>
              simp only
              rw [hsplit, hpos, ih]
              rfl
            | error err => rfl
            | fault => rfl
            | outOfFuel => rfl

/-! ## Facts about the tokenizer -/

theorem rawBytes_cons (r : RawField) (rs : List RawField) :
    rawBytes (r :: rs) = r.tag ++ r.lengthStr ++ r.value ++ rawBytes rs := by
  simp [rawBytes, RawField.bytes]

theorem rawBytes_append (xs ys : List RawField) :
    rawBytes (xs ++ ys) = rawBytes xs ++ rawBytes ys := by
  simp [rawBytes]

/-- Every field read is well formed, and when reading ends at the end of the
input, the input is the bytes of the fields read followed by a fragment of
fewer than 4 bytes. -/
theorem scan_sound (fuel : Nat) :
    ∀ (pos : Int) (rest : Str),
      (∀ f ∈ (scan fuel pos rest).1, f.Wf) ∧
      (∀ frag, (scan fuel pos rest).2 = .eof frag →
        rest = rawBytes (scan fuel pos rest).1 ++ frag ∧ frag.length < 4) := by
  induction fuel with
  | zero => intro pos rest; simp [scan]
  | succ fuel ih =>
    intro pos rest
    match rest with
    | [] => simp [scan, rawBytes]
    | [a] => simp [scan, rawBytes]
    | [a, b] => simp [scan, rawBytes]
    | [a, b, c] => simp [scan, rawBytes]
    | t0 :: t1 :: l0 :: l1 :: rest =>
      unfold scan
      cases hA : Atoi [l0, l1] with
      | none => simp
      | some n =>
        simp only
        by_cases h1 : n > (rest.length : Int)
        · rw [if_pos h1]; simp
        · rw [if_neg h1]
          by_cases h2 : n < 0
          · rw [if_pos h2]; simp
          · rw [if_neg h2]
            obtain ⟨ihw, ihe⟩ := ih (pos + 2 + 2 + n) (rest.drop n.toNat)
            refine ⟨?_, ?_⟩
            · intro f hf
              rcases List.mem_cons.1 hf with rfl | hf
              · refine ⟨rfl, rfl, hA, ?_⟩
                simp only [List.length_take]
                omega
              · exact ihw f hf
            · intro frag hfrag
              obtain ⟨e1, e2⟩ := ihe frag hfrag
              refine ⟨?_, e2⟩
              rw [rawBytes_cons]
              simp only [List.cons_append, List.nil_append, List.append_assoc]
              rw [← e1, List.take_append_drop]

/-- Reading never stops for lack of fuel when the fuel exceeds the number of
bytes ahead. -/
theorem scan_fuel (fuel : Nat) :
    ∀ (pos : Int) (rest : Str), rest.length < fuel → (scan fuel pos rest).2 ≠ .outOfFuel := by
  induction fuel with
  | zero => intro pos rest h; omega
  | succ fuel ih =>
    intro pos rest h
    match rest with
    | [] => simp [scan]
    | [a] => simp [scan]
    | [a, b] => simp [scan]
    | [a, b, c] => simp [scan]
    | t0 :: t1 :: l0 :: l1 :: rest =>
      unfold scan
      cases hA : Atoi [l0, l1] with
      | none => simp
      | some n =>
        simp only
        by_cases h1 : n > (rest.length : Int)
        · rw [if_pos h1]; simp
        · rw [if_neg h1]
          by_cases h2 : n < 0
          · rw [if_pos h2]; simp
          · rw [if_neg h2]
            apply ih
            simp only [List.length_drop, List.length_cons] at h ⊢
            omega

/-- Reading one well-formed field placed at the head of the input. -/
theorem scan_field (fuel : Nat) (pos : Int) (t0 t1 l0 l1 : Nat) (n : Int) (value rest : Str)
    (hA : Atoi [l0, l1] = some n) (hv : n = (value.length : Int)) :
    scan (fuel + 1) pos (t0 :: t1 :: l0 :: l1 :: (value ++ rest))
      = ({ tag := [t0, t1], lengthStr := [l0, l1], length := n, value := value }
            :: (scan fuel (pos + 2 + 2 + n) rest).1,
          (scan fuel (pos + 2 + 2 + n) rest).2) := by
  have hn : n.toNat = value.length := by omega
  rw [scan]
  simp only [hA]
  rw [if_neg (by simp only [List.length_append]; push_cast; omega), if_neg (by omega)]
  simp only [hn, List.drop_left, List.take_left]

/-- Reading well-formed fields placed at the head of the input yields them and
goes on with what follows. -/
theorem scan_forward (fs : List RawField) :
    ∀ (fuel : Nat) (pos : Int) (rest : Str), (∀ f ∈ fs, f.Wf) →
      scan (fs.length + fuel) pos (rawBytes fs ++ rest)
        = (fs ++ (scan fuel (pos + ((rawBytes fs).length : Int)) rest).1,
            (scan fuel (pos + ((rawBytes fs).length : Int)) rest).2) := by
  induction fs with
  | nil => intro fuel pos rest _; simp [rawBytes]
  | cons f fs ih =>
    intro fuel pos rest hw
    obtain ⟨ht, hl, hA, hv⟩ := hw f (List.mem_cons_self _ _)
    obtain ⟨tag, ll, n, value⟩ := f
    simp only at ht hl hA hv
    match tag, ht with
    | [t0, t1], _ =>
      match ll, hl with
      | [l0, l1], _ =>
        have hfuel : (({ tag := [t0, t1], lengthStr := [l0, l1], length := n, value := value }
            : RawField) :: fs).length + fuel = (fs.length + fuel) + 1 := by
          simp only [List.length_cons]; omega
        have hq : pos + 2 + 2 + n + ((rawBytes fs).length : Int)
            = pos + ((t0 :: t1 :: l0 :: l1 :: (value ++ rawBytes fs)).length : Int) := by
          simp only [List.length_cons, List.length_append]; push_cast; omega
        rw [hfuel, rawBytes_cons]
        simp only [List.cons_append, List.nil_append, List.append_assoc]
        rw [scan_field _ _ _ _ _ _ n value _ hA hv,
          ih fuel (pos + 2 + 2 + n) rest (fun g hg => hw g (List.mem_cons_of_mem _ hg)), hq]

/-! ## The entry points in terms of the tokenizer -/

theorem ParseEMVTLV_eq_scan (s : Str) (h : 4 ≤ s.length) :
    ParseEMVTLV s
      = (scan (s.length + 1) 0 s).2.toRes ((scan (s.length + 1) 0 s).1.map RawField.toTriplet) := by
  have := parseLoop_eq_scan (s.length + 1) [] s []
  simp only [List.nil_append, List.length_nil, Nat.cast_zero] at this
  unfold ParseEMVTLV
  rw [if_neg (by omega), this]

theorem parseSubFields_eq_scan (s : Str) :
    parseSubFields s
      = (scan (s.length + 1) 0 s).2.toSub
          ((scan (s.length + 1) 0 s).1.foldl (fun m r => GoMap.set m r.tag r.value) []) := by
  have := subLoop_eq_scan (s.length + 1) [] s []
  simp only [List.nil_append, List.length_nil, Nat.cast_zero] at this
  unfold parseSubFields
  rw [this]

theorem DecodeEMVQR_loop_eq_scan (s : Str) :
    DecodeEMVQR.loop s (s.length + 1) 0 {} = decodeOutcome {} (scan (s.length + 1) 0 s) := by
  have := decodeLoop_eq_scan (s.length + 1) [] s {}
  simp only [List.nil_append, List.length_nil, Nat.cast_zero] at this
  exact this

theorem Stop.toRes_ok {α : Type} (st : Stop) (a b : α) (h : st.toRes a = .ok b) :
    a = b ∧ ∃ frag, st = .eof frag := by
  cases st <;> simp [Stop.toRes] at h
  exact ⟨h, _, rfl⟩

/-- A successful `ParseEMVTLV` returns the triplets of the fields read, which
tile the input up to a fragment of fewer than 4 bytes. -/
theorem ParseEMVTLV_ok_scan (s : Str) (ts : List EMVDataValue) (h : ParseEMVTLV s = .ok ts) :
    4 ≤ s.length ∧ ∃ fs frag, scan (s.length + 1) 0 s = (fs, .eof frag)
      ∧ ts = fs.map RawField.toTriplet ∧ (∀ f ∈ fs, f.Wf)
      ∧ s = rawBytes fs ++ frag ∧ frag.length < 4 := by
  by_cases h4 : 4 ≤ s.length
  · refine ⟨h4, ?_⟩
    rw [ParseEMVTLV_eq_scan s h4] at h
    obtain ⟨e1, frag, e2⟩ := Stop.toRes_ok _ _ _ h
    obtain ⟨hw, he⟩ := scan_sound (s.length + 1) 0 s
    obtain ⟨e3, e4⟩ := he frag e2
    exact ⟨_, frag, Prod.ext rfl e2, e1.symm, hw, e3, e4⟩
  · unfold ParseEMVTLV at h
    rw [if_pos (by omega)] at h
    cases h

/-! ## Length fields -/

set_option maxRecDepth 100000 in
theorem pad2_table : ∀ n : Nat, n < 100 →
    pad2 (n : Int) = [48 + n / 10, 48 + n % 10] ∧ Atoi (pad2 (n : Int)) = some (n : Int) := by
  decide

theorem Atoi_two_digits (l0 l1 : Nat) (h0 : IsDigit l0) (h1 : IsDigit l1) :
    Atoi [l0, l1] = some (((l0 - 48) * 10 + (l1 - 48) : Nat) : Int) := by
  unfold IsDigit at h0 h1
  have e1 : ¬ (l0 = 45 ∨ l0 = 43) := by omega
  simp only [Atoi, if_neg e1, atoiDigits, h0, h1, and_self, if_true]
  simp
  omega

/-- A length field of two ASCII digits is the two-digit rendering of the
length parsed from it. -/
theorem pad2_of_twoDigits (ll : Str) (n : Int) (h : TwoDigits ll) (hA : Atoi ll = some n) :
    pad2 n = ll := by
  obtain ⟨hl, hd⟩ := h
  match ll, hl with
  | [l0, l1], _ =>
    have h0 : IsDigit l0 := hd l0 (by simp)
    have h1 : IsDigit l1 := hd l1 (by simp)
    rw [Atoi_two_digits l0 l1 h0 h1] at hA
    cases hA
    unfold IsDigit at h0 h1
    rw [(pad2_table ((l0 - 48) * 10 + (l1 - 48)) (by omega)).1]
    have e0 : 48 + ((l0 - 48) * 10 + (l1 - 48)) / 10 = l0 := by omega
    have e1 : 48 + ((l0 - 48) * 10 + (l1 - 48)) % 10 = l1 := by omega
    rw [e0, e1]

/-! ## Reading an input that starts with well-formed fields -/

theorem scan_short (fuel : Nat) (pos : Int) (rest : Str) (hf : fuel ≠ 0) (h : rest.length < 4) :
    scan fuel pos rest = ([], .eof rest) := by
  obtain ⟨fuel, rfl⟩ := Nat.exists_eq_succ_of_ne_zero hf
  match rest, h with
  | [], _ => rfl
  | [_], _ => rfl
  | [_, _], _ => rfl
  | [_, _, _], _ => rfl
  | _ :: _ :: _ :: _ :: _, h => simp at h; omega

theorem rawBytes_length (fs : List RawField) (hw : ∀ f ∈ fs, f.Wf) :
    4 * fs.length ≤ (rawBytes fs).length := by
  induction fs with
  | nil => simp
  | cons f fs ih =>
    obtain ⟨ht, hl, _, _⟩ := hw f (List.mem_cons_self _ _)
    have := ih (fun g hg => hw g (List.mem_cons_of_mem _ hg))
    rw [rawBytes_cons]
    simp only [List.length_append, List.length_cons]
    omega

/-- On an input that starts with well-formed fields, the fields are read and
reading goes on with what follows, with fuel to spare. -/
theorem scan_prefix (fs : List RawField) (rest : Str) (hw : ∀ f ∈ fs, f.Wf) :
    ∃ fuel, rest.length < fuel ∧
      scan ((rawBytes fs ++ rest).length + 1) 0 (rawBytes fs ++ rest)
        = (fs ++ (scan fuel ((rawBytes fs).length : Int) rest).1,
            (scan fuel ((rawBytes fs).length : Int) rest).2) := by
  have hlen := rawBytes_length fs hw
  refine ⟨(rawBytes fs ++ rest).length + 1 - fs.length, ?_, ?_⟩
  · simp only [List.length_append]; omega
  · have hf : (rawBytes fs ++ rest).length + 1
        = fs.length + ((rawBytes fs ++ rest).length + 1 - fs.length) := by
      simp only [List.length_append]; omega
    have := scan_forward fs ((rawBytes fs ++ rest).length + 1 - fs.length) 0 rest hw
    rw [← hf, zero_add] at this
    exact this

theorem rawBytes_rawOfTriplet (ts : List EMVDataValue) :
    rawBytes (ts.map rawOfTriplet) = encodeTLV ts := by
  induction ts with
  | nil => rfl
  | cons t ts ih =>
    simp only [List.map_cons, rawBytes_cons, ih]
    simp [encodeTLV, encodeTriplet, rawOfTriplet]

theorem toTriplet_rawOfTriplet (ts : List EMVDataValue) :
    (ts.map rawOfTriplet).map RawField.toTriplet = ts := by
  induction ts with
  | nil => rfl
  | cons t ts ih => simp only [List.map_cons, ih]; rfl

theorem rawOfTriplet_wf (t : EMVDataValue) (h : t.Tag.length = 2 ∧ t.Value.length ≤ 99
    ∧ t.Length = (t.Value.length : Int)) : (rawOfTriplet t).Wf := by
  obtain ⟨h1, h2, h3⟩ := h
  have ht := pad2_table t.Value.length (by omega)
  refine ⟨h1, ?_, ?_, h3⟩
  · simp only [rawOfTriplet, h3, ht.1]; rfl
  · simp only [rawOfTriplet, h3, ht.2]

theorem lengthFields_scan (fuel : Nat) :
    ∀ (pre rest : Str), ∀ f ∈ (scan fuel (pre.length : Int) rest).1,
      f.lengthStr ∈ ParseEMVTLV.lengthFields (pre ++ rest) fuel (pre.length : Int) := by
  induction fuel with
  | zero => intro pre rest f hf; simp [scan] at hf
  | succ fuel ih =>
    intro pre rest
    match rest with
    | [] => simp [scan]
    | [a] => simp [scan]
    | [a, b] => simp [scan]
    | [a, b, c] => simp [scan]
    | t0 :: t1 :: l0 :: l1 :: rest =>
      have htag : slice (pre ++ t0 :: t1 :: l0 :: l1 :: rest) (pre.length : Int)
          ((pre.length : Int) + 2) = some [t0, t1] :=
        slice_mid _ pre [t0, t1] (l0 :: l1 :: rest) _ _ (by simp) rfl (by simp)
      have hlen : slice (pre ++ t0 :: t1 :: l0 :: l1 :: rest) ((pre.length : Int) + 2)
          ((pre.length : Int) + 2 + 2) = some [l0, l1] :=
        slice_mid _ (pre ++ [t0, t1]) [l0, l1] rest _ _ (by simp) (by simp) (by simp)
      unfold ParseEMVTLV.lengthFields scan
      rw [if_neg (by simp only [List.length_append, List.length_cons]; push_cast; omega),
        if_neg (by simp only [List.length_append, List.length_cons]; push_cast; omega)]
      simp only [htag, hlen]
      cases hA : Atoi [l0, l1] with
      | none => simp
      | some n =>
        simp only
        by_cases h1 : n > (rest.length : Int)
        · rw [if_pos h1]; simp
        · rw [if_neg h1]
          by_cases h2 : n < 0
          · rw [if_pos h2]; simp
          · rw [if_neg h2,
              if_neg (by simp only [List.length_append, List.length_cons]; push_cast; omega)]
            have hval : slice (pre ++ t0 :: t1 :: l0 :: l1 :: rest) ((pre.length : Int) + 2 + 2)
                ((pre.length : Int) + 2 + 2 + n) = some (rest.take n.toNat) :=
              slice_mid _ (pre ++ [t0, t1, l0, l1]) (rest.take n.toNat) (rest.drop n.toNat) _ _
                (by simp) (by simp; omega)
                (by simp only [List.length_append, List.length_cons, List.length_nil,
                      List.length_take]; push_cast; omega)
            simp only [hval]
            have hsplit : pre ++ t0 :: t1 :: l0 :: l1 :: rest
                = (pre ++ [t0, t1, l0, l1] ++ rest.take n.toNat) ++ rest.drop n.toNat := by simp
            have hpos : (pre.length : Int) + 2 + 2 + n
                = ((pre ++ [t0, t1, l0, l1] ++ rest.take n.toNat).length : Int) := by
              simp only [List.length_append, List.length_cons, List.length_nil, List.length_take]
              push_cast; omega
            intro f hf
            rcases List.mem_cons.1 hf with rfl | hf
            · exact List.mem_cons_self _ _
            · apply List.mem_cons_of_mem
              rw [hsplit, hpos]
              rw [hpos] at hf
              exact ih _ _ f hf

theorem rawBytes_of_twoDigits (fs : List RawField) (hw : ∀ f ∈ fs, f.Wf)
    (hd : ∀ f ∈ fs, TwoDigits f.lengthStr) :
    encodeTLV (fs.map RawField.toTriplet) = rawBytes fs := by
  induction fs with
  | nil => rfl
  | cons f fs ih =>
    have e := pad2_of_twoDigits f.lengthStr f.length (hd f (List.mem_cons_self _ _))
      (hw f (List.mem_cons_self _ _)).2.2.1
    have ih2 := ih (fun g hg => hw g (List.mem_cons_of_mem _ hg))
      (fun g hg => hd g (List.mem_cons_of_mem _ hg))
    rw [rawBytes_cons, ← ih2]
    simp [encodeTLV, encodeTriplet, RawField.toTriplet, e]

theorem Atoi_none_of (ll : Str) (hl : ll.length = 2) (h1 : ¬ TwoDigits ll)
    (h2 : ¬ SignDigit ll) : Atoi ll = none := by
  match ll, hl with
  | [l0, l1], _ =>
    simp only [TwoDigits, SignDigit, IsDigit, List.length_cons, List.length_nil, List.mem_cons,
      List.mem_singleton, List.head?_cons, List.tail_cons, Option.some.injEq, forall_eq_or_imp,
      forall_eq, List.not_mem_nil, false_implies, implies_true, and_true, true_and,
      Nat.reduceAdd] at h1 h2
    by_cases hs : l0 = 45 ∨ l0 = 43
    · have hd : ¬ (48 ≤ l1 ∧ l1 ≤ 57) := by
        intro hd
        apply h2
        exact ⟨by omega, hd⟩
      simp [Atoi, hs, atoiDigits, hd]
    · have hd : ¬ ((48 ≤ l0 ∧ l0 ≤ 57) ∧ 48 ≤ l1 ∧ l1 ≤ 57) := h1
      simp only [Atoi, if_neg hs, atoiDigits]
      by_cases h0 : 48 ≤ l0 ∧ l0 ≤ 57
      · have : ¬ (48 ≤ l1 ∧ l1 ≤ 57) := fun h => hd ⟨h0, h⟩
        simp [h0, this]
      · simp [h0]

/-! ## Totality: the iteration budget is never exhausted -/

theorem parseSubFields_ne_outOfFuel (v : Str) : parseSubFields v ≠ .outOfFuel := by
  rw [parseSubFields_eq_scan]
  have := scan_fuel (v.length + 1) 0 v (by omega)
  revert this
  cases (scan (v.length + 1) 0 v).2 <;> simp [Stop.toSub]

theorem parseMerchantAccountInfo_ne_outOfFuel (v : Str) :
    parseMerchantAccountInfo v ≠ .outOfFuel := by
  have := parseSubFields_ne_outOfFuel v
  unfold parseMerchantAccountInfo
  revert this
  cases parseSubFields v <;> simp

/-- A tag in the range `"02"` to `"51"` is none of the tags `mapEMVField`
names in a `case`. -/
theorem range_ne (tag c : Str) (hr : (strLe (str "02") tag && strLe tag (str "51")) = true)
    (hc : (strLe (str "02") c && strLe c (str "51")) = false) : tag ≠ c := by
  intro h
  rw [h, hc] at hr
  cases hr

/-- `mapEMVField` on tag `63` stores the value as the CRC. -/
theorem mapEMVField_63 (e : EMVData) (v : Str) :
    mapEMVField e (str "63") v = .ok { e with CRC := v } := by
  unfold mapEMVField
  rw [if_neg (by decide), if_neg (by decide), if_neg (by decide), if_neg (by decide),
    if_neg (by decide), if_neg (by decide), if_neg (by decide), if_neg (by decide),
    if_neg (by decide), if_neg (by decide), if_neg (by decide), if_neg (by decide),
    if_pos rfl]

/-- `mapEMVField` on tag `62` tokenizes the value as a nested stream. -/
theorem mapEMVField_62 (e : EMVData) (v : Str) :
    mapEMVField e (str "62") v =
      match parseSubFields v with
      | .ok subFields => .ok { e with AdditionalData := subFields }
      | .error err => .error (str "error parsing additional data: " ++ err)
      | .fault => .fault
      | .outOfFuel => .outOfFuel := by
  unfold mapEMVField
  rw [if_neg (by decide), if_neg (by decide), if_neg (by decide), if_neg (by decide),
    if_neg (by decide), if_neg (by decide), if_neg (by decide), if_neg (by decide),
    if_neg (by decide), if_neg (by decide), if_neg (by decide), if_pos rfl]

/-- `mapEMVField` on a tag in the range `"02"` to `"51"` tokenizes the value as
a merchant account. -/
theorem mapEMVField_range (e : EMVData) (tag v : Str)
    (hr : (strLe (str "02") tag && strLe tag (str "51")) = true) :
    mapEMVField e tag v =
      match parseMerchantAccountInfo v with
      | .ok merchantAccount =>
        .ok { e with
          MerchantAccountInfo :=
            e.MerchantAccountInfo.set tag (some { merchantAccount with RawValue := v }) }
      | .error err => .error (str "error parsing merchant account info: " ++ err)
      | .fault => .fault
      | .outOfFuel => .outOfFuel := by
  unfold mapEMVField
  rw [if_neg (range_ne tag _ hr (by decide)), if_neg (range_ne tag _ hr (by decide)),
    if_neg (range_ne tag _ hr (by decide)), if_neg (range_ne tag _ hr (by decide)),
    if_neg (range_ne tag _ hr (by decide)), if_neg (range_ne tag _ hr (by decide)),
    if_neg (range_ne tag _ hr (by decide)), if_neg (range_ne tag _ hr (by decide)),
    if_neg (range_ne tag _ hr (by decide)), if_neg (range_ne tag _ hr (by decide)),
    if_neg (range_ne tag _ hr (by decide)), if_neg (range_ne tag _ hr (by decide)),
    if_neg (range_ne tag _ hr (by decide)), if_pos hr]

/-- On every other tag `mapEMVField` succeeds and leaves the CRC as it was. -/
theorem mapEMVField_plain (e : EMVData) (tag v : Str) (hn : nestedTag tag = false)
    (h63 : tag ≠ str "63") :
    ∃ e1, mapEMVField e tag v = .ok e1 ∧ e1.CRC = e.CRC := by
  have h62 : tag ≠ str "62" := by
    intro h
    rw [h] at hn
    exact absurd hn (by decide)
  have hr : ¬ (strLe (str "02") tag && strLe tag (str "51")) = true := by
    intro h
    unfold nestedTag at hn
    rw [h, Bool.or_true] at hn
    cases hn
  unfold mapEMVField
  by_cases h00 : tag = str "00"
  · rw [if_pos h00]; exact ⟨_, rfl, rfl⟩
  rw [if_neg h00]
  by_cases h01 : tag = str "01"
  · rw [if_pos h01]; exact ⟨_, rfl, rfl⟩
  rw [if_neg h01]
  by_cases h52 : tag = str "52"
  · rw [if_pos h52]; exact ⟨_, rfl, rfl⟩
  rw [if_neg h52]
  by_cases h53 : tag = str "53"
  · rw [if_pos h53]; exact ⟨_, rfl, rfl⟩
  rw [if_neg h53]
  by_cases h54 : tag = str "54"
  · rw [if_pos h54]; exact ⟨_, rfl, rfl⟩
  rw [if_neg h54]
  by_cases h55 : tag = str "55"
  · rw [if_pos h55]; exact ⟨_, rfl, rfl⟩
  rw [if_neg h55]
  by_cases h56 : tag = str "56"
  · rw [if_pos h56]; exact ⟨_, rfl, rfl⟩
  rw [if_neg h56]
  by_cases h58 : tag = str "58"
  · rw [if_pos h58]; exact ⟨_, rfl, rfl⟩
  rw [if_neg h58]
  by_cases h59 : tag = str "59"
  · rw [if_pos h59]; exact ⟨_, rfl, rfl⟩
  rw [if_neg h59]
  by_cases h60 : tag = str "60"
  · rw [if_pos h60]; exact ⟨_, rfl, rfl⟩
  rw [if_neg h60]
  by_cases h61 : tag = str "61"
  · rw [if_pos h61]; exact ⟨_, rfl, rfl⟩
  rw [if_neg h61]
  rw [if_neg h62, if_neg h63, if_neg hr]
  by_cases hm : (strLe (str "64") tag && strLe tag (str "99")) = true
  · rw [if_pos hm]
    by_cases h99 : tag = str "99"
    · rw [if_pos h99]; exact ⟨_, rfl, rfl⟩
    · rw [if_neg h99]; exact ⟨_, rfl, rfl⟩
  · rw [if_neg hm]; exact ⟨_, rfl, rfl⟩

/-- The three ways `mapEMVField` treats a tag. -/
theorem nestedTag_cases (tag : Str) :
    tag = str "62" ∨ (strLe (str "02") tag && strLe tag (str "51")) = true
      ∨ nestedTag tag = false := by
  by_cases h62 : tag = str "62"
  · exact Or.inl h62
  · by_cases hr : (strLe (str "02") tag && strLe tag (str "51")) = true
    · exact Or.inr (Or.inl hr)
    · refine Or.inr (Or.inr ?_)
      unfold nestedTag
      rw [Bool.not_eq_true] at hr
      rw [hr, Bool.or_false]
      exact beq_false_of_ne h62

theorem mapEMVField_ne_outOfFuel (e : EMVData) (tag v : Str) :
    mapEMVField e tag v ≠ .outOfFuel := by
  have h1 := parseSubFields_ne_outOfFuel v
  have h2 := parseMerchantAccountInfo_ne_outOfFuel v
  rcases nestedTag_cases tag with h | h | h
  · rw [h, mapEMVField_62]
    revert h1
    cases parseSubFields v <;> simp
  · rw [mapEMVField_range e tag v h]
    revert h2
    cases parseMerchantAccountInfo v <;> simp
  · by_cases h63 : tag = str "63"
    · rw [h63, mapEMVField_63]; simp
    · obtain ⟨e1, he, _⟩ := mapEMVField_plain e tag v h h63
      rw [he]; simp

theorem mapFields_ne_outOfFuel (fs : List RawField) :
    ∀ e : EMVData, mapFields e fs ≠ .outOfFuel := by
  induction fs with
  | nil => intro e; simp [mapFields]
  | cons f fs ih =>
    intro e
    have h := mapEMVField_ne_outOfFuel e f.tag f.value
    unfold mapFields
    revert h
    cases hM : mapEMVField e f.tag f.value <;> intro h <;> simp_all

theorem ParseEMVTLV_ne_outOfFuel (s : Str) : ParseEMVTLV s ≠ .outOfFuel := by
  by_cases h4 : 4 ≤ s.length
  · rw [ParseEMVTLV_eq_scan s h4]
    have := scan_fuel (s.length + 1) 0 s (by omega)
    revert this
    cases (scan (s.length + 1) 0 s).2 <;> simp [Stop.toRes]
  · unfold ParseEMVTLV
    rw [if_pos (by omega)]
    simp

theorem DecodeEMVQR_loop_ne_outOfFuel (s : Str) :
    DecodeEMVQR.loop s (s.length + 1) 0 {} ≠ .outOfFuel := by
  rw [DecodeEMVQR_loop_eq_scan]
  have h1 := scan_fuel (s.length + 1) 0 s (by omega)
  have h2 := mapFields_ne_outOfFuel (scan (s.length + 1) 0 s).1 {}
  unfold decodeOutcome
  revert h1 h2
  cases (scan (s.length + 1) 0 s).2 <;> cases mapFields {} (scan (s.length + 1) 0 s).1 <;>
    simp [Stop.toRes]

theorem slice_eq_some (s : Str) (lo hi : Int) (h0 : 0 ≤ lo) (h1 : lo ≤ hi)
    (h2 : hi ≤ (s.length : Int)) :
    slice s lo hi = some ((s.drop lo.toNat).take (hi.toNat - lo.toNat)) := by
  unfold slice
  rw [if_pos ⟨h0, h1, h2⟩]

/-- The CRC validation of `DecodeEMVQR`, with its slices written as prefixes
and suffixes of the input. -/
theorem checkCRC_eq (s : Str) (e : EMVData) :
    DecodeEMVQR.checkCRC s e =
      if e.CRC = [] then .ok e
      else if s.length < 8 then
        .error (str "invalid EMV QR format: CRC tag not found at expected position")
      else if (s.drop (s.length - 8)).take 4 ≠ str "6304" then
        .error (str "invalid EMV QR format: CRC tag not found at expected position")
      else if e.CRC ≠ calculateCRC16 (s.take (s.length - 4)) then
        .error (str "invalid CRC: expected " ++ calculateCRC16 (s.take (s.length - 4))
          ++ str ", got " ++ e.CRC)
      else .ok e := by
  unfold DecodeEMVQR.checkCRC
  by_cases hc : e.CRC = []
  · rw [if_neg (not_not.2 hc), if_pos hc]
  · rw [if_pos hc, if_neg hc]
    by_cases h8 : s.length < 8
    · simp only
      rw [if_neg (by omega), if_pos h8]
    · simp only
      rw [if_pos (by omega), if_neg h8,
        slice_eq_some s _ _ (by omega) (by omega) (by omega),
        slice_eq_some s 0 _ (by omega) (by omega) (by omega)]
      have e1 : ((s.length : Int) - 8).toNat = s.length - 8 := by omega
      have e2 : ((s.length : Int) - 8 + 4).toNat - (s.length - 8) = 4 := by omega
      simp only [e1, e2, Int.toNat_zero, Nat.sub_zero, List.drop_zero]
      by_cases hh : (s.drop (s.length - 8)).take 4 = str "6304"
      · rw [if_pos hh, if_neg (not_not.2 hh)]
        have e4 : s.take (s.length - 8) ++ str "6304" = s.take (s.length - 4) := by
          rw [← hh]
          have : s.length - 4 = (s.length - 8) + 4 := by omega
          rw [this, List.take_add]
        rw [e4]
      · rw [if_neg hh, if_pos hh]

theorem checkCRC_ne_outOfFuel (s : Str) (e : EMVData) :
    DecodeEMVQR.checkCRC s e ≠ .outOfFuel := by
  rw [checkCRC_eq]
  repeat' split
  all_goals (intro h; cases h)

theorem DecodeEMVQR_ne_outOfFuel (s : Str) : DecodeEMVQR s ≠ .outOfFuel := by
  have h1 := DecodeEMVQR_loop_ne_outOfFuel s
  unfold DecodeEMVQR
  split_ifs
  · simp
  · revert h1
    cases hL : DecodeEMVQR.loop s (s.length + 1) 0 {} <;> intro h1 <;>
      simp_all [checkCRC_ne_outOfFuel]

/-! ## Mapping the fields read -/

theorem nestedTag_62 : nestedTag (str "62") = true := by decide

theorem nestedTag_of_range (tag : Str)
    (hr : (strLe (str "02") tag && strLe tag (str "51")) = true) : nestedTag tag = true := by
  unfold nestedTag
  rw [hr, Bool.or_true]

/-- `mapEMVField` succeeds exactly when the tag is not one whose value is
tokenized, or the nested tokenization of the value succeeds. -/
theorem mapEMVField_ok_iff (e : EMVData) (tag v : Str) :
    (∃ e1, mapEMVField e tag v = .ok e1)
      ↔ (nestedTag tag = true → ∃ m, parseSubFields v = .ok m) := by
  rcases nestedTag_cases tag with h | h | h
  · subst h
    rw [mapEMVField_62]
    cases parseSubFields v <;> simp [nestedTag_62]
  · rw [mapEMVField_range e tag v h]
    unfold parseMerchantAccountInfo
    cases parseSubFields v <;> simp [nestedTag_of_range tag h]
  · by_cases h63 : tag = str "63"
    · rw [h63, mapEMVField_63]
      simp only [Res.ok.injEq, exists_eq', true_iff]
      intro hn
      exact absurd hn (by decide)
    · obtain ⟨e1, he, _⟩ := mapEMVField_plain e tag v h h63
      rw [he, h]
      simp

/-- The fields map without error when the nested tokenization of every
field with a nested tag succeeds. -/
theorem mapFields_ok_iff (fs : List RawField) :
    ∀ e : EMVData, (∃ e1, mapFields e fs = .ok e1)
      ↔ (∀ f ∈ fs, nestedTag f.tag = true → ∃ m, parseSubFields f.value = .ok m) := by
  induction fs with
  | nil => intro e; simp [mapFields]
  | cons f fs ih =>
    intro e
    have h := mapEMVField_ok_iff e f.tag f.value
    unfold mapFields
    cases hM : mapEMVField e f.tag f.value with
    | ok e1 =>
      simp only [List.mem_cons, forall_eq_or_imp]
      rw [ih e1]
      rw [hM] at h
      have h2 := h.1 ⟨e1, rfl⟩
      exact ⟨fun hh => ⟨h2, hh⟩, fun hh => hh.2⟩
    | error err =>
      rw [hM] at h
      simp only [List.mem_cons, forall_eq_or_imp, false_iff, exists_false, reduceCtorEq]
      intro hh
      obtain ⟨e1, he1⟩ := h.2 hh.1
      cases he1
    | fault =>
      rw [hM] at h
      simp only [List.mem_cons, forall_eq_or_imp, false_iff, exists_false, reduceCtorEq]
      intro hh
      obtain ⟨e1, he1⟩ := h.2 hh.1
      cases he1
    | outOfFuel =>
      rw [hM] at h
      simp only [List.mem_cons, forall_eq_or_imp, false_iff, exists_false, reduceCtorEq]
      intro hh
      obtain ⟨e1, he1⟩ := h.2 hh.1
      cases he1

/-- `DecodeEMVQR` on an input of at least 4 bytes: the fields read are mapped,
then the reason of stopping decides, then the CRC is validated. -/
theorem DecodeEMVQR_eq_scan (s : Str) (h : 4 ≤ s.length) :
    DecodeEMVQR s =
      match decodeOutcome {} (scan (s.length + 1) 0 s) with
      | .ok emvData => DecodeEMVQR.checkCRC s emvData
      | .error err => .error err
      | .fault => .fault
      | .outOfFuel => .outOfFuel := by
  unfold DecodeEMVQR
  rw [if_neg (by omega), DecodeEMVQR_loop_eq_scan]

/-- Reading stops with a malformed length at a header whose length field
`Atoi` rejects, placed after well-formed fields. -/
theorem scan_badLength (fs : List RawField) (tag ll rest : Str) (hw : ∀ f ∈ fs, f.Wf)
    (ht : tag.length = 2) (hl : ll.length = 2) (hA : Atoi ll = none) :
    scan ((rawBytes fs ++ tag ++ ll ++ rest).length + 1) 0 (rawBytes fs ++ tag ++ ll ++ rest)
      = (fs, .badLength (((rawBytes fs).length : Int) + 2) ll) := by
  match tag, ht, ll, hl with
  | [t0, t1], _, [l0, l1], _ =>
    obtain ⟨fuel, hfuel, hscan⟩ := scan_prefix fs (t0 :: t1 :: l0 :: l1 :: rest) hw
    obtain ⟨fuel, rfl⟩ := Nat.exists_eq_succ_of_ne_zero (by omega : fuel ≠ 0)
    have e : rawBytes fs ++ [t0, t1] ++ [l0, l1] ++ rest
        = rawBytes fs ++ t0 :: t1 :: l0 :: l1 :: rest := by simp
    rw [e, hscan, scan]
    simp only [hA, List.append_nil]
    congr 2
    omega

/-- Reading stops with a truncated value at a header whose declared length
exceeds what follows it, placed after well-formed fields. -/
theorem scan_truncated (fs : List RawField) (tag ll rest : Str) (n : Int)
    (hw : ∀ f ∈ fs, f.Wf) (ht : tag.length = 2) (hl : ll.length = 2) (hA : Atoi ll = some n)
    (hn : n > (rest.length : Int)) :
    scan ((rawBytes fs ++ tag ++ ll ++ rest).length + 1) 0 (rawBytes fs ++ tag ++ ll ++ rest)
      = (fs, .truncated tag) := by
  match tag, ht, ll, hl with
  | [t0, t1], _, [l0, l1], _ =>
    obtain ⟨fuel, hfuel, hscan⟩ := scan_prefix fs (t0 :: t1 :: l0 :: l1 :: rest) hw
    obtain ⟨fuel, rfl⟩ := Nat.exists_eq_succ_of_ne_zero (by omega : fuel ≠ 0)
    have e : rawBytes fs ++ [t0, t1] ++ [l0, l1] ++ rest
        = rawBytes fs ++ t0 :: t1 :: l0 :: l1 :: rest := by simp
    rw [e, hscan, scan]
    simp only [hA]
    rw [if_pos hn]
    simp only [List.append_nil]

theorem header_length (pre tag ll rest : Str) (ht : tag.length = 2) (hl : ll.length = 2) :
    4 ≤ (pre ++ tag ++ ll ++ rest).length := by
  simp only [List.length_append]; omega

/-- A successful `DecodeEMVQR` went through the loop and the CRC validation. -/
theorem DecodeEMVQR_ok (s : Str) (d : EMVData) (h : DecodeEMVQR s = .ok d) :
    ∃ e, 4 ≤ s.length ∧ DecodeEMVQR.loop s (s.length + 1) 0 {} = .ok e
      ∧ DecodeEMVQR.checkCRC s e = .ok d := by
  unfold DecodeEMVQR at h
  by_cases h4 : s.length < 4
  · rw [if_pos h4] at h; cases h
  · rw [if_neg h4] at h
    cases hL : DecodeEMVQR.loop s (s.length + 1) 0 {} with
    | ok e => rw [hL] at h; exact ⟨e, by omega, rfl, h⟩
    | error err => rw [hL] at h; cases h
    | fault => rw [hL] at h; cases h
    | outOfFuel => rw [hL] at h; cases h

/-- A successful CRC validation returns the payload unchanged, and has compared
a non-empty CRC with the checksum of the input without its last 4 bytes. -/
theorem checkCRC_ok (s : Str) (e d : EMVData) (h : DecodeEMVQR.checkCRC s e = .ok d)
    (hc : d.CRC ≠ []) :
    8 ≤ s.length ∧ (s.drop (s.length - 8)).take 4 = str "6304"
      ∧ d.CRC = calculateCRC16 (s.take (s.length - 4)) := by
  rw [checkCRC_eq] at h
  by_cases c1 : e.CRC = []
  · rw [if_pos c1] at h
    cases h
    exact absurd c1 hc
  · rw [if_neg c1] at h
    by_cases c2 : s.length < 8
    · rw [if_pos c2] at h; cases h
    · rw [if_neg c2] at h
      by_cases c3 : (s.drop (s.length - 8)).take 4 ≠ str "6304"
      · rw [if_pos c3] at h; cases h
      · rw [if_neg c3] at h
        by_cases c4 : e.CRC ≠ calculateCRC16 (s.take (s.length - 4))
        · rw [if_pos c4] at h; cases h
        · rw [if_neg c4] at h
          cases h
          exact ⟨by omega, not_not.1 c3, not_not.1 c4⟩

theorem checkCRC_ok_eq (s : Str) (e d : EMVData) (h : DecodeEMVQR.checkCRC s e = .ok d) :
    d = e := by
  rw [checkCRC_eq] at h
  repeat' split at h
  all_goals first | (cases h; rfl) | cases h

theorem Atoi_eq_four (l0 l1 : Nat) (h : Atoi [l0, l1] = some 4) :
    l1 = 52 ∧ (l0 = 48 ∨ l0 = 43) := by
  by_cases hs : l0 = 45 ∨ l0 = 43
  · by_cases hd : 48 ≤ l1 ∧ l1 ≤ 57
    · simp only [Atoi, if_pos hs, atoiDigits, hd, and_self, if_true] at h
      simp at h
      split_ifs at h with h45
      · simp at h; omega
      · simp at h
        omega
    · simp [Atoi, hs, atoiDigits, hd] at h
  · by_cases h0 : 48 ≤ l0 ∧ l0 ≤ 57
    · by_cases h1 : 48 ≤ l1 ∧ l1 ≤ 57
      · have := Atoi_two_digits l0 l1 h0 h1
        rw [this] at h
        simp only [Option.some.injEq] at h
        omega
      · simp [Atoi, hs, atoiDigits, h0, h1] at h
    · simp [Atoi, hs, atoiDigits, h0] at h

theorem mapFields_append (xs ys : List RawField) :
    ∀ e : EMVData, mapFields e (xs ++ ys) =
      match mapFields e xs with
      | .ok e1 => mapFields e1 ys
      | .error err => .error err
      | .fault => .fault
      | .outOfFuel => .outOfFuel := by
  induction xs with
  | nil => intro e; rfl
  | cons x xs ih =>
    intro e
    simp only [List.cons_append, mapFields]
    cases mapEMVField e x.tag x.value with
    | ok e1 => exact ih e1
    | error err => rfl
    | fault => rfl
    | outOfFuel => rfl

/-! ## A CRC field at the end of the input -/

theorem take_drop_tail (p h w : Str) (hh : h.length = 4) (hw : w.length = 4) :
    8 ≤ (p ++ h ++ w).length
      ∧ ((p ++ h ++ w).drop ((p ++ h ++ w).length - 8)).take 4 = h
      ∧ (p ++ h ++ w).take ((p ++ h ++ w).length - 4) = p ++ h
      ∧ (p ++ h ++ w).drop ((p ++ h ++ w).length - 4) = w := by
  have e1 : (p ++ h ++ w).length - 8 = p.length := by
    simp only [List.length_append]; omega
  have e2 : (p ++ h ++ w).length - 4 = (p ++ h).length := by
    simp only [List.length_append]; omega
  refine ⟨by simp only [List.length_append]; omega, ?_, ?_, ?_⟩
  · rw [e1, List.append_assoc, List.drop_left, ← hh, List.take_left]
  · rw [e2, List.take_left]
  · rw [e2, List.drop_left]

theorem crcField_wf (w : Str) (hl : w.length = 4) : (crcField w).Wf := by
  refine ⟨?_, ?_, ?_, ?_⟩
  · show (str "63").length = 2
    decide
  · show (str "04").length = 2
    decide
  · show Atoi (str "04") = some 4
    decide
  · show (4 : Int) = (w.length : Int)
    rw [hl]; rfl

/-- `DecodeEMVQR` on well-formed fields that map without error, followed by a
CRC field `6304` with a 4-byte value. -/
theorem decode_crc_last (fs0 : List RawField) (e0 : EMVData) (w : Str)
    (hw : ∀ f ∈ fs0, f.Wf) (hm : mapFields {} fs0 = .ok e0) (hl : w.length = 4) :
    DecodeEMVQR (rawBytes fs0 ++ str "6304" ++ w) =
      if w ≠ calculateCRC16 (rawBytes fs0 ++ str "6304") then
        .error (str "invalid CRC: expected " ++ calculateCRC16 (rawBytes fs0 ++ str "6304")
          ++ str ", got " ++ w)
      else .ok { e0 with CRC := w } := by
  have hwf : ∀ f ∈ fs0 ++ [crcField w], f.Wf := by
    intro f hf
    rcases List.mem_append.1 hf with hf | hf
    · exact hw f hf
    · rw [List.mem_singleton] at hf
      subst hf
      exact crcField_wf w hl
  have hbytes : rawBytes (fs0 ++ [crcField w]) = rawBytes fs0 ++ str "6304" ++ w := by
    rw [rawBytes_append, rawBytes_cons]
    simp only [rawBytes, List.map_nil, List.flatten_nil, List.append_nil, List.append_assoc]
    rfl
  obtain ⟨h8, hhead, htake, _⟩ := take_drop_tail (rawBytes fs0) (str "6304") w (by decide) hl
  obtain ⟨fuel, hfuel, hscan⟩ := scan_prefix _ [] hwf
  rw [List.append_nil, hbytes, scan_short fuel _ [] (by omega) (by simp)] at hscan
  rw [DecodeEMVQR_eq_scan _ (by omega), hscan]
  simp only [decodeOutcome, List.append_nil]
  rw [mapFields_append, hm]
  simp only [mapFields, crcField, mapEMVField_63, Stop.toRes]
  rw [checkCRC_eq]
  have hne : w ≠ [] := by
    intro h; rw [h] at hl; cases hl
  simp only
  rw [if_neg hne, if_neg (by omega), if_neg (not_not.2 hhead), htake]

/-- The header of a field of length 4 that follows the bytes `6304` at distance
8 from the end of the input is the header `6304` itself: no fragment follows. -/
theorem crc_header_pos (p ll v frag : Str) (hl : ll.length = 2) (hv : v.length = 4)
    (hA : Atoi ll = some 4) (hfrag : frag.length < 4)
    (hh : ((p ++ str "63" ++ ll ++ v ++ frag).drop
      ((p ++ str "63" ++ ll ++ v ++ frag).length - 8)).take 4 = str "6304") :
    frag = [] ∧ ll = str "04" := by
  have e1 : (p ++ str "63" ++ ll ++ v ++ frag).length - 8 = p.length + frag.length := by
    simp only [List.length_append, hl, hv]
    have : (str "63").length = 2 := by decide
    omega
  have e2 : p ++ str "63" ++ ll ++ v ++ frag = p ++ (str "63" ++ ll ++ v ++ frag) := by
    simp only [List.append_assoc]
  rw [e1, e2, List.drop_append] at hh
  match ll, hl, v, hv with
  | [l0, l1], _, [v0, v1, v2, v3], _ =>
    obtain ⟨h1, h0⟩ := Atoi_eq_four l0 l1 hA
    have e63 : str "63" = [54, 51] := by decide
    have e6304 : str "6304" = [54, 51, 48, 52] := by decide
    have e04 : str "04" = [48, 52] := by decide
    rw [e63, e6304] at hh
    rw [e04]
    match frag, hfrag with
    | [], _ =>
      simp at hh
      simp [hh.1, hh.2]
    | [_], _ => simp at hh
    | [_, _], _ => simp at hh; omega
    | [_, _, _], _ => simp at hh; omega
    | _ :: _ :: _ :: _ :: _, hf => simp at hf; omega

/-- When `DecodeEMVQR` succeeds and the last field tokenized is the tag-63
field with a 4-byte value, the input is well-formed fields followed by `6304`
and the checksum of everything before the checksum. -/
theorem crc_last_shape (s : Str) (d : EMVData) (ts : List EMVDataValue) (v : Str)
    (h : DecodeEMVQR s = .ok d) (hp : ParseEMVTLV s = .ok ts)
    (hlast : ts.getLast? = some { Tag := str "63", Length := 4, Value := v }) :
    ∃ fs0 e0, (∀ f ∈ fs0, f.Wf) ∧ mapFields {} fs0 = .ok e0 ∧ v.length = 4
      ∧ s = rawBytes fs0 ++ str "6304" ++ v
      ∧ v = calculateCRC16 (rawBytes fs0 ++ str "6304") ∧ d = { e0 with CRC := v } := by
  obtain ⟨h4, fs, frag, hscan, hts, hw, hs, hfrag⟩ := ParseEMVTLV_ok_scan s ts hp
  rw [hts, List.getLast?_map] at hlast
  cases hf : fs.getLast? with
  | none => rw [hf] at hlast; cases hlast
  | some f =>
    rw [hf] at hlast
    simp only [Option.map_some', Option.some.injEq] at hlast
    obtain ⟨fs0, rfl⟩ := List.getLast?_eq_some_iff.1 hf
    obtain ⟨tag, ll, n, val⟩ := f
    simp only [RawField.toTriplet, EMVDataValue.mk.injEq] at hlast
    obtain ⟨rfl, rfl, rfl⟩ := hlast
    obtain ⟨_, hll, hA, hv⟩ := hw _ (List.mem_append_right _ (List.mem_singleton_self _))
    simp only at hll hA hv
    have hv4 : val.length = 4 := by omega
    have hw0 : ∀ f ∈ fs0, f.Wf := fun f hf => hw f (List.mem_append_left _ hf)
    -- the decoder's run
    rw [DecodeEMVQR_eq_scan s h4, hscan] at h
    simp only [decodeOutcome] at h
    rw [mapFields_append] at h
    cases hm : mapFields {} fs0 with
    | ok e0 =>
      rw [hm] at h
      simp only [mapFields, mapEMVField_63, Stop.toRes] at h
      have hd := checkCRC_ok_eq s _ d h
      have hne : d.CRC ≠ [] := by
        rw [hd]
        intro hc
        simp only at hc
        rw [hc] at hv4
        cases hv4
      obtain ⟨h8, hhead, hcrc⟩ := checkCRC_ok s _ d h hne
      have hs2 : s = rawBytes fs0 ++ str "63" ++ ll ++ val ++ frag := by
        rw [hs, rawBytes_append, rawBytes_cons]
        simp only [rawBytes, List.map_nil, List.flatten_nil, List.append_nil, List.append_assoc]
      rw [hs2] at hhead
      obtain ⟨rfl, rfl⟩ := crc_header_pos (rawBytes fs0) ll val frag hll hv4 hA hfrag hhead
      have hs3 : s = rawBytes fs0 ++ str "6304" ++ val := by
        rw [hs2]
        simp only [List.append_nil, List.append_assoc]
        rfl
      obtain ⟨_, _, htake, _⟩ := take_drop_tail (rawBytes fs0) (str "6304") val (by decide) hv4
      refine ⟨fs0, e0, hw0, hm, hv4, hs3, ?_, hd⟩
      rw [hd, hs3, htake] at hcrc
      exact hcrc
    | error err => rw [hm] at h; cases h
    | fault => rw [hm] at h; cases h
    | outOfFuel => rw [hm] at h; cases h

/-! ## Inputs without a CRC field -/

/-- `mapEMVField` changes the CRC only for tag `63`. -/
theorem mapEMVField_crc (e e1 : EMVData) (tag v : Str) (h63 : tag ≠ str "63")
    (h : mapEMVField e tag v = .ok e1) : e1.CRC = e.CRC := by
  rcases nestedTag_cases tag with hc | hc | hc
  · rw [hc, mapEMVField_62] at h
    cases hp : parseSubFields v with
    | ok m => rw [hp] at h; cases h; rfl
    | error err => rw [hp] at h; cases h
    | fault => rw [hp] at h; cases h
    | outOfFuel => rw [hp] at h; cases h
  · rw [mapEMVField_range e tag v hc] at h
    cases hp : parseMerchantAccountInfo v with
    | ok m => rw [hp] at h; cases h; rfl
    | error err => rw [hp] at h; cases h
    | fault => rw [hp] at h; cases h
    | outOfFuel => rw [hp] at h; cases h
  · obtain ⟨e2, he, hcrc⟩ := mapEMVField_plain e tag v hc h63
    rw [he] at h
    cases h
    exact hcrc

theorem mapFields_crc (fs : List RawField) (h63 : ∀ f ∈ fs, f.tag ≠ str "63") :
    ∀ e e1 : EMVData, mapFields e fs = .ok e1 → e1.CRC = e.CRC := by
  induction fs with
  | nil => intro e e1 h; cases h; rfl
  | cons f fs ih =>
    intro e e1 h
    unfold mapFields at h
    cases hm : mapEMVField e f.tag f.value with
    | ok e2 =>
      rw [hm] at h
      rw [ih (fun g hg => h63 g (List.mem_cons_of_mem _ hg)) e2 e1 h]
      exact mapEMVField_crc e e2 f.tag f.value (h63 f (List.mem_cons_self _ _)) hm
    | error err => rw [hm] at h; cases h
    | fault => rw [hm] at h; cases h
    | outOfFuel => rw [hm] at h; cases h

theorem checkCRC_empty (s : Str) (e : EMVData) (h : e.CRC = []) :
    DecodeEMVQR.checkCRC s e = .ok e := by
  rw [checkCRC_eq, if_pos h]

/-- On a tag of two ASCII digits, `nestedTag` holds exactly for the decimal
tags 02 to 51 and 62. -/
theorem nestedTag_two_digits : ∀ a : Nat, a < 10 → ∀ b : Nat, b < 10 →
    nestedTag [48 + a, 48 + b]
      = decide ((2 ≤ a * 10 + b ∧ a * 10 + b ≤ 51) ∨ a * 10 + b = 62) := by
  decide

/-- Without a top-level tag-63 field the CRC stays empty and the validation
returns what the loop has built. -/
theorem decode_without_crc_field (s : Str) (h4 : 4 ≤ s.length)
    (hno : ∀ ts, ParseEMVTLV s = .ok ts → ∀ t ∈ ts, t.Tag ≠ str "63") :
    ((∃ d, DecodeEMVQR s = .ok d) ↔
        ∃ ts, ParseEMVTLV s = .ok ts
          ∧ ∀ t ∈ ts, nestedTag t.Tag = true → ∃ m, parseSubFields t.Value = .ok m)
      ∧ (∀ e, DecodeEMVQR.loop s (s.length + 1) 0 {} = .ok e → DecodeEMVQR s = .ok e)
      ∧ (∀ d, DecodeEMVQR s = .ok d → d.CRC = []) := by
  have hP := ParseEMVTLV_eq_scan s h4
  have hD := DecodeEMVQR_eq_scan s h4
  have hL := DecodeEMVQR_loop_eq_scan s
  generalize hsc : scan (s.length + 1) 0 s = r at hP hD hL
  obtain ⟨fs, st⟩ := r
  simp only [decodeOutcome] at hD hL
  cases st with
  | eof frag =>
    simp only [Stop.toRes] at hP hD hL
    have h63 : ∀ f ∈ fs, f.tag ≠ str "63" := by
      intro f hf
      exact hno _ hP (f.toTriplet) (List.mem_map_of_mem _ hf)
    have hcrc : ∀ e, mapFields {} fs = .ok e → e.CRC = [] := fun e he =>
      mapFields_crc fs h63 {} e he
    have hiff := mapFields_ok_iff fs {}
    refine ⟨?_, ?_, ?_⟩
    · rw [hP, hD]
      constructor
      · rintro ⟨d, hd⟩
        refine ⟨_, rfl, ?_⟩
        intro t ht
        obtain ⟨f, hf, rfl⟩ := List.mem_map.1 ht
        refine hiff.1 ?_ f hf
        cases hm : mapFields {} fs with
        | ok e => exact ⟨e, rfl⟩
        | error err => rw [hm] at hd; cases hd
        | fault => rw [hm] at hd; cases hd
        | outOfFuel => rw [hm] at hd; cases hd
      · rintro ⟨ts, hts, hnest⟩
        cases hts
        obtain ⟨e, he⟩ := hiff.2 (fun f hf => hnest f.toTriplet (List.mem_map_of_mem _ hf))
        rw [he]
        exact ⟨e, checkCRC_empty s e (hcrc e he)⟩
    · intro e he
      rw [hL] at he
      rw [hD]
      cases hm : mapFields {} fs with
      | ok e2 =>
        rw [hm] at he
        cases he
        exact checkCRC_empty s e (hcrc e hm)
      | error err => rw [hm] at he; cases he
      | fault => rw [hm] at he; cases he
      | outOfFuel => rw [hm] at he; cases he
    · intro d hd
      rw [hD] at hd
      cases hm : mapFields {} fs with
      | ok e =>
        rw [hm] at hd
        simp only at hd
        rw [checkCRC_ok_eq s e d hd]
        exact hcrc e hm
      | error err => rw [hm] at hd; cases hd
      | fault => rw [hm] at hd; cases hd
      | outOfFuel => rw [hm] at hd; cases hd
  | badLength pos ll =>
    have hDn : ∀ d, DecodeEMVQR s ≠ .ok d := by
      intro d; rw [hD]; cases mapFields {} fs <;> simp [Stop.toRes]
    have hLn : ∀ e, DecodeEMVQR.loop s (s.length + 1) 0 {} ≠ .ok e := by
      intro d; rw [hL]; cases mapFields {} fs <;> simp [Stop.toRes]
    refine ⟨⟨fun ⟨d, hd⟩ => absurd hd (hDn d), ?_⟩, fun e he => absurd he (hLn e),
      fun d hd => absurd hd (hDn d)⟩
    rintro ⟨ts, hts, _⟩
    rw [hP] at hts
    cases hts
  | truncated tag =>
    have hDn : ∀ d, DecodeEMVQR s ≠ .ok d := by
      intro d; rw [hD]; cases mapFields {} fs <;> simp [Stop.toRes]
    have hLn : ∀ e, DecodeEMVQR.loop s (s.length + 1) 0 {} ≠ .ok e := by
      intro d; rw [hL]; cases mapFields {} fs <;> simp [Stop.toRes]
    refine ⟨⟨fun ⟨d, hd⟩ => absurd hd (hDn d), ?_⟩, fun e he => absurd he (hLn e),
      fun d hd => absurd hd (hDn d)⟩
    rintro ⟨ts, hts, _⟩
    rw [hP] at hts
    cases hts
  | negative =>
    have hDn : ∀ d, DecodeEMVQR s ≠ .ok d := by
      intro d; rw [hD]; cases mapFields {} fs <;> simp [Stop.toRes]
    have hLn : ∀ e, DecodeEMVQR.loop s (s.length + 1) 0 {} ≠ .ok e := by
      intro d; rw [hL]; cases mapFields {} fs <;> simp [Stop.toRes]
    refine ⟨⟨fun ⟨d, hd⟩ => absurd hd (hDn d), ?_⟩, fun e he => absurd he (hLn e),
      fun d hd => absurd hd (hDn d)⟩
    rintro ⟨ts, hts, _⟩
    rw [hP] at hts
    cases hts
  | outOfFuel =>
    have hDn : ∀ d, DecodeEMVQR s ≠ .ok d := by
      intro d; rw [hD]; cases mapFields {} fs <;> simp [Stop.toRes]
    have hLn : ∀ e, DecodeEMVQR.loop s (s.length + 1) 0 {} ≠ .ok e := by
      intro d; rw [hL]; cases mapFields {} fs <;> simp [Stop.toRes]
    refine ⟨⟨fun ⟨d, hd⟩ => absurd hd (hDn d), ?_⟩, fun e he => absurd he (hLn e),
      fun d hd => absurd hd (hDn d)⟩
    rintro ⟨ts, hts, _⟩
    rw [hP] at hts
    cases hts

/-! ## The checksum's rendering -/

theorem hexDigits_lt16 (fuel n : Nat) (h : n < 16) : hexDigits (fuel + 1) n = [hexDigit n] := by
  simp [hexDigits, h]

theorem hexDigits_step (fuel n : Nat) (h : ¬ n < 16) :
    hexDigits (fuel + 1) n = hexDigits fuel (n / 16) ++ [hexDigit (n % 16)] := by
  simp [hexDigits, h]

/-- `%04X` of a 16-bit value is its four hexadecimal digits. -/
theorem fmtHex04_eq (n : Nat) (h : n < 65536) :
    fmtHex04 n = [hexDigit (n / 4096), hexDigit (n / 256 % 16), hexDigit (n / 16 % 16),
      hexDigit (n % 16)] := by
  unfold fmtHex04
  by_cases h1 : n < 16
  · rw [hexDigits_lt16 n n h1]
    have e1 : n / 4096 = 0 := by omega
    have e2 : n / 256 % 16 = 0 := by omega
    have e3 : n / 16 % 16 = 0 := by omega
    have e4 : n % 16 = n := by omega
    rw [e1, e2, e3, e4]
    rfl
  · obtain ⟨f1, hf1⟩ : ∃ f, n = f + 1 := ⟨n - 1, by omega⟩
    by_cases h2 : n / 16 < 16
    · have : hexDigits (n + 1) n = [hexDigit (n / 16), hexDigit (n % 16)] := by
        rw [hexDigits_step n n h1, hf1, hexDigits_lt16 f1 _ (by omega)]
        simp
      rw [this]
      have e1 : n / 4096 = 0 := by omega
      have e2 : n / 256 % 16 = 0 := by omega
      have e3 : n / 16 % 16 = n / 16 := by omega
      rw [e1, e2, e3]
      rfl
    · obtain ⟨f2, hf2⟩ : ∃ f, f1 = f + 1 := ⟨f1 - 1, by omega⟩
      by_cases h3 : n / 16 / 16 < 16
      · have : hexDigits (n + 1) n
            = [hexDigit (n / 16 / 16), hexDigit (n / 16 % 16), hexDigit (n % 16)] := by
          rw [hexDigits_step n n h1, hf1, hexDigits_step f1 _ (by omega), hf2,
            hexDigits_lt16 f2 _ (by omega)]
          simp
        rw [this]
        have e1 : n / 4096 = 0 := by omega
        have e2 : n / 256 % 16 = n / 16 / 16 := by omega
        rw [e1, e2]
        rfl
      · obtain ⟨f3, hf3⟩ : ∃ f, f2 = f + 1 := ⟨f2 - 1, by omega⟩
        have : hexDigits (n + 1) n
            = [hexDigit (n / 16 / 16 / 16), hexDigit (n / 16 / 16 % 16), hexDigit (n / 16 % 16),
                hexDigit (n % 16)] := by
          rw [hexDigits_step n n h1, hf1, hexDigits_step f1 _ (by omega), hf2,
            hexDigits_step f2 _ (by omega), hf3, hexDigits_lt16 f3 _ (by omega)]
          simp
        rw [this]
        have e1 : n / 4096 = n / 16 / 16 / 16 := by omega
        have e2 : n / 256 % 16 = n / 16 / 16 % 16 := by omega
        rw [e1, e2]
        rfl

theorem hexDigit_range (d : Nat) (h : d < 16) :
    (48 ≤ hexDigit d ∧ hexDigit d ≤ 57) ∨ (65 ≤ hexDigit d ∧ hexDigit d ≤ 70) := by
  unfold hexDigit
  split <;> omega

/-! ## Go's string order -/

theorem strLe_refl (a : Str) : strLe a a = true := by
  induction a with
  | nil => rfl
  | cons x xs ih => simp [strLe, ih]

theorem strLe_trans : ∀ (a b c : Str), strLe a b = true → strLe b c = true → strLe a c = true := by
  intro a
  induction a with
  | nil => intro b c _ _; rfl
  | cons x xs ih =>
    intro b c hab hbc
    match b, c with
    | [], _ => simp [strLe] at hab
    | _ :: _, [] => simp [strLe] at hbc
    | y :: ys, z :: zs =>
      simp only [strLe, Bool.or_eq_true, decide_eq_true_eq, Bool.and_eq_true, beq_iff_eq] at hab hbc ⊢
      rcases hab with hab | ⟨hab, hab2⟩
      · rcases hbc with hbc | ⟨hbc, _⟩
        · exact Or.inl (by omega)
        · exact Or.inl (by omega)
      · rcases hbc with hbc | ⟨hbc, hbc2⟩
        · exact Or.inl (by omega)
        · exact Or.inr ⟨by omega, ih ys zs hab2 hbc2⟩

theorem strLe_antisymm : ∀ (a b : Str), strLe a b = true → strLe b a = true → a = b := by
  intro a
  induction a with
  | nil =>
    intro b _ hba
    match b with
    | [] => rfl
    | _ :: _ => simp [strLe] at hba
  | cons x xs ih =>
    intro b hab hba
    match b with
    | [] => simp [strLe] at hab
    | y :: ys =>
      simp only [strLe, Bool.or_eq_true, decide_eq_true_eq, Bool.and_eq_true, beq_iff_eq] at hab hba
      rcases hab with hab | ⟨hab, hab2⟩
      · rcases hba with hba | ⟨hba, _⟩
        · omega
        · omega
      · rcases hba with hba | ⟨_, hba2⟩
        · omega
        · rw [hab, ih ys hab2 hba2]

theorem strLe_total : ∀ (a b : Str), strLe a b = true ∨ strLe b a = true := by
  intro a
  induction a with
  | nil => intro b; exact Or.inl rfl
  | cons x xs ih =>
    intro b
    match b with
    | [] => exact Or.inr rfl
    | y :: ys =>
      simp only [strLe, Bool.or_eq_true, decide_eq_true_eq, Bool.and_eq_true, beq_iff_eq]
      rcases Nat.lt_trichotomy x y with h | h | h
      · exact Or.inl (Or.inl h)
      · rcases ih ys with h2 | h2
        · exact Or.inl (Or.inr ⟨h, h2⟩)
        · exact Or.inr (Or.inr ⟨h.symm, h2⟩)
      · exact Or.inr (Or.inl h)

/-- A string above `a` is none of the strings that are not above `a`. -/
theorem ne_of_strLe_left (a t c : Str) (h : strLe a t = true) (hc : strLe a c = false) :
    t ≠ c := by
  intro e
  rw [e, hc] at h
  cases h

/-- A string below `b` is none of the strings that are not below `b`. -/
theorem ne_of_strLe_right (b t c : Str) (h : strLe t b = true) (hc : strLe c b = false) :
    t ≠ c := by
  intro e
  rw [e, hc] at h
  cases h

/-! ## Maps -/

theorem GoMap.get?_set {β : Type} (m : GoMap β) (k k1 : Str) (v : β) :
    GoMap.get? (GoMap.set m k v) k1 = if k1 = k then some v else GoMap.get? m k1 := by
  induction m with
  | nil => simp [GoMap.set, GoMap.get?]
  | cons kv rest ih =>
    obtain ⟨k0, v0⟩ := kv
    unfold GoMap.set
    by_cases h0 : k = k0
    · rw [if_pos h0]
      subst h0
      simp only [GoMap.get?]
      by_cases h1 : k1 = k
      · rw [if_pos h1, if_pos h1]
      · rw [if_neg h1, if_neg h1, if_neg h1]
    · rw [if_neg h0]
      by_cases hle : strLe k k0 = true
      · rw [if_pos hle]
        simp only [GoMap.get?]
      · rw [if_neg hle]
        simp only [GoMap.get?]
        by_cases h2 : k1 = k0
        · rw [if_pos h2, if_neg (by rw [h2]; exact fun h => h0 h.symm), if_pos h2]
        · rw [if_neg h2, ih, if_neg h2]

/-! ## The remaining branches of `mapEMVField` -/

/-- `mapEMVField` on a tag outside the `case` list and outside the range `"02"`
to `"51"`: the merchant-information range decides. -/
theorem mapEMVField_default (e : EMVData) (tag v : Str) (hc : tag ∉ caseTags)
    (hr : (strLe (str "02") tag && strLe tag (str "51")) = false) :
    mapEMVField e tag v =
      if (strLe (str "64") tag && strLe tag (str "99")) = true then
        if tag = str "99" then
          .ok { e with UnresolvedData := e.UnresolvedData.set tag v }
        else .ok { e with MerchantInformation := e.MerchantInformation.set tag v }
      else .ok { e with UnresolvedData := e.UnresolvedData.set tag v } := by
  have hne : ∀ c, c ∈ caseTags → tag ≠ c := fun c hcm h => hc (h ▸ hcm)
  unfold mapEMVField
  rw [if_neg (hne _ (by decide)), if_neg (hne _ (by decide)), if_neg (hne _ (by decide)),
    if_neg (hne _ (by decide)), if_neg (hne _ (by decide)), if_neg (hne _ (by decide)),
    if_neg (hne _ (by decide)), if_neg (hne _ (by decide)), if_neg (hne _ (by decide)),
    if_neg (hne _ (by decide)), if_neg (hne _ (by decide)), if_neg (hne _ (by decide)),
    if_neg (hne _ (by decide)), if_neg (by rw [hr]; decide)]

/-- A tag from `"64"` on is outside the `case` list and outside the range
`"02"` to `"51"`. -/
theorem above_64 (tag : Str) (h64 : strLe (str "64") tag = true) :
    tag ∉ caseTags ∧ (strLe (str "02") tag && strLe tag (str "51")) = false := by
  refine ⟨?_, ?_⟩
  · intro hm
    have : ∀ c ∈ caseTags, strLe (str "64") c = false := by decide
    have h := this tag hm
    rw [h64] at h
    cases h
  · cases h51 : strLe tag (str "51") with
    | false => rw [Bool.and_false]
    | true =>
      have := strLe_trans _ _ _ h64 h51
      exact absurd this (by decide)

/-- On two-digit tags the range `"64"` to `"98"` of Go's string order is the
decimal range 64 to 98. -/
theorem range_64_98_two_digits : ∀ a : Nat, a < 10 → ∀ b : Nat, b < 10 →
    (strLe (str "64") [48 + a, 48 + b] && strLe [48 + a, 48 + b] (str "98"))
      = decide (64 ≤ a * 10 + b ∧ a * 10 + b ≤ 98) := by
  decide

/-! ## Scalar fields -/

theorem mapEMVField_00 (e : EMVData) (v : Str) :
    mapEMVField e (str "00") v = .ok { e with PayloadFormatIndicator := v } := by
  unfold mapEMVField
  rw [if_pos rfl]

theorem mapEMVField_01 (e : EMVData) (v : Str) :
    mapEMVField e (str "01") v = .ok { e with PointOfInitiationMethod := v, POIMethodType := mapPOIMethodType v } := by
  unfold mapEMVField
  rw [if_neg (by decide), if_pos rfl]

theorem mapEMVField_52 (e : EMVData) (v : Str) :
    mapEMVField e (str "52") v = .ok { e with MerchantCategoryCode := v } := by
  unfold mapEMVField
  rw [if_neg (by decide), if_neg (by decide), if_pos rfl]

theorem mapEMVField_53 (e : EMVData) (v : Str) :
    mapEMVField e (str "53") v = .ok { e with TransactionCurrency := v } := by
  unfold mapEMVField
  rw [if_neg (by decide), if_neg (by decide), if_neg (by decide), if_pos rfl]

theorem mapEMVField_54 (e : EMVData) (v : Str) :
    mapEMVField e (str "54") v = .ok { e with TransactionAmount := v } := by
  unfold mapEMVField
  rw [if_neg (by decide), if_neg (by decide), if_neg (by decide), if_neg (by decide), if_pos rfl]

theorem mapEMVField_55 (e : EMVData) (v : Str) :
    mapEMVField e (str "55") v = .ok { e with TipOrConvenienceIndicator := v } := by
  unfold mapEMVField
  rw [if_neg (by decide), if_neg (by decide), if_neg (by decide), if_neg (by decide), if_neg (by decide), if_pos rfl]

theorem mapEMVField_56 (e : EMVData) (v : Str) :
    mapEMVField e (str "56") v = .ok { e with ValueOfConvenienceFee := v } := by
  unfold mapEMVField
  rw [if_neg (by decide), if_neg (by decide), if_neg (by decide), if_neg (by decide), if_neg (by decide), if_neg (by decide), if_pos rfl]

theorem mapEMVField_58 (e : EMVData) (v : Str) :
    mapEMVField e (str "58") v = .ok { e with CountryCode := v } := by
  unfold mapEMVField
  rw [if_neg (by decide), if_neg (by decide), if_neg (by decide), if_neg (by decide), if_neg (by decide), if_neg (by decide), if_neg (by decide), if_pos rfl]

theorem mapEMVField_59 (e : EMVData) (v : Str) :
    mapEMVField e (str "59") v = .ok { e with MerchantName := v } := by
  unfold mapEMVField
  rw [if_neg (by decide), if_neg (by decide), if_neg (by decide), if_neg (by decide), if_neg (by decide), if_neg (by decide), if_neg (by decide), if_neg (by decide), if_pos rfl]

theorem mapEMVField_60 (e : EMVData) (v : Str) :
    mapEMVField e (str "60") v = .ok { e with MerchantCity := v } := by
  unfold mapEMVField
  rw [if_neg (by decide), if_neg (by decide), if_neg (by decide), if_neg (by decide), if_neg (by decide), if_neg (by decide), if_neg (by decide), if_neg (by decide), if_neg (by decide), if_pos rfl]

theorem mapEMVField_61 (e : EMVData) (v : Str) :
    mapEMVField e (str "61") v = .ok { e with PostalCode := v } := by
  unfold mapEMVField
  rw [if_neg (by decide), if_neg (by decide), if_neg (by decide), if_neg (by decide), if_neg (by decide), if_neg (by decide), if_neg (by decide), if_neg (by decide), if_neg (by decide), if_neg (by decide), if_pos rfl]

/-- What one call of `mapEMVField` does to the scalar fields: the field of the
tag takes the value, the others stay. -/
theorem mapEMVField_scalars (e e1 : EMVData) (tag v : Str)
    (h : mapEMVField e tag v = .ok e1) :
    scalarFields e1
      = List.zipWith (fun t old => if tag = t then v else old) scalarTags (scalarFields e) := by
  rcases nestedTag_cases tag with hc | hc | hc
  · subst hc
    rw [mapEMVField_62] at h
    cases hp : parseSubFields v with
    | ok m => rw [hp] at h; cases h; rfl
    | error err => rw [hp] at h; cases h
    | fault => rw [hp] at h; cases h
    | outOfFuel => rw [hp] at h; cases h
  · have hne : ∀ c, (strLe (str "02") c && strLe c (str "51")) = false → tag ≠ c :=
      fun c hcf => range_ne tag c hc hcf
    rw [mapEMVField_range e tag v hc] at h
    cases hp : parseMerchantAccountInfo v with
    | ok m =>
      rw [hp] at h
      cases h
      simp only [scalarFields, scalarTags, List.zipWith_cons_cons, List.zipWith_nil_right,
        if_neg (hne (str "00") (by decide)), if_neg (hne (str "01") (by decide)),
        if_neg (hne (str "52") (by decide)), if_neg (hne (str "53") (by decide)),
        if_neg (hne (str "54") (by decide)), if_neg (hne (str "55") (by decide)),
        if_neg (hne (str "56") (by decide)), if_neg (hne (str "58") (by decide)),
        if_neg (hne (str "59") (by decide)), if_neg (hne (str "60") (by decide)),
        if_neg (hne (str "61") (by decide)), if_neg (hne (str "63") (by decide))]
    | error err => rw [hp] at h; cases h
    | fault => rw [hp] at h; cases h
    | outOfFuel => rw [hp] at h; cases h
  · by_cases hm : tag ∈ caseTags
    · simp only [caseTags, List.mem_cons, List.mem_singleton, List.not_mem_nil, or_false] at hm
      rcases hm with rfl | rfl | rfl | rfl | rfl | rfl | rfl | rfl | rfl | rfl | rfl | rfl | rfl
      · rw [mapEMVField_00] at h; cases h; rfl
      · rw [mapEMVField_01] at h; cases h; rfl
      · rw [mapEMVField_52] at h; cases h; rfl
      · rw [mapEMVField_53] at h; cases h; rfl
      · rw [mapEMVField_54] at h; cases h; rfl
      · rw [mapEMVField_55] at h; cases h; rfl
      · rw [mapEMVField_56] at h; cases h; rfl
      · rw [mapEMVField_58] at h; cases h; rfl
      · rw [mapEMVField_59] at h; cases h; rfl
      · rw [mapEMVField_60] at h; cases h; rfl
      · rw [mapEMVField_61] at h; cases h; rfl
      · exact absurd hc (by decide)
      · rw [mapEMVField_63] at h; cases h; rfl
    · have hr : (strLe (str "02") tag && strLe tag (str "51")) = false := by
        cases hx : (strLe (str "02") tag && strLe tag (str "51")) with
        | false => rfl
        | true => rw [nestedTag_of_range tag hx] at hc; cases hc
      have hne : ∀ c, c ∈ caseTags → tag ≠ c := fun c hcm hh => hm (hh ▸ hcm)
      have hres : scalarFields e1 = scalarFields e := by
        rw [mapEMVField_default e tag v hm hr] at h
        by_cases h1 : (strLe (str "64") tag && strLe tag (str "99")) = true
        · rw [if_pos h1] at h
          by_cases h2 : tag = str "99"
          · rw [if_pos h2] at h; cases h; rfl
          · rw [if_neg h2] at h; cases h; rfl
        · rw [if_neg h1] at h; cases h; rfl
      rw [hres]
      simp only [scalarFields, scalarTags, List.zipWith_cons_cons, List.zipWith_nil_right,
        if_neg (hne (str "00") (by decide)), if_neg (hne (str "01") (by decide)),
        if_neg (hne (str "52") (by decide)), if_neg (hne (str "53") (by decide)),
        if_neg (hne (str "54") (by decide)), if_neg (hne (str "55") (by decide)),
        if_neg (hne (str "56") (by decide)), if_neg (hne (str "58") (by decide)),
        if_neg (hne (str "59") (by decide)), if_neg (hne (str "60") (by decide)),
        if_neg (hne (str "61") (by decide)), if_neg (hne (str "63") (by decide))]

theorem lastValueFrom_eq (ts : List EMVDataValue) (tag : Str) :
    ∀ init : Option Str, lastValueFrom init ts tag = (lastValue? ts tag).or init := by
  induction ts with
  | nil => intro init; cases init <;> rfl
  | cons t ts ih =>
    intro init
    unfold lastValue?
    simp only [lastValueFrom, List.foldl_cons]
    have h1 := ih (if t.Tag = tag then some t.Value else init)
    have h2 := ih (if t.Tag = tag then some t.Value else none)
    simp only [lastValueFrom] at h1 h2
    rw [h1, h2]
    by_cases hc : t.Tag = tag
    · simp only [if_pos hc]
      cases lastValue? ts tag <;> rfl
    · simp only [if_neg hc]
      cases lastValue? ts tag <;> simp

theorem lastValue?_cons (t : EMVDataValue) (ts : List EMVDataValue) (tag : Str) :
    lastValue? (t :: ts) tag = (lastValue? ts tag).or (if t.Tag = tag then some t.Value else none) := by
  have := lastValueFrom_eq ts tag (if t.Tag = tag then some t.Value else none)
  unfold lastValue?
  simp only [lastValueFrom, List.foldl_cons] at this ⊢
  exact this

theorem zipWith_zipWith_left {α β : Type} (g h : α → β → β) (ts : List α) :
    ∀ xs : List β, List.zipWith g ts (List.zipWith h ts xs)
      = List.zipWith (fun t x => g t (h t x)) ts xs := by
  induction ts with
  | nil => intro xs; rfl
  | cons t ts ih =>
    intro xs
    cases xs with
    | nil => rfl
    | cons x xs => simp only [List.zipWith_cons_cons, ih]

/-- After the fields are mapped, each scalar field holds the value of the last
field with its tag, or what it held before when there is none. -/
theorem mapFields_scalars (fs : List RawField) :
    ∀ e e1 : EMVData, mapFields e fs = .ok e1 →
      scalarFields e1
        = List.zipWith (fun t old => (lastValue? (fs.map RawField.toTriplet) t).getD old)
            scalarTags (scalarFields e) := by
  induction fs with
  | nil =>
    intro e e1 h
    cases h
    rfl
  | cons f fs ih =>
    intro e e1 h
    unfold mapFields at h
    cases hm : mapEMVField e f.tag f.value with
    | ok e2 =>
      rw [hm] at h
      rw [ih e2 e1 h, mapEMVField_scalars e e2 f.tag f.value hm, zipWith_zipWith_left]
      congr 1
      funext t old
      rw [List.map_cons, lastValue?_cons]
      show _ = ((lastValue? (fs.map RawField.toTriplet) t).or
        (if f.tag = t then some f.value else none)).getD old
      cases lastValue? (fs.map RawField.toTriplet) t with
      | some x => rfl
      | none =>
        by_cases hc : f.tag = t
        · simp [hc]
        · simp [hc]
    | error err => rw [hm] at h; cases h
    | fault => rw [hm] at h; cases h
    | outOfFuel => rw [hm] at h; cases h

/-- A successful `DecodeEMVQR` read the fields `ParseEMVTLV` returns, mapped
them without error, and its CRC validation let the payload through. -/
theorem DecodeEMVQR_ok_fields (s : Str) (d : EMVData) (h : DecodeEMVQR s = .ok d) :
    ∃ fs, ParseEMVTLV s = .ok (fs.map RawField.toTriplet) ∧ mapFields {} fs = .ok d
      ∧ (∀ f ∈ fs, f.Wf) ∧ DecodeEMVQR.checkCRC s d = .ok d := by
  obtain ⟨e, h4, hloop, hcheck⟩ := DecodeEMVQR_ok s d h
  have hde := checkCRC_ok_eq s e d hcheck
  subst hde
  rw [DecodeEMVQR_loop_eq_scan] at hloop
  have hP := ParseEMVTLV_eq_scan s h4
  have hw := (scan_sound (s.length + 1) 0 s).1
  generalize scan (s.length + 1) 0 s = r at hloop hP hw
  obtain ⟨fs, st⟩ := r
  simp only [decodeOutcome] at hloop
  refine ⟨fs, ?_, ?_, hw, hcheck⟩
  · cases hm : mapFields {} fs with
    | ok e2 =>
      rw [hm] at hloop
      obtain ⟨_, frag, rfl⟩ := Stop.toRes_ok _ _ _ hloop
      rw [hP]
      rfl
    | error err => rw [hm] at hloop; cases hloop
    | fault => rw [hm] at hloop; cases hloop
    | outOfFuel => rw [hm] at hloop; cases hloop
  · cases hm : mapFields {} fs with
    | ok e2 =>
      rw [hm] at hloop
      obtain ⟨e3, _⟩ := Stop.toRes_ok _ _ _ hloop
      rw [e3]
    | error err => rw [hm] at hloop; cases hloop
    | fault => rw [hm] at hloop; cases hloop
    | outOfFuel => rw [hm] at hloop; cases hloop

theorem calculateCRC16_length (data : Str) : (calculateCRC16 data).length = 4 := by
  have hlt : (data.foldl crcByte 0xFFFF) &&& 0xFFFF < 65536 :=
    Nat.lt_of_le_of_lt Nat.and_le_right (by decide)
  unfold calculateCRC16
  rw [fmtHex04_eq _ hlt]
  rfl

theorem GoMap.sorted_nil {β : Type} : GoMap.Sorted ([] : GoMap β) := List.Pairwise.nil

theorem GoMap.mem_set {β : Type} (m : GoMap β) (k : Str) (v : β) (kv : Str × β)
    (h : kv ∈ GoMap.set m k v) : kv = (k, v) ∨ kv ∈ m := by
  induction m with
  | nil =>
    simp only [GoMap.set, List.mem_singleton] at h
    exact Or.inl h
  | cons x rest ih =>
    obtain ⟨k0, v0⟩ := x
    unfold GoMap.set at h
    by_cases h0 : k = k0
    · rw [if_pos h0] at h
      rcases List.mem_cons.1 h with h | h
      · exact Or.inl h
      · exact Or.inr (List.mem_cons_of_mem _ h)
    · rw [if_neg h0] at h
      by_cases hle : strLe k k0 = true
      · rw [if_pos hle] at h
        rcases List.mem_cons.1 h with h | h
        · exact Or.inl h
        · exact Or.inr h
      · rw [if_neg hle] at h
        rcases List.mem_cons.1 h with h | h
        · exact Or.inr (h ▸ List.mem_cons_self _ _)
        · rcases ih h with h | h
          · exact Or.inl h
          · exact Or.inr (List.mem_cons_of_mem _ h)

/-- Assignment keeps a map in its form. -/
theorem GoMap.set_sorted {β : Type} (m : GoMap β) (k : Str) (v : β) (hs : m.Sorted) :
    (GoMap.set m k v).Sorted := by
  induction m with
  | nil => exact List.pairwise_singleton _ _
  | cons x rest ih =>
    obtain ⟨k0, v0⟩ := x
    obtain ⟨hx, hrest⟩ := List.pairwise_cons.1 hs
    unfold GoMap.set
    by_cases h0 : k = k0
    · rw [if_pos h0]
      subst h0
      exact List.pairwise_cons.2 ⟨hx, hrest⟩
    · rw [if_neg h0]
      by_cases hle : strLe k k0 = true
      · rw [if_pos hle]
        refine List.pairwise_cons.2 ⟨?_, hs⟩
        intro b hb
        rcases List.mem_cons.1 hb with rfl | hb
        · exact ⟨hle, h0⟩
        · obtain ⟨h1, h2⟩ := hx b hb
          refine ⟨strLe_trans _ _ _ hle h1, ?_⟩
          intro e
          apply h2
          exact strLe_antisymm _ _ h1 (e ▸ hle)
      · rw [if_neg hle]
        refine List.pairwise_cons.2 ⟨?_, ih hrest⟩
        intro b hb
        rcases GoMap.mem_set rest k v b hb with rfl | hb
        · rcases strLe_total k k0 with h | h
          · exact absurd h hle
          · exact ⟨h, fun e => h0 e.symm⟩
        · exact hx b hb

theorem GoMap.get?_eq_none {β : Type} (m : GoMap β) (k : Str)
    (h : ∀ kv ∈ m, kv.1 ≠ k) : GoMap.get? m k = none := by
  induction m with
  | nil => rfl
  | cons x rest ih =>
    obtain ⟨k0, v0⟩ := x
    have h0 : k ≠ k0 := fun e => h (k0, v0) (List.mem_cons_self _ _) e.symm
    simp only [GoMap.get?, if_neg h0]
    exact ih (fun kv hkv => h kv (List.mem_cons_of_mem _ hkv))

theorem GoMap.mem_of_get? {β : Type} (m : GoMap β) (k : Str) (v : β)
    (h : GoMap.get? m k = some v) : (k, v) ∈ m := by
  induction m with
  | nil => cases h
  | cons x rest ih =>
    obtain ⟨k0, v0⟩ := x
    simp only [GoMap.get?] at h
    by_cases h0 : k = k0
    · rw [if_pos h0] at h
      cases h
      rw [h0]
      exact List.mem_cons_self _ _
    · rw [if_neg h0] at h
      exact List.mem_cons_of_mem _ (ih h)

/-- In a map in its form, an entry is what lookup returns for its key. -/
theorem GoMap.get?_of_mem {β : Type} (m : GoMap β) (hs : m.Sorted) (k : Str) (v : β)
    (h : (k, v) ∈ m) : GoMap.get? m k = some v := by
  induction m with
  | nil => cases h
  | cons x rest ih =>
    obtain ⟨k0, v0⟩ := x
    obtain ⟨hx, hrest⟩ := List.pairwise_cons.1 hs
    rcases List.mem_cons.1 h with h | h
    · cases h
      simp [GoMap.get?]
    · have h0 : k ≠ k0 := fun e => (hx (k, v) h).2 e.symm
      simp only [GoMap.get?, if_neg h0]
      exact ih hrest h

/-- Two maps in their form with the same lookups are the same list. -/
theorem GoMap.ext {β : Type} : ∀ (m1 m2 : GoMap β), m1.Sorted → m2.Sorted →
    (∀ k, GoMap.get? m1 k = GoMap.get? m2 k) → m1 = m2 := by
  intro m1
  induction m1 with
  | nil =>
    intro m2 _ _ h
    cases m2 with
    | nil => rfl
    | cons y r2 =>
      have := h y.1
      simp [GoMap.get?] at this
  | cons x r1 ih =>
    intro m2 hs1 hs2 h
    obtain ⟨k1, v1⟩ := x
    cases m2 with
    | nil =>
      have := h k1
      simp [GoMap.get?] at this
    | cons y r2 =>
      obtain ⟨k2, v2⟩ := y
      obtain ⟨hx1, hr1⟩ := List.pairwise_cons.1 hs1
      obtain ⟨hx2, hr2⟩ := List.pairwise_cons.1 hs2
      have hk : k1 = k2 := by
        by_contra hne
        have a1 : GoMap.get? ((k2, v2) :: r2) k1 = some v1 := by
          rw [← h k1]; simp [GoMap.get?]
        have a2 : GoMap.get? ((k1, v1) :: r1) k2 = some v2 := by
          rw [h k2]; simp [GoMap.get?]
        simp only [GoMap.get?, if_neg hne] at a1
        simp only [GoMap.get?, if_neg (fun e : k2 = k1 => hne e.symm)] at a2
        have b1 := hx2 _ (GoMap.mem_of_get? r2 k1 v1 a1)
        have b2 := hx1 _ (GoMap.mem_of_get? r1 k2 v2 a2)
        exact hne (strLe_antisymm _ _ b2.1 b1.1)
      subst hk
      have hv : v1 = v2 := by
        have := h k1
        simp only [GoMap.get?, if_true, Option.some.injEq] at this
        exact this
      subst hv
      congr 1
      apply ih r2 hr1 hr2
      intro k
      by_cases hk : k = k1
      · rw [hk, GoMap.get?_eq_none r1 k1 (fun kv hkv => fun e => (hx1 kv hkv).2 e.symm),
          GoMap.get?_eq_none r2 k1 (fun kv hkv => fun e => (hx2 kv hkv).2 e.symm)]
      · have := h k
        simp only [GoMap.get?, if_neg hk] at this
        exact this

/-! ## Sub-field maps -/

theorem foldl_set_get? (fs : List RawField) (k : Str) :
    ∀ m0 : GoMap Str,
      GoMap.get? (fs.foldl (fun m r => GoMap.set m r.tag r.value) m0) k
        = (lastValue? (fs.map RawField.toTriplet) k).or (GoMap.get? m0 k) := by
  induction fs with
  | nil => intro m0; rfl
  | cons f fs ih =>
    intro m0
    rw [List.foldl_cons, ih, List.map_cons, lastValue?_cons, GoMap.get?_set]
    show _ = ((lastValue? (fs.map RawField.toTriplet) k).or
      (if f.tag = k then some f.value else none)).or (GoMap.get? m0 k)
    cases lastValue? (fs.map RawField.toTriplet) k with
    | some x => rfl
    | none =>
      by_cases hc : f.tag = k
      · simp [hc]
      · have hc2 : ¬ k = f.tag := fun e => hc e.symm
        simp [hc, hc2]

theorem foldl_set_sorted (fs : List RawField) :
    ∀ m0 : GoMap Str, m0.Sorted →
      (fs.foldl (fun m r => GoMap.set m r.tag r.value) m0).Sorted := by
  induction fs with
  | nil => intro m0 h; exact h
  | cons f fs ih =>
    intro m0 h
    exact ih _ (GoMap.set_sorted m0 f.tag f.value h)

/-- A successful `parseSubFields` returns the map of the fields it read: in
its form, and mapping each sub-tag to the value of the last field carrying it;
on a value of at least 4 bytes these are the triplets of `ParseEMVTLV`. -/
theorem parseSubFields_ok (v : Str) (m : GoMap Str) (h : parseSubFields v = .ok m) :
    ∃ fs : List RawField, m = fs.foldl (fun m r => GoMap.set m r.tag r.value) []
      ∧ m.Sorted
      ∧ (∀ k, GoMap.get? m k = lastValue? (fs.map RawField.toTriplet) k)
      ∧ (4 ≤ v.length → ParseEMVTLV v = .ok (fs.map RawField.toTriplet))
      ∧ (v.length < 4 → fs = []) := by
  rw [parseSubFields_eq_scan] at h
  have hP := ParseEMVTLV_eq_scan v
  have hshort : v.length < 4 → scan (v.length + 1) 0 v = ([], .eof v) :=
    fun h4 => scan_short _ _ _ (by omega) h4
  generalize scan (v.length + 1) 0 v = r at h hP hshort
  obtain ⟨fs, st⟩ := r
  cases st with
  | eof frag =>
    simp only [Stop.toSub, Res.ok.injEq] at h
    refine ⟨fs, h.symm, ?_, ?_, ?_, ?_⟩
    · rw [← h]; exact foldl_set_sorted fs [] GoMap.sorted_nil
    · intro k
      rw [← h, foldl_set_get?]
      cases lastValue? (fs.map RawField.toTriplet) k <;> rfl
    · intro h4
      rw [hP h4]
      rfl
    · intro h4
      have := hshort h4
      simp only [Prod.mk.injEq] at this
      exact this.1
  | badLength pos ll => simp [Stop.toSub] at h
  | truncated tag => simp [Stop.toSub] at h
  | negative => simp [Stop.toSub] at h
  | outOfFuel => simp [Stop.toSub] at h

/-! ## Additional data -/

/-- What one call of `mapEMVField` does to `AdditionalData`. -/
theorem mapEMVField_additionalData (e e1 : EMVData) (tag v : Str)
    (h : mapEMVField e tag v = .ok e1) :
    (tag = str "62" → parseSubFields v = .ok e1.AdditionalData)
      ∧ (tag ≠ str "62" → e1.AdditionalData = e.AdditionalData) := by
  rcases nestedTag_cases tag with hc | hc | hc
  · subst hc
    rw [mapEMVField_62] at h
    cases hp : parseSubFields v with
    | ok m => rw [hp] at h; cases h; exact ⟨fun _ => rfl, fun hne => absurd rfl hne⟩
    | error err => rw [hp] at h; cases h
    | fault => rw [hp] at h; cases h
    | outOfFuel => rw [hp] at h; cases h
  · have hne : tag ≠ str "62" := range_ne tag _ hc (by decide)
    rw [mapEMVField_range e tag v hc] at h
    cases hp : parseMerchantAccountInfo v with
    | ok m => rw [hp] at h; cases h; exact ⟨fun e => absurd e hne, fun _ => rfl⟩
    | error err => rw [hp] at h; cases h
    | fault => rw [hp] at h; cases h
    | outOfFuel => rw [hp] at h; cases h
  · have hne : tag ≠ str "62" := by
      intro e
      rw [e] at hc
      exact absurd hc (by decide)
    refine ⟨fun e => absurd e hne, fun _ => ?_⟩
    by_cases hm : tag ∈ caseTags
    · simp only [caseTags, List.mem_cons, List.mem_singleton, List.not_mem_nil, or_false] at hm
      rcases hm with rfl | rfl | rfl | rfl | rfl | rfl | rfl | rfl | rfl | rfl | rfl | rfl | rfl
      · rw [mapEMVField_00] at h; cases h; rfl
      · rw [mapEMVField_01] at h; cases h; rfl
      · rw [mapEMVField_52] at h; cases h; rfl
      · rw [mapEMVField_53] at h; cases h; rfl
      · rw [mapEMVField_54] at h; cases h; rfl
      · rw [mapEMVField_55] at h; cases h; rfl
      · rw [mapEMVField_56] at h; cases h; rfl
      · rw [mapEMVField_58] at h; cases h; rfl
      · rw [mapEMVField_59] at h; cases h; rfl
      · rw [mapEMVField_60] at h; cases h; rfl
      · rw [mapEMVField_61] at h; cases h; rfl
      · exact absurd rfl hne
      · rw [mapEMVField_63] at h; cases h; rfl
    · have hr : (strLe (str "02") tag && strLe tag (str "51")) = false := by
        cases hx : (strLe (str "02") tag && strLe tag (str "51")) with
        | false => rfl
        | true => rw [nestedTag_of_range tag hx] at hc; cases hc
      rw [mapEMVField_default e tag v hm hr] at h
      by_cases h1 : (strLe (str "64") tag && strLe tag (str "99")) = true
      · rw [if_pos h1] at h
        by_cases h2 : tag = str "99"
        · rw [if_pos h2] at h; cases h; rfl
        · rw [if_neg h2] at h; cases h; rfl
      · rw [if_neg h1] at h; cases h; rfl

/-- After the fields are mapped, `AdditionalData` is the sub-field map of the
value of the last tag-62 field, or what it was before when there is none. -/
theorem mapFields_additionalData (fs : List RawField) :
    ∀ e e1 : EMVData, mapFields e fs = .ok e1 →
      match lastValue? (fs.map RawField.toTriplet) (str "62") with
      | none => e1.AdditionalData = e.AdditionalData
      | some v => parseSubFields v = .ok e1.AdditionalData := by
  induction fs with
  | nil => intro e e1 h; cases h; rfl
  | cons f fs ih =>
    intro e e1 h
    unfold mapFields at h
    cases hm : mapEMVField e f.tag f.value with
    | ok e2 =>
      rw [hm] at h
      have h1 := ih e2 e1 h
      obtain ⟨h2, h3⟩ := mapEMVField_additionalData e e2 f.tag f.value hm
      rw [List.map_cons, lastValue?_cons]
      show match (lastValue? (fs.map RawField.toTriplet) (str "62")).or
          (if f.tag = str "62" then some f.value else none) with
        | none => e1.AdditionalData = e.AdditionalData
        | some v => parseSubFields v = .ok e1.AdditionalData
      cases hl : lastValue? (fs.map RawField.toTriplet) (str "62") with
      | some x =>
        rw [hl] at h1
        exact h1
      | none =>
        rw [hl] at h1
        simp only at h1
        by_cases hc : f.tag = str "62"
        · simp only [if_pos hc, Option.or]
          rw [h1]
          exact h2 hc
        · simp only [if_neg hc, Option.or]
          rw [h1]
          exact h3 hc
    | error err => rw [hm] at h; cases h
    | fault => rw [hm] at h; cases h
    | outOfFuel => rw [hm] at h; cases h

/-! ## Enumerations of a map -/

theorem lastOf_cons {β : Type} (x : Str × β) (l : List (Str × β)) (k : Str) :
    lastOf (x :: l) k = (lastOf l k).or (if x.1 = k then some x.2 else none) := by
  have key : ∀ (l : List (Str × β)) (init : Option β),
      l.foldl (fun acc kv => if kv.1 = k then some kv.2 else acc) init
        = (lastOf l k).or init := by
    intro l
    induction l with
    | nil => intro init; cases init <;> rfl
    | cons y l ih =>
      intro init
      unfold lastOf
      rw [List.foldl_cons, List.foldl_cons, ih, ih]
      by_cases hc : y.1 = k
      · simp only [if_pos hc]
        cases lastOf l k <;> rfl
      · simp only [if_neg hc]
        cases lastOf l k <;> simp
  unfold lastOf
  rw [List.foldl_cons, key]
  rfl

theorem mem_of_lastOf {β : Type} (l : List (Str × β)) (k : Str) (v : β)
    (h : lastOf l k = some v) : (k, v) ∈ l := by
  induction l with
  | nil => cases h
  | cons x l ih =>
    rw [lastOf_cons] at h
    cases hl : lastOf l k with
    | some w =>
      rw [hl] at h
      cases h
      exact List.mem_cons_of_mem _ (ih hl)
    | none =>
      rw [hl] at h
      by_cases hc : x.1 = k
      · simp only [if_pos hc, Option.or] at h
        cases h
        rw [← hc]
        exact List.mem_cons_self _ _
      · simp only [if_neg hc, Option.or] at h
        cases h

theorem lastOf_of_mem {β : Type} (l : List (Str × β)) (hn : (l.map Prod.fst).Nodup)
    (k : Str) (v : β) (h : (k, v) ∈ l) : lastOf l k = some v := by
  induction l with
  | nil => cases h
  | cons x l ih =>
    rw [List.map_cons, List.nodup_cons] at hn
    rw [lastOf_cons]
    rcases List.mem_cons.1 h with h | h
    · cases h
      have : lastOf l k = none := by
        cases hl : lastOf l k with
        | none => rfl
        | some w =>
          exact absurd (List.mem_map_of_mem Prod.fst (mem_of_lastOf l k w hl)) hn.1
      rw [this]
      simp
    · rw [ih hn.2 h]
      rfl

theorem GoMap.Sorted.nodup_keys {β : Type} (m : GoMap β) (hs : m.Sorted) :
    (m.map Prod.fst).Nodup := by
  induction m with
  | nil => exact List.nodup_nil
  | cons x rest ih =>
    obtain ⟨hx, hrest⟩ := List.pairwise_cons.1 hs
    rw [List.map_cons, List.nodup_cons]
    refine ⟨?_, ih hrest⟩
    intro hmem
    obtain ⟨y, hy, hxy⟩ := List.mem_map.1 hmem
    exact (hx y hy).2 hxy.symm

/-- In an enumeration of the entries of a map, the last entry with a key is the
entry of the map. -/
theorem lastOf_perm {β : Type} (m : GoMap β) (hs : m.Sorted) (l : List (Str × β))
    (hp : l.Perm m) (k : Str) : lastOf l k = GoMap.get? m k := by
  have hn : (l.map Prod.fst).Nodup :=
    (List.Perm.nodup_iff (hp.map Prod.fst)).2 (GoMap.Sorted.nodup_keys m hs)
  cases hg : GoMap.get? m k with
  | some v =>
    exact lastOf_of_mem l hn k v (hp.mem_iff.2 (GoMap.mem_of_get? m k v hg))
  | none =>
    cases hl : lastOf l k with
    | none => rfl
    | some w =>
      have := GoMap.get?_of_mem m hs k w (hp.mem_iff.1 (mem_of_lastOf l k w hl))
      rw [hg] at this
      cases this

/-! ## Merchant accounts -/

/-- What the body of the `range subFields` loop does to each field of the
account. -/
theorem assign_fields (a : MerchantAccount) (x : Str × Str) :
    (parseMerchantAccountInfo.assign a x).AID = (if x.1 = str "00" then x.2 else a.AID)
      ∧ (parseMerchantAccountInfo.assign a x).AIDType
          = (if x.1 = str "00" then mapAIDType x.2 else a.AIDType)
      ∧ (parseMerchantAccountInfo.assign a x).PaymentScheme
          = (if x.1 = str "00" then mapScheme x.2 else a.PaymentScheme)
      ∧ (parseMerchantAccountInfo.assign a x).MerchantID
          = (if x.1 = str "01" then x.2 else a.MerchantID)
      ∧ (parseMerchantAccountInfo.assign a x).Reference1
          = (if x.1 = str "02" then x.2 else a.Reference1)
      ∧ (parseMerchantAccountInfo.assign a x).Reference2
          = (if x.1 = str "03" then x.2 else a.Reference2)
      ∧ (parseMerchantAccountInfo.assign a x).Reference3
          = (if x.1 = str "04" then x.2 else a.Reference3)
      ∧ (parseMerchantAccountInfo.assign a x).RawValue = a.RawValue
      ∧ (parseMerchantAccountInfo.assign a x).UnresolvedData
          = (if x.1 ∈ accountSubTags then a.UnresolvedData
              else a.UnresolvedData.set x.1 x.2) := by
  obtain ⟨k, v⟩ := x
  by_cases h0 : k = str "00"
  · subst h0; exact ⟨rfl, rfl, rfl, rfl, rfl, rfl, rfl, rfl, rfl⟩
  by_cases h1 : k = str "01"
  · subst h1; exact ⟨rfl, rfl, rfl, rfl, rfl, rfl, rfl, rfl, rfl⟩
  by_cases h2 : k = str "02"
  · subst h2; exact ⟨rfl, rfl, rfl, rfl, rfl, rfl, rfl, rfl, rfl⟩
  by_cases h3 : k = str "03"
  · subst h3; exact ⟨rfl, rfl, rfl, rfl, rfl, rfl, rfl, rfl, rfl⟩
  by_cases h4 : k = str "04"
  · subst h4; exact ⟨rfl, rfl, rfl, rfl, rfl, rfl, rfl, rfl, rfl⟩
  have hmem : k ∉ accountSubTags := by
    simp only [accountSubTags, List.mem_cons, List.mem_singleton, List.not_mem_nil, or_false,
      h0, h1, h2, h3, h4, not_false_eq_true]
  simp only [parseMerchantAccountInfo.assign, if_neg h0, if_neg h1, if_neg h2, if_neg h3,
    if_neg h4, if_neg hmem, and_self]

theorem getD_step {β : Type} (o : Option β) (c : Prop) [Decidable c] (y d : β) :
    o.getD (if c then y else d) = (o.or (if c then some y else none)).getD d := by
  cases o with
  | some x => rfl
  | none => by_cases hc : c <;> simp [hc]

theorem getD_map_step {β γ : Type} (f : β → γ) (o : Option β) (c : Prop) [Decidable c]
    (y : β) (d : γ) :
    (o.map f).getD (if c then f y else d)
      = ((o.or (if c then some y else none)).map f).getD d := by
  cases o with
  | some x => rfl
  | none => by_cases hc : c <;> simp [hc]

/-- The account built by visiting the entries of an enumeration in order. -/
theorem foldl_assign (l : List (Str × Str)) :
    ∀ a0 : MerchantAccount,
      (l.foldl parseMerchantAccountInfo.assign a0).AID = (lastOf l (str "00")).getD a0.AID
      ∧ (l.foldl parseMerchantAccountInfo.assign a0).AIDType
          = ((lastOf l (str "00")).map mapAIDType).getD a0.AIDType
      ∧ (l.foldl parseMerchantAccountInfo.assign a0).PaymentScheme
          = ((lastOf l (str "00")).map mapScheme).getD a0.PaymentScheme
      ∧ (l.foldl parseMerchantAccountInfo.assign a0).MerchantID
          = (lastOf l (str "01")).getD a0.MerchantID
      ∧ (l.foldl parseMerchantAccountInfo.assign a0).Reference1
          = (lastOf l (str "02")).getD a0.Reference1
      ∧ (l.foldl parseMerchantAccountInfo.assign a0).Reference2
          = (lastOf l (str "03")).getD a0.Reference2
      ∧ (l.foldl parseMerchantAccountInfo.assign a0).Reference3
          = (lastOf l (str "04")).getD a0.Reference3
      ∧ (l.foldl parseMerchantAccountInfo.assign a0).RawValue = a0.RawValue
      ∧ (a0.UnresolvedData.Sorted →
          (l.foldl parseMerchantAccountInfo.assign a0).UnresolvedData.Sorted)
      ∧ (∀ k, GoMap.get? (l.foldl parseMerchantAccountInfo.assign a0).UnresolvedData k
          = if k ∈ accountSubTags then GoMap.get? a0.UnresolvedData k
            else (lastOf l k).or (GoMap.get? a0.UnresolvedData k)) := by
  induction l with
  | nil =>
    intro a0
    refine ⟨rfl, rfl, rfl, rfl, rfl, rfl, rfl, rfl, fun h => h, ?_⟩
    intro k
    by_cases hk : k ∈ accountSubTags
    · rw [if_pos hk]; rfl
    · rw [if_neg hk]; rfl
  | cons x l ih =>
    intro a0
    obtain ⟨i1, i2, i3, i4, i5, i6, i7, i8, i9, i10⟩ := ih (parseMerchantAccountInfo.assign a0 x)
    obtain ⟨s1, s2, s3, s4, s5, s6, s7, s8, s9⟩ := assign_fields a0 x
    rw [List.foldl_cons]
    refine ⟨?_, ?_, ?_, ?_, ?_, ?_, ?_, ?_, ?_, ?_⟩
    · rw [i1, s1, lastOf_cons, getD_step]
    · rw [i2, s2, lastOf_cons, getD_map_step]
    · rw [i3, s3, lastOf_cons, getD_map_step]
    · rw [i4, s4, lastOf_cons, getD_step]
    · rw [i5, s5, lastOf_cons, getD_step]
    · rw [i6, s6, lastOf_cons, getD_step]
    · rw [i7, s7, lastOf_cons, getD_step]
    · rw [i8, s8]
    · intro hs
      apply i9
      rw [s9]
      by_cases hx : x.1 ∈ accountSubTags
      · rw [if_pos hx]; exact hs
      · rw [if_neg hx]; exact GoMap.set_sorted _ _ _ hs
    · intro k
      rw [i10, s9, lastOf_cons]
      by_cases hk : k ∈ accountSubTags
      · rw [if_pos hk, if_pos hk]
        by_cases hx : x.1 ∈ accountSubTags
        · rw [if_pos hx]
        · rw [if_neg hx, GoMap.get?_set, if_neg (fun e : k = x.1 => hx (e ▸ hk))]
      · rw [if_neg hk, if_neg hk]
        by_cases hx : x.1 ∈ accountSubTags
        · rw [if_pos hx, if_neg (fun e : x.1 = k => hk (e ▸ hx))]
          cases lastOf l k <;> rfl
        · rw [if_neg hx, GoMap.get?_set]
          by_cases hkx : k = x.1
          · rw [if_pos hkx, if_pos hkx.symm]
            cases lastOf l k <;> rfl
          · rw [if_neg hkx, if_neg (fun e => hkx e.symm)]
            cases lastOf l k <;> rfl

/-- Lookup in a map restricted to the keys that satisfy `q`. -/
theorem GoMap.get?_filter {β : Type} (q : Str → Bool) (m : GoMap β) (k : Str) :
    GoMap.get? (m.filter (fun kv => q kv.1)) k = if q k = true then GoMap.get? m k else none := by
  induction m with
  | nil => by_cases hq : q k = true <;> simp [GoMap.get?, hq]
  | cons x rest ih =>
    obtain ⟨k0, v0⟩ := x
    by_cases h0 : q k0 = true
    · have hf : ((k0, v0) :: rest).filter (fun kv => q kv.1)
          = (k0, v0) :: rest.filter (fun kv => q kv.1) := List.filter_cons_of_pos h0
      rw [hf]
      simp only [GoMap.get?]
      by_cases hk : k = k0
      · rw [if_pos hk, if_pos hk, hk, if_pos h0]
      · rw [if_neg hk, if_neg hk, ih]
    · have hf : ((k0, v0) :: rest).filter (fun kv => q kv.1)
          = rest.filter (fun kv => q kv.1) := List.filter_cons_of_neg h0
      rw [hf, ih]
      simp only [GoMap.get?]
      by_cases hk : k = k0
      · rw [if_pos hk, hk, if_neg h0, if_neg h0]
      · rw [if_neg hk]

theorem GoMap.filter_sorted {β : Type} (p : Str × β → Bool) (m : GoMap β) (hs : m.Sorted) :
    GoMap.Sorted (m.filter p) :=
  List.Pairwise.filter p hs

theorem MerchantAccount.eq_of_fields (a b : MerchantAccount)
    (h1 : a.AID = b.AID) (h2 : a.AIDType = b.AIDType) (h3 : a.PaymentScheme = b.PaymentScheme)
    (h4 : a.MerchantID = b.MerchantID) (h5 : a.Reference1 = b.Reference1)
    (h6 : a.Reference2 = b.Reference2) (h7 : a.Reference3 = b.Reference3)
    (h8 : a.RawValue = b.RawValue) (h9 : a.UnresolvedData = b.UnresolvedData) : a = b := by
  cases a
  cases b
  simp only at h1 h2 h3 h4 h5 h6 h7 h8 h9
  simp only [h1, h2, h3, h4, h5, h6, h7, h8, h9]

/-- The account that `parseMerchantAccountInfo` builds from the sub-field map
`m`, whatever the order in which the entries of `m` are visited. -/
theorem foldl_assign_perm (m : GoMap Str) (hs : m.Sorted) (l : List (Str × Str))
    (hp : l.Perm m) :
    (l.foldl parseMerchantAccountInfo.assign {}).AID = (GoMap.get? m (str "00")).getD []
      ∧ (l.foldl parseMerchantAccountInfo.assign {}).AIDType
          = ((GoMap.get? m (str "00")).map mapAIDType).getD []
      ∧ (l.foldl parseMerchantAccountInfo.assign {}).PaymentScheme
          = ((GoMap.get? m (str "00")).map mapScheme).getD []
      ∧ (l.foldl parseMerchantAccountInfo.assign {}).MerchantID
          = (GoMap.get? m (str "01")).getD []
      ∧ (l.foldl parseMerchantAccountInfo.assign {}).Reference1
          = (GoMap.get? m (str "02")).getD []
      ∧ (l.foldl parseMerchantAccountInfo.assign {}).Reference2
          = (GoMap.get? m (str "03")).getD []
      ∧ (l.foldl parseMerchantAccountInfo.assign {}).Reference3
          = (GoMap.get? m (str "04")).getD []
      ∧ (l.foldl parseMerchantAccountInfo.assign {}).RawValue = []
      ∧ (l.foldl parseMerchantAccountInfo.assign {}).UnresolvedData
          = m.filter (fun kv => decide (kv.1 ∉ accountSubTags)) := by
  obtain ⟨i1, i2, i3, i4, i5, i6, i7, i8, i9, i10⟩ := foldl_assign l {}
  have hl : ∀ k, lastOf l k = GoMap.get? m k := lastOf_perm m hs l hp
  refine ⟨?_, ?_, ?_, ?_, ?_, ?_, ?_, ?_, ?_⟩
  · rw [i1, hl]
  · rw [i2, hl]
  · rw [i3, hl]
  · rw [i4, hl]
  · rw [i5, hl]
  · rw [i6, hl]
  · rw [i7, hl]
  · rw [i8]
  · apply GoMap.ext _ _ (i9 GoMap.sorted_nil) (GoMap.filter_sorted _ m hs)
    intro k
    rw [i10, GoMap.get?_filter (fun k => decide (k ∉ accountSubTags)) m k, hl]
    by_cases hk : k ∈ accountSubTags
    · rw [if_pos hk, if_neg (by simpa using hk)]
      rfl
    · rw [if_neg hk, if_pos (by simpa using hk)]
      cases GoMap.get? m k <;> rfl

/-- Two orders of visiting the entries of a sub-field map build the same account. -/
theorem foldl_assign_order (m : GoMap Str) (hs : m.Sorted) (l : List (Str × Str))
    (hp : l.Perm m) :
    l.foldl parseMerchantAccountInfo.assign {} = m.foldl parseMerchantAccountInfo.assign {} := by
  obtain ⟨a1, a2, a3, a4, a5, a6, a7, a8, a9⟩ := foldl_assign_perm m hs l hp
  obtain ⟨b1, b2, b3, b4, b5, b6, b7, b8, b9⟩ := foldl_assign_perm m hs m (List.Perm.refl m)
  exact MerchantAccount.eq_of_fields _ _ (a1.trans b1.symm) (a2.trans b2.symm)
    (a3.trans b3.symm) (a4.trans b4.symm) (a5.trans b5.symm) (a6.trans b6.symm)
    (a7.trans b7.symm) (a8.trans b8.symm) (a9.trans b9.symm)

theorem parseMerchantAccountInfo_ok (v : Str) (acct : MerchantAccount)
    (h : parseMerchantAccountInfo v = .ok acct) :
    ∃ m, parseSubFields v = .ok m ∧ acct = m.foldl parseMerchantAccountInfo.assign {} := by
  unfold parseMerchantAccountInfo at h
  cases hp : parseSubFields v with
  | ok m => rw [hp] at h; cases h; exact ⟨m, rfl, rfl⟩
  | error err => rw [hp] at h; cases h
  | fault => rw [hp] at h; cases h
  | outOfFuel => rw [hp] at h; cases h

/-- What one call of `mapEMVField` does to `MerchantAccountInfo`. -/
theorem mapEMVField_accounts (e e1 : EMVData) (tag v : Str)
    (h : mapEMVField e tag v = .ok e1) :
    ((strLe (str "02") tag && strLe tag (str "51")) = true →
        ∃ acct, parseMerchantAccountInfo v = .ok acct
          ∧ e1.MerchantAccountInfo
              = e.MerchantAccountInfo.set tag (some { acct with RawValue := v }))
      ∧ ((strLe (str "02") tag && strLe tag (str "51")) = false →
          e1.MerchantAccountInfo = e.MerchantAccountInfo) := by
  rcases nestedTag_cases tag with hc | hc | hc
  · subst hc
    refine ⟨fun hr => absurd hr (by decide), fun _ => ?_⟩
    rw [mapEMVField_62] at h
    cases hp : parseSubFields v with
    | ok m => rw [hp] at h; cases h; rfl
    | error err => rw [hp] at h; cases h
    | fault => rw [hp] at h; cases h
    | outOfFuel => rw [hp] at h; cases h
  · rw [mapEMVField_range e tag v hc] at h
    cases hp : parseMerchantAccountInfo v with
    | ok m =>
      rw [hp] at h
      cases h
      exact ⟨fun _ => ⟨m, rfl, rfl⟩, fun hf => by rw [hc] at hf; cases hf⟩
    | error err => rw [hp] at h; cases h
    | fault => rw [hp] at h; cases h
    | outOfFuel => rw [hp] at h; cases h
  · have hr : (strLe (str "02") tag && strLe tag (str "51")) = false := by
      cases hx : (strLe (str "02") tag && strLe tag (str "51")) with
      | false => rfl
      | true => rw [nestedTag_of_range tag hx] at hc; cases hc
    refine ⟨fun ht => (by rw [hr] at ht; cases ht), fun _ => ?_⟩
    by_cases hm : tag ∈ caseTags
    · simp only [caseTags, List.mem_cons, List.mem_singleton, List.not_mem_nil, or_false] at hm
      rcases hm with rfl | rfl | rfl | rfl | rfl | rfl | rfl | rfl | rfl | rfl | rfl | rfl | rfl
      · rw [mapEMVField_00] at h; cases h; rfl
      · rw [mapEMVField_01] at h; cases h; rfl
      · rw [mapEMVField_52] at h; cases h; rfl
      · rw [mapEMVField_53] at h; cases h; rfl
      · rw [mapEMVField_54] at h; cases h; rfl
      · rw [mapEMVField_55] at h; cases h; rfl
      · rw [mapEMVField_56] at h; cases h; rfl
      · rw [mapEMVField_58] at h; cases h; rfl
      · rw [mapEMVField_59] at h; cases h; rfl
      · rw [mapEMVField_60] at h; cases h; rfl
      · rw [mapEMVField_61] at h; cases h; rfl
      · exact absurd hc (by decide)
      · rw [mapEMVField_63] at h; cases h; rfl
    · rw [mapEMVField_default e tag v hm hr] at h
      by_cases h1 : (strLe (str "64") tag && strLe tag (str "99")) = true
      · rw [if_pos h1] at h
        by_cases h2 : tag = str "99"
        · rw [if_pos h2] at h; cases h; rfl
        · rw [if_neg h2] at h; cases h; rfl
      · rw [if_neg h1] at h; cases h; rfl

/-- After the fields are mapped, the account under a tag of the range is the
one built from the value of the last field with that tag. -/
theorem mapFields_accounts (fs : List RawField) :
    ∀ e e1 : EMVData, mapFields e fs = .ok e1 →
      ∀ t : Str, (strLe (str "02") t && strLe t (str "51")) = true →
        match lastValue? (fs.map RawField.toTriplet) t with
        | none => GoMap.get? e1.MerchantAccountInfo t = GoMap.get? e.MerchantAccountInfo t
        | some v => ∃ acct, parseMerchantAccountInfo v = .ok acct
            ∧ GoMap.get? e1.MerchantAccountInfo t = some (some { acct with RawValue := v }) := by
  induction fs with
  | nil => intro e e1 h t _; cases h; rfl
  | cons f fs ih =>
    intro e e1 h t ht
    unfold mapFields at h
    cases hm : mapEMVField e f.tag f.value with
    | ok e2 =>
      rw [hm] at h
      have h1 := ih e2 e1 h t ht
      obtain ⟨h2, h3⟩ := mapEMVField_accounts e e2 f.tag f.value hm
      rw [List.map_cons, lastValue?_cons]
      show match (lastValue? (fs.map RawField.toTriplet) t).or
          (if f.tag = t then some f.value else none) with
        | none => GoMap.get? e1.MerchantAccountInfo t = GoMap.get? e.MerchantAccountInfo t
        | some v => ∃ acct, parseMerchantAccountInfo v = .ok acct
            ∧ GoMap.get? e1.MerchantAccountInfo t = some (some { acct with RawValue := v })
      cases hl : lastValue? (fs.map RawField.toTriplet) t with
      | some x =>
        rw [hl] at h1
        exact h1
      | none =>
        rw [hl] at h1
        simp only at h1
        by_cases hc : f.tag = t
        · simp only [if_pos hc, Option.or]
          obtain ⟨acct, ha, he⟩ := h2 (hc ▸ ht)
          refine ⟨acct, ha, ?_⟩
          rw [h1, he, GoMap.get?_set, if_pos hc.symm]
        · simp only [if_neg hc, Option.or]
          rw [h1]
          cases hx : (strLe (str "02") f.tag && strLe f.tag (str "51")) with
          | true =>
            obtain ⟨acct, _, he⟩ := h2 hx
            rw [he, GoMap.get?_set, if_neg (fun e : t = f.tag => hc e.symm)]
          | false => rw [h3 hx]
    | error err => rw [hm] at h; cases h
    | fault => rw [hm] at h; cases h
    | outOfFuel => rw [hm] at h; cases h

theorem lastValue?_eq_none_iff (ts : List EMVDataValue) (t : Str) :
    lastValue? ts t = none ↔ ∀ x ∈ ts, x.Tag ≠ t := by
  induction ts with
  | nil => exact ⟨fun _ x hx => absurd hx (List.not_mem_nil _), fun _ => rfl⟩
  | cons y ts ih =>
    rw [lastValue?_cons]
    constructor
    · intro h x hx
      cases hl : lastValue? ts t with
      | some w => rw [hl] at h; cases h
      | none =>
        rw [hl] at h
        by_cases hc : y.Tag = t
        · simp only [if_pos hc, Option.or] at h
          cases h
        · rcases List.mem_cons.1 hx with hx | hx
          · rw [hx]; exact hc
          · exact (ih.1 hl) x hx
    · intro h
      rw [ih.2 (fun x hx => h x (List.mem_cons_of_mem _ hx)),
        if_neg (h y (List.mem_cons_self _ _))]
      rfl

/-! ## Errors of a nested value -/

/-- The error `mapEMVField` returns when the nested tokenization of the value
of a nested tag returns an error. -/
theorem mapEMVField_nested_error (e : EMVData) (tag v err : Str) (hn : nestedTag tag = true)
    (herr : parseSubFields v = .error err) :
    mapEMVField e tag v = .error
      (if tag = str "62" then str "error parsing additional data: " ++ err
        else str "error parsing merchant account info: "
          ++ (str "failed to parse merchant account sub-fields: " ++ err)) := by
  rcases nestedTag_cases tag with h | h | h
  · subst h
    rw [mapEMVField_62, herr, if_pos rfl]
  · rw [mapEMVField_range e tag v h, if_neg (range_ne tag _ h (by decide))]
    unfold parseMerchantAccountInfo
    rw [herr]
  · rw [h] at hn
    cases hn

/-- When the top-level tokenization of the input succeeds and the nested
tokenization of some field's value returns an error, every nested value before
it being tokenized without error or fault, `DecodeEMVQR` returns the error of
that field, wrapped with the field's tag. -/
theorem DecodeEMVQR_nested_error (s : Str) (pre post : List EMVDataValue) (x : EMVDataValue)
    (err : Str) (hP : ParseEMVTLV s = .ok (pre ++ x :: post))
    (hpre : ∀ y ∈ pre, nestedTag y.Tag = true → ∃ m, parseSubFields y.Value = .ok m)
    (hn : nestedTag x.Tag = true) (herr : parseSubFields x.Value = .error err) :
    DecodeEMVQR s = .error (str "error mapping field " ++ x.Tag ++ str ": "
      ++ (if x.Tag = str "62" then str "error parsing additional data: " ++ err
          else str "error parsing merchant account info: "
            ++ (str "failed to parse merchant account sub-fields: " ++ err))) := by
  obtain ⟨h4, fs, frag, hscan, hts, _, _, _⟩ := ParseEMVTLV_ok_scan s _ hP
  obtain ⟨fpre, frest, hfs, hmpre, hmrest⟩ := List.map_eq_append_iff.1 hts.symm
  obtain ⟨fx, fpost, hfrest, hfx, _⟩ := List.map_eq_cons_iff.1 hmrest
  have hok : ∃ e1, mapFields {} fpre = .ok e1 := by
    rw [mapFields_ok_iff]
    intro f hf hnf
    exact hpre f.toTriplet (hmpre ▸ List.mem_map_of_mem _ hf) hnf
  obtain ⟨e1, he1⟩ := hok
  have htag : fx.tag = x.Tag := by rw [← hfx]; rfl
  have hval : fx.value = x.Value := by rw [← hfx]; rfl
  have hm : mapFields {} fs = .error (str "error mapping field " ++ x.Tag ++ str ": "
      ++ (if x.Tag = str "62" then str "error parsing additional data: " ++ err
          else str "error parsing merchant account info: "
            ++ (str "failed to parse merchant account sub-fields: " ++ err))) := by
    rw [hfs, hfrest, mapFields_append, he1]
    simp only [mapFields]
    rw [htag, hval, mapEMVField_nested_error e1 x.Tag x.Value err hn herr]
  rw [DecodeEMVQR_eq_scan s h4, hscan]
  unfold decodeOutcome
  simp only [hm]

/-! ## The consolidated view -/

/-- The preferred tags are listed in strictly ascending order. -/
theorem preferredTags_ascending :
    preferredTags.Pairwise (fun x y => strLe y x = false) := by
  decide!

/-- The first pass returns the pointer under the smallest key of the map that
is among the tags scanned, when the tags are scanned in ascending order. -/
theorem firstPass_smallest (accounts : GoMap (Option MerchantAccount)) (k : Str)
    (a : Option MerchantAccount) (ha : GoMap.get? accounts k = some a) :
    ∀ tags : List Str, tags.Pairwise (fun x y => strLe y x = false) → k ∈ tags →
      (∀ k1 ∈ tags, (GoMap.get? accounts k1).isSome = true → strLe k k1 = true) →
      EMVData.QRInfo.firstPass accounts tags = a := by
  intro tags
  induction tags with
  | nil => intro _ hk; cases hk
  | cons t rest ih =>
    intro hp hk hmin
    obtain ⟨ht, hrest⟩ := List.pairwise_cons.1 hp
    unfold EMVData.QRInfo.firstPass
    cases hg : GoMap.get? accounts t with
    | some b =>
      have hle := hmin t (List.mem_cons_self _ _) (by rw [hg]; rfl)
      rcases List.mem_cons.1 hk with hkt | hkr
      · rw [hkt, hg] at ha
        exact Option.some.inj ha
      · rw [ht k hkr] at hle
        cases hle
    | none =>
      have hkr : k ∈ rest := by
        rcases List.mem_cons.1 hk with hkt | hkr
        · rw [hkt, hg] at ha
          cases ha
        · exact hkr
      exact ih hrest hkr (fun k1 hk1 => hmin k1 (List.mem_cons_of_mem _ hk1))

theorem setReference_fields (info : QRInfo) (i : Nat) (value : Str) :
    (info.setReference i value).AID = info.AID
      ∧ (info.setReference i value).AIDType = info.AIDType
      ∧ (info.setReference i value).POIMethodType = info.POIMethodType
      ∧ (info.setReference i value).PaymentScheme = info.PaymentScheme
      ∧ (info.setReference i value).TransactionAmount = info.TransactionAmount
      ∧ (info.setReference i value).CountryCode = info.CountryCode
      ∧ (info.setReference i value).MerchantID = info.MerchantID := by
  unfold QRInfo.setReference
  by_cases h0 : i = 0
  · rw [if_pos h0]
    exact ⟨rfl, rfl, rfl, rfl, rfl, rfl, rfl⟩
  · rw [if_neg h0]
    by_cases h1 : i = 1
    · rw [if_pos h1]
      exact ⟨rfl, rfl, rfl, rfl, rfl, rfl, rfl⟩
    · rw [if_neg h1]
      exact ⟨rfl, rfl, rfl, rfl, rfl, rfl, rfl⟩

/-- Filling the references leaves the other fields of the view as they are. -/
theorem fillLoop_fields (emptySlots : List Nat) (dataOrder : List (Str × Str)) :
    ∀ (info : QRInfo) (slotIndex : Nat),
      (fillMissingReferences.loop emptySlots info slotIndex dataOrder).AID = info.AID
      ∧ (fillMissingReferences.loop emptySlots info slotIndex dataOrder).AIDType = info.AIDType
      ∧ (fillMissingReferences.loop emptySlots info slotIndex dataOrder).POIMethodType
          = info.POIMethodType
      ∧ (fillMissingReferences.loop emptySlots info slotIndex dataOrder).PaymentScheme
          = info.PaymentScheme
      ∧ (fillMissingReferences.loop emptySlots info slotIndex dataOrder).TransactionAmount
          = info.TransactionAmount
      ∧ (fillMissingReferences.loop emptySlots info slotIndex dataOrder).CountryCode
          = info.CountryCode
      ∧ (fillMissingReferences.loop emptySlots info slotIndex dataOrder).MerchantID
          = info.MerchantID := by
  induction dataOrder with
  | nil => intro info slotIndex; exact ⟨rfl, rfl, rfl, rfl, rfl, rfl, rfl⟩
  | cons x rest ih =>
    intro info slotIndex
    obtain ⟨tag, value⟩ := x
    unfold fillMissingReferences.loop
    by_cases hc : emptySlots.length ≤ slotIndex
    · rw [if_pos hc]
      exact ⟨rfl, rfl, rfl, rfl, rfl, rfl, rfl⟩
    · rw [if_neg hc]
      obtain ⟨i1, i2, i3, i4, i5, i6, i7⟩ :=
        ih (info.setReference (emptySlots.getD slotIndex 0) value) (slotIndex + 1)
      obtain ⟨s1, s2, s3, s4, s5, s6, s7⟩ :=
        setReference_fields info (emptySlots.getD slotIndex 0) value
      exact ⟨i1.trans s1, i2.trans s2, i3.trans s3, i4.trans s4, i5.trans s5, i6.trans s6,
        i7.trans s7⟩

/-! ## The references of the consolidated view -/

theorem QRInfo_of_primary (e : EMVData) (accountOrder : List (Str × Option MerchantAccount))
    (dataOrder : List (Str × Str)) (a : MerchantAccount)
    (hp : EMVData.QRInfo.primaryAccount e accountOrder = some a) :
    e.QRInfo accountOrder dataOrder
      = fillMissingReferences (EMVData.QRInfo.copied e a) dataOrder := by
  unfold EMVData.QRInfo
  simp only [hp]
  rfl

theorem QRInfo_of_none (e : EMVData) (accountOrder : List (Str × Option MerchantAccount))
    (dataOrder : List (Str × Str))
    (hp : EMVData.QRInfo.primaryAccount e accountOrder = none) :
    e.QRInfo accountOrder dataOrder
      = { POIMethodType := e.POIMethodType, TransactionAmount := e.TransactionAmount,
          CountryCode := e.CountryCode } := by
  unfold EMVData.QRInfo
  simp only [hp]

/-- When the pointer under the smallest key of the map among the preferred tags
is not nil, it is the primary account, whatever the order in which the accounts
would be visited by the second pass. -/
theorem primaryAccount_of_smallest (e : EMVData) (k : Str) (a : MerchantAccount)
    (hk : k ∈ preferredTags) (ha : GoMap.get? e.MerchantAccountInfo k = some (some a))
    (hmin : ∀ k1 ∈ preferredTags,
      (GoMap.get? e.MerchantAccountInfo k1).isSome = true → strLe k k1 = true)
    (accountOrder : List (Str × Option MerchantAccount)) :
    EMVData.QRInfo.primaryAccount e accountOrder = some a := by
  unfold EMVData.QRInfo.primaryAccount
  rw [firstPass_smallest e.MerchantAccountInfo k (some a) ha preferredTags
    preferredTags_ascending hk hmin]

theorem reference_setReference (info : QRInfo) (i j : Nat) (hi : i < 3) (hj : j < 3)
    (v : Str) :
    (info.setReference i v).reference j = if j = i then v else info.reference j := by
  interval_cases i <;> interval_cases j <;> rfl

theorem reference_setReference_or (info : QRInfo) (i j : Nat) (v : Str) :
    (info.setReference i v).reference j = info.reference j
      ∨ (info.setReference i v).reference j = v := by
  unfold QRInfo.setReference QRInfo.reference
  by_cases hi0 : i = 0 <;> by_cases hi1 : i = 1 <;> by_cases hj0 : j = 0 <;>
    by_cases hj1 : j = 1 <;> simp [hi0, hi1, hj0, hj1]

/-- The empty slots are the indices of the empty references, in ascending order. -/
theorem emptySlots_eq (info : QRInfo) :
    fillMissingReferences.emptySlots info
      = [0, 1, 2].filter (fun i => decide (info.reference i = [])) := by
  unfold fillMissingReferences.emptySlots
  by_cases h0 : info.reference 0 = [] <;> by_cases h1 : info.reference 1 = [] <;>
    by_cases h2 : info.reference 2 = [] <;> simp [List.filter, h0, h1, h2]

theorem emptySlots_lt (info : QRInfo) : ∀ i ∈ fillMissingReferences.emptySlots info, i < 3 := by
  intro i hi
  rw [emptySlots_eq] at hi
  have := (List.mem_filter.1 hi).1
  simp only [List.mem_cons, List.mem_singleton, List.not_mem_nil, or_false] at this
  omega

theorem emptySlots_nodup (info : QRInfo) : (fillMissingReferences.emptySlots info).Nodup := by
  rw [emptySlots_eq]
  exact List.Nodup.filter _ (by decide)

theorem mem_emptySlots (info : QRInfo) (i : Nat) (hi : i < 3) :
    i ∈ fillMissingReferences.emptySlots info ↔ info.reference i = [] := by
  rw [emptySlots_eq, List.mem_filter]
  constructor
  · intro h
    exact of_decide_eq_true h.2
  · intro h
    refine ⟨?_, decide_eq_true h⟩
    interval_cases i <;> simp

/-- The second loop of `fillMissingReferences`, started at `slotIndex`: the
slot of index `k ≥ slotIndex` receives the value of entry `k - slotIndex`, when
there is one, and every other reference is left as it is. -/
theorem fillLoop_reference (slots : List Nat) (h3 : ∀ i ∈ slots, i < 3) (hn : slots.Nodup)
    (data : List (Str × Str)) :
    ∀ (info : QRInfo) (slotIndex : Nat),
      (∀ k, slotIndex ≤ k → k < slots.length → k - slotIndex < data.length →
          (fillMissingReferences.loop slots info slotIndex data).reference (slots.getD k 0)
            = (data.getD (k - slotIndex) ([], [])).2)
      ∧ (∀ i, i < 3 →
          (∀ k, slotIndex ≤ k → k < slots.length → k - slotIndex < data.length →
            slots.getD k 0 ≠ i) →
          (fillMissingReferences.loop slots info slotIndex data).reference i
            = info.reference i) := by
  induction data with
  | nil =>
    intro info slotIndex
    refine ⟨?_, ?_⟩
    · intro k _ _ hk
      exact absurd hk (Nat.not_lt_zero _)
    · intro i _ _
      rfl
  | cons x rest ih =>
    intro info slotIndex
    obtain ⟨t, v⟩ := x
    unfold fillMissingReferences.loop
    by_cases hc : slots.length ≤ slotIndex
    · rw [if_pos hc]
      refine ⟨?_, ?_⟩
      · intro k h1 h2 _
        omega
      · intro i _ _
        rfl
    · rw [if_neg hc]
      have hlt : slotIndex < slots.length := by omega
      obtain ⟨ihA, ihB⟩ := ih (info.setReference (slots.getD slotIndex 0) v) (slotIndex + 1)
      have hs3 : slots.getD slotIndex 0 < 3 := by
        rw [List.getD_eq_getElem _ _ hlt]
        exact h3 _ (List.getElem_mem _)
      have hdiff : ∀ k, slotIndex + 1 ≤ k → k < slots.length →
          slots.getD k 0 ≠ slots.getD slotIndex 0 := by
        intro k hk1 hk2 heq
        rw [List.getD_eq_getElem _ _ hk2, List.getD_eq_getElem _ _ hlt] at heq
        have := (List.Nodup.getElem_inj_iff hn).1 heq
        omega
      refine ⟨?_, ?_⟩
      · intro k h1 h2 h4
        by_cases hk : k = slotIndex
        · subst hk
          rw [ihB _ hs3 (fun k' hk1 hk2 _ => hdiff k' hk1 hk2),
            reference_setReference _ _ _ hs3 hs3, if_pos rfl, Nat.sub_self]
          rfl
        · have hk1 : slotIndex + 1 ≤ k := by omega
          have h5 : k - (slotIndex + 1) < rest.length := by
            simp only [List.length_cons] at h4
            omega
          rw [ihA k hk1 h2 h5]
          have h6 : k - slotIndex = (k - (slotIndex + 1)) + 1 := by omega
          rw [h6]
          rfl
      · intro i hi hall
        have hne : slots.getD slotIndex 0 ≠ i :=
          hall slotIndex (Nat.le_refl _) hlt (by simp)
        rw [ihB i hi (fun k hk1 hk2 hk3 => hall k (by omega) hk2
            (by simp only [List.length_cons]; omega)),
          reference_setReference _ _ _ hs3 hi, if_neg (fun e => hne e.symm)]

/-- Every reference after the second loop is the reference before it or the
value of an entry visited. -/
theorem fillLoop_reference_or (slots : List Nat) (data : List (Str × Str)) :
    ∀ (info : QRInfo) (slotIndex i : Nat),
      (fillMissingReferences.loop slots info slotIndex data).reference i = info.reference i
        ∨ ∃ kv ∈ data,
            (fillMissingReferences.loop slots info slotIndex data).reference i = kv.2 := by
  induction data with
  | nil => intro info slotIndex i; exact Or.inl rfl
  | cons x rest ih =>
    intro info slotIndex i
    obtain ⟨t, v⟩ := x
    unfold fillMissingReferences.loop
    by_cases hc : slots.length ≤ slotIndex
    · rw [if_pos hc]
      exact Or.inl rfl
    · rw [if_neg hc]
      rcases ih (info.setReference (slots.getD slotIndex 0) v) (slotIndex + 1) i with h | h
      · rcases reference_setReference_or info (slots.getD slotIndex 0) i v with h1 | h1
        · exact Or.inl (h.trans h1)
        · exact Or.inr ⟨(t, v), List.mem_cons_self _ _, h.trans h1⟩
      · obtain ⟨kv, hkv, hr⟩ := h
        exact Or.inr ⟨kv, List.mem_cons_of_mem _ hkv, hr⟩

/-- `fillMissingReferences`: the empty slot of index `j` receives the value of
entry `j`, when there is one, and every other reference is left as it is. -/
theorem fillMissingReferences_reference (info : QRInfo) (data : List (Str × Str)) :
    (∀ j, j < (fillMissingReferences.emptySlots info).length → j < data.length →
        (fillMissingReferences info data).reference
            ((fillMissingReferences.emptySlots info).getD j 0)
          = (data.getD j ([], [])).2)
    ∧ (∀ j, j < (fillMissingReferences.emptySlots info).length → data.length ≤ j →
        (fillMissingReferences info data).reference
            ((fillMissingReferences.emptySlots info).getD j 0) = [])
    ∧ (∀ i, i < 3 → info.reference i ≠ [] →
        (fillMissingReferences info data).reference i = info.reference i) := by
  obtain ⟨hA, hB⟩ := fillLoop_reference (fillMissingReferences.emptySlots info)
    (emptySlots_lt info) (emptySlots_nodup info) data info 0
  unfold fillMissingReferences
  refine ⟨?_, ?_, ?_⟩
  · intro j h1 h2
    exact hA j (Nat.zero_le _) h1 h2
  · intro j h1 h2
    have hmem : (fillMissingReferences.emptySlots info).getD j 0
        ∈ fillMissingReferences.emptySlots info := by
      rw [List.getD_eq_getElem _ _ h1]
      exact List.getElem_mem _
    have hj3 := emptySlots_lt info _ hmem
    rw [hB _ hj3]
    · exact (mem_emptySlots info _ hj3).1 hmem
    · intro k _ hk1 hk2 heq
      rw [List.getD_eq_getElem _ _ hk1, List.getD_eq_getElem _ _ h1] at heq
      have := (List.Nodup.getElem_inj_iff (emptySlots_nodup info)).1 heq
      simp only [Nat.sub_zero] at hk2
      omega
  · intro i hi hne
    apply hB i hi
    intro k _ hk1 _ heq
    have hmem : i ∈ fillMissingReferences.emptySlots info := by
      rw [← heq, List.getD_eq_getElem _ _ hk1]
      exact List.getElem_mem _
    exact hne ((mem_emptySlots info i hi).1 hmem)

/-! ## The loop of `ParseEMVCoQRString` -/

theorem qrLoop_eq_scan (fuel : Nat) :
    ∀ (pre rest : Str) (pos : Int) (result : EMVCoQRInfo),
      ParseEMVCoQRString.loop (pre ++ rest) fuel (pre.length : Int) result
        = qrOutcome result (scan fuel pos rest) := by
  induction fuel with
  | zero => intro pre rest pos result; rfl
  | succ fuel ih =>
    intro pre rest pos result
    match rest with
    | [] => simp [ParseEMVCoQRString.loop, scan, Stop.toQR, qrOutcome, assignFields]
    | [a] =>
      simp only [ParseEMVCoQRString.loop, scan, Stop.toQR, qrOutcome, assignFields,
        List.length_append, List.length_cons, List.length_nil]
      rw [if_neg (by push_cast; omega), if_pos (by push_cast; omega), if_neg (by simp)]
    | [a, b] =>
      simp only [ParseEMVCoQRString.loop, scan, Stop.toQR, qrOutcome, assignFields,
        List.length_append, List.length_cons, List.length_nil]
      rw [if_neg (by push_cast; omega), if_pos (by push_cast; omega), if_neg (by simp)]
    | [a, b, c] =>
      simp only [ParseEMVCoQRString.loop, scan, Stop.toQR, qrOutcome, assignFields,
        List.length_append, List.length_cons, List.length_nil]
      rw [if_neg (by push_cast; omega), if_pos (by push_cast; omega), if_neg (by simp)]
    | t0 :: t1 :: l0 :: l1 :: rest =>
      have htag : slice (pre ++ t0 :: t1 :: l0 :: l1 :: rest) (pre.length : Int)
          ((pre.length : Int) + 2) = some [t0, t1] :=
        slice_mid _ pre [t0, t1] (l0 :: l1 :: rest) _ _ (by simp) rfl (by simp)
      have hlen : slice (pre ++ t0 :: t1 :: l0 :: l1 :: rest) ((pre.length : Int) + 2)
          ((pre.length : Int) + 4) = some [l0, l1] :=
        slice_mid _ (pre ++ [t0, t1]) [l0, l1] rest _ _ (by simp) (by simp)
          (by simp only [List.length_append, List.length_cons, List.length_nil]; push_cast; omega)
      unfold ParseEMVCoQRString.loop scan
      rw [if_neg (by simp only [List.length_append, List.length_cons]; push_cast; omega),
        if_neg (by simp only [List.length_append, List.length_cons]; push_cast; omega)]
      simp only [htag, hlen]
      cases hA : Atoi [l0, l1] with
      | none => simp [Stop.toQR, qrOutcome, assignFields]
      | some n =>
        simp only
        by_cases h1 : n > (rest.length : Int)
        · rw [if_pos (by simp only [List.length_append, List.length_cons]; push_cast; omega),
            if_pos h1]
          simp [Stop.toQR, qrOutcome, assignFields]
        · rw [if_neg (by simp only [List.length_append, List.length_cons]; push_cast; omega),
            if_neg h1]
          by_cases h2 : n < 0
          · rw [if_pos h2, slice_none_of_lt _ _ _ (by omega)]
            simp [Stop.toQR, qrOutcome, assignFields]
          · rw [if_neg h2]
            have hval : slice (pre ++ t0 :: t1 :: l0 :: l1 :: rest) ((pre.length : Int) + 4)
                ((pre.length : Int) + 4 + n) = some (rest.take n.toNat) :=
              slice_mid _ (pre ++ [t0, t1, l0, l1]) (rest.take n.toNat) (rest.drop n.toNat) _ _
                (by simp)
                (by simp only [List.length_append, List.length_cons, List.length_nil]
                    push_cast; omega)
                (by simp only [List.length_append, List.length_cons, List.length_nil,
                      List.length_take]; push_cast; omega)
            simp only [hval]
            have hsplit : pre ++ t0 :: t1 :: l0 :: l1 :: rest
                = (pre ++ [t0, t1, l0, l1] ++ rest.take n.toNat) ++ rest.drop n.toNat := by simp
            have hpos : (pre.length : Int) + (4 + n)
                = ((pre ++ [t0, t1, l0, l1] ++ rest.take n.toNat).length : Int) := by
              simp only [List.length_append, List.length_cons, List.length_nil, List.length_take]
              push_cast; omega
            simp only [qrOutcome, assignFields]
            cases hM : ParseEMVCoQRString.assign result [t0, t1] (rest.take n.toNat) with
            | ok e1 =>
              simp only
              rw [hsplit, hpos, ih _ _ (pos + 2 + 2 + n)]
              rfl
            | error err => rfl
            | fault => rfl
            | outOfFuel => rfl

/-- The CRC check of `validateEMVCoQRString`, with its slices written as a
prefix and a suffix of the input. -/
theorem validateEMVCoQRString_eq (s : Str) (h : 14 ≤ s.length) :
    validateEMVCoQRString s =
      if fmtHex04 (crc16Checksum (s.take (s.length - 4))) ≠ s.drop (s.length - 4) then
        .error (str "invalid crc: expected " ++ s.drop (s.length - 4) ++ str ", got "
          ++ fmtHex04 (crc16Checksum (s.take (s.length - 4))))
      else .ok () := by
  have h1 : slice s 0 ((s.length : Int) - 4) = some (s.take (s.length - 4)) := by
    rw [slice_eq_some s 0 _ (by omega) (by omega) (by omega)]
    have : ((s.length : Int) - 4).toNat = s.length - 4 := by omega
    simp [this]
  have h2 : slice s ((s.length : Int) - 4) (s.length : Int) = some (s.drop (s.length - 4)) := by
    rw [slice_eq_some s _ _ (by omega) (by omega) (by omega)]
    have : ((s.length : Int) - 4).toNat = s.length - 4 := by omega
    simp only [this, Int.toNat_ofNat]
    rw [List.take_of_length_le]
    simp only [List.length_drop]
    omega
  unfold validateEMVCoQRString
  rw [if_neg (by omega)]
  simp only [h1, h2]

/-- `ParseEMVCoQRString` on an input that passes the CRC check: the fields
read are assigned, then the reason of stopping decides. -/
theorem ParseEMVCoQRString_eq_scan (s : Str) (h : validateEMVCoQRString s = .ok ()) :
    ParseEMVCoQRString s = qrOutcome {} (scan (s.length + 1) 0 s) := by
  have := qrLoop_eq_scan (s.length + 1) [] s 0 {}
  simp only [List.nil_append, List.length_nil, Nat.cast_zero] at this
  unfold ParseEMVCoQRString
  rw [h]
  exact this

theorem validate_ok_length (s : Str) (h : validateEMVCoQRString s = .ok ()) :
    14 ≤ s.length := by
  by_contra hlt
  unfold validateEMVCoQRString at h
  rw [if_pos (by omega)] at h
  cases h

/-- What a successful `ParseEMVCoQRString` has done: the input passed the CRC
check, it is tiled by the fields read, with nothing left over, `ParseEMVTLV`
returns the triplets of these fields, and the result is built from them. -/
theorem ParseEMVCoQRString_ok (s : Str) (r : EMVCoQRInfo) (h : ParseEMVCoQRString s = .ok r) :
    validateEMVCoQRString s = .ok () ∧ 14 ≤ s.length
      ∧ ∃ fs : List RawField, ParseEMVTLV s = .ok (fs.map RawField.toTriplet)
          ∧ assignFields {} fs = .ok r ∧ (∀ f ∈ fs, f.Wf) ∧ s = rawBytes fs := by
  have hv : validateEMVCoQRString s = .ok () := by
    unfold ParseEMVCoQRString at h
    cases hv : validateEMVCoQRString s with
    | ok u => rfl
    | error err => rw [hv] at h; cases h
    | fault => rw [hv] at h; cases h
    | outOfFuel => rw [hv] at h; cases h
  have h14 := validate_ok_length s hv
  refine ⟨hv, h14, ?_⟩
  rw [ParseEMVCoQRString_eq_scan s hv] at h
  have hP := ParseEMVTLV_eq_scan s (by omega)
  obtain ⟨hw, he⟩ := scan_sound (s.length + 1) 0 s
  generalize scan (s.length + 1) 0 s = sc at h hP hw he
  obtain ⟨fs, st⟩ := sc
  unfold qrOutcome at h
  cases ha : assignFields {} fs with
  | ok r1 =>
    simp only [ha] at h
    cases st with
    | eof frag =>
      by_cases hf : frag = []
      · simp only [Stop.toQR, if_pos hf, Res.ok.injEq] at h
        subst h
        obtain ⟨e3, _⟩ := he frag rfl
        refine ⟨fs, ?_, ha, hw, ?_⟩
        · rw [hP]; rfl
        · rw [hf, List.append_nil] at e3
          exact e3
      · simp [Stop.toQR, hf] at h
    | badLength pos ll => simp [Stop.toQR] at h
    | truncated tag => simp [Stop.toQR] at h
    | negative => simp [Stop.toQR] at h
    | outOfFuel => simp [Stop.toQR] at h
  | error err => simp [ha] at h
  | fault => simp [ha] at h
  | outOfFuel => simp [ha] at h

/-! ## The fields of `EMVCoQRInfo` -/

/-- The inner loop of `ParseEMVCoQRString` writes only `BillerID`, `Ref1` and
`Ref2`. -/
theorem loop2_frame (value : Str) (fuel : Nat) :
    ∀ (index2 : Int) (result r1 : EMVCoQRInfo),
      ParseEMVCoQRString.loop2 value fuel index2 result = .ok r1 →
      r1.Format = result.Format ∧ r1.Amount = result.Amount
        ∧ r1.CountryCode = result.CountryCode
        ∧ r1.CurrencyISO4217 = result.CurrencyISO4217 ∧ r1.Crc = result.Crc
        ∧ r1.PhoneNumber = result.PhoneNumber
        ∧ r1.MerchantAccount = result.MerchantAccount := by
  induction fuel with
  | zero => intro index2 result r1 h; cases h
  | succ fuel ih =>
    intro index2 result r1 h
    unfold ParseEMVCoQRString.loop2 at h
    by_cases c1 : ¬ (index2 < (value.length : Int))
    · rw [if_pos c1] at h
      cases h
      exact ⟨rfl, rfl, rfl, rfl, rfl, rfl, rfl⟩
    · rw [if_neg c1] at h
      by_cases c2 : index2 + 4 > (value.length : Int)
      · rw [if_pos c2] at h
        cases h
      · rw [if_neg c2] at h
        cases h1 : slice value index2 (index2 + 2) with
        | none => rw [h1] at h; cases h
        | some id2 =>
          rw [h1] at h
          simp only at h
          cases h2 : slice value (index2 + 2) (index2 + 4) with
          | none => rw [h2] at h; cases h
          | some lengthStr =>
            rw [h2] at h
            simp only at h
            cases h3 : Atoi lengthStr with
            | none => rw [h3] at h; cases h
            | some length2 =>
              rw [h3] at h
              simp only at h
              by_cases c3 : index2 + 4 + length2 > (value.length : Int)
              · rw [if_pos c3] at h
                cases h
              · rw [if_neg c3] at h
                cases h4 : slice value (index2 + 4) (index2 + 4 + length2) with
                | none => rw [h4] at h; cases h
                | some value2 =>
                  rw [h4] at h
                  simp only at h
                  obtain ⟨i1, i2, i3, i4, i5, i6, i7⟩ := ih _ _ _ h
                  by_cases d1 : id2 = str "01"
                  · rw [if_pos d1] at i1 i2 i3 i4 i5 i6 i7
                    exact ⟨i1, i2, i3, i4, i5, i6, i7⟩
                  · rw [if_neg d1] at i1 i2 i3 i4 i5 i6 i7
                    by_cases d2 : id2 = str "02"
                    · rw [if_pos d2] at i1 i2 i3 i4 i5 i6 i7
                      exact ⟨i1, i2, i3, i4, i5, i6, i7⟩
                    · rw [if_neg d2] at i1 i2 i3 i4 i5 i6 i7
                      by_cases d3 : id2 = str "03"
                      · rw [if_pos d3] at i1 i2 i3 i4 i5 i6 i7
                        exact ⟨i1, i2, i3, i4, i5, i6, i7⟩
                      · rw [if_neg d3] at i1 i2 i3 i4 i5 i6 i7
                        exact ⟨i1, i2, i3, i4, i5, i6, i7⟩

/-- The `case "29"` of `ParseEMVCoQRString`. -/
theorem assign_29 (result : EMVCoQRInfo) (v : Str) :
    ParseEMVCoQRString.assign result (str "29") v =
      if stringsIndex v (str "011300") ≠ -1 then
        match slice v (stringsIndex v (str "011300") + 6) (v.length : Int) with
        | none => .fault
        | some phone => .ok { result with MerchantAccount := v, PhoneNumber := phone }
      else if stringsIndex v (str "110213") ≠ -1 then
        match slice v (stringsIndex v (str "110213") + 6) (v.length : Int) with
        | none => .fault
        | some phone => .ok { result with MerchantAccount := v, PhoneNumber := phone }
      else .ok { result with MerchantAccount := v } := by
  unfold ParseEMVCoQRString.assign
  rw [if_neg (by decide), if_pos rfl]

/-- The `case "30"` of `ParseEMVCoQRString`. -/
theorem assign_30 (result : EMVCoQRInfo) (v : Str) :
    ParseEMVCoQRString.assign result (str "30") v =
      ParseEMVCoQRString.loop2 v (v.length + 1) 0 { result with MerchantAccount := v } := by
  unfold ParseEMVCoQRString.assign
  rw [if_neg (by decide), if_neg (by decide), if_pos rfl]

/-- What one pass through the `switch id` of `ParseEMVCoQRString` does to the
fields that are not written by the inner loop. -/
theorem assign_scalars (result r1 : EMVCoQRInfo) (id v : Str)
    (h : ParseEMVCoQRString.assign result id v = .ok r1) :
    r1.Format = (if id = str "01" then v else result.Format)
      ∧ r1.Amount = (if id = str "54" then v else result.Amount)
      ∧ r1.CountryCode = (if id = str "58" then v else result.CountryCode)
      ∧ r1.CurrencyISO4217 = (if id = str "53" then v else result.CurrencyISO4217)
      ∧ r1.Crc = (if id = str "63" then v else result.Crc)
      ∧ (id ≠ str "29" → r1.PhoneNumber = result.PhoneNumber)
      ∧ r1.MerchantAccount
          = (if id = str "29" ∨ id = str "30" then v else result.MerchantAccount) := by
  by_cases h01 : id = str "01"
  · subst h01
    cases h
    exact ⟨rfl, rfl, rfl, rfl, rfl, fun _ => rfl, rfl⟩
  by_cases h29 : id = str "29"
  · subst h29
    rw [assign_29] at h
    by_cases c1 : stringsIndex v (str "011300") ≠ -1
    · rw [if_pos c1] at h
      cases hs : slice v (stringsIndex v (str "011300") + 6) (v.length : Int) with
      | none => rw [hs] at h; cases h
      | some phone =>
        rw [hs] at h
        cases h
        exact ⟨rfl, rfl, rfl, rfl, rfl, fun hne => absurd rfl hne, rfl⟩
    · rw [if_neg c1] at h
      by_cases c2 : stringsIndex v (str "110213") ≠ -1
      · rw [if_pos c2] at h
        cases hs : slice v (stringsIndex v (str "110213") + 6) (v.length : Int) with
        | none => rw [hs] at h; cases h
        | some phone =>
          rw [hs] at h
          cases h
          exact ⟨rfl, rfl, rfl, rfl, rfl, fun hne => absurd rfl hne, rfl⟩
      · rw [if_neg c2] at h
        cases h
        exact ⟨rfl, rfl, rfl, rfl, rfl, fun hne => absurd rfl hne, rfl⟩
  by_cases h30 : id = str "30"
  · subst h30
    rw [assign_30] at h
    obtain ⟨i1, i2, i3, i4, i5, i6, i7⟩ := loop2_frame _ _ _ _ _ h
    exact ⟨i1, i2, i3, i4, i5, fun _ => i6, i7⟩
  by_cases h54 : id = str "54"
  · subst h54
    cases h
    exact ⟨rfl, rfl, rfl, rfl, rfl, fun _ => rfl, rfl⟩
  by_cases h58 : id = str "58"
  · subst h58
    cases h
    exact ⟨rfl, rfl, rfl, rfl, rfl, fun _ => rfl, rfl⟩
  by_cases h62 : id = str "62"
  · subst h62
    unfold ParseEMVCoQRString.assign at h
    rw [if_neg (by decide), if_neg (by decide), if_neg (by decide), if_neg (by decide),
      if_neg (by decide), if_pos rfl] at h
    by_cases c : v.length > 4
    · rw [if_pos c] at h
      cases hs : slice v 4 (v.length : Int) with
      | none => rw [hs] at h; cases h
      | some ref3 =>
        rw [hs] at h
        cases h
        exact ⟨rfl, rfl, rfl, rfl, rfl, fun _ => rfl, rfl⟩
    · rw [if_neg c] at h
      cases h
      exact ⟨rfl, rfl, rfl, rfl, rfl, fun _ => rfl, rfl⟩
  by_cases h63 : id = str "63"
  · subst h63
    cases h
    exact ⟨rfl, rfl, rfl, rfl, rfl, fun _ => rfl, rfl⟩
  by_cases h53 : id = str "53"
  · subst h53
    cases h
    exact ⟨rfl, rfl, rfl, rfl, rfl, fun _ => rfl, rfl⟩
  unfold ParseEMVCoQRString.assign at h
  rw [if_neg h01, if_neg h29, if_neg h30, if_neg h54, if_neg h58, if_neg h62, if_neg h63,
    if_neg h53] at h
  cases h
  rw [if_neg h01, if_neg h54, if_neg h58, if_neg h53, if_neg h63,
    if_neg (fun hh => hh.elim h29 h30)]
  exact ⟨rfl, rfl, rfl, rfl, rfl, fun _ => rfl, rfl⟩

theorem lastValue?_getD_step (f : RawField) (fs : List RawField) (t old : Str) :
    (lastValue? (fs.map RawField.toTriplet) t).getD (if f.tag = t then f.value else old)
      = (lastValue? ((f :: fs).map RawField.toTriplet) t).getD old := by
  rw [List.map_cons, lastValue?_cons, getD_step]
  rfl

/-- After the fields are assigned, `Format`, `Amount`, `CountryCode`,
`CurrencyISO4217` and `Crc` hold the value of the last field with their tag,
or what they held before when there is none. -/
theorem assignFields_scalars (fs : List RawField) :
    ∀ r0 r : EMVCoQRInfo, assignFields r0 fs = .ok r →
      r.Format = (lastValue? (fs.map RawField.toTriplet) (str "01")).getD r0.Format
      ∧ r.Amount = (lastValue? (fs.map RawField.toTriplet) (str "54")).getD r0.Amount
      ∧ r.CountryCode = (lastValue? (fs.map RawField.toTriplet) (str "58")).getD r0.CountryCode
      ∧ r.CurrencyISO4217
          = (lastValue? (fs.map RawField.toTriplet) (str "53")).getD r0.CurrencyISO4217
      ∧ r.Crc = (lastValue? (fs.map RawField.toTriplet) (str "63")).getD r0.Crc := by
  induction fs with
  | nil => intro r0 r h; cases h; exact ⟨rfl, rfl, rfl, rfl, rfl⟩
  | cons f fs ih =>
    intro r0 r h
    unfold assignFields at h
    cases hm : ParseEMVCoQRString.assign r0 f.tag f.value with
    | ok r1 =>
      rw [hm] at h
      obtain ⟨i1, i2, i3, i4, i5⟩ := ih r1 r h
      obtain ⟨s1, s2, s3, s4, s5, _, _⟩ := assign_scalars r0 r1 f.tag f.value hm
      refine ⟨?_, ?_, ?_, ?_, ?_⟩
      · rw [i1, s1, lastValue?_getD_step]
      · rw [i2, s2, lastValue?_getD_step]
      · rw [i3, s3, lastValue?_getD_step]
      · rw [i4, s4, lastValue?_getD_step]
      · rw [i5, s5, lastValue?_getD_step]
    | error err => rw [hm] at h; cases h
    | fault => rw [hm] at h; cases h
    | outOfFuel => rw [hm] at h; cases h

theorem lastValue_append_singleton (pre : List EMVDataValue) (x : EMVDataValue)
    (h : x.Tag = str "63") : lastValue (pre ++ [x]) (str "63") = x.Value := by
  unfold lastValue lastValue? lastValueFrom
  rw [List.foldl_append]
  simp only [List.foldl_cons, List.foldl_nil, if_pos h, Option.getD_some]

/-! ## The phone number of a tag-29 field -/

theorem isPrefixOf_iff_append (a b : Str) : a.isPrefixOf b = true ↔ ∃ q, b = a ++ q := by
  induction a generalizing b with
  | nil => simp
  | cons x a ih =>
    cases b with
    | nil => simp [List.isPrefixOf]
    | cons y b =>
      simp only [List.isPrefixOf, Bool.and_eq_true, beq_iff_eq, ih, List.cons_append,
        List.cons.injEq]
      constructor
      · rintro ⟨rfl, q, rfl⟩
        exact ⟨q, rfl, rfl⟩
      · rintro ⟨q, rfl, rfl⟩
        exact ⟨rfl, q, rfl⟩

/-- `strings.Index`, searching from offset `i` on: either `sub` does not occur
and the result is -1, or the result is the offset of the first occurrence. -/
theorem stringsIndexFrom_spec (sub : Str) (hsub : sub ≠ []) :
    ∀ (s : Str) (i : Int),
      ((¬ ∃ p q, s = p ++ sub ++ q) ∧ stringsIndexFrom sub s i = -1)
      ∨ ∃ p q, s = p ++ sub ++ q
          ∧ (∀ p1 q1, s = p1 ++ sub ++ q1 → p.length ≤ p1.length)
          ∧ stringsIndexFrom sub s i = i + (p.length : Int) := by
  intro s
  induction s with
  | nil =>
    intro i
    left
    refine ⟨?_, ?_⟩
    · rintro ⟨p, q, h⟩
      have hl := congrArg List.length h
      simp only [List.length_nil, List.length_append] at hl
      have : sub.length = 0 := by omega
      exact hsub (List.length_eq_zero.1 this)
    · unfold stringsIndexFrom
      rw [if_neg hsub]
  | cons c cs ih =>
    intro i
    unfold stringsIndexFrom
    by_cases hp : sub.isPrefixOf (c :: cs) = true
    · rw [if_pos hp]
      obtain ⟨q, hq⟩ := (isPrefixOf_iff_append _ _).1 hp
      right
      refine ⟨[], q, by rw [hq]; rfl, fun _ _ _ => Nat.zero_le _, by simp⟩
    · rw [if_neg hp]
      rcases ih (i + 1) with ⟨hno, hidx⟩ | ⟨p, q, hs, hmin, hidx⟩
      · left
        refine ⟨?_, hidx⟩
        rintro ⟨p1, q1, h1⟩
        cases p1 with
        | nil => exact hp ((isPrefixOf_iff_append _ _).2 ⟨q1, by rw [h1]; rfl⟩)
        | cons d p2 =>
          simp only [List.cons_append, List.cons.injEq] at h1
          exact hno ⟨p2, q1, h1.2⟩
      · right
        refine ⟨c :: p, q, by rw [hs]; rfl, ?_, ?_⟩
        · intro p1 q1 h1
          cases p1 with
          | nil => exact absurd ((isPrefixOf_iff_append _ _).2 ⟨q1, by rw [h1]; rfl⟩) hp
          | cons d p2 =>
            simp only [List.cons_append, List.cons.injEq] at h1
            have := hmin p2 q1 h1.2
            simp only [List.length_cons]
            omega
        · rw [hidx]
          simp only [List.length_cons]
          push_cast
          omega

theorem stringsIndex_none (sub v : Str) (hsub : sub ≠ [])
    (h : ¬ ∃ p q, v = p ++ sub ++ q) : stringsIndex v sub = -1 := by
  unfold stringsIndex
  rcases stringsIndexFrom_spec sub hsub v 0 with ⟨_, hidx⟩ | ⟨p, q, hs, _, _⟩
  · exact hidx
  · exact absurd ⟨p, q, hs⟩ h

theorem stringsIndex_first (sub v p q : Str) (hsub : sub ≠ []) (hv : v = p ++ sub ++ q)
    (hmin : ∀ p1 q1, v = p1 ++ sub ++ q1 → p.length ≤ p1.length) :
    stringsIndex v sub = (p.length : Int) := by
  unfold stringsIndex
  rcases stringsIndexFrom_spec sub hsub v 0 with ⟨hno, _⟩ | ⟨p0, q0, hs0, hmin0, hidx⟩
  · exact absurd ⟨p, q, hv⟩ hno
  · rw [hidx]
    have h1 := hmin p0 q0 hs0
    have h2 := hmin0 p q hv
    omega

theorem stringsIndex_le (sub v p q : Str) (hsub : sub ≠ []) (hv : v = p ++ sub ++ q) :
    stringsIndex v sub ≤ (p.length : Int) := by
  unfold stringsIndex
  rcases stringsIndexFrom_spec sub hsub v 0 with ⟨hno, _⟩ | ⟨p0, q0, _, hmin0, hidx⟩
  · exact absurd ⟨p, q, hv⟩ hno
  · rw [hidx]
    have := hmin0 p q hv
    omega

/-- The value slice after a marker of 6 bytes found at its first occurrence. -/
theorem slice_after_marker (sub v p q : Str) (h6 : sub.length = 6) (hv : v = p ++ sub ++ q) :
    slice v ((p.length : Int) + 6) (v.length : Int) = some q := by
  apply slice_mid v (p ++ sub) q [] _ _ (by rw [hv]; simp)
  · simp only [List.length_append, h6]
    push_cast
    rfl
  · rw [hv]
    simp only [List.length_append, h6]
    push_cast
    omega

/-- The phone number after the `case "29"` of `ParseEMVCoQRString`. -/
theorem assign_29_phone (result r1 : EMVCoQRInfo) (v : Str)
    (h : ParseEMVCoQRString.assign result (str "29") v = .ok r1) :
    (∀ p q, v = p ++ str "011300" ++ q →
        (∀ p1 q1, v = p1 ++ str "011300" ++ q1 → p.length ≤ p1.length) → r1.PhoneNumber = q)
    ∧ ((¬ ∃ p q, v = p ++ str "011300" ++ q) →
        ∀ p q, v = p ++ str "110213" ++ q →
          (∀ p1 q1, v = p1 ++ str "110213" ++ q1 → p.length ≤ p1.length) → r1.PhoneNumber = q)
    ∧ ((¬ ∃ p q, v = p ++ str "011300" ++ q) → (¬ ∃ p q, v = p ++ str "110213" ++ q) →
        r1.PhoneNumber = result.PhoneNumber) := by
  rw [assign_29] at h
  refine ⟨?_, ?_, ?_⟩
  · intro p q hv hmin
    have hi := stringsIndex_first (str "011300") v p q (by decide) hv hmin
    rw [hi, if_pos (by omega), slice_after_marker (str "011300") v p q rfl hv] at h
    cases h
    rfl
  · intro hno p q hv hmin
    have h0 := stringsIndex_none (str "011300") v (by decide) hno
    have hi := stringsIndex_first (str "110213") v p q (by decide) hv hmin
    rw [h0, if_neg (by simp), hi, if_pos (by omega),
      slice_after_marker (str "110213") v p q rfl hv] at h
    cases h
    rfl
  · intro hno1 hno2
    have h0 := stringsIndex_none (str "011300") v (by decide) hno1
    have h1 := stringsIndex_none (str "110213") v (by decide) hno2
    rw [h0, if_neg (by simp), h1, if_neg (by simp)] at h
    cases h
    rfl

theorem assignFields_append (xs ys : List RawField) :
    ∀ r0 r : EMVCoQRInfo, assignFields r0 (xs ++ ys) = .ok r →
      ∃ r1, assignFields r0 xs = .ok r1 ∧ assignFields r1 ys = .ok r := by
  induction xs with
  | nil => intro r0 r h; exact ⟨r0, rfl, h⟩
  | cons x xs ih =>
    intro r0 r h
    simp only [List.cons_append, assignFields] at h ⊢
    cases hm : ParseEMVCoQRString.assign r0 x.tag x.value with
    | ok r2 =>
      rw [hm] at h
      exact ih r2 r h
    | error err => rw [hm] at h; cases h
    | fault => rw [hm] at h; cases h
    | outOfFuel => rw [hm] at h; cases h

/-- Fields with other tags than `29` leave the phone number as it is, and
fields with other tags than `29` and `30` leave the merchant account as it is. -/
theorem assignFields_frame (fs : List RawField) :
    ∀ r0 r : EMVCoQRInfo, assignFields r0 fs = .ok r →
      ((∀ f ∈ fs, f.tag ≠ str "29") → r.PhoneNumber = r0.PhoneNumber)
      ∧ ((∀ f ∈ fs, f.tag ≠ str "29") → (∀ f ∈ fs, f.tag ≠ str "30") →
          r.MerchantAccount = r0.MerchantAccount) := by
  induction fs with
  | nil => intro r0 r h; cases h; exact ⟨fun _ => rfl, fun _ _ => rfl⟩
  | cons f fs ih =>
    intro r0 r h
    unfold assignFields at h
    cases hm : ParseEMVCoQRString.assign r0 f.tag f.value with
    | ok r1 =>
      rw [hm] at h
      obtain ⟨i1, i2⟩ := ih r1 r h
      obtain ⟨_, _, _, _, _, s6, s7⟩ := assign_scalars r0 r1 f.tag f.value hm
      refine ⟨?_, ?_⟩
      · intro h29
        rw [i1 (fun g hg => h29 g (List.mem_cons_of_mem _ hg)),
          s6 (h29 f (List.mem_cons_self _ _))]
      · intro h29 h30
        rw [i2 (fun g hg => h29 g (List.mem_cons_of_mem _ hg))
            (fun g hg => h30 g (List.mem_cons_of_mem _ hg)), s7,
          if_neg (fun hh => hh.elim (h29 f (List.mem_cons_self _ _))
            (h30 f (List.mem_cons_self _ _)))]
    | error err => rw [hm] at h; cases h
    | fault => rw [hm] at h; cases h
    | outOfFuel => rw [hm] at h; cases h

/-! ## Masking -/

/-- The slice `s[:n]`. -/
theorem slice_take (s : Str) (n : Nat) (h : n ≤ s.length) :
    slice s 0 (n : Int) = some (s.take n) := by
  rw [slice_eq_some s 0 _ (by omega) (by omega) (by omega)]
  simp

/-- The slice `s[len(s)-n:]`. -/
theorem slice_last (s : Str) (n : Nat) (h : n ≤ s.length) :
    slice s ((s.length : Int) - (n : Int)) (s.length : Int) = some (s.drop (s.length - n)) := by
  rw [slice_eq_some s _ _ (by omega) (by omega) (by omega)]
  have h1 : ((s.length : Int) - (n : Int)).toNat = s.length - n := by omega
  simp only [h1, Int.toNat_ofNat]
  rw [List.take_of_length_le]
  simp only [List.length_drop]
  omega

/-! ## Whitespace normalization -/

theorem loop_eq_emit (s : List Rune) :
    ∀ (b : List Rune) (inSpace : Bool),
      RemoveDuplicateSpaces.loop s b inSpace = b ++ RemoveDuplicateSpaces.emit s inSpace := by
  induction s with
  | nil => intro b f; simp [RemoveDuplicateSpaces.loop, RemoveDuplicateSpaces.emit]
  | cons r rest ih =>
    intro b f
    unfold RemoveDuplicateSpaces.loop RemoveDuplicateSpaces.emit
    by_cases hz : zeroWidthChars r = true
    · rw [if_pos hz, if_pos hz, ih]
    · rw [if_neg hz, if_neg hz]
      by_cases hw : isWhitespace r = true
      · rw [if_pos hw, if_pos hw]
        by_cases hf : (!f) = true
        · rw [if_pos hf, if_pos hf, ih]
          simp
        · rw [if_neg hf, if_neg hf, ih]
      · rw [if_neg hw, if_neg hw, ih]
        simp

/-- Every rune written is the space or a rune of the input that is neither
removed nor whitespace. -/
theorem emit_mem (s : List Rune) :
    ∀ (inSpace : Bool), ∀ x ∈ RemoveDuplicateSpaces.emit s inSpace,
      x = 32 ∨ (x ∈ s ∧ zeroWidthChars x = false ∧ isWhitespace x = false) := by
  induction s with
  | nil => intro f x hx; cases hx
  | cons r rest ih =>
    intro f x hx
    unfold RemoveDuplicateSpaces.emit at hx
    by_cases hz : zeroWidthChars r = true
    · rw [if_pos hz] at hx
      rcases ih f x hx with h | ⟨h1, h2⟩
      · exact Or.inl h
      · exact Or.inr ⟨List.mem_cons_of_mem _ h1, h2⟩
    · rw [if_neg hz] at hx
      by_cases hw : isWhitespace r = true
      · rw [if_pos hw] at hx
        by_cases hf : (!f) = true
        · rw [if_pos hf] at hx
          rcases List.mem_cons.1 hx with h | h
          · exact Or.inl h
          · rcases ih true x h with h | ⟨h1, h2⟩
            · exact Or.inl h
            · exact Or.inr ⟨List.mem_cons_of_mem _ h1, h2⟩
        · rw [if_neg hf] at hx
          rcases ih f x hx with h | ⟨h1, h2⟩
          · exact Or.inl h
          · exact Or.inr ⟨List.mem_cons_of_mem _ h1, h2⟩
      · rw [if_neg hw] at hx
        rcases List.mem_cons.1 hx with h | h
        · subst h
          exact Or.inr ⟨List.mem_cons_self _ _, by simpa using hz, by simpa using hw⟩
        · rcases ih false x h with h | ⟨h1, h2⟩
          · exact Or.inl h
          · exact Or.inr ⟨List.mem_cons_of_mem _ h1, h2⟩

/-- No two spaces written are adjacent, and no space is written first while
`inSpace` is set. -/
theorem emit_chain (s : List Rune) :
    ∀ (inSpace : Bool),
      List.Chain' (fun a b => ¬ (a = 32 ∧ b = 32)) (RemoveDuplicateSpaces.emit s inSpace)
      ∧ (inSpace = true → (RemoveDuplicateSpaces.emit s inSpace).head? ≠ some 32) := by
  induction s with
  | nil =>
    intro f
    exact ⟨List.chain'_nil, fun _ h => by cases h⟩
  | cons r rest ih =>
    intro f
    unfold RemoveDuplicateSpaces.emit
    by_cases hz : zeroWidthChars r = true
    · rw [if_pos hz]
      exact ih f
    · rw [if_neg hz]
      by_cases hw : isWhitespace r = true
      · rw [if_pos hw]
        by_cases hf : (!f) = true
        · rw [if_pos hf]
          obtain ⟨i1, i2⟩ := ih true
          refine ⟨List.chain'_cons'.2 ⟨?_, i1⟩, ?_⟩
          · intro y hy hh
            apply i2 rfl
            rw [Option.mem_def] at hy
            rw [hy, hh.2]
          · intro hft
            rw [hft] at hf
            cases hf
        · rw [if_neg hf]
          exact ih f
      · rw [if_neg hw]
        have hr : r ≠ 32 := by
          intro h
          rw [h] at hw
          exact hw (by decide)
        obtain ⟨i1, _⟩ := ih false
        refine ⟨List.chain'_cons'.2 ⟨fun y _ hh => hr hh.1, i1⟩, ?_⟩
        intro _ hh
        simp only [List.head?_cons, Option.some.injEq] at hh
        exact hr hh

/-- The runes written other than spaces are the runes of the input that are
neither whitespace nor removed, in the same order. -/
theorem emit_filter (s : List Rune) :
    ∀ (inSpace : Bool),
      (RemoveDuplicateSpaces.emit s inSpace).filter (fun r => r != 32)
        = s.filter (fun r => !isWhitespace r && !zeroWidthChars r) := by
  induction s with
  | nil => intro f; rfl
  | cons r rest ih =>
    intro f
    unfold RemoveDuplicateSpaces.emit
    by_cases hz : zeroWidthChars r = true
    · rw [if_pos hz, ih, List.filter_cons_of_neg (by simp [hz])]
    · rw [if_neg hz]
      by_cases hw : isWhitespace r = true
      · rw [if_pos hw, List.filter_cons_of_neg (by simp [hw])]
        by_cases hf : (!f) = true
        · rw [if_pos hf, List.filter_cons_of_neg (by simp), ih]
        · rw [if_neg hf, ih]
      · rw [if_neg hw]
        have hr : r ≠ 32 := by
          intro h
          rw [h] at hw
          exact hw (by decide)
        rw [List.filter_cons_of_pos (by simpa using hr),
          List.filter_cons_of_pos (by simp [hz, hw]), ih]

/-- `strings.TrimSpace` removes a prefix and a suffix of runes that satisfy
`unicode.IsSpace`. -/
theorem stringsTrimSpace_split (b : List Rune) :
    ∃ pre post, b = pre ++ stringsTrimSpace b ++ post
      ∧ (∀ r ∈ pre, unicodeIsSpace r = true) ∧ (∀ r ∈ post, unicodeIsSpace r = true) := by
  refine ⟨b.takeWhile unicodeIsSpace,
    ((b.dropWhile unicodeIsSpace).reverse.takeWhile unicodeIsSpace).reverse, ?_, ?_, ?_⟩
  · unfold stringsTrimSpace
    rw [List.append_assoc, ← List.reverse_append, List.takeWhile_append_dropWhile,
      List.reverse_reverse, List.takeWhile_append_dropWhile]
  · intro r hr
    exact List.mem_takeWhile_imp hr
  · intro r hr
    exact List.mem_takeWhile_imp (List.mem_reverse.1 hr)

/-- The result of `strings.TrimSpace` neither starts nor ends with a rune that
satisfies `unicode.IsSpace`. -/
theorem stringsTrimSpace_ends (b : List Rune) :
    (∀ x, (stringsTrimSpace b).head? = some x → unicodeIsSpace x = false)
      ∧ (∀ x, (stringsTrimSpace b).getLast? = some x → unicodeIsSpace x = false) := by
  have hlast : ∀ x, (stringsTrimSpace b).getLast? = some x → unicodeIsSpace x = false := by
    intro x hx
    unfold stringsTrimSpace at hx
    rw [List.getLast?_reverse] at hx
    have := List.head?_dropWhile_not unicodeIsSpace (b.dropWhile unicodeIsSpace).reverse
    rw [hx] at this
    exact this
  refine ⟨?_, hlast⟩
  intro x hx
  have hd := List.head?_dropWhile_not unicodeIsSpace b
  have hsplit : b.dropWhile unicodeIsSpace
      = stringsTrimSpace b
        ++ ((b.dropWhile unicodeIsSpace).reverse.takeWhile unicodeIsSpace).reverse := by
    unfold stringsTrimSpace
    rw [← List.reverse_append, List.takeWhile_append_dropWhile, List.reverse_reverse]
  have hne : stringsTrimSpace b ≠ [] := by
    intro h
    rw [h] at hx
    cases hx
  rw [hsplit, List.head?_append_of_ne_nil _ hne, hx] at hd
  exact hd

/-! ## Optional strings -/

/-- `strings.TrimSpace` returns the empty string exactly on the strings made of
Unicode whitespace. -/
theorem stringsTrimSpace_eq_nil_iff (s : List Rune) :
    stringsTrimSpace s = [] ↔ ∀ r ∈ s, unicodeIsSpace r = true := by
  constructor
  · intro h
    obtain ⟨pre, post, hs, hpre, hpost⟩ := stringsTrimSpace_split s
    rw [h, List.append_nil] at hs
    intro r hr
    rw [hs] at hr
    rcases List.mem_append.1 hr with h1 | h1
    · exact hpre r h1
    · exact hpost r h1
  · intro h
    unfold stringsTrimSpace
    rw [List.dropWhile_eq_nil_iff.2 h]
    rfl

/-! ## The shape of a length field that `Atoi` accepts -/

/-- A length field of two bytes that `Atoi` accepts is written as two digits,
with a value from 0 to 99, or as a sign and a digit, with a value from -9 to 9. -/
theorem Atoi_two_bytes (ll : Str) (n : Int) (hl : ll.length = 2) (h : Atoi ll = some n) :
    (TwoDigits ll ∧ 0 ≤ n ∧ n ≤ 99) ∨ (SignDigit ll ∧ -9 ≤ n ∧ n ≤ 9) := by
  by_cases h1 : TwoDigits ll
  · left
    refine ⟨h1, ?_⟩
    obtain ⟨_, hd⟩ := h1
    match ll, hl with
    | [l0, l1], _ =>
      have h0 : IsDigit l0 := hd l0 (by simp)
      have h1 : IsDigit l1 := hd l1 (by simp)
      rw [Atoi_two_digits l0 l1 h0 h1] at h
      cases h
      unfold IsDigit at h0 h1
      omega
  · by_cases h2 : SignDigit ll
    · right
      refine ⟨h2, ?_⟩
      obtain ⟨_, hs, hd⟩ := h2
      match ll, hl with
      | [l0, l1], _ =>
        have hd1 : 48 ≤ l1 ∧ l1 ≤ 57 := hd l1 (by simp)
        simp only [List.head?_cons, Option.some.injEq] at hs
        have hs' : l0 = 45 ∨ l0 = 43 := by omega
        simp only [Atoi, if_pos hs', atoiDigits, hd1, and_self, if_true] at h
        simp only [reduceCtorEq, if_false, Nat.zero_mul, Nat.zero_add] at h
        by_cases c : l0 = 45
        · simp only [if_pos c] at h
          split at h
          · cases h
            omega
          · cases h
        · simp only [if_neg c] at h
          split at h
          · cases h
            omega
          · cases h
    · rw [Atoi_none_of ll hl h1 h2] at h
      cases h

/-! ## The derived enum fields -/

/-- What one call of `mapEMVField` does to `POIMethodType`. -/
theorem mapEMVField_poi (e e1 : EMVData) (tag v : Str) (h : mapEMVField e tag v = .ok e1) :
    e1.POIMethodType = (if tag = str "01" then mapPOIMethodType v else e.POIMethodType) := by
  rcases nestedTag_cases tag with hc | hc | hc
  · subst hc
    rw [mapEMVField_62] at h
    cases hp : parseSubFields v with
    | ok m => rw [hp] at h; cases h; rfl
    | error err => rw [hp] at h; cases h
    | fault => rw [hp] at h; cases h
    | outOfFuel => rw [hp] at h; cases h
  · rw [mapEMVField_range e tag v hc] at h
    rw [if_neg (range_ne tag _ hc (by decide))]
    cases hp : parseMerchantAccountInfo v with
    | ok m => rw [hp] at h; cases h; rfl
    | error err => rw [hp] at h; cases h
    | fault => rw [hp] at h; cases h
    | outOfFuel => rw [hp] at h; cases h
  · by_cases hm : tag ∈ caseTags
    · simp only [caseTags, List.mem_cons, List.mem_singleton, List.not_mem_nil, or_false] at hm
      rcases hm with rfl | rfl | rfl | rfl | rfl | rfl | rfl | rfl | rfl | rfl | rfl | rfl | rfl
      · rw [mapEMVField_00] at h; cases h; rfl
      · rw [mapEMVField_01] at h; cases h; rfl
      · rw [mapEMVField_52] at h; cases h; rfl
      · rw [mapEMVField_53] at h; cases h; rfl
      · rw [mapEMVField_54] at h; cases h; rfl
      · rw [mapEMVField_55] at h; cases h; rfl
      · rw [mapEMVField_56] at h; cases h; rfl
      · rw [mapEMVField_58] at h; cases h; rfl
      · rw [mapEMVField_59] at h; cases h; rfl
      · rw [mapEMVField_60] at h; cases h; rfl
      · rw [mapEMVField_61] at h; cases h; rfl
      · exact absurd hc (by decide)
      · rw [mapEMVField_63] at h; cases h; rfl
    · have hr : (strLe (str "02") tag && strLe tag (str "51")) = false := by
        cases hx : (strLe (str "02") tag && strLe tag (str "51")) with
        | false => rfl
        | true => rw [nestedTag_of_range tag hx] at hc; cases hc
      have h01 : tag ≠ str "01" := by
        intro e01
        apply hm
        rw [e01]
        decide
      rw [if_neg h01]
      rw [mapEMVField_default e tag v hm hr] at h
      by_cases h1 : (strLe (str "64") tag && strLe tag (str "99")) = true
      · rw [if_pos h1] at h
        by_cases h2 : tag = str "99"
        · rw [if_pos h2] at h; cases h; rfl
        · rw [if_neg h2] at h; cases h; rfl
      · rw [if_neg h1] at h; cases h; rfl

/-- After the fields are mapped, `POIMethodType` is the lookup of the value of
the last tag-01 field, or what it was before when there is none. -/
theorem mapFields_poi (fs : List RawField) :
    ∀ e e1 : EMVData, mapFields e fs = .ok e1 →
      e1.POIMethodType
        = ((lastValue? (fs.map RawField.toTriplet) (str "01")).map mapPOIMethodType).getD
            e.POIMethodType := by
  induction fs with
  | nil => intro e e1 h; cases h; rfl
  | cons f fs ih =>
    intro e e1 h
    unfold mapFields at h
    cases hm : mapEMVField e f.tag f.value with
    | ok e2 =>
      rw [hm] at h
      rw [ih e2 e1 h, mapEMVField_poi e e2 f.tag f.value hm, List.map_cons, lastValue?_cons,
        getD_map_step]
      rfl
    | error err => rw [hm] at h; cases h
    | fault => rw [hm] at h; cases h
    | outOfFuel => rw [hm] at h; cases h

/-- The account `parseMerchantAccountInfo` builds has its two enum fields
looked up from its AID, or has the three of them empty. -/
theorem parseMerchantAccountInfo_enums (v : Str) (acct : MerchantAccount)
    (h : parseMerchantAccountInfo v = .ok acct) :
    (acct.AIDType = mapAIDType acct.AID ∧ acct.PaymentScheme = mapScheme acct.AID)
      ∨ (acct.AID = [] ∧ acct.AIDType = [] ∧ acct.PaymentScheme = []) := by
  obtain ⟨m, _, hfold⟩ := parseMerchantAccountInfo_ok v acct h
  obtain ⟨a1, a2, a3, _⟩ := foldl_assign m {}
  rw [← hfold] at a1 a2 a3
  cases hl : lastOf m (str "00") with
  | none =>
    rw [hl] at a1 a2 a3
    exact Or.inr ⟨a1, a2, a3⟩
  | some x =>
    rw [hl] at a1 a2 a3
    left
    rw [a1, a2, a3]
    exact ⟨rfl, rfl⟩

/-- The mapping of fields keeps the entries of `MerchantAccountInfo` in this
form: a pointer that is not nil, to an account with these enum fields. -/
theorem mapFields_enums (fs : List RawField) :
    ∀ e e1 : EMVData, mapFields e fs = .ok e1 →
      (∀ kv ∈ e.MerchantAccountInfo,
        ∃ a, kv.2 = some a ∧
          ((a.AIDType = mapAIDType a.AID ∧ a.PaymentScheme = mapScheme a.AID)
            ∨ (a.AID = [] ∧ a.AIDType = [] ∧ a.PaymentScheme = []))) →
      ∀ kv ∈ e1.MerchantAccountInfo,
        ∃ a, kv.2 = some a ∧
          ((a.AIDType = mapAIDType a.AID ∧ a.PaymentScheme = mapScheme a.AID)
            ∨ (a.AID = [] ∧ a.AIDType = [] ∧ a.PaymentScheme = [])) := by
  induction fs with
  | nil => intro e e1 h hinv; cases h; exact hinv
  | cons f fs ih =>
    intro e e1 h hinv
    unfold mapFields at h
    cases hm : mapEMVField e f.tag f.value with
    | ok e2 =>
      rw [hm] at h
      apply ih e2 e1 h
      obtain ⟨h2, h3⟩ := mapEMVField_accounts e e2 f.tag f.value hm
      cases hx : (strLe (str "02") f.tag && strLe f.tag (str "51")) with
      | true =>
        obtain ⟨acct, hacct, he⟩ := h2 hx
        intro kv hkv
        rw [he] at hkv
        rcases GoMap.mem_set _ _ _ kv hkv with hk | hk
        · rw [hk]
          exact ⟨_, rfl, parseMerchantAccountInfo_enums f.value acct hacct⟩
        · exact hinv kv hk
      | false =>
        rw [h3 hx]
        exact hinv
    | error err => rw [hm] at h; cases h
    | fault => rw [hm] at h; cases h
    | outOfFuel => rw [hm] at h; cases h

/-! ## The two CRC routines -/

/-- The bit loop, with its test written on bit 15. -/
theorem crcBit_eq (x : Nat) :
    crcBit x = ((x <<< 1) % 65536) ^^^ (if x.testBit 15 = true then 0x1021 else 0) := by
  have h : x &&& 0x8000 = (x.testBit 15).toNat * 2 ^ 15 := Nat.and_two_pow x 15
  unfold crcBit
  cases ht : x.testBit 15 with
  | true =>
    rw [ht] at h
    rw [if_pos (by rw [h]; decide), if_pos rfl]
  | false =>
    rw [ht] at h
    rw [if_neg (by rw [h]; decide), if_neg (by decide), Nat.xor_zero]

theorem shl1_mod_xor (a b : Nat) :
    ((a ^^^ b) <<< 1) % 65536 = ((a <<< 1) % 65536) ^^^ ((b <<< 1) % 65536) := by
  apply Nat.eq_of_testBit_eq
  intro i
  have e : (65536 : Nat) = 2 ^ 16 := by decide
  rw [e]
  simp only [Nat.testBit_mod_two_pow, Nat.testBit_xor, Nat.testBit_shiftLeft]
  by_cases h1 : i < 16 <;> by_cases h2 : 1 ≤ i <;> simp [h1, h2]

/-- The bit loop is linear for `^`. -/
theorem crcBit_xor (a b : Nat) : crcBit (a ^^^ b) = crcBit a ^^^ crcBit b := by
  rw [crcBit_eq, crcBit_eq a, crcBit_eq b, shl1_mod_xor, Nat.testBit_xor]
  cases a.testBit 15 <;> cases b.testBit 15
  · simp
  · simp [Nat.xor_assoc]
  · simp only [Bool.true_bne, Bool.not_false, if_true, Bool.false_eq_true, if_false,
      Nat.xor_zero]
    rw [Nat.xor_assoc, Nat.xor_assoc, Nat.xor_comm 4129]
  · rw [if_neg (by decide), Nat.xor_zero]
    show _ = (((a <<< 1) % 65536) ^^^ 4129) ^^^ (((b <<< 1) % 65536) ^^^ 4129)
    rw [Nat.xor_assoc ((a <<< 1) % 65536) 4129, Nat.xor_comm ((b <<< 1) % 65536) 4129,
      Nat.xor_cancel_left]

theorem crcStep8_xor (a b : Nat) : crcStep8 (a ^^^ b) = crcStep8 a ^^^ crcStep8 b := by
  unfold crcStep8
  rw [crcBit_xor, crcBit_xor, crcBit_xor, crcBit_xor, crcBit_xor, crcBit_xor, crcBit_xor,
    crcBit_xor]

theorem crcBit_lt (x : Nat) : crcBit x < 65536 := by
  rw [crcBit_eq]
  have e : (65536 : Nat) = 2 ^ 16 := by decide
  rw [e]
  apply Nat.xor_lt_two_pow
  · exact Nat.mod_lt _ (by decide)
  · split <;> decide

theorem crcStep8_lt (x : Nat) : crcStep8 x < 65536 := by
  unfold crcStep8
  exact crcBit_lt _

/-- On a byte, eight rounds of the bit loop shift it to the high byte. -/
theorem crcStep8_low : ∀ l : Nat, l < 256 → crcStep8 l = l <<< 8 := by
  decide!

theorem shl8_xor (a b : Nat) : (a ^^^ b) <<< 8 = (a <<< 8) ^^^ (b <<< 8) := by
  apply Nat.eq_of_testBit_eq
  intro i
  simp only [Nat.testBit_xor, Nat.testBit_shiftLeft]
  by_cases h : 8 ≤ i <;> simp [h]

/-- A 16-bit number is its high byte, shifted, combined with its low byte. -/
theorem split_bytes (x : Nat) : x = ((x >>> 8) <<< 8) ^^^ (x % 256) := by
  apply Nat.eq_of_testBit_eq
  intro i
  have e : (256 : Nat) = 2 ^ 8 := by decide
  rw [e]
  simp only [Nat.testBit_xor, Nat.testBit_shiftLeft, Nat.testBit_shiftRight,
    Nat.testBit_mod_two_pow]
  by_cases h : 8 ≤ i
  · have h2 : ¬ i < 8 := by omega
    have h3 : 8 + (i - 8) = i := by omega
    simp [h, h2, h3]
  · have h2 : i < 8 := by omega
    simp [h, h2]

theorem crc16TableBit_eq (x : Nat) : crc16TableBit 0x1021 x = crcBit x := rfl

/-- Entry `i` of the table is eight rounds of the bit loop on `i << 8`. -/
theorem crc16Table_getD (i : Nat) (h : i < 256) :
    crc16Table.getD i 0 = crcStep8 (i <<< 8) := by
  have hlen : i < crc16Table.length := by
    unfold crc16Table
    simp only [List.length_map, List.length_range]
    exact h
  rw [List.getD_eq_getElem _ _ hlen]
  unfold crc16Table
  rw [List.getElem_map, List.getElem_range]
  have hmod : (i <<< 8) % 65536 = i <<< 8 := by
    rw [Nat.shiftLeft_eq]
    apply Nat.mod_eq_of_lt
    have : (2 : Nat) ^ 8 = 256 := by decide
    omega
  unfold crc16TableEntry crcStep8
  simp only [crc16TableBit_eq, hmod]

/-- The byte step of `calculateCRC16` is the table-driven step of
`crc16.Update`. -/
theorem crcByte_eq_update (crc d : Nat) (h : crc < 65536) :
    crcByte crc d = crc16UpdateByte crc d := by
  have e8 : (2 : Nat) ^ 8 = 256 := by decide
  have hD : ((d % 256) <<< 8) % 65536 = (d % 256) <<< 8 := by
    rw [Nat.shiftLeft_eq]
    apply Nat.mod_eq_of_lt
    have := Nat.mod_lt d (by decide : 256 > 0)
    omega
  have hH : (crc >>> 8) % 256 = crc >>> 8 := by
    rw [Nat.shiftRight_eq_div_pow]
    apply Nat.mod_eq_of_lt
    omega
  have hHlt : crc >>> 8 < 2 ^ 8 := by
    rw [Nat.shiftRight_eq_div_pow]
    omega
  have hidx : (crc >>> 8) ^^^ (d % 256) < 256 := by
    have := Nat.xor_lt_two_pow hHlt (by rw [e8]; exact Nat.mod_lt d (by decide) :
      d % 256 < 2 ^ 8)
    omega
  have hL : (crc <<< 8) % 65536 = (crc % 256) <<< 8 := by
    rw [Nat.shiftLeft_eq, Nat.shiftLeft_eq]
    omega
  have hcrc : crcStep8 crc = crcStep8 ((crc >>> 8) <<< 8) ^^^ ((crc % 256) <<< 8) := by
    have hsp := split_bytes crc
    have h1 : crcStep8 crc = crcStep8 (((crc >>> 8) <<< 8) ^^^ (crc % 256)) := by
      rw [← hsp]
    rw [h1, crcStep8_xor, crcStep8_low (crc % 256) (Nat.mod_lt crc (by decide))]
  have hlhs : crcByte crc d = crcStep8 (crc ^^^ (((d % 256) <<< 8) % 65536)) := rfl
  unfold crc16UpdateByte
  rw [hlhs, hD, crcStep8_xor, hH, crc16Table_getD _ hidx, shl8_xor, crcStep8_xor, hL, hcrc]
  rw [Nat.xor_comm (crcStep8 ((crc >>> 8) <<< 8)) ((crc % 256) <<< 8), Nat.xor_assoc]

theorem crcByte_lt (crc d : Nat) : crcByte crc d < 65536 := crcBit_lt _

theorem foldl_crcByte_lt (data : Str) :
    ∀ crc, crc < 65536 → data.foldl crcByte crc < 65536 := by
  induction data with
  | nil => intro crc h; exact h
  | cons b rest ih => intro crc _; exact ih _ (crcByte_lt crc b)

theorem foldl_crcByte_eq (data : Str) :
    ∀ crc, crc < 65536 → data.foldl crcByte crc = data.foldl crc16UpdateByte crc := by
  induction data with
  | nil => intro crc _; rfl
  | cons b rest ih =>
    intro crc h
    rw [List.foldl_cons, List.foldl_cons, ← crcByte_eq_update crc b h]
    exact ih _ (crcByte_lt crc b)

/-- The register of `calculateCRC16` holds the checksum of `crc16.Checksum`. -/
theorem crc16Checksum_eq (data : Str) :
    crc16Checksum data = (data.foldl crcByte 0xFFFF) &&& 0xFFFF := by
  have hlt := foldl_crcByte_lt data 0xFFFF (by decide)
  have hand : (data.foldl crcByte 0xFFFF) &&& 0xFFFF = data.foldl crcByte 0xFFFF :=
    Nat.and_pow_two_sub_one_of_lt_two_pow (n := 16) hlt
  unfold crc16Checksum
  rw [hand, Nat.xor_zero, foldl_crcByte_eq data 0xFFFF (by decide)]

/-! ## Sensitivity of the checksum to one byte -/

theorem crcBit_eq_zero (x : Nat) (hx : x < 65536) (h : crcBit x = 0) : x = 0 := by
  rw [crcBit_eq, Nat.shiftLeft_eq] at h
  cases ht : x.testBit 15 with
  | true =>
    rw [ht, if_pos rfl, Nat.xor_eq_zero] at h
    omega
  | false =>
    rw [ht, if_neg (by decide), Nat.xor_zero] at h
    rw [Nat.testBit_to_div_mod] at ht
    have h15 : ¬ (x / 2 ^ 15 % 2 = 1) := of_decide_eq_false ht
    have e15 : (2 : Nat) ^ 15 = 32768 := by decide
    rw [e15] at h15
    omega

/-- The bit loop is injective on 16-bit numbers. -/
theorem crcBit_inj (a b : Nat) (ha : a < 65536) (hb : b < 65536) (h : crcBit a = crcBit b) :
    a = b := by
  have hx : crcBit (a ^^^ b) = 0 := by rw [crcBit_xor, h, Nat.xor_self]
  have hlt : a ^^^ b < 2 ^ 16 := Nat.xor_lt_two_pow (n := 16) ha hb
  exact Nat.xor_eq_zero.1 (crcBit_eq_zero _ hlt hx)

theorem crcStep8_inj (a b : Nat) (ha : a < 65536) (hb : b < 65536)
    (h : crcStep8 a = crcStep8 b) : a = b := by
  unfold crcStep8 at h
  have h7 := crcBit_inj _ _ (crcBit_lt _) (crcBit_lt _) h
  have h6 := crcBit_inj _ _ (crcBit_lt _) (crcBit_lt _) h7
  have h5 := crcBit_inj _ _ (crcBit_lt _) (crcBit_lt _) h6
  have h4 := crcBit_inj _ _ (crcBit_lt _) (crcBit_lt _) h5
  have h3 := crcBit_inj _ _ (crcBit_lt _) (crcBit_lt _) h4
  have h2 := crcBit_inj _ _ (crcBit_lt _) (crcBit_lt _) h3
  have h1 := crcBit_inj _ _ (crcBit_lt _) (crcBit_lt _) h2
  exact crcBit_inj _ _ ha hb h1

theorem byte_shifted_lt (d : Nat) : ((d % 256) <<< 8) % 65536 < 2 ^ 16 :=
  Nat.mod_lt _ (by decide)

/-- For a given byte, the byte step is injective in the register. -/
theorem crcByte_inj_crc (c1 c2 d : Nat) (h1 : c1 < 65536) (h2 : c2 < 65536)
    (h : crcByte c1 d = crcByte c2 d) : c1 = c2 := by
  have h' : crcStep8 (c1 ^^^ (((d % 256) <<< 8) % 65536))
      = crcStep8 (c2 ^^^ (((d % 256) <<< 8) % 65536)) := h
  have := crcStep8_inj _ _ (Nat.xor_lt_two_pow (n := 16) h1 (byte_shifted_lt d))
    (Nat.xor_lt_two_pow (n := 16) h2 (byte_shifted_lt d)) h'
  exact Nat.xor_left_inj.1 this

/-- For a given register, the byte step is injective in the byte. -/
theorem crcByte_inj_byte (c d1 d2 : Nat) (hc : c < 65536) (h : crcByte c d1 = crcByte c d2) :
    d1 % 256 = d2 % 256 := by
  have h' : crcStep8 (c ^^^ (((d1 % 256) <<< 8) % 65536))
      = crcStep8 (c ^^^ (((d2 % 256) <<< 8) % 65536)) := h
  have := crcStep8_inj _ _ (Nat.xor_lt_two_pow (n := 16) hc (byte_shifted_lt d1))
    (Nat.xor_lt_two_pow (n := 16) hc (byte_shifted_lt d2)) h'
  have h2 := Nat.xor_right_inj.1 this
  rw [Nat.shiftLeft_eq, Nat.shiftLeft_eq] at h2
  have e8 : (2 : Nat) ^ 8 = 256 := by decide
  rw [e8] at h2
  omega

theorem foldl_crcByte_inj (q : Str) :
    ∀ c1 c2, c1 < 65536 → c2 < 65536 → q.foldl crcByte c1 = q.foldl crcByte c2 → c1 = c2 := by
  induction q with
  | nil => intro c1 c2 _ _ h; exact h
  | cons d rest ih =>
    intro c1 c2 h1 h2 h
    rw [List.foldl_cons, List.foldl_cons] at h
    exact crcByte_inj_crc c1 c2 d h1 h2 (ih _ _ (crcByte_lt c1 d) (crcByte_lt c2 d) h)

theorem hexDigit_inj (d e : Nat) (hd : d < 16) (he : e < 16) (h : hexDigit d = hexDigit e) :
    d = e := by
  unfold hexDigit at h
  split at h <;> split at h <;> omega

/-- The rendering `%04X` is injective on 16-bit numbers. -/
theorem fmtHex04_inj (n m : Nat) (hn : n < 65536) (hm : m < 65536)
    (h : fmtHex04 n = fmtHex04 m) : n = m := by
  rw [fmtHex04_eq n hn, fmtHex04_eq m hm] at h
  simp only [List.cons.injEq, and_true] at h
  obtain ⟨h3, h2, h1, h0⟩ := h
  have e3 := hexDigit_inj _ _ (by omega) (by omega) h3
  have e2 := hexDigit_inj _ _ (Nat.mod_lt _ (by decide)) (Nat.mod_lt _ (by decide)) h2
  have e1 := hexDigit_inj _ _ (Nat.mod_lt _ (by decide)) (Nat.mod_lt _ (by decide)) h1
  have e0 := hexDigit_inj _ _ (Nat.mod_lt _ (by decide)) (Nat.mod_lt _ (by decide)) h0
  omega

/-! ## The order of the map iterations -/

/-- Without an empty slot `fillMissingReferences` changes nothing. -/
theorem fillMissingReferences_no_slot (info : QRInfo) (data : List (Str × Str))
    (h : fillMissingReferences.emptySlots info = []) : fillMissingReferences info data = info := by
  unfold fillMissingReferences
  rw [h]
  cases data with
  | nil => rfl
  | cons x rest =>
    obtain ⟨t, v⟩ := x
    unfold fillMissingReferences.loop
    exact if_pos (Nat.le_refl 0)

theorem perm_short_eq {α : Type} (l m1 m2 : List α) (hl : l.length ≤ 1) (h1 : m1.Perm l)
    (h2 : m2.Perm l) : m1 = m2 := by
  match l, hl with
  | [], _ => rw [List.perm_nil.1 h1, List.perm_nil.1 h2]
  | [x], _ => rw [List.perm_singleton.1 h1, List.perm_singleton.1 h2]

/-! ## A fragment after the last top-level field -/

/-- The tokenizer on well-formed fields followed by fewer than 4 bytes: it reads
the fields and stops at the fragment. -/
theorem scan_fields_fragment (fs : List RawField) (frag : Str) (hw : ∀ f ∈ fs, f.Wf)
    (hfrag : frag.length < 4) :
    scan ((rawBytes fs ++ frag).length + 1) 0 (rawBytes fs ++ frag) = (fs, .eof frag) := by
  obtain ⟨fuel, hfuel, hscan⟩ := scan_prefix fs frag hw
  rw [hscan, scan_short fuel _ frag (by omega) hfrag, List.append_nil]

/-- The inner loop of `ParseEMVCoQRString` ends as the tokenizer stops on the
value: with a result when nothing is left over, and else with the outcome that
the outer loop has for that reason of stopping. -/
theorem loop2_eq_scan (fuel : Nat) :
    ∀ (pre rest : Str) (pos : Int) (result : EMVCoQRInfo),
      ∃ r1, ParseEMVCoQRString.loop2 (pre ++ rest) fuel (pre.length : Int) result
        = (scan fuel pos rest).2.toQR r1 := by
  induction fuel with
  | zero => intro pre rest pos result; exact ⟨result, rfl⟩
  | succ fuel ih =>
    intro pre rest pos result
    match rest with
    | [] =>
      refine ⟨result, ?_⟩
      simp [ParseEMVCoQRString.loop2, scan, Stop.toQR]
    | [a] =>
      refine ⟨result, ?_⟩
      simp only [ParseEMVCoQRString.loop2, scan, Stop.toQR,
        List.length_append, List.length_cons, List.length_nil]
      rw [if_neg (by push_cast; omega), if_pos (by push_cast; omega), if_neg (by simp)]
    | [a, b] =>
      refine ⟨result, ?_⟩
      simp only [ParseEMVCoQRString.loop2, scan, Stop.toQR,
        List.length_append, List.length_cons, List.length_nil]
      rw [if_neg (by push_cast; omega), if_pos (by push_cast; omega), if_neg (by simp)]
    | [a, b, c] =>
      refine ⟨result, ?_⟩
      simp only [ParseEMVCoQRString.loop2, scan, Stop.toQR,
        List.length_append, List.length_cons, List.length_nil]
      rw [if_neg (by push_cast; omega), if_pos (by push_cast; omega), if_neg (by simp)]
    | t0 :: t1 :: l0 :: l1 :: rest =>
      have htag : slice (pre ++ t0 :: t1 :: l0 :: l1 :: rest) (pre.length : Int)
          ((pre.length : Int) + 2) = some [t0, t1] :=
        slice_mid _ pre [t0, t1] (l0 :: l1 :: rest) _ _ (by simp) rfl (by simp)
      have hlen : slice (pre ++ t0 :: t1 :: l0 :: l1 :: rest) ((pre.length : Int) + 2)
          ((pre.length : Int) + 4) = some [l0, l1] :=
        slice_mid _ (pre ++ [t0, t1]) [l0, l1] rest _ _ (by simp) (by simp)
          (by simp only [List.length_append, List.length_cons, List.length_nil]; push_cast; omega)
      unfold ParseEMVCoQRString.loop2 scan
      rw [if_neg (by simp only [List.length_append, List.length_cons]; push_cast; omega),
        if_neg (by simp only [List.length_append, List.length_cons]; push_cast; omega)]
      simp only [htag, hlen]
      cases hA : Atoi [l0, l1] with
      | none => exact ⟨result, by simp [Stop.toQR]⟩
      | some n =>
        simp only
        by_cases h1 : n > (rest.length : Int)
        · rw [if_pos (by simp only [List.length_append, List.length_cons]; push_cast; omega),
            if_pos h1]
          exact ⟨result, by simp [Stop.toQR]⟩
        · rw [if_neg (by simp only [List.length_append, List.length_cons]; push_cast; omega),
            if_neg h1]
          by_cases h2 : n < 0
          · rw [if_pos h2, slice_none_of_lt _ _ _ (by omega)]
            exact ⟨result, by simp [Stop.toQR]⟩
          · rw [if_neg h2]
            have hval : slice (pre ++ t0 :: t1 :: l0 :: l1 :: rest) ((pre.length : Int) + 4)
                ((pre.length : Int) + 4 + n) = some (rest.take n.toNat) :=
              slice_mid _ (pre ++ [t0, t1, l0, l1]) (rest.take n.toNat) (rest.drop n.toNat) _ _
                (by simp)
                (by simp only [List.length_append, List.length_cons, List.length_nil]
                    push_cast; omega)
                (by simp only [List.length_append, List.length_cons, List.length_nil,
                      List.length_take]; push_cast; omega)
            simp only [hval]
            have hsplit : pre ++ t0 :: t1 :: l0 :: l1 :: rest
                = (pre ++ [t0, t1, l0, l1] ++ rest.take n.toNat) ++ rest.drop n.toNat := by simp
            have hpos : (pre.length : Int) + (4 + n)
                = ((pre ++ [t0, t1, l0, l1] ++ rest.take n.toNat).length : Int) := by
              simp only [List.length_append, List.length_cons, List.length_nil, List.length_take]
              push_cast; omega
            rw [hsplit, hpos]
            exact ih _ _ (pos + 2 + 2 + n) _

/-- The `case "30"` of `ParseEMVCoQRString` returns a result or one of two
errors when the tokenization of the value does not end in a run-time fault. -/
theorem assign_30_outcome (result : EMVCoQRInfo) (v : Str) (h : parseSubFields v ≠ .fault) :
    (∃ r1, ParseEMVCoQRString.assign result (str "30") v = .ok r1)
      ∨ ParseEMVCoQRString.assign result (str "30") v = .error (str "invalid qr structure")
      ∨ ParseEMVCoQRString.assign result (str "30") v
          = .error (str "invalid specified qr string length") := by
  obtain ⟨r1, h2⟩ := loop2_eq_scan (v.length + 1) [] v 0 { result with MerchantAccount := v }
  simp only [List.nil_append, List.length_nil, Nat.cast_zero] at h2
  rw [assign_30, h2]
  have hsub := parseSubFields_eq_scan v
  have hfuel := scan_fuel (v.length + 1) 0 v (by omega)
  cases hst : (scan (v.length + 1) 0 v).2 with
  | eof frag =>
    by_cases hf : frag = []
    · exact Or.inl ⟨r1, if_pos hf⟩
    · exact Or.inr (Or.inl (if_neg hf))
  | badLength p ll => exact Or.inr (Or.inl rfl)
  | truncated t => exact Or.inr (Or.inr rfl)
  | negative =>
    rw [hst] at hsub
    exact absurd hsub h
  | outOfFuel => exact absurd hst hfuel

/-- The `case "30"` of `ParseEMVCoQRString` ends in a run-time fault exactly
when the tokenization of the value does. -/
theorem assign_30_fault (result : EMVCoQRInfo) (v : Str)
    (h : ParseEMVCoQRString.assign result (str "30") v = .fault) : parseSubFields v = .fault := by
  by_contra hne
  rcases assign_30_outcome result v hne with ⟨r1, h1⟩ | h1 | h1 <;> rw [h1] at h <;> cases h

/-- On every tag other than `30` the `switch id` of `ParseEMVCoQRString`
returns a result. -/
theorem assign_ok_of_ne_30 (result : EMVCoQRInfo) (id v : Str) (h30 : id ≠ str "30") :
    ∃ r1, ParseEMVCoQRString.assign result id v = .ok r1 := by
  by_cases h29 : id = str "29"
  · subst h29
    rw [assign_29]
    rcases stringsIndexFrom_spec (str "011300") (by decide) v 0 with ⟨_, hidx⟩ | ⟨p, q, hs, _, hidx⟩
    · have hi : stringsIndex v (str "011300") = -1 := hidx
      rw [hi, if_neg (by simp)]
      rcases stringsIndexFrom_spec (str "110213") (by decide) v 0 with
        ⟨_, hidx2⟩ | ⟨p, q, hs, _, hidx2⟩
      · have hi2 : stringsIndex v (str "110213") = -1 := hidx2
        rw [hi2, if_neg (by simp)]
        exact ⟨_, rfl⟩
      · have hi2 : stringsIndex v (str "110213") = (p.length : Int) := by
          unfold stringsIndex
          rw [hidx2, zero_add]
        rw [hi2, if_pos (by omega), slice_after_marker (str "110213") v p q rfl hs]
        exact ⟨_, rfl⟩
    · have hi : stringsIndex v (str "011300") = (p.length : Int) := by
        unfold stringsIndex
        rw [hidx, zero_add]
      rw [hi, if_pos (by omega), slice_after_marker (str "011300") v p q rfl hs]
      exact ⟨_, rfl⟩
  · unfold ParseEMVCoQRString.assign
    rw [if_neg h29, if_neg h30]
    by_cases h01 : id = str "01"
    · rw [if_pos h01]; exact ⟨_, rfl⟩
    rw [if_neg h01]
    by_cases h54 : id = str "54"
    · rw [if_pos h54]; exact ⟨_, rfl⟩
    rw [if_neg h54]
    by_cases h58 : id = str "58"
    · rw [if_pos h58]; exact ⟨_, rfl⟩
    rw [if_neg h58]
    by_cases h62 : id = str "62"
    · rw [if_pos h62]
      by_cases hl : v.length > 4
      · have hs := slice_eq_some v 4 (v.length : Int) (by omega) (by omega) (by omega)
        rw [if_pos hl, hs]
        exact ⟨_, rfl⟩
      · rw [if_neg hl]; exact ⟨_, rfl⟩
    rw [if_neg h62]
    by_cases h63 : id = str "63"
    · rw [if_pos h63]; exact ⟨_, rfl⟩
    rw [if_neg h63]
    by_cases h53 : id = str "53"
    · rw [if_pos h53]; exact ⟨_, rfl⟩
    rw [if_neg h53]
    exact ⟨_, rfl⟩

/-- The `switch id` applied to a sequence of fields returns a result or one of
the two errors of the inner loop when no value of a tag-30 field ends its
tokenization in a run-time fault; it returns a result when no field has tag
`30`. -/
theorem assignFields_outcome (fs : List RawField) :
    ∀ result : EMVCoQRInfo,
      ((∀ f ∈ fs, f.tag = str "30" → parseSubFields f.value ≠ .fault) →
        (∃ r, assignFields result fs = .ok r)
          ∨ assignFields result fs = .error (str "invalid qr structure")
          ∨ assignFields result fs = .error (str "invalid specified qr string length"))
      ∧ ((∀ f ∈ fs, f.tag ≠ str "30") → ∃ r, assignFields result fs = .ok r)
      ∧ (assignFields result fs = .fault →
          ∃ f ∈ fs, f.tag = str "30" ∧ parseSubFields f.value = .fault) := by
  induction fs with
  | nil =>
    intro result
    exact ⟨fun _ => Or.inl ⟨result, rfl⟩, fun _ => ⟨result, rfl⟩, fun h => by cases h⟩
  | cons f fs ih =>
    intro result
    unfold assignFields
    by_cases h30 : f.tag = str "30"
    · refine ⟨fun hn => ?_, fun hno => absurd h30 (hno f (List.mem_cons_self _ _)), fun hf => ?_⟩
      · have hfv := hn f (List.mem_cons_self _ _) h30
        rw [h30]
        rcases assign_30_outcome result f.value hfv with ⟨r1, h1⟩ | h1 | h1
        · rw [h1]
          exact (ih r1).1 (fun g hg => hn g (List.mem_cons_of_mem _ hg))
        · rw [h1]; exact Or.inr (Or.inl rfl)
        · rw [h1]; exact Or.inr (Or.inr rfl)
      · cases hm : ParseEMVCoQRString.assign result f.tag f.value with
        | ok r1 =>
          rw [hm] at hf
          obtain ⟨g, hg, hgp⟩ := (ih r1).2.2 hf
          exact ⟨g, List.mem_cons_of_mem _ hg, hgp⟩
        | error err => rw [hm] at hf; cases hf
        | fault =>
          rw [h30] at hm
          exact ⟨f, List.mem_cons_self _ _, h30, assign_30_fault result f.value hm⟩
        | outOfFuel => rw [hm] at hf; cases hf
    · obtain ⟨r1, h1⟩ := assign_ok_of_ne_30 result f.tag f.value h30
      rw [h1]
      refine ⟨fun hn => (ih r1).1 (fun g hg => hn g (List.mem_cons_of_mem _ hg)),
        fun hno => (ih r1).2.1 (fun g hg => hno g (List.mem_cons_of_mem _ hg)), fun hf => ?_⟩
      obtain ⟨g, hg, hgp⟩ := (ih r1).2.2 hf
      exact ⟨g, List.mem_cons_of_mem _ hg, hgp⟩

/-! ## `RemoveDuplicateSpaces` on its own results -/

/-- The loop of `RemoveDuplicateSpaces` copies a string that has no removed
rune, no whitespace other than the space and no two adjacent spaces, and that
does not start with a space when the loop is in a run of whitespace. -/
theorem emit_fixed (l : List Rune) :
    ∀ inSpace : Bool,
      (∀ x ∈ l, zeroWidthChars x = false ∧ (isWhitespace x = true → x = 32)) →
      List.Chain' (fun a b => ¬ (a = 32 ∧ b = 32)) l →
      (inSpace = true → l.head? ≠ some 32) →
      RemoveDuplicateSpaces.emit l inSpace = l := by
  induction l with
  | nil => intro f _ _ _; rfl
  | cons r rest ih =>
    intro f hmem hchain hhead
    have hr := hmem r (List.mem_cons_self r rest)
    have hrest : ∀ x ∈ rest, zeroWidthChars x = false ∧ (isWhitespace x = true → x = 32) :=
      fun x hx => hmem x (List.mem_cons_of_mem r hx)
    have hchain2 := (List.chain'_cons'.1 hchain).2
    unfold RemoveDuplicateSpaces.emit
    rw [if_neg (by rw [hr.1]; decide)]
    by_cases hw : isWhitespace r = true
    · have h32 : r = 32 := hr.2 hw
      have hf : f = false := by
        cases f with
        | false => rfl
        | true => exact absurd (by rw [h32]; rfl) (hhead rfl)
      subst hf
      rw [if_pos hw, if_pos (by decide)]
      have hnext : rest.head? ≠ some 32 := by
        intro hh
        exact (List.chain'_cons'.1 hchain).1 32 hh ⟨h32, rfl⟩
      rw [ih true hrest hchain2 (fun _ => hnext), h32]
    · rw [if_neg hw, ih false hrest hchain2 (fun h => by cases h)]

theorem dropWhile_fixed (p : Rune → Bool) (l : List Rune)
    (h : ∀ x, l.head? = some x → p x = false) : l.dropWhile p = l := by
  cases l with
  | nil => rfl
  | cons a rest => exact List.dropWhile_cons_of_neg (by rw [h a rfl]; decide)

/-- `strings.TrimSpace` leaves a string that neither starts nor ends with
whitespace as it is. -/
theorem stringsTrimSpace_fixed (l : List Rune)
    (hh : ∀ x, l.head? = some x → unicodeIsSpace x = false)
    (hl : ∀ x, l.getLast? = some x → unicodeIsSpace x = false) : stringsTrimSpace l = l := by
  unfold stringsTrimSpace
  rw [dropWhile_fixed unicodeIsSpace l hh,
    dropWhile_fixed unicodeIsSpace l.reverse (by rw [List.head?_reverse]; exact hl),
    List.reverse_reverse]

/-! ## Faults of a nested value -/

/-- The call `mapEMVField` ends in a run-time fault only on a nested tag, when
the nested tokenization of the value does. -/
theorem mapEMVField_fault (e : EMVData) (tag v : Str) (h : mapEMVField e tag v = .fault) :
    nestedTag tag = true ∧ parseSubFields v = .fault := by
  rcases nestedTag_cases tag with hc | hc | hc
  · subst hc
    rw [mapEMVField_62] at h
    cases hp : parseSubFields v with
    | ok m => rw [hp] at h; cases h
    | error err => rw [hp] at h; cases h
    | fault => exact ⟨nestedTag_62, rfl⟩
    | outOfFuel => rw [hp] at h; cases h
  · rw [mapEMVField_range e tag v hc] at h
    unfold parseMerchantAccountInfo at h
    cases hp : parseSubFields v with
    | ok m => rw [hp] at h; cases h
    | error err => rw [hp] at h; cases h
    | fault => exact ⟨nestedTag_of_range tag hc, rfl⟩
    | outOfFuel => rw [hp] at h; cases h
  · by_cases h63 : tag = str "63"
    · rw [h63, mapEMVField_63] at h
      cases h
    · obtain ⟨e1, he, _⟩ := mapEMVField_plain e tag v hc h63
      rw [he] at h
      cases h

/-- The mapping of a sequence of fields ends in a run-time fault only when the
nested tokenization of the value of one of them does. -/
theorem mapFields_fault (fs : List RawField) :
    ∀ e : EMVData, mapFields e fs = .fault →
      ∃ f ∈ fs, nestedTag f.tag = true ∧ parseSubFields f.value = .fault := by
  induction fs with
  | nil => intro e h; cases h
  | cons f fs ih =>
    intro e h
    unfold mapFields at h
    cases hm : mapEMVField e f.tag f.value with
    | ok e1 =>
      rw [hm] at h
      obtain ⟨g, hg, hgn⟩ := ih e1 h
      exact ⟨g, List.mem_cons_of_mem _ hg, hgn⟩
    | error err => rw [hm] at h; cases h
    | fault => exact ⟨f, List.mem_cons_self _ _, mapEMVField_fault e f.tag f.value hm⟩
    | outOfFuel => rw [hm] at h; cases h

/-- On well-formed fields followed by a header whose two-digit length exceeds
the bytes that remain, `ParseEMVTLV` returns the error of a truncated value;
`DecodeEMVQR` returns an error when no nested value of the fields ends its
tokenization in a run-time fault, and that same error when the nested
tokenization of the fields succeeds. -/
theorem truncated_value_error (fs : List RawField) (tag ll rest : Str) (n : Int)
    (hw : ∀ f ∈ fs, f.Wf) (ht : tag.length = 2) (hl : TwoDigits ll) (hA : Atoi ll = some n)
    (hn : n > (rest.length : Int)) :
    ParseEMVTLV (rawBytes fs ++ tag ++ ll ++ rest)
        = .error (str "invalid data length at tag " ++ tag)
      ∧ ((∀ f ∈ fs, nestedTag f.tag = true → parseSubFields f.value ≠ .fault) →
          ∃ err, DecodeEMVQR (rawBytes fs ++ tag ++ ll ++ rest) = .error err)
      ∧ ((∀ f ∈ fs, nestedTag f.tag = true → ∃ m, parseSubFields f.value = .ok m) →
          DecodeEMVQR (rawBytes fs ++ tag ++ ll ++ rest)
            = .error (str "invalid data length at tag " ++ tag)) := by
  have h4 := header_length (rawBytes fs) tag ll rest ht hl.1
  have hscan := scan_truncated fs tag ll rest n hw ht hl.1 hA hn
  refine ⟨?_, ?_, ?_⟩
  · rw [ParseEMVTLV_eq_scan _ h4, hscan]
    rfl
  · intro hnf
    rw [DecodeEMVQR_eq_scan _ h4, hscan]
    simp only [decodeOutcome]
    cases hm : mapFields {} fs with
    | ok e1 => exact ⟨_, rfl⟩
    | error err => exact ⟨err, rfl⟩
    | fault =>
      obtain ⟨f, hf, hnt, hfault⟩ := mapFields_fault fs {} hm
      exact absurd hfault (hnf f hf hnt)
    | outOfFuel => exact absurd hm (mapFields_ne_outOfFuel fs {})
  · intro hnest
    obtain ⟨e1, he1⟩ := (mapFields_ok_iff fs {}).2 hnest
    rw [DecodeEMVQR_eq_scan _ h4, hscan]
    simp only [decodeOutcome, he1, Stop.toRes]

/-! ## The claims -/

/-- C1: on every input on which `ParseEMVTLV` succeeds, every returned triplet
has `Length` equal to the number of bytes of its `Value`. -/
theorem C1_length_eq_value_length (s : Str) (ts : List EMVDataValue)
    (h : ParseEMVTLV s = .ok ts) :
    ∀ t ∈ ts, t.Length = (t.Value.length : Int) := by
  obtain ⟨_, fs, frag, _, e, hw, _, _⟩ := ParseEMVTLV_ok_scan s ts h
  subst e
  intro t ht
  obtain ⟨f, hf, rfl⟩ := List.mem_map.1 ht
  exact (hw f hf).2.2.2

/-- C1 at the input `000201`: one triplet, of length 2. -/
theorem C1_length_eq_value_length_witness :
    ParseEMVTLV (str "000201") = .ok [{ Tag := str "00", Length := 2, Value := str "01" }]
    ∧ ∀ t ∈ [({ Tag := str "00", Length := 2, Value := str "01" } : EMVDataValue)],
        t.Length = (t.Value.length : Int) :=
  ⟨by decide, C1_length_eq_value_length (str "000201") _ (by decide)⟩

/-- C2: on every input `s` on which `ParseEMVTLV` succeeds and in which every
length field read consists of two ASCII digits, the concatenation over the
returned triplets, in order, of tag, two-digit length and value is a prefix of
`s`, and fewer than 4 bytes of `s` remain after it. -/
theorem C2_encode_tiles_input (s : Str) (ts : List EMVDataValue)
    (h : ParseEMVTLV s = .ok ts) (hd : ∀ ll ∈ lengthFieldsRead s, TwoDigits ll) :
    ∃ frag, s = encodeTLV ts ++ frag ∧ frag.length < 4 := by
  obtain ⟨h4, fs, frag, hscan, e, hw, hs, hfrag⟩ := ParseEMVTLV_ok_scan s ts h
  refine ⟨frag, ?_, hfrag⟩
  have hmem := lengthFields_scan (s.length + 1) [] s
  simp only [List.nil_append, List.length_nil, Nat.cast_zero, hscan] at hmem
  have hd2 : ∀ f ∈ fs, TwoDigits f.lengthStr := by
    intro f hf
    apply hd
    unfold lengthFieldsRead
    rw [if_neg (by omega)]
    exact hmem f hf
  rw [e, rawBytes_of_twoDigits fs hw hd2]
  exact hs

/-- C2 at the input `0002015`: the triplet `00 02 01` is read and the
fragment `5` is dropped. -/
theorem C2_encode_tiles_input_witness :
    (ParseEMVTLV (str "0002015") = .ok [{ Tag := str "00", Length := 2, Value := str "01" }]
      ∧ ∀ ll ∈ lengthFieldsRead (str "0002015"), TwoDigits ll)
    ∧ ∃ frag, str "0002015"
        = encodeTLV [{ Tag := str "00", Length := 2, Value := str "01" }] ++ frag
          ∧ frag.length < 4 :=
  ⟨⟨by decide, by decide⟩, C2_encode_tiles_input (str "0002015") _ (by decide) (by decide)⟩

/-- C3: for every non-empty list of triplets whose tag has 2 bytes, whose value
has at most 99 bytes and whose `Length` is the number of bytes of the value,
`ParseEMVTLV` applied to the concatenation of tag, two-digit length and value
succeeds and returns exactly that list. -/
theorem C3_parse_encode (ts : List EMVDataValue) (hne : ts ≠ [])
    (h : ∀ t ∈ ts, t.Tag.length = 2 ∧ t.Value.length ≤ 99
      ∧ t.Length = (t.Value.length : Int)) :
    ParseEMVTLV (encodeTLV ts) = .ok ts := by
  have hw : ∀ f ∈ ts.map rawOfTriplet, f.Wf := by
    intro f hf
    obtain ⟨t, ht, rfl⟩ := List.mem_map.1 hf
    exact rawOfTriplet_wf t (h t ht)
  have hlen := rawBytes_length _ hw
  rw [rawBytes_rawOfTriplet, List.length_map] at hlen
  have hpos : 0 < ts.length := List.length_pos.2 hne
  obtain ⟨fuel, hfuel, hscan⟩ := scan_prefix (ts.map rawOfTriplet) [] hw
  rw [List.append_nil, rawBytes_rawOfTriplet,
    scan_short fuel _ [] (by omega) (by simp)] at hscan
  rw [ParseEMVTLV_eq_scan _ (by omega), hscan]
  simp only [List.append_nil, Stop.toRes, toTriplet_rawOfTriplet]

/-- C3 at the two triplets `00 02 01` and `54 03 1.5`. -/
theorem C3_parse_encode_witness :
    ParseEMVTLV (encodeTLV [{ Tag := str "00", Length := 2, Value := str "01" },
        { Tag := str "54", Length := 3, Value := str "1.5" }])
      = .ok [{ Tag := str "00", Length := 2, Value := str "01" },
        { Tag := str "54", Length := 3, Value := str "1.5" }] :=
  C3_parse_encode _ (by decide) (by decide)

/-- C4: on every input of fewer than 4 bytes, `DecodeEMVQR` and `ParseEMVTLV`
both return no result and the error `invalid EMV QR code: too short`. -/
theorem C4_too_short (s : Str) (h : s.length < 4) :
    ParseEMVTLV s = .error (str "invalid EMV QR code: too short")
      ∧ DecodeEMVQR s = .error (str "invalid EMV QR code: too short")
      ∧ str "too short" <:+ str "invalid EMV QR code: too short" := by
  refine ⟨?_, ?_, by decide⟩
  · unfold ParseEMVTLV; rw [if_pos h]
  · unfold DecodeEMVQR; rw [if_pos h]

/-- C4 at the inputs of the test suite, the empty string and `00`. -/
theorem C4_too_short_witness :
    (ParseEMVTLV (str "") = .error (str "invalid EMV QR code: too short")
      ∧ DecodeEMVQR (str "") = .error (str "invalid EMV QR code: too short")
      ∧ str "too short" <:+ str "invalid EMV QR code: too short")
    ∧ DecodeEMVQR (str "00") = .error (str "invalid EMV QR code: too short") :=
  ⟨C4_too_short (str "") (by decide), by decide⟩

/-- C5 as stated fails: the length field `+1` is not written as two ASCII
digits, yet `ParseEMVTLV` and `DecodeEMVQR` accept the input `00+1A` and read
a field of length 1. -/
theorem C5_counterexample :
    ¬ TwoDigits (str "+1")
      ∧ ParseEMVTLV (str "00+1A") = .ok [{ Tag := str "00", Length := 1, Value := str "A" }]
      ∧ DecodeEMVQR (str "00+1A") = .ok { PayloadFormatIndicator := str "A" } := by
  decide

/-- C5, amended: when the 2-byte length field of a field that is reached is
neither two ASCII digits nor a sign `+` or `-` followed by an ASCII digit,
`ParseEMVTLV` returns no result and the error `invalid length at position p: LL`
(`p` the position of the length field, `LL` its two bytes); so does `DecodeEMVQR`
when the nested tokenization of the fields before it succeeded, which is when
it reaches the field. -/
theorem C5_invalid_length (fs : List RawField) (tag ll rest : Str) (hw : ∀ f ∈ fs, f.Wf)
    (ht : tag.length = 2) (hl : ll.length = 2) (h1 : ¬ TwoDigits ll) (h2 : ¬ SignDigit ll) :
    ParseEMVTLV (rawBytes fs ++ tag ++ ll ++ rest)
        = .error (str "invalid length at position " ++ fmtInt (((rawBytes fs).length : Int) + 2)
            ++ str ": " ++ ll)
      ∧ ((∀ f ∈ fs, nestedTag f.tag = true → ∃ m, parseSubFields f.value = .ok m) →
          DecodeEMVQR (rawBytes fs ++ tag ++ ll ++ rest)
            = .error (str "invalid length at position "
                ++ fmtInt (((rawBytes fs).length : Int) + 2) ++ str ": " ++ ll))
      ∧ str "invalid length" <+: (str "invalid length at position "
          ++ fmtInt (((rawBytes fs).length : Int) + 2) ++ str ": " ++ ll) := by
  have hA := Atoi_none_of ll hl h1 h2
  have h4 := header_length (rawBytes fs) tag ll rest ht hl
  have hscan := scan_badLength fs tag ll rest hw ht hl hA
  refine ⟨?_, ?_, ?_⟩
  · rw [ParseEMVTLV_eq_scan _ h4, hscan]
    rfl
  · intro hnest
    obtain ⟨e1, he1⟩ := (mapFields_ok_iff fs {}).2 hnest
    rw [DecodeEMVQR_eq_scan _ h4, hscan]
    simp only [decodeOutcome, he1, Stop.toRes]
  · exact ⟨str " at position " ++ fmtInt (((rawBytes fs).length : Int) + 2) ++ str ": " ++ ll,
      by simp only [← List.append_assoc]; rfl⟩

/-- C5, amended, at the input `00XX01` of the test suite. -/
theorem C5_invalid_length_witness :
    ParseEMVTLV (str "00XX01") = .error (str "invalid length at position 2: XX")
      ∧ DecodeEMVQR (str "00XX01") = .error (str "invalid length at position 2: XX")
      ∧ str "invalid length" <+: str "invalid length at position 2: XX" := by
  have h := C5_invalid_length [] (str "00") (str "XX") (str "01")
    (fun _ hf => absurd hf (List.not_mem_nil _)) (by decide) (by decide) (by decide) (by decide)
  exact ⟨h.1, h.2.1 (fun _ hf => absurd hf (List.not_mem_nil _)), h.2.2⟩

/-- C6 fails on the code: `260400-1001001` is the well-formed field `260400-1`
followed by the header `0010`, whose length 10 exceeds the 2 bytes that remain;
`ParseEMVTLV` returns the error `invalid data length at tag 00`, but
`DecodeEMVQR` tokenizes the value `00-1` of field `26` first and ends in a
run-time fault on its length `-1`: it returns no error.  This apart the claim
holds: on every input made of well-formed fields followed by a header
`Tag ++ LL`, `LL` being two ASCII digits whose value exceeds the number of bytes
that remain, `ParseEMVTLV` returns the error `invalid data length at tag Tag`
and `DecodeEMVQR` returns an error when no nested value of the fields ends its
tokenization in such a fault, the same error when these nested tokenizations
succeed; so they do on `001001`. -/
theorem C6_nested_negative_length_fault :
    str "260400-1001001"
        = rawBytes [{ tag := str "26", lengthStr := str "04", length := 4,
                      value := str "00-1" }] ++ str "00" ++ str "10" ++ str "01"
      ∧ RawField.Wf { tag := str "26", lengthStr := str "04", length := 4, value := str "00-1" }
      ∧ ParseEMVTLV (str "260400-1001001") = .error (str "invalid data length at tag 00")
      ∧ parseSubFields (str "00-1") = .fault
      ∧ DecodeEMVQR (str "260400-1001001") = .fault
      ∧ (∀ (fs : List RawField) (tag ll rest : Str) (n : Int),
          (∀ f ∈ fs, f.Wf) → tag.length = 2 → TwoDigits ll → Atoi ll = some n →
          n > (rest.length : Int) →
          ParseEMVTLV (rawBytes fs ++ tag ++ ll ++ rest)
              = .error (str "invalid data length at tag " ++ tag)
            ∧ ((∀ f ∈ fs, nestedTag f.tag = true → parseSubFields f.value ≠ .fault) →
                ∃ err, DecodeEMVQR (rawBytes fs ++ tag ++ ll ++ rest) = .error err)
            ∧ ((∀ f ∈ fs, nestedTag f.tag = true → ∃ m, parseSubFields f.value = .ok m) →
                DecodeEMVQR (rawBytes fs ++ tag ++ ll ++ rest)
                  = .error (str "invalid data length at tag " ++ tag)))
      ∧ ParseEMVTLV (str "001001") = .error (str "invalid data length at tag 00")
      ∧ DecodeEMVQR (str "001001") = .error (str "invalid data length at tag 00") := by
  refine ⟨by decide, ⟨rfl, rfl, by decide, rfl⟩, by decide!, by decide!, by decide!, ?_,
    by decide!, by decide!⟩
  intro fs tag ll rest n hw ht hl hA hn
  exact truncated_value_error fs tag ll rest n hw ht hl hA hn

/-- C7 fails on the code: a length field `-1` is accepted by `Atoi`, passes the
guard that compares the end of the value with the length of the input, and
makes the value slice run from `position` to `position-1`, so the call ends in a
run-time fault instead of returning an error: in `ParseEMVTLV`, in
`parseSubFields`, in `DecodeEMVQR` (at the top level and in a nested value) and
in `ParseEMVCoQRString` (on an input that passes its CRC check). -/
theorem C7_negative_length_fault :
    Atoi (str "-1") = some (-1)
      ∧ ParseEMVTLV (str "00-1") = .fault
      ∧ parseSubFields (str "00-1") = .fault
      ∧ DecodeEMVQR (str "00-1") = .fault
      ∧ DecodeEMVQR (str "260400-1") = .fault
      ∧ validateEMVCoQRString (str "00-10000008DA8") = .ok ()
      ∧ ParseEMVCoQRString (str "00-10000008DA8") = .fault := by
  decide!

/-- C8: on every input `s` on which `DecodeEMVQR` succeeds with a non-empty CRC
in the result, `s` has at least 8 bytes, the 4 bytes at positions `len(s)-8` to
`len(s)-5` are `6304`, and the CRC of the result is `calculateCRC16` of `s`
without its last 4 bytes. -/
theorem C8_crc_covers_header (s : Str) (d : EMVData) (h : DecodeEMVQR s = .ok d)
    (hc : d.CRC ≠ []) :
    8 ≤ s.length ∧ (s.drop (s.length - 8)).take 4 = str "6304"
      ∧ d.CRC = calculateCRC16 (s.take (s.length - 4)) := by
  obtain ⟨e, _, _, hcheck⟩ := DecodeEMVQR_ok s d h
  exact checkCRC_ok s e d hcheck hc

/-- C8 at the input `0002016304` followed by its checksum `AAE6`. -/
theorem C8_crc_covers_header_witness :
    (DecodeEMVQR (str "0002016304AAE6")
        = .ok { PayloadFormatIndicator := str "01", CRC := str "AAE6" }
      ∧ str "AAE6" ≠ [])
    ∧ 8 ≤ (str "0002016304AAE6").length
    ∧ ((str "0002016304AAE6").drop ((str "0002016304AAE6").length - 8)).take 4 = str "6304"
    ∧ str "AAE6" = calculateCRC16 ((str "0002016304AAE6").take
        ((str "0002016304AAE6").length - 4)) :=
  ⟨⟨by decide!, by decide⟩,
    C8_crc_covers_header (str "0002016304AAE6")
      { PayloadFormatIndicator := str "01", CRC := str "AAE6" } (by decide!) (by decide)⟩

/-- C9: on every input `s` on which `DecodeEMVQR` succeeds and whose last
tokenized field is the tag-63 field with a 4-byte value, replacing the last 4
bytes of `s` by any different 4 bytes makes `DecodeEMVQR` return no payload and
the error `invalid CRC: expected E, got N`, `E` being the checksum of `s` without
its last 4 bytes and `N` the new bytes. -/
theorem C9_crc_mismatch (s : Str) (d : EMVData) (ts : List EMVDataValue) (v new : Str)
    (h : DecodeEMVQR s = .ok d) (hp : ParseEMVTLV s = .ok ts)
    (hlast : ts.getLast? = some { Tag := str "63", Length := 4, Value := v })
    (hnew : new.length = 4) (hne : new ≠ s.drop (s.length - 4)) :
    DecodeEMVQR (s.take (s.length - 4) ++ new)
        = .error (str "invalid CRC: expected " ++ calculateCRC16 (s.take (s.length - 4))
            ++ str ", got " ++ new)
      ∧ str "invalid CRC" <+: (str "invalid CRC: expected "
          ++ calculateCRC16 (s.take (s.length - 4)) ++ str ", got " ++ new) := by
  obtain ⟨fs0, e0, hw0, hm, hv4, hs, hcrc, _⟩ := crc_last_shape s d ts v h hp hlast
  obtain ⟨_, _, htake, hdrop⟩ := take_drop_tail (rawBytes fs0) (str "6304") v (by decide) hv4
  rw [← hs] at htake hdrop
  rw [hdrop] at hne
  refine ⟨?_, ?_⟩
  · rw [htake, decode_crc_last fs0 e0 new hw0 hm hnew, if_pos (by rw [← hcrc]; exact hne)]
  · exact ⟨str ": expected " ++ calculateCRC16 (s.take (s.length - 4)) ++ str ", got " ++ new,
      by simp only [← List.append_assoc]; rfl⟩

/-- C9 at the valid string of the test suite, its checksum `713E` replaced by
`FFFF`. -/
theorem C9_crc_mismatch_witness :
    (DecodeEMVQR validQR = .ok validQRPayload ∧ ParseEMVTLV validQR = .ok validQRTriplets
      ∧ validQRTriplets.getLast? = some { Tag := str "63", Length := 4, Value := str "713E" }
      ∧ (str "FFFF").length = 4 ∧ str "FFFF" ≠ validQR.drop (validQR.length - 4))
    ∧ (DecodeEMVQR (validQR.take (validQR.length - 4) ++ str "FFFF")
        = .error (str "invalid CRC: expected "
            ++ calculateCRC16 (validQR.take (validQR.length - 4)) ++ str ", got " ++ str "FFFF")
      ∧ str "invalid CRC" <+: (str "invalid CRC: expected "
          ++ calculateCRC16 (validQR.take (validQR.length - 4)) ++ str ", got " ++ str "FFFF"))
    ∧ DecodeEMVQR (str
        "00020101021229370016A000000677010111021302455640030965802TH530376454071000.886304FFFF")
        = .error (str "invalid CRC: expected 713E, got FFFF") :=
  ⟨⟨by decide!, by decide!, by decide!, by decide, by decide!⟩,
    C9_crc_mismatch validQR validQRPayload validQRTriplets (str "713E") (str "FFFF")
      (by decide!) (by decide!) (by decide!) (by decide) (by decide!),
    by decide!⟩

/-- C10: on every input of at least 4 bytes with no top-level tag-63 field,
`DecodeEMVQR` performs no checksum validation: what its loop has built is
returned as it is, with an empty CRC, and it succeeds exactly when the top-level
tokenization succeeds and the nested tokenization of the value of every field
with tag `62` or in the range `02` to `51` succeeds (`nestedTag`: the range as
the code compares it, which on two-digit tags is the decimal tags 02 to 51). -/
theorem C10_no_crc_no_validation (s : Str) (h4 : 4 ≤ s.length)
    (hno : ∀ ts, ParseEMVTLV s = .ok ts → ∀ t ∈ ts, t.Tag ≠ str "63") :
    ((∃ d, DecodeEMVQR s = .ok d) ↔
        ∃ ts, ParseEMVTLV s = .ok ts
          ∧ ∀ t ∈ ts, nestedTag t.Tag = true → ∃ m, parseSubFields t.Value = .ok m)
      ∧ (∀ e, DecodeEMVQR.loop s (s.length + 1) 0 {} = .ok e → DecodeEMVQR s = .ok e)
      ∧ (∀ d, DecodeEMVQR s = .ok d → d.CRC = [])
      ∧ (∀ a : Nat, a < 10 → ∀ b : Nat, b < 10 → nestedTag [48 + a, 48 + b]
          = decide ((2 ≤ a * 10 + b ∧ a * 10 + b ≤ 51) ∨ a * 10 + b = 62)) := by
  obtain ⟨h1, h2, h3⟩ := decode_without_crc_field s h4 hno
  exact ⟨h1, h2, h3, nestedTag_two_digits⟩

/-- C10 at the input `000201`: it decodes with an empty CRC. -/
theorem C10_no_crc_no_validation_witness :
    (4 ≤ (str "000201").length
      ∧ ParseEMVTLV (str "000201") = .ok [{ Tag := str "00", Length := 2, Value := str "01" }])
    ∧ DecodeEMVQR (str "000201") = .ok { PayloadFormatIndicator := str "01" }
    ∧ (∀ d, DecodeEMVQR (str "000201") = .ok d → d.CRC = []) := by
  have hp : ParseEMVTLV (str "000201")
      = .ok [{ Tag := str "00", Length := 2, Value := str "01" }] := by decide
  have h := C10_no_crc_no_validation (str "000201") (by decide) (by
    intro ts hts
    rw [hp] at hts
    cases hts
    decide)
  exact ⟨⟨by decide, hp⟩, h.2.1 _ (by decide), h.2.2.1⟩

/-- C11 as stated fails: in `0002016300` a top-level tag-63 field is tokenized,
its value is empty and so is no checksum, yet `DecodeEMVQR` succeeds: an empty
CRC value skips the validation.  And when two tag-63 fields are tokenized it is
the last one that is compared: `6304AAAA6304303C` decodes although `AAAA` is
not the checksum. -/
theorem C11_counterexample :
    ParseEMVTLV (str "0002016300")
        = .ok [{ Tag := str "00", Length := 2, Value := str "01" },
            { Tag := str "63", Length := 0, Value := [] }]
      ∧ DecodeEMVQR (str "0002016300") = .ok { PayloadFormatIndicator := str "01" }
      ∧ (∀ data, calculateCRC16 data ≠ [])
      ∧ ParseEMVTLV (str "6304AAAA6304303C")
        = .ok [{ Tag := str "63", Length := 4, Value := str "AAAA" },
            { Tag := str "63", Length := 4, Value := str "303C" }]
      ∧ DecodeEMVQR (str "6304AAAA6304303C") = .ok { CRC := str "303C" }
      ∧ calculateCRC16 (str "6304AAAA6304") = str "303C" := by
  refine ⟨by decide, by decide, ?_, by decide!, by decide!, by decide!⟩
  intro data h
  have := calculateCRC16_length data
  rw [h] at this
  cases this

/-- C11, amended: the validation is gated on a non-empty CRC value.  On every
input on which `DecodeEMVQR` succeeds, the CRC of the payload is the value of
the last top-level tag-63 triplet, and when that value is not empty the input
has `6304` at positions `len-8` to `len-5` and the value is the checksum of the
input without its last 4 bytes: a non-empty CRC value is never accepted without
that comparison. -/
theorem C11_crc_gate (s : Str) (d : EMVData) (h : DecodeEMVQR s = .ok d) :
    ∃ ts, ParseEMVTLV s = .ok ts ∧ d.CRC = lastValue ts (str "63")
      ∧ (lastValue ts (str "63") ≠ [] →
          8 ≤ s.length ∧ (s.drop (s.length - 8)).take 4 = str "6304"
            ∧ lastValue ts (str "63") = calculateCRC16 (s.take (s.length - 4))) := by
  obtain ⟨fs, hP, hm, _, hcheck⟩ := DecodeEMVQR_ok_fields s d h
  have hs := mapFields_scalars fs {} d hm
  simp only [scalarFields, scalarTags, List.zipWith_cons_cons, List.zipWith_nil_right,
    List.cons.injEq, and_true] at hs
  have hcrc : d.CRC = lastValue (fs.map RawField.toTriplet) (str "63") := hs.2.2.2.2.2.2.2.2.2.2.2
  refine ⟨_, hP, hcrc, ?_⟩
  intro hne
  rw [← hcrc] at hne ⊢
  exact checkCRC_ok s d d hcheck hne

/-- C11, amended, at the input `0002016304` followed by its checksum `AAE6`. -/
theorem C11_crc_gate_witness :
    DecodeEMVQR (str "0002016304AAE6")
        = .ok { PayloadFormatIndicator := str "01", CRC := str "AAE6" }
    ∧ ∃ ts, ParseEMVTLV (str "0002016304AAE6") = .ok ts
      ∧ str "AAE6" = lastValue ts (str "63")
      ∧ (lastValue ts (str "63") ≠ [] →
          8 ≤ (str "0002016304AAE6").length
            ∧ ((str "0002016304AAE6").drop ((str "0002016304AAE6").length - 8)).take 4
                = str "6304"
            ∧ lastValue ts (str "63") = calculateCRC16
                ((str "0002016304AAE6").take ((str "0002016304AAE6").length - 4))) :=
  ⟨by decide!, C11_crc_gate (str "0002016304AAE6")
    { PayloadFormatIndicator := str "01", CRC := str "AAE6" } (by decide!)⟩

/-- C12 as stated fails: on the string of the specification, which has the
point-of-initiation field `010211`, `DecodeEMVQR` returns no payload and the
error `invalid CRC: expected EFD4, got 713E`. -/
theorem C12_counterexample :
    DecodeEMVQR (str
      "00020101021129370016A000000677010111021302455640030965802TH530376454071000.886304713E")
      = .error (str "invalid CRC: expected EFD4, got 713E") := by
  decide!

/-- C12, amended: on the string of the test suite, which has the
point-of-initiation field `010212`, `DecodeEMVQR` succeeds and yields
`PayloadFormatIndicator = "01"`, `CountryCode = "TH"`, `TransactionCurrency = "764"`,
`TransactionAmount = "1000.88"`, `CRC = "713E"` and a merchant account under tag
`29` whose `AIDType` is C2C. -/
theorem C12_decode_valid_string :
    ∃ d account, DecodeEMVQR (str
        "00020101021229370016A000000677010111021302455640030965802TH530376454071000.886304713E")
        = .ok d
      ∧ d.PayloadFormatIndicator = str "01" ∧ d.CountryCode = str "TH"
      ∧ d.TransactionCurrency = str "764" ∧ d.TransactionAmount = str "1000.88"
      ∧ d.CRC = str "713E"
      ∧ d.MerchantAccountInfo.get? (str "29") = some (some account)
      ∧ account.AID = str "A000000677010111" ∧ account.AIDType = QRTypeC2C
      ∧ QRTypeC2C = str "C2C" :=
  ⟨validQRPayload,
    { AID := str "A000000677010111", AIDType := QRTypeC2C, PaymentScheme := QRSchemePromptPay,
      Reference1 := str "0245564003096",
      RawValue := str "0016A00000067701011102130245564003096" },
    by decide!, by decide, by decide, by decide, by decide, by decide,
    by decide, by decide, by decide, by decide⟩

/-- C13: on every input `s` on which `DecodeEMVQR` succeeds, `ParseEMVTLV(s)`
succeeds too, and each scalar field of the payload is the `Value` of the last
triplet of `ParseEMVTLV(s)` that carries its tag, and the empty string when no
triplet carries that tag. -/
theorem C13_scalar_fields_last_write_wins (s : Str) (d : EMVData)
    (h : DecodeEMVQR s = .ok d) :
    ∃ ts, ParseEMVTLV s = .ok ts
      ∧ d.PayloadFormatIndicator = lastValue ts (str "00")
      ∧ d.PointOfInitiationMethod = lastValue ts (str "01")
      ∧ d.MerchantCategoryCode = lastValue ts (str "52")
      ∧ d.TransactionCurrency = lastValue ts (str "53")
      ∧ d.TransactionAmount = lastValue ts (str "54")
      ∧ d.TipOrConvenienceIndicator = lastValue ts (str "55")
      ∧ d.ValueOfConvenienceFee = lastValue ts (str "56")
      ∧ d.CountryCode = lastValue ts (str "58")
      ∧ d.MerchantName = lastValue ts (str "59")
      ∧ d.MerchantCity = lastValue ts (str "60")
      ∧ d.PostalCode = lastValue ts (str "61")
      ∧ d.CRC = lastValue ts (str "63") := by
  obtain ⟨fs, hP, hm, _, _⟩ := DecodeEMVQR_ok_fields s d h
  refine ⟨_, hP, ?_⟩
  have hs := mapFields_scalars fs {} d hm
  simp only [scalarFields, scalarTags, List.zipWith_cons_cons, List.zipWith_nil_right,
    List.cons.injEq, and_true] at hs
  exact hs

/-- C13 at the input `5802TH5802SG54011`: the country code is that of the
second tag-58 field, and fields without a triplet are empty. -/
theorem C13_scalar_fields_last_write_wins_witness :
    DecodeEMVQR (str "5802TH5802SG54011") = .ok { CountryCode := str "SG", TransactionAmount := str "1" }
    ∧ ∃ ts, ParseEMVTLV (str "5802TH5802SG54011") = .ok ts
      ∧ ([] : Str) = lastValue ts (str "00")
      ∧ str "SG" = lastValue ts (str "58") := by
  obtain ⟨ts, h1, h2, _, _, _, _, _, _, h3, _⟩ := C13_scalar_fields_last_write_wins
    (str "5802TH5802SG54011") { CountryCode := str "SG", TransactionAmount := str "1" }
    (by decide!)
  exact ⟨by decide!, ts, h1, h2, h3⟩

/-- C14: on every input on which `DecodeEMVQR` succeeds and for every tag `t`
from `"02"` to `"51"`, `MerchantAccountInfo` has key `t` exactly when some
top-level triplet has tag `t`; the entry is built from the value `v` of the last
such triplet: `RawValue = v` and, with `m` the sub-tag map of `v`, `AID`,
`MerchantID`, `Reference1`, `Reference2`, `Reference3` are `m["00"]` to
`m["04"]` (empty when absent), `AIDType` and `PaymentScheme` are derived from
`m["00"]` when it is present, and `UnresolvedData` is `m` restricted to the
other sub-tags; every order of visiting the entries of `m` builds this entry. -/
theorem C14_merchant_accounts (s : Str) (d : EMVData) (h : DecodeEMVQR s = .ok d) :
    ∃ ts, ParseEMVTLV s = .ok ts ∧
      ∀ t : Str, strLe (str "02") t = true → strLe t (str "51") = true →
        ((∃ a, GoMap.get? d.MerchantAccountInfo t = some a) ↔ ∃ x ∈ ts, x.Tag = t)
        ∧ ∀ v, lastValue? ts t = some v →
            ∃ m a, parseSubFields v = .ok m
              ∧ GoMap.get? d.MerchantAccountInfo t = some (some a)
              ∧ a.RawValue = v
              ∧ a.AID = (GoMap.get? m (str "00")).getD []
              ∧ a.AIDType = ((GoMap.get? m (str "00")).map mapAIDType).getD []
              ∧ a.PaymentScheme = ((GoMap.get? m (str "00")).map mapScheme).getD []
              ∧ a.MerchantID = (GoMap.get? m (str "01")).getD []
              ∧ a.Reference1 = (GoMap.get? m (str "02")).getD []
              ∧ a.Reference2 = (GoMap.get? m (str "03")).getD []
              ∧ a.Reference3 = (GoMap.get? m (str "04")).getD []
              ∧ a.UnresolvedData = m.filter (fun kv => decide (kv.1 ∉ accountSubTags))
              ∧ ∀ l : List (Str × Str), l.Perm m →
                  { l.foldl parseMerchantAccountInfo.assign {} with RawValue := v } = a := by
  obtain ⟨fs, hP, hm, _, _⟩ := DecodeEMVQR_ok_fields s d h
  refine ⟨_, hP, ?_⟩
  intro t h02 h51
  have ht : (strLe (str "02") t && strLe t (str "51")) = true := by rw [h02, h51]; rfl
  have h1 := mapFields_accounts fs {} d hm t ht
  cases hl : lastValue? (fs.map RawField.toTriplet) t with
  | none =>
    rw [hl] at h1
    simp only at h1
    have hnone : GoMap.get? d.MerchantAccountInfo t = none := h1
    have hno := (lastValue?_eq_none_iff _ t).1 hl
    refine ⟨⟨?_, ?_⟩, ?_⟩
    · rintro ⟨a, ha⟩
      rw [hnone] at ha
      cases ha
    · rintro ⟨x, hx, hxt⟩
      exact absurd hxt (hno x hx)
    · intro v hv
      cases hv
  | some v =>
    rw [hl] at h1
    simp only at h1
    obtain ⟨acct, hacct, hget⟩ := h1
    obtain ⟨m, hsub, hfold⟩ := parseMerchantAccountInfo_ok v acct hacct
    obtain ⟨_, _, hs, _, _, _⟩ := parseSubFields_ok v m hsub
    obtain ⟨a1, a2, a3, a4, a5, a6, a7, _, a9⟩ := foldl_assign_perm m hs m (List.Perm.refl m)
    refine ⟨⟨fun _ => ?_, fun _ => ⟨_, hget⟩⟩, ?_⟩
    · by_contra hcon
      have hall : ∀ x ∈ fs.map RawField.toTriplet, x.Tag ≠ t :=
        fun x hx hxt => hcon ⟨x, hx, hxt⟩
      rw [(lastValue?_eq_none_iff _ t).2 hall] at hl
      cases hl
    · intro w hw
      cases hw
      refine ⟨m, _, hsub, hget, rfl, ?_, ?_, ?_, ?_, ?_, ?_, ?_, ?_, ?_⟩
      · rw [hfold]; exact a1
      · rw [hfold]; exact a2
      · rw [hfold]; exact a3
      · rw [hfold]; exact a4
      · rw [hfold]; exact a5
      · rw [hfold]; exact a6
      · rw [hfold]; exact a7
      · rw [hfold]; exact a9
      · intro l hp
        rw [foldl_assign_order m hs l hp, hfold]

/-- C14 at `accountQR`: the payload has the account of tag `29`, built from
the sub-tags `00`, `02` and `05` of its value. -/
theorem C14_merchant_accounts_witness :
    DecodeEMVQR accountQR = .ok accountQRData
    ∧ ∃ ts, ParseEMVTLV accountQR = .ok ts ∧
      ∀ t : Str, strLe (str "02") t = true → strLe t (str "51") = true →
        ((∃ a, GoMap.get? accountQRData.MerchantAccountInfo t = some a) ↔ ∃ x ∈ ts, x.Tag = t)
        ∧ ∀ v, lastValue? ts t = some v →
            ∃ m a, parseSubFields v = .ok m
              ∧ GoMap.get? accountQRData.MerchantAccountInfo t = some (some a)
              ∧ a.RawValue = v
              ∧ a.AID = (GoMap.get? m (str "00")).getD []
              ∧ a.AIDType = ((GoMap.get? m (str "00")).map mapAIDType).getD []
              ∧ a.PaymentScheme = ((GoMap.get? m (str "00")).map mapScheme).getD []
              ∧ a.MerchantID = (GoMap.get? m (str "01")).getD []
              ∧ a.Reference1 = (GoMap.get? m (str "02")).getD []
              ∧ a.Reference2 = (GoMap.get? m (str "03")).getD []
              ∧ a.Reference3 = (GoMap.get? m (str "04")).getD []
              ∧ a.UnresolvedData = m.filter (fun kv => decide (kv.1 ∉ accountSubTags))
              ∧ ∀ l : List (Str × Str), l.Perm m →
                  { l.foldl parseMerchantAccountInfo.assign {} with RawValue := v } = a :=
  ⟨by decide!, C14_merchant_accounts accountQR accountQRData (by decide!)⟩

/-- C15: on every input on which `DecodeEMVQR` succeeds, `AdditionalData` is the
sub-tag map obtained by tokenizing the value of the last top-level tag-62
field: each sub-tag is mapped to the value of the last sub-field carrying it;
and it is the empty map when there is no tag-62 field. -/
theorem C15_additional_data (s : Str) (d : EMVData) (h : DecodeEMVQR s = .ok d) :
    ∃ ts, ParseEMVTLV s = .ok ts ∧
      match lastValue? ts (str "62") with
      | none => d.AdditionalData = []
      | some v =>
        parseSubFields v = .ok d.AdditionalData
          ∧ (v.length < 4 → d.AdditionalData = [])
          ∧ (∀ subs, ParseEMVTLV v = .ok subs →
              ∀ k, GoMap.get? d.AdditionalData k = lastValue? subs k) := by
  obtain ⟨fs, hP, hm, _, _⟩ := DecodeEMVQR_ok_fields s d h
  refine ⟨_, hP, ?_⟩
  have h1 := mapFields_additionalData fs {} d hm
  cases hl : lastValue? (fs.map RawField.toTriplet) (str "62") with
  | none =>
    rw [hl] at h1
    exact h1
  | some v =>
    rw [hl] at h1
    simp only at h1 ⊢
    obtain ⟨sfs, hfold, _, hget, hparse, hshort⟩ := parseSubFields_ok v _ h1
    refine ⟨h1, ?_, ?_⟩
    · intro h4
      rw [hfold, hshort h4]
      rfl
    · intro subs hsubs k
      by_cases h4 : 4 ≤ v.length
      · rw [hparse h4] at hsubs
        cases hsubs
        exact hget k
      · unfold ParseEMVTLV at hsubs
        rw [if_pos (by omega)] at hsubs
        cases hsubs

/-- C15 at an input whose tag-62 field has the value `07200000yJMlWBD1ltXF6zJf`:
the additional data maps `07` to `0000yJMlWBD1ltXF6zJf`. -/
theorem C15_additional_data_witness :
    DecodeEMVQR (str "622407200000yJMlWBD1ltXF6zJf")
        = .ok { AdditionalData := [(str "07", str "0000yJMlWBD1ltXF6zJf")] }
    ∧ parseSubFields (str "07200000yJMlWBD1ltXF6zJf")
        = .ok [(str "07", str "0000yJMlWBD1ltXF6zJf")]
    ∧ ∃ ts, ParseEMVTLV (str "622407200000yJMlWBD1ltXF6zJf") = .ok ts ∧
      match lastValue? ts (str "62") with
      | none => [(str "07", str "0000yJMlWBD1ltXF6zJf")] = ([] : GoMap Str)
      | some v =>
        parseSubFields v = .ok [(str "07", str "0000yJMlWBD1ltXF6zJf")]
          ∧ (v.length < 4 → [(str "07", str "0000yJMlWBD1ltXF6zJf")] = ([] : GoMap Str))
          ∧ (∀ subs, ParseEMVTLV v = .ok subs →
              ∀ k, GoMap.get? [(str "07", str "0000yJMlWBD1ltXF6zJf")] k = lastValue? subs k) :=
  ⟨by decide!, by decide!, C15_additional_data (str "622407200000yJMlWBD1ltXF6zJf")
    { AdditionalData := [(str "07", str "0000yJMlWBD1ltXF6zJf")] } (by decide!)⟩

/-- C16: for every value, `mapEMVField` with a tag from `"64"` to `"98"` (on
two-digit tags: the decimal tags 64 to 98) stores the value in
`MerchantInformation` under that tag and changes nothing else; with tag `"99"`
it stores the value in `UnresolvedData` under `"99"` and changes nothing else;
it returns no error for these tags. -/
theorem C16_merchant_information (e : EMVData) (tag v : Str)
    (h64 : strLe (str "64") tag = true) (h98 : strLe tag (str "98") = true) :
    mapEMVField e tag v
        = .ok { e with MerchantInformation := e.MerchantInformation.set tag v }
      ∧ (e.MerchantInformation.set tag v).get? tag = some v
      ∧ mapEMVField e (str "99") v
        = .ok { e with UnresolvedData := e.UnresolvedData.set (str "99") v }
      ∧ (e.UnresolvedData.set (str "99") v).get? (str "99") = some v
      ∧ (∀ a : Nat, a < 10 → ∀ b : Nat, b < 10 →
          (strLe (str "64") [48 + a, 48 + b] && strLe [48 + a, 48 + b] (str "98"))
            = decide (64 ≤ a * 10 + b ∧ a * 10 + b ≤ 98)) := by
  obtain ⟨hc, hr⟩ := above_64 tag h64
  obtain ⟨hc9, hr9⟩ := above_64 (str "99") (by decide)
  have h99 : strLe tag (str "99") = true := strLe_trans _ _ _ h98 (by decide)
  have hne : tag ≠ str "99" := ne_of_strLe_right (str "98") tag _ h98 (by decide)
  refine ⟨?_, ?_, ?_, ?_, range_64_98_two_digits⟩
  · rw [mapEMVField_default e tag v hc hr, if_pos (by rw [h64, h99]; rfl), if_neg hne]
  · rw [GoMap.get?_set, if_pos rfl]
  · rw [mapEMVField_default e _ v hc9 hr9, if_pos (by decide), if_pos rfl]
  · rw [GoMap.get?_set, if_pos rfl]

/-- C16 at the tags `64` and `99` on a fresh payload. -/
theorem C16_merchant_information_witness :
    (strLe (str "64") (str "64") = true ∧ strLe (str "64") (str "98") = true)
    ∧ mapEMVField {} (str "64") (str "test")
        = .ok { MerchantInformation := [(str "64", str "test")] }
    ∧ mapEMVField {} (str "99") (str "test")
        = .ok { UnresolvedData := [(str "99", str "test")] } :=
  ⟨⟨by decide, by decide⟩,
    (C16_merchant_information {} (str "64") (str "test") (by decide) (by decide)).1,
    (C16_merchant_information {} (str "64") (str "test") (by decide) (by decide)).2.2.1⟩

/-- C17 as stated fails: the tags `0A` and `6A` contain a non-digit byte, yet
`0A` lies in the range `"02"` to `"51"` of Go's string order and its value is
tokenized as a merchant account (with an error when it does not tokenize), and
`6A` lies in the range `"64"` to `"99"` and its value goes to
`MerchantInformation`. -/
theorem C17_counterexample :
    ¬ TwoDigits (str "0A") ∧ ¬ TwoDigits (str "6A")
      ∧ mapEMVField {} (str "0A") (str "05XX")
          = .error (str "error parsing merchant account info: "
              ++ str "failed to parse merchant account sub-fields: invalid sub-field length: XX")
      ∧ mapEMVField {} (str "0A") (str "")
          = .ok { MerchantAccountInfo := [(str "0A", some {})] }
      ∧ mapEMVField {} (str "6A") (str "v")
          = .ok { MerchantInformation := [(str "6A", str "v")] } := by
  decide!

/-- C17, amended: for every tag that is none of the tags named in a `case`
(00, 01, 52 to 56, 58 to 63) and lies outside the ranges `"02"` to `"51"` and
`"64"` to `"99"` of Go's string order, as tag `57` does, `mapEMVField` stores
the value in `UnresolvedData` under that tag, returns no error and changes no
other field or mapping. -/
theorem C17_unresolved (e : EMVData) (tag v : Str) (hc : tag ∉ caseTags)
    (hr : (strLe (str "02") tag && strLe tag (str "51")) = false)
    (hm : (strLe (str "64") tag && strLe tag (str "99")) = false) :
    mapEMVField e tag v = .ok { e with UnresolvedData := e.UnresolvedData.set tag v }
      ∧ (e.UnresolvedData.set tag v).get? tag = some v := by
  refine ⟨?_, ?_⟩
  · rw [mapEMVField_default e tag v hc hr, if_neg (by rw [hm]; decide)]
  · rw [GoMap.get?_set, if_pos rfl]

/-- C17, amended, at tag `57` on a fresh payload. -/
theorem C17_unresolved_witness :
    (str "57" ∉ caseTags
      ∧ (strLe (str "02") (str "57") && strLe (str "57") (str "51")) = false
      ∧ (strLe (str "64") (str "57") && strLe (str "57") (str "99")) = false)
    ∧ mapEMVField {} (str "57") (str "test") = .ok { UnresolvedData := [(str "57", str "test")] } :=
  ⟨⟨by decide, by decide, by decide⟩,
    (C17_unresolved {} (str "57") (str "test") (by decide) (by decide) (by decide)).1⟩

/-- C18 at the input `260400-1270405XX`: the top-level tokenization succeeds,
the value `05XX` of the field with tag `27` has a sub-length that is not
numeric, so that `parseSubFields` returns an error on it, and `DecodeEMVQR`
ends in a run-time fault on the value `00-1` of the field with tag `26` instead
of returning an error that names tag `27`; on `270405XX` alone it returns that
error. -/
theorem C18_nested_negative_length_fault :
    ParseEMVTLV (str "260400-1270405XX")
        = .ok [{ Tag := str "26", Length := 4, Value := str "00-1" },
               { Tag := str "27", Length := 4, Value := str "05XX" }]
      ∧ parseSubFields (str "05XX") = .error (str "invalid sub-field length: XX")
      ∧ parseSubFields (str "00-1") = .fault
      ∧ DecodeEMVQR (str "260400-1270405XX") = .fault
      ∧ DecodeEMVQR (str "270405XX") = .error (str "error mapping field 27: error parsing merchant account info: failed to parse merchant account sub-fields: invalid sub-field length: XX") := by
  decide!

/-- C19: for every byte string, `calculateCRC16` returns exactly 4 bytes, each
one of `0`-`9` or `A`-`F`; and `calculateCRC16("")` is `FFFF`. -/
theorem C19_crc_is_four_hex_digits (data : Str) :
    (calculateCRC16 data).length = 4
      ∧ (∀ c ∈ calculateCRC16 data, (48 ≤ c ∧ c ≤ 57) ∨ (65 ≤ c ∧ c ≤ 70))
      ∧ calculateCRC16 (str "") = str "FFFF" := by
  have hlt : (data.foldl crcByte 0xFFFF) &&& 0xFFFF < 65536 :=
    Nat.lt_of_le_of_lt Nat.and_le_right (by decide)
  refine ⟨?_, ?_, by decide⟩
  · unfold calculateCRC16
    rw [fmtHex04_eq _ hlt]
    rfl
  · unfold calculateCRC16
    rw [fmtHex04_eq _ hlt]
    intro c hc
    simp only [List.mem_cons, List.mem_singleton, List.not_mem_nil, or_false] at hc
    rcases hc with rfl | rfl | rfl | rfl
    · exact hexDigit_range _ (by omega)
    · exact hexDigit_range _ (by omega)
    · exact hexDigit_range _ (by omega)
    · exact hexDigit_range _ (by omega)

/-- C20 fails on the code: in `nilAccount` the smallest key of
`MerchantAccountInfo` among `26` to `35` is `26`, under which a nil pointer is
stored; the first pass stops there with `primaryAccount` nil, so that the
second pass runs: `QRInfo` copies the `AID` of the account under `27` when the
entry of `27` is visited first, and copies no account when the entry of `26`
is.  When the pointer under the smallest such key `k` is not nil, `QRInfo`
copies `AID`, `AIDType`, `PaymentScheme` and `MerchantID` from the account under
`k`, and `POIMethodType`, `TransactionAmount` and `CountryCode` from the
payload, whatever other accounts exist and in whatever order the maps are
visited; so it does at `threeAccounts`, from the account under `29`. -/
theorem C20_nil_pointer_under_smallest_key :
    GoMap.get? nilAccount.MerchantAccountInfo (str "26") = some none
      ∧ (∀ k1 ∈ preferredTags,
          (GoMap.get? nilAccount.MerchantAccountInfo k1).isSome = true →
            strLe (str "26") k1 = true)
      ∧ (nilAccount.QRInfo [(str "27", some { AID := str "COM.UPI.PAY" }), (str "26", none)]
          []).AID = str "COM.UPI.PAY"
      ∧ nilAccount.QRInfo [(str "26", none), (str "27", some { AID := str "COM.UPI.PAY" })] []
          = {}
      ∧ (∀ (e : EMVData) (accountOrder : List (Str × Option MerchantAccount))
          (dataOrder : List (Str × Str)) (k : Str) (a : MerchantAccount),
          k ∈ preferredTags → GoMap.get? e.MerchantAccountInfo k = some (some a) →
          (∀ k1 ∈ preferredTags,
            (GoMap.get? e.MerchantAccountInfo k1).isSome = true → strLe k k1 = true) →
          (e.QRInfo accountOrder dataOrder).AID = a.AID
            ∧ (e.QRInfo accountOrder dataOrder).AIDType = a.AIDType
            ∧ (e.QRInfo accountOrder dataOrder).PaymentScheme = a.PaymentScheme
            ∧ (e.QRInfo accountOrder dataOrder).MerchantID = a.MerchantID
            ∧ (e.QRInfo accountOrder dataOrder).POIMethodType = e.POIMethodType
            ∧ (e.QRInfo accountOrder dataOrder).TransactionAmount = e.TransactionAmount
            ∧ (e.QRInfo accountOrder dataOrder).CountryCode = e.CountryCode)
      ∧ (threeAccounts.QRInfo threeAccounts.MerchantAccountInfo.reverse
          threeAccounts.AdditionalData)
        = { AID := str "A000000677010111", AIDType := QRTypeC2C
            POIMethodType := POITypeDynamic, PaymentScheme := QRSchemePromptPay
            TransactionAmount := str "1000.88", CountryCode := str "TH"
            MerchantID := str "M29", Reference1 := str "REF" } := by
  refine ⟨by decide!, by decide!, by decide!, by decide!, ?_, by decide!⟩
  intro e accountOrder dataOrder k a hk ha hmin
  obtain ⟨i1, i2, i3, i4, i5, i6, i7⟩ := fillLoop_fields
    (fillMissingReferences.emptySlots (EMVData.QRInfo.copied e a)) dataOrder
    (EMVData.QRInfo.copied e a) 0
  rw [QRInfo_of_primary e accountOrder dataOrder a
    (primaryAccount_of_smallest e k a hk ha hmin accountOrder)]
  exact ⟨i1, i2, i4, i7, i3, i5, i6⟩

/-- C21: when `QRInfo` has selected a primary account, every non-empty
`Reference1`, `Reference2` or `Reference3` of that account is in the result
unchanged, and every reference of the result is that of the account, or empty,
or the value of an entry of `AdditionalData`, in whatever order the entries of
`AdditionalData` are visited. -/
theorem C21_references_kept (e : EMVData) (accountOrder : List (Str × Option MerchantAccount))
    (dataOrder : List (Str × Str)) (a : MerchantAccount)
    (hp : EMVData.QRInfo.primaryAccount e accountOrder = some a)
    (hperm : dataOrder.Perm e.AdditionalData) :
    (a.Reference1 ≠ [] → (e.QRInfo accountOrder dataOrder).Reference1 = a.Reference1)
      ∧ (a.Reference2 ≠ [] → (e.QRInfo accountOrder dataOrder).Reference2 = a.Reference2)
      ∧ (a.Reference3 ≠ [] → (e.QRInfo accountOrder dataOrder).Reference3 = a.Reference3)
      ∧ ((e.QRInfo accountOrder dataOrder).Reference1 = a.Reference1
          ∨ (e.QRInfo accountOrder dataOrder).Reference1 = []
          ∨ ∃ kv ∈ e.AdditionalData, (e.QRInfo accountOrder dataOrder).Reference1 = kv.2)
      ∧ ((e.QRInfo accountOrder dataOrder).Reference2 = a.Reference2
          ∨ (e.QRInfo accountOrder dataOrder).Reference2 = []
          ∨ ∃ kv ∈ e.AdditionalData, (e.QRInfo accountOrder dataOrder).Reference2 = kv.2)
      ∧ ((e.QRInfo accountOrder dataOrder).Reference3 = a.Reference3
          ∨ (e.QRInfo accountOrder dataOrder).Reference3 = []
          ∨ ∃ kv ∈ e.AdditionalData, (e.QRInfo accountOrder dataOrder).Reference3 = kv.2) := by
  rw [QRInfo_of_primary e accountOrder dataOrder a hp]
  obtain ⟨_, _, hkeep⟩ := fillMissingReferences_reference (EMVData.QRInfo.copied e a) dataOrder
  have hor : ∀ i, (fillMissingReferences (EMVData.QRInfo.copied e a) dataOrder).reference i
      = (EMVData.QRInfo.copied e a).reference i
      ∨ (fillMissingReferences (EMVData.QRInfo.copied e a) dataOrder).reference i = []
      ∨ ∃ kv ∈ e.AdditionalData,
          (fillMissingReferences (EMVData.QRInfo.copied e a) dataOrder).reference i = kv.2 := by
    intro i
    rcases fillLoop_reference_or (fillMissingReferences.emptySlots (EMVData.QRInfo.copied e a))
      dataOrder (EMVData.QRInfo.copied e a) 0 i with h | ⟨kv, hkv, h⟩
    · exact Or.inl h
    · exact Or.inr (Or.inr ⟨kv, hperm.mem_iff.1 hkv, h⟩)
  exact ⟨hkeep 0 (by decide), hkeep 1 (by decide), hkeep 2 (by decide), hor 0, hor 1, hor 2⟩

/-- C21 at `twoReferences`, the entries of the additional data being visited
in descending order of their keys: `Reference2` of the account is kept, and the
other two references are values of the additional data. -/
theorem C21_references_kept_witness :
    (twoReferences.QRInfo twoReferences.MerchantAccountInfo
        twoReferences.AdditionalData.reverse).Reference2 = str "R2"
      ∧ (twoReferences.QRInfo twoReferences.MerchantAccountInfo
          twoReferences.AdditionalData.reverse).Reference1 = str "B"
      ∧ (twoReferences.QRInfo twoReferences.MerchantAccountInfo
          twoReferences.AdditionalData.reverse).Reference3 = str "A" :=
  ⟨(C21_references_kept twoReferences twoReferences.MerchantAccountInfo
      twoReferences.AdditionalData.reverse
      { AID := str "A000000677010111", Reference2 := str "R2" }
      (by decide!) (List.reverse_perm _)).2.1 (by decide),
    by decide!, by decide!⟩

/-- C22 as stated fails: on a payload without a merchant account no primary
account is selected and `fillMissingReferences` is not called, so that the
three references stay empty although `AdditionalData` has an entry. -/
theorem C22_counterexample :
    EMVData.QRInfo.primaryAccount { AdditionalData := [(str "05", str "REF")] } [] = none
      ∧ EMVData.QRInfo { AdditionalData := [(str "05", str "REF")] } []
          [(str "05", str "REF")] = {}
      ∧ fillMissingReferences {} [(str "05", str "REF")] = { Reference1 := str "REF" } := by
  decide!

/-- C22, amended: when `QRInfo` has selected a primary account, the empty
slots are the references of the account that are empty, in the order
`Reference1`, `Reference2`, `Reference3`; with `n` the smaller of the number of
empty slots and the number of entries of `AdditionalData`, the first `n` empty
slots receive the values of the first `n` entries visited, the other empty
slots stay empty and the references that were not empty are unchanged. -/
theorem C22_fill_empty_slots (e : EMVData) (accountOrder : List (Str × Option MerchantAccount))
    (dataOrder : List (Str × Str)) (a : MerchantAccount)
    (hp : EMVData.QRInfo.primaryAccount e accountOrder = some a)
    (hperm : dataOrder.Perm e.AdditionalData) :
    ∃ slots : List Nat,
      slots = [0, 1, 2].filter (fun i => decide ((EMVData.QRInfo.copied e a).reference i = []))
      ∧ (EMVData.QRInfo.copied e a).Reference1 = a.Reference1
      ∧ (EMVData.QRInfo.copied e a).Reference2 = a.Reference2
      ∧ (EMVData.QRInfo.copied e a).Reference3 = a.Reference3
      ∧ (∀ j, j < min slots.length e.AdditionalData.length →
          (e.QRInfo accountOrder dataOrder).reference (slots.getD j 0)
            = (dataOrder.getD j ([], [])).2)
      ∧ (∀ j, min slots.length e.AdditionalData.length ≤ j → j < slots.length →
          (e.QRInfo accountOrder dataOrder).reference (slots.getD j 0) = [])
      ∧ (∀ i, i < 3 → i ∉ slots →
          (e.QRInfo accountOrder dataOrder).reference i
            = (EMVData.QRInfo.copied e a).reference i) := by
  rw [QRInfo_of_primary e accountOrder dataOrder a hp]
  obtain ⟨hfill, hempty, hkeep⟩ :=
    fillMissingReferences_reference (EMVData.QRInfo.copied e a) dataOrder
  have hlen : dataOrder.length = e.AdditionalData.length := hperm.length_eq
  refine ⟨fillMissingReferences.emptySlots (EMVData.QRInfo.copied e a), emptySlots_eq _,
    rfl, rfl, rfl, ?_, ?_, ?_⟩
  · intro j hj
    rw [← hlen] at hj
    exact hfill j (by omega) (by omega)
  · intro j hj1 hj2
    rw [← hlen] at hj1
    exact hempty j hj2 (by omega)
  · intro i hi hni
    exact hkeep i hi (fun h => hni ((mem_emptySlots _ i hi).2 h))

/-- C22, amended, at `twoReferences`, the entries of the additional data being
visited in descending order of their keys: the empty slots are `Reference1`
and `Reference3`, which receive `B` and `A`. -/
theorem C22_fill_empty_slots_witness :
    twoReferences.QRInfo twoReferences.MerchantAccountInfo twoReferences.AdditionalData.reverse
        = { AID := str "A000000677010111", Reference1 := str "B", Reference2 := str "R2",
            Reference3 := str "A" }
    ∧ ∃ slots : List Nat,
      slots = [0, 1, 2].filter (fun i => decide ((EMVData.QRInfo.copied twoReferences
          { AID := str "A000000677010111", Reference2 := str "R2" }).reference i = []))
      ∧ (EMVData.QRInfo.copied twoReferences
          { AID := str "A000000677010111", Reference2 := str "R2" }).Reference1 = []
      ∧ (EMVData.QRInfo.copied twoReferences
          { AID := str "A000000677010111", Reference2 := str "R2" }).Reference2 = str "R2"
      ∧ (EMVData.QRInfo.copied twoReferences
          { AID := str "A000000677010111", Reference2 := str "R2" }).Reference3 = []
      ∧ (∀ j, j < min slots.length twoReferences.AdditionalData.length →
          (twoReferences.QRInfo twoReferences.MerchantAccountInfo
              twoReferences.AdditionalData.reverse).reference (slots.getD j 0)
            = (twoReferences.AdditionalData.reverse.getD j ([], [])).2)
      ∧ (∀ j, min slots.length twoReferences.AdditionalData.length ≤ j → j < slots.length →
          (twoReferences.QRInfo twoReferences.MerchantAccountInfo
              twoReferences.AdditionalData.reverse).reference (slots.getD j 0) = [])
      ∧ (∀ i, i < 3 → i ∉ slots →
          (twoReferences.QRInfo twoReferences.MerchantAccountInfo
              twoReferences.AdditionalData.reverse).reference i
            = (EMVData.QRInfo.copied twoReferences
                { AID := str "A000000677010111", Reference2 := str "R2" }).reference i) :=
  ⟨by decide!, C22_fill_empty_slots twoReferences twoReferences.MerchantAccountInfo
    twoReferences.AdditionalData.reverse
    { AID := str "A000000677010111", Reference2 := str "R2" } (by decide!)
    (List.reverse_perm _)⟩

/-- C23: `validateEMVCoQRString` and `ParseEMVCoQRString` check in a fixed
order.  On every input of fewer than 14 bytes both return the error
`qr string too short`; on every input of at least 14 bytes whose last 4 bytes
differ from the `%04X` rendering of the CRC-16 of the bytes before them, both
return the error `invalid crc: expected ..., got ...`, whatever fields the input
holds.  In both cases `ParseEMVCoQRString` returns no result. -/
theorem C23_checks_in_order (s : Str) :
    (s.length < 14 →
        validateEMVCoQRString s = .error (str "qr string too short")
        ∧ ParseEMVCoQRString s = .error (str "qr string too short"))
      ∧ (14 ≤ s.length →
          s.drop (s.length - 4) ≠ fmtHex04 (crc16Checksum (s.take (s.length - 4))) →
          validateEMVCoQRString s
            = .error (str "invalid crc: expected " ++ s.drop (s.length - 4) ++ str ", got "
                ++ fmtHex04 (crc16Checksum (s.take (s.length - 4))))
          ∧ ParseEMVCoQRString s
            = .error (str "invalid crc: expected " ++ s.drop (s.length - 4) ++ str ", got "
                ++ fmtHex04 (crc16Checksum (s.take (s.length - 4))))) := by
  refine ⟨?_, ?_⟩
  · intro h
    have hv : validateEMVCoQRString s = .error (str "qr string too short") := by
      unfold validateEMVCoQRString
      rw [if_pos h]
    refine ⟨hv, ?_⟩
    unfold ParseEMVCoQRString
    rw [hv]
  · intro h hne
    have hv := validateEMVCoQRString_eq s h
    rw [if_pos (fun e => hne e.symm)] at hv
    refine ⟨hv, ?_⟩
    unfold ParseEMVCoQRString
    rw [hv]

/-- C23 at inputs of the test suite: `0102` is too short, and `010201630441C6`,
whose checksum is `41C5`, fails the CRC check although its fields are well
formed. -/
theorem C23_checks_in_order_witness :
    ParseEMVCoQRString (str "0102") = .error (str "qr string too short")
      ∧ ParseEMVTLV (str "010201630441C6")
          = .ok [{ Tag := str "01", Length := 2, Value := str "01" },
                 { Tag := str "63", Length := 4, Value := str "41C6" }]
      ∧ ParseEMVCoQRString (str "010201630441C6")
          = .error (str "invalid crc: expected 41C6, got 41C5") :=
  ⟨((C23_checks_in_order (str "0102")).1 (by decide)).2, by decide!, by
    rw [((C23_checks_in_order (str "010201630441C6")).2 (by decide) (by decide!)).2]
    decide!⟩

/-- C24: on every input `s` on which `ParseEMVCoQRString` succeeds, `Format`,
`Amount`, `CountryCode`, `CurrencyISO4217` and `Crc` are the values of the last
top-level fields with the tags `01`, `54`, `58`, `53` and `63`, each being empty
when `s` has no field with the tag. -/
theorem C24_compact_scalar_fields (s : Str) (r : EMVCoQRInfo)
    (h : ParseEMVCoQRString s = .ok r) :
    ∃ ts, ParseEMVTLV s = .ok ts
      ∧ r.Format = lastValue ts (str "01")
      ∧ r.Amount = lastValue ts (str "54")
      ∧ r.CountryCode = lastValue ts (str "58")
      ∧ r.CurrencyISO4217 = lastValue ts (str "53")
      ∧ r.Crc = lastValue ts (str "63") := by
  obtain ⟨_, _, fs, hP, ha, _, _⟩ := ParseEMVCoQRString_ok s r h
  exact ⟨_, hP, assignFields_scalars fs {} r ha⟩

/-- C24 at the input `010201630441C5`: `Format` is `01`, `Crc` is `41C5` and
every other field is empty. -/
theorem C24_compact_scalar_fields_witness :
    ParseEMVCoQRString (str "010201630441C5") = .ok { Format := str "01", Crc := str "41C5" }
    ∧ ∃ ts, ParseEMVTLV (str "010201630441C5") = .ok ts
      ∧ str "01" = lastValue ts (str "01")
      ∧ ([] : Str) = lastValue ts (str "54")
      ∧ ([] : Str) = lastValue ts (str "58")
      ∧ ([] : Str) = lastValue ts (str "53")
      ∧ str "41C5" = lastValue ts (str "63") :=
  ⟨by decide!, C24_compact_scalar_fields (str "010201630441C5")
    { Format := str "01", Crc := str "41C5" } (by decide!)⟩

/-- C25 as stated fails: `01020154045F89` passes the CRC check, its last 4
bytes `5F89` are the value of a tag-54 field, and `ParseEMVCoQRString` succeeds
with an empty `Crc`; on `0102016306AB8F0F` the tag-63 field has 6 bytes and `Crc`
is `AB8F0F`. -/
theorem C25_counterexample :
    ParseEMVCoQRString (str "01020154045F89") = .ok { Format := str "01", Amount := str "5F89" }
      ∧ (str "01020154045F89").drop ((str "01020154045F89").length - 4) = str "5F89"
      ∧ ParseEMVCoQRString (str "0102016306AB8F0F")
          = .ok { Format := str "01", Crc := str "AB8F0F" } := by
  decide!

/-- C25, amended: on every input `s` on which `ParseEMVCoQRString` succeeds,
`Crc` is the value of the last top-level field with tag `63`, empty when there
is none; and when the last field of `s` has tag `63` and length 4, `Crc` is the
last 4 bytes of `s`. -/
theorem C25_crc_field (s : Str) (r : EMVCoQRInfo) (h : ParseEMVCoQRString s = .ok r) :
    ∃ ts, ParseEMVTLV s = .ok ts
      ∧ r.Crc = lastValue ts (str "63")
      ∧ (∀ pre x, ts = pre ++ [x] → x.Tag = str "63" → x.Length = 4 →
          r.Crc = s.drop (s.length - 4)) := by
  obtain ⟨_, _, fs, hP, ha, hw, hs⟩ := ParseEMVCoQRString_ok s r h
  obtain ⟨_, _, _, _, hcrc⟩ := assignFields_scalars fs {} r ha
  refine ⟨_, hP, hcrc, ?_⟩
  intro pre x hts hx hl
  have hcrc1 : r.Crc = lastValue (fs.map RawField.toTriplet) (str "63") := hcrc
  rw [hcrc1, hts, lastValue_append_singleton pre x hx]
  obtain ⟨fpre, frest, hfs, _, hmrest⟩ := List.map_eq_append_iff.1 hts
  obtain ⟨fx, fnil, hfrest, hfx, hnil⟩ := List.map_eq_cons_iff.1 hmrest
  have hfnil : fnil = [] := List.map_eq_nil_iff.1 hnil
  subst hfnil
  have hwf := hw fx (by rw [hfs, hfrest]; simp)
  obtain ⟨_, _, _, hlen⟩ := hwf
  have hv : fx.value = x.Value := by rw [← hfx]; rfl
  have hl2 : fx.length = x.Length := by rw [← hfx]; rfl
  have hvl : x.Value.length = 4 := by
    rw [hl2, hl, hv] at hlen
    omega
  have hs2 : s = (rawBytes fpre ++ fx.tag ++ fx.lengthStr) ++ x.Value := by
    rw [hs, hfs, hfrest, rawBytes_append, rawBytes_cons, hv]
    simp [rawBytes]
  rw [hs2, List.length_append, hvl, Nat.add_sub_cancel, List.drop_left]

/-- C25, amended, at the input `010201630441C5`, which ends with the field
`6304` `41C5`. -/
theorem C25_crc_field_witness :
    ParseEMVCoQRString (str "010201630441C5") = .ok { Format := str "01", Crc := str "41C5" }
    ∧ ∃ ts, ParseEMVTLV (str "010201630441C5") = .ok ts
      ∧ str "41C5" = lastValue ts (str "63")
      ∧ (∀ pre x, ts = pre ++ [x] → x.Tag = str "63" → x.Length = 4 →
          str "41C5" = (str "010201630441C5").drop ((str "010201630441C5").length - 4)) :=
  ⟨by decide!, C25_crc_field (str "010201630441C5")
    { Format := str "01", Crc := str "41C5" } (by decide!)⟩

/-- C26 as stated fails: `0102012904ABCD30080104BILL6304784C` has one tag-29
field, with value `ABCD`, followed by a tag-30 field, and `ParseEMVCoQRString`
returns the value of the tag-30 field as `MerchantAccount`. -/
theorem C26_counterexample :
    ParseEMVTLV (str "0102012904ABCD30080104BILL6304784C")
        = .ok [{ Tag := str "01", Length := 2, Value := str "01" },
               { Tag := str "29", Length := 4, Value := str "ABCD" },
               { Tag := str "30", Length := 8, Value := str "0104BILL" },
               { Tag := str "63", Length := 4, Value := str "784C" }]
      ∧ ParseEMVCoQRString (str "0102012904ABCD30080104BILL6304784C")
        = .ok { Format := str "01", MerchantAccount := str "0104BILL", BillerID := str "BILL",
                Crc := str "784C" } := by
  decide!

/-- C26, amended: on every input on which `ParseEMVCoQRString` succeeds and
whose only tag-29 field has value `v`: when `v` contains `011300`,
`PhoneNumber` is the part of `v` after the first occurrence of `011300`,
wherever `110213` occurs; otherwise, when `v` contains `110213`, `PhoneNumber`
is the part of `v` after its first occurrence; otherwise `PhoneNumber` is
empty; and `MerchantAccount` is `v` when no tag-30 field follows the tag-29
field. -/
theorem C26_phone_number (s : Str) (r : EMVCoQRInfo) (pre post : List EMVDataValue)
    (x : EMVDataValue) (h : ParseEMVCoQRString s = .ok r)
    (hts : ParseEMVTLV s = .ok (pre ++ x :: post)) (hx : x.Tag = str "29")
    (hpre : ∀ y ∈ pre, y.Tag ≠ str "29") (hpost : ∀ y ∈ post, y.Tag ≠ str "29") :
    (∀ p q, x.Value = p ++ str "011300" ++ q →
        (∀ p1 q1, x.Value = p1 ++ str "011300" ++ q1 → p.length ≤ p1.length) →
        r.PhoneNumber = q)
    ∧ ((¬ ∃ p q, x.Value = p ++ str "011300" ++ q) →
        ∀ p q, x.Value = p ++ str "110213" ++ q →
          (∀ p1 q1, x.Value = p1 ++ str "110213" ++ q1 → p.length ≤ p1.length) →
          r.PhoneNumber = q)
    ∧ ((¬ ∃ p q, x.Value = p ++ str "011300" ++ q) →
        (¬ ∃ p q, x.Value = p ++ str "110213" ++ q) → r.PhoneNumber = [])
    ∧ ((∀ y ∈ post, y.Tag ≠ str "30") → r.MerchantAccount = x.Value) := by
  obtain ⟨_, _, fs, hP, ha, _, _⟩ := ParseEMVCoQRString_ok s r h
  rw [hP] at hts
  have hts1 : fs.map RawField.toTriplet = pre ++ x :: post := Res.ok.inj hts
  obtain ⟨fpre, frest, hfs, hmpre, hmrest⟩ := List.map_eq_append_iff.1 hts1
  obtain ⟨fx, fpost, hfrest, hfx, hmpost⟩ := List.map_eq_cons_iff.1 hmrest
  rw [hfs, hfrest] at ha
  obtain ⟨r1, ha1, ha2⟩ := assignFields_append fpre (fx :: fpost) {} r ha
  have ha3 := ha2
  unfold assignFields at ha3
  have htag : fx.tag = str "29" := by rw [← hx, ← hfx]; rfl
  have hval : fx.value = x.Value := by rw [← hfx]; rfl
  have hfpre : ∀ f ∈ fpre, f.tag ≠ str "29" := fun f hf =>
    hpre f.toTriplet (hmpre ▸ List.mem_map_of_mem _ hf)
  have hfpost : ∀ f ∈ fpost, f.tag ≠ str "29" := fun f hf =>
    hpost f.toTriplet (hmpost ▸ List.mem_map_of_mem _ hf)
  cases hm : ParseEMVCoQRString.assign r1 fx.tag fx.value with
  | ok r2 =>
    rw [hm] at ha3
    simp only at ha3
    obtain ⟨f1, _⟩ := assignFields_frame fpre {} r1 ha1
    obtain ⟨f2, f3⟩ := assignFields_frame fpost r2 r ha3
    have hp1 : r1.PhoneNumber = [] := f1 hfpre
    have hp2 : r.PhoneNumber = r2.PhoneNumber := f2 hfpost
    obtain ⟨_, _, _, _, _, _, s7⟩ := assign_scalars r1 r2 fx.tag fx.value hm
    rw [htag, hval] at hm
    obtain ⟨q1, q2, q3⟩ := assign_29_phone r1 r2 x.Value hm
    refine ⟨?_, ?_, ?_, ?_⟩
    · intro p q hv hmin
      rw [hp2]
      exact q1 p q hv hmin
    · intro hno p q hv hmin
      rw [hp2]
      exact q2 hno p q hv hmin
    · intro hno1 hno2
      rw [hp2, q3 hno1 hno2, hp1]
    · intro h30
      have hfpost30 : ∀ f ∈ fpost, f.tag ≠ str "30" := fun f hf =>
        h30 f.toTriplet (hmpost ▸ List.mem_map_of_mem _ hf)
      rw [f3 hfpost hfpost30, s7, if_pos (Or.inl htag), hval]
  | error err => rw [hm] at ha3; cases ha3
  | fault => rw [hm] at ha3; cases ha3
  | outOfFuel => rw [hm] at ha3; cases ha3

/-- C26, amended, at `phoneQR`: the value of the tag-29 field is
`1102130113000891234567`, the first occurrence of `011300` is at offset 6,
after `110213`, and the phone number is `0891234567`; no tag-30 field follows
and the merchant account is the value. -/
theorem C26_phone_number_witness :
    ParseEMVCoQRString phoneQR = .ok phoneQRInfo
      ∧ phoneQRInfo.PhoneNumber = str "0891234567"
      ∧ phoneQRInfo.MerchantAccount = str "1102130113000891234567" :=
  ⟨by decide!,
    (C26_phone_number phoneQR phoneQRInfo [{ Tag := str "01", Length := 2, Value := str "01" }]
      [{ Tag := str "63", Length := 4, Value := str "246F" }]
      { Tag := str "29", Length := 22, Value := str "1102130113000891234567" }
      (by decide!) (by decide!) rfl (by decide) (by decide)).1
      (str "110213") (str "0891234567") (by decide)
      (fun p1 q1 h1 => by
        have hle := stringsIndex_le (str "011300") _ p1 q1 (by decide) h1
        have hidx : stringsIndex (str "1102130113000891234567") (str "011300") = 6 := by decide!
        have hlen : (str "110213").length = 6 := by decide
        simp only at hle
        rw [hidx] at hle
        rw [hlen]
        omega),
    (C26_phone_number phoneQR phoneQRInfo [{ Tag := str "01", Length := 2, Value := str "01" }]
      [{ Tag := str "63", Length := 4, Value := str "246F" }]
      { Tag := str "29", Length := 22, Value := str "1102130113000891234567" }
      (by decide!) (by decide!) rfl (by decide) (by decide)).2.2.2 (by decide)⟩

/-- C27: for every byte string `d`, `MaskSensitive(d)` is the empty string when
`d` is empty, `****` when `d` has 1 to 4 bytes, `****` followed by the last 2
bytes of `d` when `d` has 5 to 8 bytes, and the first 4 bytes of `d`, `****`
and the last 4 bytes of `d` when `d` has more than 8 bytes; the output has at
most 12 bytes. -/
theorem C27_mask_sensitive (d : Str) :
    (d.length = 0 → MaskSensitive d = .ok [])
      ∧ (1 ≤ d.length → d.length ≤ 4 → MaskSensitive d = .ok (str "****"))
      ∧ (5 ≤ d.length → d.length ≤ 8 →
          MaskSensitive d = .ok (str "****" ++ d.drop (d.length - 2)))
      ∧ (8 < d.length →
          MaskSensitive d = .ok (d.take 4 ++ str "****" ++ d.drop (d.length - 4)))
      ∧ ∃ out, MaskSensitive d = .ok out ∧ out.length ≤ 12 := by
  have h0 : d.length = 0 → MaskSensitive d = .ok [] := by
    intro h
    unfold MaskSensitive
    rw [if_pos h]
    rfl
  have h1 : 1 ≤ d.length → d.length ≤ 4 → MaskSensitive d = .ok (str "****") := by
    intro ha hb
    unfold MaskSensitive
    rw [if_neg (by omega), if_pos hb]
  have h2 : 5 ≤ d.length → d.length ≤ 8 →
      MaskSensitive d = .ok (str "****" ++ d.drop (d.length - 2)) := by
    intro ha hb
    have hs := slice_last d 2 (by omega)
    unfold MaskSensitive
    rw [if_neg (by omega), if_neg (by omega), if_pos hb]
    simp only [Nat.cast_ofNat] at hs
    rw [hs]
  have h3 : 8 < d.length →
      MaskSensitive d = .ok (d.take 4 ++ str "****" ++ d.drop (d.length - 4)) := by
    intro ha
    have hs := slice_last d 4 (by omega)
    have ht := slice_take d 4 (by omega)
    unfold MaskSensitive
    rw [if_neg (by omega), if_neg (by omega), if_neg (by omega)]
    simp only [Nat.cast_ofNat] at hs ht
    rw [ht, hs]
  refine ⟨h0, h1, h2, h3, ?_⟩
  by_cases c0 : d.length = 0
  · exact ⟨_, h0 c0, by simp⟩
  by_cases c1 : d.length ≤ 4
  · exact ⟨_, h1 (by omega) c1, by decide⟩
  by_cases c2 : d.length ≤ 8
  · refine ⟨_, h2 (by omega) c2, ?_⟩
    have : (str "****").length = 4 := by decide
    simp only [List.length_append, List.length_drop, this]
    omega
  · refine ⟨_, h3 (by omega), ?_⟩
    have : (str "****").length = 4 := by decide
    simp only [List.length_append, List.length_drop, List.length_take, this]
    omega

/-- C27 at inputs of the test suite. -/
theorem C27_mask_sensitive_witness :
    MaskSensitive (str "") = .ok (str "")
      ∧ MaskSensitive (str "abcd") = .ok (str "****")
      ∧ MaskSensitive (str "abcde") = .ok (str "****de")
      ∧ MaskSensitive (str "abcdefgh9") = .ok (str "abcd****fgh9") :=
  ⟨(C27_mask_sensitive (str "")).1 (by decide),
    (C27_mask_sensitive (str "abcd")).2.1 (by decide) (by decide),
    (C27_mask_sensitive (str "abcde")).2.2.1 (by decide) (by decide),
    (C27_mask_sensitive (str "abcdefgh9")).2.2.2.1 (by decide)⟩

/-- C28 as stated fails: on the 5 bytes `abcde` `MaskSensitive` returns
`****de`, which shows the last two bytes of the input, and on the 8 bytes
`abcdefgh` it returns `****gh`, as the test suite expects. -/
theorem C28_counterexample :
    MaskSensitive (str "abcde") = .ok (str "****de")
      ∧ MaskSensitive (str "abcdefgh") = .ok (str "****gh")
      ∧ (str "abcde").length = 5 ∧ (str "abcdefgh").length = 8
      ∧ str "****de" = str "****" ++ (str "abcde").drop 3 := by
  decide

/-- C28, amended: for every non-empty string of at most 4 bytes `MaskSensitive`
returns only asterisks, the same four whatever the input, so that no character
of the input is shown in the output; for every string of 5 to 8 bytes it
returns four asterisks followed by the last two bytes of the input. -/
theorem C28_only_asterisks (d : Str) (h1 : 1 ≤ d.length) (h4 : d.length ≤ 4) :
    MaskSensitive d = .ok (str "****")
      ∧ (∀ b ∈ str "****", b = 42)
      ∧ (∀ d1 : Str, 1 ≤ d1.length → d1.length ≤ 4 → MaskSensitive d1 = MaskSensitive d)
      ∧ (∀ d2 : Str, 5 ≤ d2.length → d2.length ≤ 8 →
          MaskSensitive d2 = .ok (str "****" ++ d2.drop (d2.length - 2))) := by
  have hshort : ∀ x : Str, 1 ≤ x.length → x.length ≤ 4 →
      MaskSensitive x = .ok (str "****") := by
    intro x ha hb
    unfold MaskSensitive
    rw [if_neg (by omega), if_pos hb]
  refine ⟨hshort d h1 h4, by decide, ?_, ?_⟩
  · intro d1 ha hb
    rw [hshort d1 ha hb, hshort d h1 h4]
  · intro d2 ha hb
    have hs := slice_last d2 2 (by omega)
    unfold MaskSensitive
    rw [if_neg (by omega), if_neg (by omega), if_pos hb]
    simp only [Nat.cast_ofNat] at hs
    rw [hs]

/-- C28, amended, at inputs of the test suite: `abcd` and `a` give `****`, and
`abc123` gives `****23`. -/
theorem C28_only_asterisks_witness :
    MaskSensitive (str "abcd") = .ok (str "****")
      ∧ MaskSensitive (str "a") = MaskSensitive (str "abcd")
      ∧ MaskSensitive (str "abc123") = .ok (str "****23") :=
  ⟨(C28_only_asterisks (str "abcd") (by decide) (by decide)).1,
    (C28_only_asterisks (str "abcd") (by decide) (by decide)).2.2.1 (str "a") (by decide)
      (by decide),
    (C28_only_asterisks (str "abcd") (by decide) (by decide)).2.2.2 (str "abc123") (by decide)
      (by decide)⟩

/-- C29: for every phone string `p`: when `p` starts with `+` and has more than
7 bytes, `MaskPhone(p)` is the first 3 bytes of `p`, `****` and the last 4
bytes of `p`; when `p` starts with `+` and has 3 to 7 bytes, it is the first 3
bytes of `p` and `****`; when `p` does not start with `+` and has more than 6
bytes, it is `****` and the last 4 bytes of `p`; when `p` does not start with
`+` and has 1 to 6 bytes, it is `****`; and `MaskPhone("")` is the empty
string. -/
theorem C29_mask_phone (p : Str) :
    (p.head? = some 43 → 7 < p.length →
        MaskPhone p = .ok (p.take 3 ++ str "****" ++ p.drop (p.length - 4)))
      ∧ (p.head? = some 43 → 3 ≤ p.length → p.length ≤ 7 →
          MaskPhone p = .ok (p.take 3 ++ str "****"))
      ∧ (p.head? ≠ some 43 → 6 < p.length →
          MaskPhone p = .ok (str "****" ++ p.drop (p.length - 4)))
      ∧ (p.head? ≠ some 43 → 1 ≤ p.length → p.length ≤ 6 → MaskPhone p = .ok (str "****"))
      ∧ MaskPhone [] = .ok [] := by
  refine ⟨?_, ?_, ?_, ?_, rfl⟩
  · intro hh hl
    cases p with
    | nil => cases hh
    | cons c cs =>
      have hc : c = 43 := by simpa using hh
      subst hc
      have hs := slice_last (43 :: cs) 4 (by omega)
      have ht := slice_take (43 :: cs) 3 (by omega)
      simp only [Nat.cast_ofNat] at hs ht
      unfold MaskPhone
      rw [if_neg (by omega)]
      simp only [List.getElem?_cons_zero, if_pos]
      rw [if_neg (by omega), ht, hs]
  · intro hh h3 h7
    cases p with
    | nil => cases hh
    | cons c cs =>
      have hc : c = 43 := by simpa using hh
      subst hc
      have ht := slice_take (43 :: cs) 3 h3
      simp only [Nat.cast_ofNat] at ht
      unfold MaskPhone
      rw [if_neg (by omega)]
      simp only [List.getElem?_cons_zero, if_pos]
      rw [if_pos h7, ht]
  · intro hh hl
    cases p with
    | nil => simp at hl
    | cons c cs =>
      have hc : c ≠ 43 := by simpa using hh
      have hs := slice_last (c :: cs) 4 (by omega)
      simp only [Nat.cast_ofNat] at hs
      unfold MaskPhone
      rw [if_neg (by omega)]
      simp only [List.getElem?_cons_zero, if_neg hc]
      rw [if_neg (by omega), hs]
  · intro hh h1 h6
    cases p with
    | nil => simp at h1
    | cons c cs =>
      have hc : c ≠ 43 := by simpa using hh
      unfold MaskPhone
      rw [if_neg (by omega)]
      simp only [List.getElem?_cons_zero, if_neg hc]
      rw [if_pos h6]

/-- C29 at inputs of the test suite. -/
theorem C29_mask_phone_witness :
    MaskPhone (str "+66812345678") = .ok (str "+66****5678")
      ∧ MaskPhone (str "+66123") = .ok (str "+66****")
      ∧ MaskPhone (str "0812345678") = .ok (str "****5678")
      ∧ MaskPhone (str "1") = .ok (str "****") :=
  ⟨(C29_mask_phone (str "+66812345678")).1 (by decide) (by decide),
    (C29_mask_phone (str "+66123")).2.1 (by decide) (by decide) (by decide),
    (C29_mask_phone (str "0812345678")).2.2.1 (by decide) (by decide),
    (C29_mask_phone (str "1")).2.2.2.1 (by decide) (by decide) (by decide)⟩

/-- C30: for every string `s`, as a sequence of runes, `RemoveDuplicateSpaces(s)`
contains none of the seven removed runes, contains no tab, newline, carriage
return, vertical tab or form feed, contains no two adjacent spaces, neither
starts nor ends with a space, and its runes other than spaces are the runes of
`s` that are neither whitespace nor removed, in the same order, without a
prefix and a suffix made of Unicode whitespace that the final trim has removed;
they are exactly those runes when every Unicode whitespace rune of `s` is
whitespace for `isWhitespace` or removed.  On `  hello \t\n world ` the result is
`hello world`. -/
theorem C30_remove_duplicate_spaces (s : List Rune) :
    (∀ r ∈ RemoveDuplicateSpaces s, zeroWidthChars r = false)
      ∧ (∀ r ∈ RemoveDuplicateSpaces s, r ≠ 9 ∧ r ≠ 10 ∧ r ≠ 13 ∧ r ≠ 11 ∧ r ≠ 12)
      ∧ (∀ u v, RemoveDuplicateSpaces s ≠ u ++ 32 :: 32 :: v)
      ∧ (RemoveDuplicateSpaces s).head? ≠ some 32
      ∧ (RemoveDuplicateSpaces s).getLast? ≠ some 32
      ∧ (∃ pre post, (∀ r ∈ pre, unicodeIsSpace r = true)
          ∧ (∀ r ∈ post, unicodeIsSpace r = true)
          ∧ s.filter (fun r => !isWhitespace r && !zeroWidthChars r)
              = pre ++ (RemoveDuplicateSpaces s).filter (fun r => r != 32) ++ post)
      ∧ ((∀ r ∈ s, unicodeIsSpace r = true → isWhitespace r = true ∨ zeroWidthChars r = true) →
          (RemoveDuplicateSpaces s).filter (fun r => r != 32)
            = s.filter (fun r => !isWhitespace r && !zeroWidthChars r))
      ∧ RemoveDuplicateSpaces (runes "  hello \t\n world ") = runes "hello world" := by
  obtain ⟨pre, post, hsplit, hpre, hpost⟩ :=
    stringsTrimSpace_split (RemoveDuplicateSpaces.loop s [] false)
  obtain ⟨hhead, hlast⟩ := stringsTrimSpace_ends (RemoveDuplicateSpaces.loop s [] false)
  rw [loop_eq_emit, List.nil_append] at hsplit hhead hlast
  have hout : RemoveDuplicateSpaces s
      = stringsTrimSpace (RemoveDuplicateSpaces.emit s false) := by
    unfold RemoveDuplicateSpaces
    rw [loop_eq_emit, List.nil_append]
  rw [hout]
  generalize stringsTrimSpace (RemoveDuplicateSpaces.emit s false) = out
    at hsplit hhead hlast hout
  have hmem : ∀ r ∈ out, r ∈ RemoveDuplicateSpaces.emit s false := by
    intro r hr
    rw [hsplit]
    exact List.mem_append_left _ (List.mem_append_right _ hr)
  have hfilter : s.filter (fun r => !isWhitespace r && !zeroWidthChars r)
      = pre.filter (fun r => r != 32) ++ out.filter (fun r => r != 32)
        ++ post.filter (fun r => r != 32) := by
    rw [← emit_filter s false, hsplit, List.filter_append, List.filter_append]
  have hexotic : ∀ l : List Rune, (∀ r ∈ l, unicodeIsSpace r = true) →
      (∀ r ∈ l, r ∈ RemoveDuplicateSpaces.emit s false) →
      (∀ r ∈ s, unicodeIsSpace r = true → isWhitespace r = true ∨ zeroWidthChars r = true) →
      l.filter (fun r => r != 32) = [] := by
    intro l hl hsub hs
    rw [List.filter_eq_nil_iff]
    intro r hr hne
    rcases emit_mem s false r (hsub r hr) with h32 | ⟨hrs, hz, hw⟩
    · rw [h32] at hne
      exact absurd hne (by decide)
    · rcases hs r hrs (hl r hr) with h | h
      · rw [hw] at h
        cases h
      · rw [hz] at h
        cases h
  refine ⟨?_, ?_, ?_, ?_, ?_, ?_, ?_, ?_⟩
  · intro r hr
    rcases emit_mem s false r (hmem r hr) with h32 | ⟨_, hz, _⟩
    · rw [h32]
      decide
    · exact hz
  · intro r hr
    rcases emit_mem s false r (hmem r hr) with h32 | ⟨_, _, hw⟩
    · rw [h32]
      decide
    · refine ⟨?_, ?_, ?_, ?_, ?_⟩ <;>
      · intro h
        rw [h] at hw
        exact absurd hw (by decide)
  · intro u v huv
    have hc := (emit_chain s false).1
    rw [hsplit, huv] at hc
    have h2 := (hc.left_of_append.right_of_append.right_of_append).rel_head
    exact h2 ⟨rfl, rfl⟩
  · intro h
    have := hhead 32 h
    exact absurd this (by decide)
  · intro h
    have := hlast 32 h
    exact absurd this (by decide)
  · refine ⟨pre.filter (fun r => r != 32), post.filter (fun r => r != 32), ?_, ?_, hfilter⟩
    · intro r hr
      exact hpre r (List.mem_filter.1 hr).1
    · intro r hr
      exact hpost r (List.mem_filter.1 hr).1
  · intro hs
    have h1 := hexotic pre hpre (fun r hr => by
      rw [hsplit]
      exact List.mem_append_left _ (List.mem_append_left _ hr)) hs
    have h2 := hexotic post hpost (fun r hr => by
      rw [hsplit]
      exact List.mem_append_right _ hr) hs
    rw [hfilter, h1, h2, List.nil_append, List.append_nil]
  · decide

/-- C31: with an optional string for the pointer, `NormalizeOptionalString`
returns `none` exactly when the input is `none` or its trimmed content is
empty, which is when the content is made of Unicode whitespace, and otherwise
returns the trimmed content; `NormalizeUpdateString` returns `none` exactly
when the input is `none` and otherwise returns the trimmed content; the two
agree whenever `NormalizeOptionalString` returns a value. -/
theorem C31_normalize_pointers (value : Option (List Rune)) :
    (NormalizeOptionalString value = none
        ↔ value = none ∨ ∃ v, value = some v ∧ stringsTrimSpace v = [])
      ∧ (∀ v, value = some v →
          (stringsTrimSpace v = [] ↔ ∀ r ∈ v, unicodeIsSpace r = true))
      ∧ (∀ v, value = some v → stringsTrimSpace v ≠ [] →
          NormalizeOptionalString value = some (stringsTrimSpace v))
      ∧ (NormalizeUpdateString value = none ↔ value = none)
      ∧ (∀ v, value = some v → NormalizeUpdateString value = some (stringsTrimSpace v))
      ∧ (∀ t, NormalizeOptionalString value = some t → NormalizeUpdateString value = some t)
      ∧ NormalizeOptionalString (some (runes " \t hello world \n ")) = some (runes "hello world")
      ∧ NormalizeOptionalString (some (runes "\t\n  \n\t")) = none
      ∧ NormalizeUpdateString (some (runes "\t\n  \n\t")) = some [] := by
  refine ⟨?_, ?_, ?_, ?_, ?_, ?_, by decide, by decide, by decide⟩
  · cases value with
    | none => simp [NormalizeOptionalString]
    | some v =>
      by_cases h : stringsTrimSpace v = []
      · simp [NormalizeOptionalString, h]
      · simp [NormalizeOptionalString, h]
  · intro v _
    exact stringsTrimSpace_eq_nil_iff v
  · intro v hv hne
    subst hv
    simp [NormalizeOptionalString, hne]
  · cases value with
    | none => simp [NormalizeUpdateString]
    | some v =>
      by_cases h : stringsTrimSpace v = []
      · simp [NormalizeUpdateString, h]
      · simp [NormalizeUpdateString, h]
  · intro v hv
    subst hv
    by_cases h : stringsTrimSpace v = []
    · simp [NormalizeUpdateString, h]
    · simp [NormalizeUpdateString, h]
  · intro t ht
    cases value with
    | none => simp [NormalizeOptionalString] at ht
    | some v =>
      by_cases h : stringsTrimSpace v = []
      · simp [NormalizeOptionalString, h] at ht
      · simp only [NormalizeOptionalString, h, if_false, Option.some.injEq] at ht
        subst ht
        simp [NormalizeUpdateString, h]

/-- C32 as stated fails: on `AB+1x` `ParseEMVTLV` succeeds with a triplet whose
tag `AB` has no digit and whose length 1 is written `+1`. -/
theorem C32_counterexample :
    ParseEMVTLV (str "AB+1x") = .ok [{ Tag := str "AB", Length := 1, Value := str "x" }]
      ∧ ¬ TwoDigits (str "AB") ∧ ¬ TwoDigits (str "+1")
      ∧ lengthFieldsRead (str "AB+1x") = [str "+1"] := by
  decide

/-- C32, amended: every triplet returned by `ParseEMVTLV` is read from a field
of the input whose tag has exactly two bytes, of any value, and whose length
field is written as two ASCII digits or as a sign followed by one ASCII digit;
its `Length` is the number `Atoi` reads from the length field and lies between
0 and 99. -/
theorem C32_triplet_shape (s : Str) (ts : List EMVDataValue) (h : ParseEMVTLV s = .ok ts) :
    ∃ fs : List RawField, ∃ frag : Str,
      ts = fs.map RawField.toTriplet ∧ s = rawBytes fs ++ frag ∧ frag.length < 4
      ∧ ∀ f ∈ fs, f.tag.length = 2
          ∧ (TwoDigits f.lengthStr ∨ SignDigit f.lengthStr)
          ∧ Atoi f.lengthStr = some f.length
          ∧ 0 ≤ f.length ∧ f.length ≤ 99 := by
  obtain ⟨_, fs, frag, _, e, hw, hs, hfrag⟩ := ParseEMVTLV_ok_scan s ts h
  refine ⟨fs, frag, e, hs, hfrag, ?_⟩
  intro f hf
  obtain ⟨w1, w2, w3, w4⟩ := hw f hf
  have hpos : 0 ≤ f.length := by rw [w4]; exact Int.ofNat_nonneg _
  rcases Atoi_two_bytes f.lengthStr f.length w2 w3 with ⟨hd, _, h99⟩ | ⟨hd, _, h9⟩
  · exact ⟨w1, Or.inl hd, w3, hpos, h99⟩
  · exact ⟨w1, Or.inr hd, w3, hpos, by omega⟩

/-- C32, amended, at the input `AB+1x0002hi`. -/
theorem C32_triplet_shape_witness :
    ParseEMVTLV (str "AB+1x0002hi")
        = .ok [{ Tag := str "AB", Length := 1, Value := str "x" },
               { Tag := str "00", Length := 2, Value := str "hi" }]
    ∧ ∃ fs : List RawField, ∃ frag : Str,
      [({ Tag := str "AB", Length := 1, Value := str "x" } : EMVDataValue),
        { Tag := str "00", Length := 2, Value := str "hi" }] = fs.map RawField.toTriplet
      ∧ str "AB+1x0002hi" = rawBytes fs ++ frag ∧ frag.length < 4
      ∧ ∀ f ∈ fs, f.tag.length = 2
          ∧ (TwoDigits f.lengthStr ∨ SignDigit f.lengthStr)
          ∧ Atoi f.lengthStr = some f.length
          ∧ 0 ≤ f.length ∧ f.length ≤ 99 :=
  ⟨by decide, C32_triplet_shape (str "AB+1x0002hi") _ (by decide)⟩

/-- C33 as stated fails: a payload read from an input without a tag-01 field
has the empty string as `POIMethodType`, which is not `mapPOIMethodType("")`,
and an account read from a value without sub-tag `00` has the empty string as
`AIDType` and as `PaymentScheme`, which are not lookups of its empty `AID`. -/
theorem C33_counterexample :
    DecodeEMVQR (str "29060102AB")
        = .ok { MerchantAccountInfo :=
                  [(str "29", some { MerchantID := str "AB", RawValue := str "0102AB" })] }
      ∧ mapPOIMethodType [] = str "unknown"
      ∧ mapAIDType [] = str "Unknown"
      ∧ mapScheme [] = str "Unknown" := by
  decide!

/-- C33, amended: in every payload returned by `DecodeEMVQR`, `POIMethodType`
is `mapPOIMethodType(PointOfInitiationMethod)` when a tag-01 field was read, and
both are empty otherwise; every entry of `MerchantAccountInfo` points to a
merchant account, which has
`AIDType = mapAIDType(AID)` and `PaymentScheme = mapScheme(AID)`, or has `AID`,
`AIDType` and `PaymentScheme` empty (when its value has no sub-tag `00`); every
lookup returns one of the declared values, so that each enum field holds one of
them or the empty string. -/
theorem C33_enum_fields (s : Str) (d : EMVData) (h : DecodeEMVQR s = .ok d) :
    (∃ ts, ParseEMVTLV s = .ok ts ∧
        match lastValue? ts (str "01") with
        | none => d.PointOfInitiationMethod = [] ∧ d.POIMethodType = []
        | some v => d.PointOfInitiationMethod = v ∧ d.POIMethodType = mapPOIMethodType v)
      ∧ (∀ kv ∈ d.MerchantAccountInfo,
          ∃ a, kv.2 = some a ∧
            ((a.AIDType = mapAIDType a.AID ∧ a.PaymentScheme = mapScheme a.AID)
              ∨ (a.AID = [] ∧ a.AIDType = [] ∧ a.PaymentScheme = [])))
      ∧ (∀ x, mapPOIMethodType x ∈ [POITypeStatic, POITypeDynamic, POITypeUnknown])
      ∧ (∀ x, mapAIDType x
          ∈ [QRTypeC2C, QRTypeC2B, QRTypeBillPayment, QRTypeCrossBorder, QRTypeUnknown])
      ∧ (∀ x, mapScheme x
          ∈ [QRSchemePromptPay, QRSchemeQRIS, QRSchemeDuitNow, QRSchemeUPI, QRSchemeNETS,
              QRSchemeAlipay, QRSchemeWeChatPay, QRSchemeUnknown]) := by
  obtain ⟨fs, hP, hm, _, _⟩ := DecodeEMVQR_ok_fields s d h
  refine ⟨⟨_, hP, ?_⟩, ?_, ?_, ?_, ?_⟩
  · have hs := mapFields_scalars fs {} d hm
    simp only [scalarFields, scalarTags, List.zipWith_cons_cons, List.zipWith_nil_right,
      List.cons.injEq, and_true] at hs
    have hpoim := hs.2.1
    have hpoi := mapFields_poi fs {} d hm
    cases hl : lastValue? (fs.map RawField.toTriplet) (str "01") with
    | none =>
      rw [hl] at hpoim hpoi
      exact ⟨hpoim, hpoi⟩
    | some v =>
      rw [hl] at hpoim hpoi
      exact ⟨hpoim, hpoi⟩
  · exact mapFields_enums fs {} d hm (fun kv hkv => absurd hkv (List.not_mem_nil _))
  · intro x
    unfold mapPOIMethodType
    split_ifs <;> simp
  · intro x
    unfold mapAIDType
    split_ifs <;> simp
  · intro x
    unfold mapScheme
    split_ifs <;> simp

/-- C33, amended, at the valid string of the test suite. -/
theorem C33_enum_fields_witness :
    DecodeEMVQR validQR = .ok validQRPayload
      ∧ validQRPayload.POIMethodType = mapPOIMethodType (str "12")
      ∧ ∀ kv ∈ validQRPayload.MerchantAccountInfo,
          ∃ a, kv.2 = some a ∧
            ((a.AIDType = mapAIDType a.AID ∧ a.PaymentScheme = mapScheme a.AID)
              ∨ (a.AID = [] ∧ a.AIDType = [] ∧ a.PaymentScheme = [])) :=
  ⟨by decide!, by decide,
    (C33_enum_fields validQR validQRPayload (by decide!)).2.1⟩

/-- C34: the two CRC routines compute the same checksum: for every byte string
`d`, `calculateCRC16(d)` is the `%04X` rendering of the table-driven checksum
that `validateEMVCoQRString` computes over `d`; hence for every `s` of at least
14 bytes `validateEMVCoQRString(s)` succeeds exactly when the last 4 bytes of
`s` are `calculateCRC16` of `s` without its last 4 bytes; and
`calculateCRC16("0102016304")` is `41C5`. -/
theorem C34_crc_variants_agree :
    (∀ d : Str, calculateCRC16 d = fmtHex04 (crc16Checksum d))
      ∧ (∀ s : Str, 14 ≤ s.length →
          (validateEMVCoQRString s = .ok ()
            ↔ s.drop (s.length - 4) = calculateCRC16 (s.take (s.length - 4))))
      ∧ calculateCRC16 (str "0102016304") = str "41C5" := by
  have h1 : ∀ d : Str, calculateCRC16 d = fmtHex04 (crc16Checksum d) := by
    intro d
    rw [crc16Checksum_eq]
    rfl
  refine ⟨h1, ?_, by decide!⟩
  intro s h14
  rw [validateEMVCoQRString_eq s h14, h1]
  by_cases hc : fmtHex04 (crc16Checksum (s.take (s.length - 4))) = s.drop (s.length - 4)
  · rw [if_neg (fun hne => hne hc)]
    exact ⟨fun _ => hc.symm, fun _ => rfl⟩
  · rw [if_pos hc]
    constructor
    · intro h
      cases h
    · intro h
      exact absurd h.symm hc

/-- C35: `calculateCRC16` returns different checksums on any two byte strings
of equal length that differ in exactly one byte position, the bytes before it
and the bytes after it being the same. -/
theorem C35_single_byte_change (p q : Str) (a b : Nat) (ha : a < 256) (hb : b < 256)
    (hab : a ≠ b) :
    calculateCRC16 (p ++ a :: q) ≠ calculateCRC16 (p ++ b :: q) := by
  intro h
  unfold calculateCRC16 at h
  have hp := foldl_crcByte_lt p 0xFFFF (by decide)
  have hand : ∀ x, x < 65536 → x &&& 0xFFFF = x := fun x hx =>
    Nat.and_pow_two_sub_one_of_lt_two_pow (n := 16) hx
  rw [hand _ (foldl_crcByte_lt _ _ (by decide)), hand _ (foldl_crcByte_lt _ _ (by decide))]
    at h
  have h1 := fmtHex04_inj _ _ (foldl_crcByte_lt _ _ (by decide))
    (foldl_crcByte_lt _ _ (by decide)) h
  rw [List.foldl_append, List.foldl_append, List.foldl_cons, List.foldl_cons] at h1
  have h2 := foldl_crcByte_inj q _ _ (crcByte_lt _ a) (crcByte_lt _ b) h1
  have h3 := crcByte_inj_byte _ a b hp h2
  omega

/-- C35 at the strings `0102016304` and `0102116304`, which differ in their
fifth byte: the checksums are `41C5` and `0465`. -/
theorem C35_single_byte_change_witness :
    calculateCRC16 (str "0102" ++ 48 :: str "16304")
        ≠ calculateCRC16 (str "0102" ++ 49 :: str "16304")
      ∧ calculateCRC16 (str "0102" ++ 48 :: str "16304") = str "41C5"
      ∧ calculateCRC16 (str "0102" ++ 49 :: str "16304") = str "0465" :=
  ⟨C35_single_byte_change (str "0102") (str "16304") 48 49 (by decide) (by decide)
    (by decide), by decide!, by decide!⟩

/-- C36: nested tokenization is the same tokenizer.  On every string `d` of at
least 4 bytes `parseSubFields(d)` and `ParseEMVTLV(d)` end in the same way:
both succeed, the map being obtained from the triplets by inserting
`Tag -> Value` in order; or both return the error of a malformed length, for the
same length field; or both return the error of a truncated value, for the same
tag; or both end in a run-time fault.  On every `d` of fewer than 4 bytes
`parseSubFields` returns the empty map and no error. -/
theorem C36_same_tokenizer (d : Str) :
    (4 ≤ d.length →
        (∃ ts, ParseEMVTLV d = .ok ts
            ∧ parseSubFields d = .ok (ts.foldl (fun m t => GoMap.set m t.Tag t.Value) []))
          ∨ (∃ pos ll,
              ParseEMVTLV d
                = .error (str "invalid length at position " ++ fmtInt pos ++ str ": " ++ ll)
              ∧ parseSubFields d = .error (str "invalid sub-field length: " ++ ll))
          ∨ (∃ tag, ParseEMVTLV d = .error (str "invalid data length at tag " ++ tag)
              ∧ parseSubFields d = .error (str "invalid sub-field data length at tag " ++ tag))
          ∨ (ParseEMVTLV d = .fault ∧ parseSubFields d = .fault))
      ∧ (d.length < 4 → parseSubFields d = .ok []) := by
  refine ⟨?_, ?_⟩
  · intro h4
    have hP := ParseEMVTLV_eq_scan d h4
    have hS := parseSubFields_eq_scan d
    have hfuel := scan_fuel (d.length + 1) 0 d (Nat.lt_succ_self _)
    generalize scan (d.length + 1) 0 d = r at hP hS hfuel
    obtain ⟨fs, st⟩ := r
    cases st with
    | eof frag =>
      left
      refine ⟨_, hP, ?_⟩
      rw [hS, List.foldl_map]
      rfl
    | badLength pos ll => exact Or.inr (Or.inl ⟨pos, ll, hP, hS⟩)
    | truncated tag => exact Or.inr (Or.inr (Or.inl ⟨tag, hP, hS⟩))
    | negative => exact Or.inr (Or.inr (Or.inr ⟨hP, hS⟩))
    | outOfFuel => exact absurd rfl hfuel
  · intro h
    rw [parseSubFields_eq_scan, scan_short _ _ _ (Nat.succ_ne_zero _) h]
    rfl

/-- C36 at inputs of the test suite and at `00-1`. -/
theorem C36_same_tokenizer_witness :
    (ParseEMVTLV (str "0504test0105hello")
        = .ok [{ Tag := str "05", Length := 4, Value := str "test" },
               { Tag := str "01", Length := 5, Value := str "hello" }]
      ∧ parseSubFields (str "0504test0105hello")
        = .ok [(str "01", str "hello"), (str "05", str "test")])
    ∧ (ParseEMVTLV (str "05XX") = .error (str "invalid length at position 2: XX")
      ∧ parseSubFields (str "05XX") = .error (str "invalid sub-field length: XX"))
    ∧ (ParseEMVTLV (str "0510test") = .error (str "invalid data length at tag 05")
      ∧ parseSubFields (str "0510test")
        = .error (str "invalid sub-field data length at tag 05"))
    ∧ (ParseEMVTLV (str "00-1") = .fault ∧ parseSubFields (str "00-1") = .fault)
    ∧ parseSubFields (str "050") = .ok [] :=
  ⟨by decide, by decide, by decide, by decide,
    (C36_same_tokenizer (str "050")).2 (by decide)⟩

/-- C37 as stated fails: `oneEmptySlot` has an account under tag `26` with one
empty reference slot alone, `Reference3`, and two entries of additional data;
the slot receives the value of the entry visited first, so that two orders of
visiting the additional data give two results.  It also fails on `nilAccount`,
which has an account under tag `27`, a nil pointer under tag `26` and no
additional data: two orders of visiting the accounts give two results. -/
theorem C37_counterexample :
    (oneEmptySlot.QRInfo oneEmptySlot.MerchantAccountInfo oneEmptySlot.AdditionalData).Reference3
        = str "A"
      ∧ (oneEmptySlot.QRInfo oneEmptySlot.MerchantAccountInfo
          oneEmptySlot.AdditionalData.reverse).Reference3 = str "B"
      ∧ fillMissingReferences.emptySlots (EMVData.QRInfo.copied oneEmptySlot
          { AID := str "A000000677010111", Reference1 := str "R1", Reference2 := str "R2" })
        = [2]
      ∧ oneEmptySlot.AdditionalData.length = 2
      ∧ (nilAccount.QRInfo nilAccount.MerchantAccountInfo nilAccount.AdditionalData).AID = []
      ∧ (nilAccount.QRInfo nilAccount.MerchantAccountInfo.reverse
          nilAccount.AdditionalData).AID = str "COM.UPI.PAY"
      ∧ nilAccount.AdditionalData = [] := by
  decide!

/-- C37, amended: with the order of a map iteration given as an enumeration of
the entries, for every payload whose smallest key among the tags `26` to `35`
holds a merchant account, not a nil pointer, the result of `QRInfo` is the same
for every order of the accounts and every order of the additional data, when
the additional data has at most one entry or no reference of the primary
account, which is that account, is empty. -/
theorem C37_order_independence (e : EMVData) (k : Str) (a : MerchantAccount)
    (accountOrder1 accountOrder2 : List (Str × Option MerchantAccount))
    (dataOrder1 dataOrder2 : List (Str × Str))
    (hk : k ∈ preferredTags) (ha : GoMap.get? e.MerchantAccountInfo k = some (some a))
    (hmin : ∀ k1 ∈ preferredTags,
      (GoMap.get? e.MerchantAccountInfo k1).isSome = true → strLe k k1 = true)
    (hp1 : dataOrder1.Perm e.AdditionalData) (hp2 : dataOrder2.Perm e.AdditionalData)
    (hc : e.AdditionalData.length ≤ 1
      ∨ (a.Reference1 ≠ [] ∧ a.Reference2 ≠ [] ∧ a.Reference3 ≠ [])) :
    EMVData.QRInfo.primaryAccount e accountOrder1 = some a
      ∧ EMVData.QRInfo.primaryAccount e accountOrder2 = some a
      ∧ e.QRInfo accountOrder1 dataOrder1 = e.QRInfo accountOrder2 dataOrder2 := by
  have ha1 := primaryAccount_of_smallest e k a hk ha hmin accountOrder1
  have ha2 := primaryAccount_of_smallest e k a hk ha hmin accountOrder2
  refine ⟨ha1, ha2, ?_⟩
  rw [QRInfo_of_primary e accountOrder1 dataOrder1 a ha1,
    QRInfo_of_primary e accountOrder2 dataOrder2 a ha2]
  rcases hc with hlen | ⟨h1, h2, h3⟩
  · rw [perm_short_eq e.AdditionalData dataOrder1 dataOrder2 hlen hp1 hp2]
  · have hslots : fillMissingReferences.emptySlots (EMVData.QRInfo.copied e a) = [] := by
      rw [emptySlots_eq]
      have r0 : (EMVData.QRInfo.copied e a).reference 0 = a.Reference1 := rfl
      have r1 : (EMVData.QRInfo.copied e a).reference 1 = a.Reference2 := rfl
      have r2 : (EMVData.QRInfo.copied e a).reference 2 = a.Reference3 := rfl
      simp [List.filter, r0, r1, r2, h1, h2, h3]
    rw [fillMissingReferences_no_slot _ _ hslots, fillMissingReferences_no_slot _ _ hslots]

/-- C37, amended, at `twoReferences` without its second entry of additional
data: the account under tag `29` is the primary account and the one entry fills
`Reference1`, whatever the orders. -/
theorem C37_order_independence_witness :
    EMVData.QRInfo { twoReferences with AdditionalData := [(str "05", str "A")] }
        twoReferences.MerchantAccountInfo [(str "05", str "A")]
      = EMVData.QRInfo { twoReferences with AdditionalData := [(str "05", str "A")] }
          twoReferences.MerchantAccountInfo.reverse [(str "05", str "A")]
    ∧ (EMVData.QRInfo { twoReferences with AdditionalData := [(str "05", str "A")] }
        twoReferences.MerchantAccountInfo [(str "05", str "A")]).Reference1 = str "A" :=
  ⟨(C37_order_independence { twoReferences with AdditionalData := [(str "05", str "A")] }
      (str "29") { AID := str "A000000677010111", Reference2 := str "R2" }
      twoReferences.MerchantAccountInfo twoReferences.MerchantAccountInfo.reverse
      [(str "05", str "A")] [(str "05", str "A")]
      (by decide) (by decide!) (by decide!) (List.Perm.refl _) (List.Perm.refl _)
      (Or.inl (by decide))).2.2,
    by decide!⟩

/-- C38 as stated fails: `0107abcdef6F6B` has at least 14 bytes and ends with
the checksum `6F6B` of what precedes; its one well-formed top-level field,
`0107abcdef6`, leaves the fragment `F6B`; `ParseEMVTLV` drops the fragment and
succeeds, `ParseEMVCoQRString` returns the error `invalid qr structure`.  On
`300400-10003abC125`, whose field `300400-1` is followed by the field `0003abC`
and the fragment `125`, `ParseEMVTLV` succeeds too and `ParseEMVCoQRString`
ends in a run-time fault on the nested length `-1`. -/
theorem C38_counterexample :
    validateEMVCoQRString (str "0107abcdef6F6B") = .ok ()
      ∧ str "0107abcdef6F6B"
          = rawBytes [{ tag := str "01", lengthStr := str "07", length := 7,
                        value := str "abcdef6" }] ++ str "F6B"
      ∧ ParseEMVTLV (str "0107abcdef6F6B")
          = .ok [{ Tag := str "01", Length := 7, Value := str "abcdef6" }]
      ∧ ParseEMVCoQRString (str "0107abcdef6F6B") = .error (str "invalid qr structure")
      ∧ validateEMVCoQRString (str "300400-10003abC125") = .ok ()
      ∧ ParseEMVTLV (str "300400-10003abC125")
          = .ok [{ Tag := str "30", Length := 4, Value := str "00-1" },
                 { Tag := str "00", Length := 3, Value := str "abC" }]
      ∧ ParseEMVCoQRString (str "300400-10003abC125") = .fault := by
  decide!

/-- C38, amended: for every input that passes the length and CRC checks and
whose well-formed top-level fields leave a trailing fragment of 1 to 3 bytes,
no value of a tag-30 field among them ending its tokenization in a run-time
fault, `ParseEMVTLV` drops the fragment and succeeds with the triplets of the
fields, and `ParseEMVCoQRString` returns an error and no result: the error
`invalid qr structure` or the error `invalid specified qr string length`, and
the first of the two when no field has tag `30`. -/
theorem C38_trailing_fragment (s : Str) (fs : List RawField) (frag : Str)
    (hv : validateEMVCoQRString s = .ok ()) (hs : s = rawBytes fs ++ frag)
    (hw : ∀ f ∈ fs, f.Wf) (h1 : 1 ≤ frag.length) (h3 : frag.length ≤ 3)
    (hn : ∀ f ∈ fs, f.tag = str "30" → parseSubFields f.value ≠ .fault) :
    ParseEMVTLV s = .ok (fs.map RawField.toTriplet)
      ∧ (ParseEMVCoQRString s = .error (str "invalid qr structure")
          ∨ ParseEMVCoQRString s = .error (str "invalid specified qr string length"))
      ∧ ((∀ f ∈ fs, f.tag ≠ str "30") →
          ParseEMVCoQRString s = .error (str "invalid qr structure")) := by
  have h14 := validate_ok_length s hv
  have hscan : scan (s.length + 1) 0 s = (fs, .eof frag) := by
    rw [hs]
    exact scan_fields_fragment fs frag hw (by omega)
  have hne : frag ≠ [] := by
    intro h
    rw [h] at h1
    simp at h1
  have hq : ∀ r, assignFields {} fs = .ok r →
      ParseEMVCoQRString s = .error (str "invalid qr structure") := by
    intro r hr
    rw [ParseEMVCoQRString_eq_scan s hv, hscan]
    unfold qrOutcome
    simp only [hr]
    exact if_neg hne
  have hq2 : ∀ err, assignFields {} fs = .error err → ParseEMVCoQRString s = .error err := by
    intro err hr
    rw [ParseEMVCoQRString_eq_scan s hv, hscan]
    unfold qrOutcome
    simp only [hr]
  obtain ⟨o1, o2, _⟩ := assignFields_outcome fs {}
  refine ⟨?_, ?_, ?_⟩
  · rw [ParseEMVTLV_eq_scan s (by omega), hscan]
    rfl
  · rcases o1 hn with ⟨r, hr⟩ | hr | hr
    · exact Or.inl (hq r hr)
    · exact Or.inl (hq2 _ hr)
    · exact Or.inr (hq2 _ hr)
  · intro hno
    obtain ⟨r, hr⟩ := o2 hno
    exact hq r hr

/-- C38, amended, at `0107abcdef6F6B`: the field `0107abcdef6` leaves the
fragment `F6B`. -/
theorem C38_trailing_fragment_witness :
    ParseEMVTLV (str "0107abcdef6F6B")
        = .ok [{ Tag := str "01", Length := 7, Value := str "abcdef6" }]
      ∧ ParseEMVCoQRString (str "0107abcdef6F6B") = .error (str "invalid qr structure") :=
  ⟨(C38_trailing_fragment (str "0107abcdef6F6B")
      [{ tag := str "01", lengthStr := str "07", length := 7, value := str "abcdef6" }]
      (str "F6B") (by decide!) (by decide)
      (fun f hf => by rw [List.mem_singleton.1 hf]; exact ⟨rfl, rfl, by decide, rfl⟩)
      (by decide) (by decide)
      (fun f hf h30 => by rw [List.mem_singleton.1 hf] at h30; exact absurd h30 (by decide))).1,
    (C38_trailing_fragment (str "0107abcdef6F6B")
      [{ tag := str "01", lengthStr := str "07", length := 7, value := str "abcdef6" }]
      (str "F6B") (by decide!) (by decide)
      (fun f hf => by rw [List.mem_singleton.1 hf]; exact ⟨rfl, rfl, by decide, rfl⟩)
      (by decide) (by decide)
      (fun f hf h30 => by rw [List.mem_singleton.1 hf] at h30; exact absurd h30 (by decide))).2.2
      (fun f hf => by rw [List.mem_singleton.1 hf]; decide)⟩

/-- C39 fails on the code: on `+` and on `+1` the slice `phone[:3]` of
`MaskPhone` is out of bounds, a run-time fault, and no string is returned; the
inputs on which `MaskPhone` faults are exactly those that start with `+` and
have fewer than 3 bytes, and on every other input it returns a string. -/
theorem C39_mask_phone_fault :
    MaskPhone (str "+") = .fault ∧ MaskPhone (str "+1") = .fault
      ∧ slice (str "+") 0 3 = none ∧ slice (str "+1") 0 3 = none
      ∧ (∀ p : Str, MaskPhone p = .fault ↔ (p.head? = some 43 ∧ p.length < 3))
      ∧ (∀ p : Str, ¬ (p.head? = some 43 ∧ p.length < 3) → ∃ out, MaskPhone p = .ok out) := by
  have main : ∀ p : Str, (p.head? = some 43 ∧ p.length < 3 ∧ MaskPhone p = .fault)
      ∨ (¬ (p.head? = some 43 ∧ p.length < 3) ∧ ∃ out, MaskPhone p = .ok out) := by
    intro p
    cases p with
    | nil => exact Or.inr ⟨by simp, _, rfl⟩
    | cons c cs =>
      by_cases hc : c = 43
      · subst hc
        by_cases h3 : (43 :: cs).length < 3
        · refine Or.inl ⟨rfl, h3, ?_⟩
          have hn : slice (43 :: cs) 0 3 = none := by
            unfold slice
            rw [if_neg (by omega)]
          unfold MaskPhone
          rw [if_neg (by simp)]
          simp only [List.getElem?_cons_zero, if_pos]
          rw [if_pos (by omega), hn]
        · refine Or.inr ⟨fun h => h3 h.2, ?_⟩
          have ht := slice_take (43 :: cs) 3 (by omega)
          simp only [Nat.cast_ofNat] at ht
          by_cases h7 : (43 :: cs).length ≤ 7
          · refine ⟨(43 :: cs).take 3 ++ str "****", ?_⟩
            unfold MaskPhone
            rw [if_neg (by simp)]
            simp only [List.getElem?_cons_zero, if_pos]
            rw [if_pos h7, ht]
          · have hs := slice_last (43 :: cs) 4 (by omega)
            simp only [Nat.cast_ofNat] at hs
            refine ⟨(43 :: cs).take 3 ++ str "****"
              ++ (43 :: cs).drop ((43 :: cs).length - 4), ?_⟩
            unfold MaskPhone
            rw [if_neg (by simp)]
            simp only [List.getElem?_cons_zero, if_pos]
            rw [if_neg h7, ht, hs]
      · refine Or.inr ⟨fun h => hc (by simpa using h.1), ?_⟩
        by_cases h6 : (c :: cs).length ≤ 6
        · refine ⟨str "****", ?_⟩
          unfold MaskPhone
          rw [if_neg (by simp)]
          simp only [List.getElem?_cons_zero, if_neg hc]
          rw [if_pos h6]
        · have hs := slice_last (c :: cs) 4 (by omega)
          simp only [Nat.cast_ofNat] at hs
          refine ⟨str "****" ++ (c :: cs).drop ((c :: cs).length - 4), ?_⟩
          unfold MaskPhone
          rw [if_neg (by simp)]
          simp only [List.getElem?_cons_zero, if_neg hc]
          rw [if_neg h6, hs]
  refine ⟨by decide, by decide, by decide, by decide, ?_, ?_⟩
  · intro p
    rcases main p with ⟨hh, hl, hf⟩ | ⟨hn, out, ho⟩
    · exact ⟨fun _ => ⟨hh, hl⟩, fun _ => hf⟩
    · constructor
      · intro hf
        rw [ho] at hf
        cases hf
      · intro h
        exact absurd h hn
  · intro p hn
    rcases main p with ⟨hh, hl, _⟩ | ⟨_, h⟩
    · exact absurd ⟨hh, hl⟩ hn
    · exact h

/-- C40: for every string `s`, as a sequence of runes,
`RemoveDuplicateSpaces(RemoveDuplicateSpaces(s)) = RemoveDuplicateSpaces(s)`. -/
theorem C40_idempotent (s : List Rune) :
    RemoveDuplicateSpaces (RemoveDuplicateSpaces s) = RemoveDuplicateSpaces s := by
  have hout : RemoveDuplicateSpaces s
      = stringsTrimSpace (RemoveDuplicateSpaces.emit s false) := by
    unfold RemoveDuplicateSpaces
    rw [loop_eq_emit, List.nil_append]
  obtain ⟨pre, post, hsplit, _, _⟩ := stringsTrimSpace_split (RemoveDuplicateSpaces.emit s false)
  obtain ⟨hhead, hlast⟩ := stringsTrimSpace_ends (RemoveDuplicateSpaces.emit s false)
  rw [← hout] at hsplit hhead hlast
  have hmem : ∀ x ∈ RemoveDuplicateSpaces s,
      zeroWidthChars x = false ∧ (isWhitespace x = true → x = 32) := by
    intro x hx
    have hx2 : x ∈ RemoveDuplicateSpaces.emit s false := by
      rw [hsplit]
      exact List.mem_append_left _ (List.mem_append_right _ hx)
    rcases emit_mem s false x hx2 with h | ⟨_, hz, hw⟩
    · rw [h]
      exact ⟨by decide, fun _ => rfl⟩
    · exact ⟨hz, fun h => by rw [hw] at h; cases h⟩
  have hchain : List.Chain' (fun a b => ¬ (a = 32 ∧ b = 32)) (RemoveDuplicateSpaces s) := by
    have h := (emit_chain s false).1
    rw [hsplit] at h
    exact (List.Chain'.left_of_append h).right_of_append
  have hfix : RemoveDuplicateSpaces.emit (RemoveDuplicateSpaces s) false
      = RemoveDuplicateSpaces s :=
    emit_fixed (RemoveDuplicateSpaces s) false hmem hchain (fun h => by cases h)
  have hstep : RemoveDuplicateSpaces (RemoveDuplicateSpaces s)
      = stringsTrimSpace (RemoveDuplicateSpaces.emit (RemoveDuplicateSpaces s) false) := by
    generalize RemoveDuplicateSpaces s = t
    unfold RemoveDuplicateSpaces
    rw [loop_eq_emit, List.nil_append]
  rw [hstep, hfix]
  exact stringsTrimSpace_fixed _ hhead hlast

end Xstr
